import Mathlib

/-!
smatch: implication engine, constraint tracker and function hooks.

A shallow embedding of `smatch_implied.c`, `smatch_constraints.c` and
`smatch_function_hooks.c`.

Conventions of the embedding.

* A C pointer to a pool (`struct state_list *my_pool`) is the address of the
  pool, a natural number; `0` is the NULL pointer.  Two pools are the same pool
  exactly when their addresses are equal, whatever they contain.  The frozen
  snapshot stored at an address is read through a `pool_heap`.
* A `struct sm_state *` is a value of `sm_state`: either `NULL` or a node with
  its scalar fields and its `left` and `right` pointers.  Every node carries
  its own address `addr`; pointer comparisons between bindings compare `addr`.
* A `struct symbol *` is the address of the symbol, `0` for NULL.
* A pointer list (`state_list`, `range_list`, `related_list`, ...) is a Lean
  list; the NULL list is `[]`.
* Functions of the repository that the three files call but that live in files
  that are not part of the sources are either modelled from the specification
  (their doc comment says so) or taken as fields of `helpers`, `cond_helpers`
  or `switch_helpers`.
* Debug printing (`DIMPLIED`, `sm_msg`, `print_once`) has no effect on any
  value and is left out.
-/

namespace Smatch

/-! ## Data model -/

/-- A closed interval `[min,max]` of `long long` values (`struct data_range`). -/
structure data_range where
  min : Int
  max : Int
deriving DecidableEq, Repr

/-- A `struct range_list *`: a pointer list of intervals. -/
abbrev range_list := List data_range

/-- A `struct relation`: comparison operator, name and symbol of the related variable. -/
structure relation where
  op : Int
  name : String
  sym : Nat
deriving DecidableEq, Repr

/-- A `struct related_list *`. -/
abbrev related_list := List relation

/-- The `struct data_info` hanging off a SMATCH_EXTRA state. -/
structure data_info where
  related : related_list
  value_ranges : range_list
deriving DecidableEq, Repr

/-- A `struct smatch_state`: printable name and the checker's data. -/
structure smatch_state where
  name : String
  data : data_info
deriving DecidableEq, Repr

/-- The scalar fields of a `struct sm_state`, together with the address of the node. -/
structure sm_data where
  addr : Nat
  owner : Nat
  name : String
  sym : Nat
  state : smatch_state
  my_pool : Nat
  merged : Bool
  implied : Bool
  nr_children : Nat
  line : Nat
  possible : List smatch_state
deriving DecidableEq, Repr

/-- A `struct sm_state *`: NULL, or a node with its `left` and `right` pointers. -/
inductive sm_state where
  | NULL : sm_state
  | node (d : sm_data) (left right : sm_state) : sm_state
deriving DecidableEq, Repr

/-- A `struct state_list *`: a snapshot, a pointer list of bindings. -/
abbrev state_list := List sm_state

/-- A `struct state_list_stack *`: a pointer list of pool pointers. -/
abbrev state_list_stack := List Nat

/-- The memory behind pool pointers: the frozen snapshot stored at each address. -/
abbrev pool_heap := Nat → state_list

/-- Modelled from the spec: the token codes of the comparison operators (`token.h` is not
among the sources); `<` and `>` are their character codes 60 and 62. -/
def SPECIAL_LTE : Int := 272
def SPECIAL_GTE : Int := 273
def SPECIAL_EQUAL : Int := 274
def SPECIAL_NOTEQUAL : Int := 275

def RIGHT : Int := 0
def LEFT : Int := 1

/-- The owner id of the built-in range checker. -/
def SMATCH_EXTRA : Nat := 1

/-- Reading of `get_dinfo(state)`. -/
def get_dinfo (state : smatch_state) : data_info := state.data

/-- Reading of `estate_related(state)`. -/
def estate_related (state : smatch_state) : related_list := (get_dinfo state).related

/-- Test `!sm`. -/
def sm_state.isNull : sm_state → Bool
  | .NULL => true
  | .node _ _ _ => false

/-- Field reads through a non-NULL pointer; a NULL pointer has no fields. -/
def sm_state.data : sm_state → Option sm_data
  | .NULL => none
  | .node d _ _ => some d

/-- Write of `sm->name = name; sm->sym = sym`. -/
def sm_state.set_name_sym (name : String) (sym : Nat) : sm_state → sm_state
  | .NULL => .NULL
  | .node d l r => .node { d with name := name, sym := sym } l r

/-- Write of `sm->state = state`. -/
def sm_state.set_state (state : smatch_state) : sm_state → sm_state
  | .NULL => .NULL
  | .node d l r => .node { d with state := state } l r

/-- Write of `sm->my_pool = pool`. -/
def sm_state.set_my_pool (pool : Nat) : sm_state → sm_state
  | .NULL => .NULL
  | .node d l r => .node { d with my_pool := pool } l r

/-- Write of `sm->implied = 1`. -/
def sm_state.set_implied : sm_state → sm_state
  | .NULL => .NULL
  | .node d l r => .node { d with implied := true } l r

/-- Writes of `ret->merged = 1; ret->left = left; ret->right = right`. -/
def sm_state.set_merged_children (sm left right : sm_state) : sm_state :=
  match sm with
  | .NULL => .NULL
  | .node d _ _ => .node { d with merged := true } left right

/-- The value range list of the state of a binding. -/
def sm_state.ranges : sm_state → range_list
  | .NULL => []
  | .node d _ _ => (get_dinfo d.state).value_ranges

/-- Membership of a value in the set denoted by a range list. -/
def in_range_list (v : Int) (rl : range_list) : Prop :=
  ∃ r ∈ rl, r.min ≤ v ∧ v ≤ r.max

/-- Modelled from the spec: the expression nodes of the front-end (`expression.h` is not
among the sources), reduced to the kinds and fields the three files read.  A symbol node
holds `expr->symbol` (0 for NULL) and the identifier `expr->symbol->ident->name`; the
arguments of a call are read by checkers only and are left out. -/
inductive expression where
  | EXPR_SYMBOL (symbol : Nat) (ident : String) : expression
  | EXPR_VALUE (value : Int) : expression
  | EXPR_CALL (fn : expression) : expression
  | EXPR_ASSIGNMENT (op : Int) (left right : expression) : expression
  | EXPR_COMPARE (op : Int) (left right : expression) : expression
  | EXPR_POSTOP (op : Int) (unop : expression) : expression
  | EXPR_PREOP (op : Int) (unop : expression) : expression
  | EXPR_OTHER (kind : Nat) : expression
deriving DecidableEq, Repr

instance (v : Int) (rl : range_list) : Decidable (in_range_list v rl) := by
  unfold in_range_list
  infer_instance

/-- Functions the three files call whose definitions are in files that are not
among the sources (`smatch_slist.c`, `smatch_ranges.c`, `smatch_helper.c`,
`smatch_extra.c`); they are parameters of the embedding.  `out_of_memory` is asked
with the value the counter of `filter_stack` has at the call.
`get_variable_from_expr` yields the name it returns (`none` for NULL) and the symbol it
stores through its second argument (0 for NULL).  `alloc_state` is the allocation of a
new binding from owner, name, symbol and state; `extra_undefined` is the state
`extra_undefined()` returns.  `symbol_is_static` reads `sym->ctype.modifiers & MOD_STATIC`
of the symbol at an address; `run_sql` yields, for the text of a query, the rows the
callback is called with, each row being its `argv`; `get_value_ranges` yields the range
list it stores through its second argument. -/
structure helpers where
  possibly_true_range_list_lr : Int → data_info → range_list → Int → Bool
  possibly_false_range_list_lr : Int → data_info → range_list → Int → Bool
  clone_sm : sm_state → sm_state
  merge_sm_states : sm_state → sm_state → sm_state
  out_of_memory : Nat → Bool
  get_variable_from_expr : expression → Option String × Nat
  alloc_state : Nat → String → Nat → smatch_state → sm_state
  extra_undefined : smatch_state
  alloc_estate_range : Int → Int → smatch_state
  alloc_estate_range_list : range_list → smatch_state
  merge_slist : state_list → state_list → state_list
  strip_expr : expression → expression
  symbol_is_static : Nat → Bool
  get_filename : String
  run_sql : String → List (List String)
  get_value_ranges : String → range_list
  atoi : String → Int

/-- Functions that are called while a condition is evaluated and whose definitions are in
files that are not among the sources (`smatch_extra.c`, `smatch_ranges.c`,
`smatch_helper.c`, `smatch_slist.c`, `smatch_states.c`); they are parameters of the
embedding.  `get_value` yields the constant value of an expression (`none` for the result 0,
no value); `get_range_list` yields the range list of an expression (`[]` for NULL);
`slist_has_state` reads the list `sm->possible`, and `undefined` is the global state
`undefined`. -/
structure cond_helpers where
  get_value : expression → Option Int
  get_range_list : expression → range_list
  true_comparison_range_lr : Int → data_range → data_range → Int → Bool
  false_comparison_range_lr : Int → data_range → data_range → Int → Bool
  possibly_true_range_lists_rl : Int → range_list → range_list → Int → Bool
  possibly_false_range_lists_rl : Int → range_list → range_list → Int → Bool
  slist_has_state : List smatch_state → smatch_state → Bool
  undefined : smatch_state

/-! ## smatch_implied.c -/

/-- Modelled from the spec: `get_sm_state_slist` (smatch_slist.c) is the lookup of the
binding of one (checker, variable name, symbol) in a snapshot; NULL when there is none. -/
def get_sm_state_slist : state_list → Nat → String → Nat → sm_state
  | [], _, _, _ => .NULL
  | .NULL :: rest, owner, name, sym => get_sm_state_slist rest owner name sym
  | .node d l r :: rest, owner, name, sym =>
    if d.owner = owner ∧ d.name = name ∧ d.sym = sym then .node d l r
    else get_sm_state_slist rest owner name sym

/-- Modelled from the spec: `add_pool` (smatch_slist.c) records a pool in a pool stack.
The stack is kept ascending by pool address, which the early exit of `pool_in_pools`
relies on, and a pool that is already recorded is not recorded twice. -/
def add_pool : state_list_stack → Nat → state_list_stack
  | [], new => [new]
  | tmp :: rest, new =>
    if tmp < new then tmp :: add_pool rest new
    else if tmp = new then tmp :: rest
    else new :: tmp :: rest

/-- The function `do_compare`: the pair of the true stack and the false stack after the call. -/
def do_compare (H : helpers) (mem : pool_heap) (sm_state : sm_state) (comparison : Int)
    (vals : range_list) (lr : Int) (true_stack false_stack : state_list_stack) :
    state_list_stack × state_list_stack :=
  match sm_state with
  | .NULL => (true_stack, false_stack)
  | .node d _ _ =>
    if d.my_pool = 0 then (true_stack, false_stack)
    else
      let s := if d.implied then get_sm_state_slist (mem d.my_pool) d.owner d.name d.sym
               else sm_state
      match s with
      | .NULL => (true_stack, false_stack)
      | .node sd _ _ =>
        let istrue := !H.possibly_false_range_list_lr comparison (get_dinfo sd.state) vals lr
        let isfalse := !H.possibly_true_range_list_lr comparison (get_dinfo sd.state) vals lr
        let true_stack := if istrue then add_pool true_stack sd.my_pool else true_stack
        let false_stack := if isfalse then add_pool false_stack sd.my_pool else false_stack
        (true_stack, false_stack)

/-- The function `pool_in_pools`; `true` is the C result 1. -/
def pool_in_pools (pool : Nat) : state_list_stack → Bool
  | [] => false
  | tmp :: rest =>
    if tmp = pool then true
    else if tmp > pool then false
    else pool_in_pools pool rest

/-- The function `is_checked`: pointer comparison against every entry of the list. -/
def is_checked : state_list → sm_state → Bool
  | [], _ => false
  | tmp :: rest, sm =>
    if (tmp.data.map sm_data.addr) = (sm.data.map sm_data.addr) then true
    else is_checked rest sm

/-- The function `separate_pools`.  The argument `checked` is `none` for the NULL pointer
the top-level caller passes; the result holds both stacks and the list behind `checked`
(`none` again once the local list has been freed). -/
def separate_pools (H : helpers) (mem : pool_heap) (comparison : Int) (vals : range_list)
    (lr : Int) : sm_state → state_list_stack → state_list_stack → Option state_list →
    state_list_stack × state_list_stack × Option state_list
  | .NULL, true_stack, false_stack, checked => (true_stack, false_stack, checked)
  | .node d left right, true_stack, false_stack, checked =>
    if d.nr_children > 4000 then (true_stack, false_stack, checked)
    else
      let free_checked := checked.isNone
      let checked_states := checked.getD []
      if is_checked checked_states (.node d left right) then (true_stack, false_stack, checked)
      else
        let checked_states := checked_states ++ [.node d left right]
        let st := do_compare H mem (.node d left right) comparison vals lr true_stack false_stack
        let l := separate_pools H mem comparison vals lr left st.1 st.2 (some checked_states)
        let r := separate_pools H mem comparison vals lr right l.1 l.2.1 l.2.2
        if free_checked then (r.1, r.2.1, none) else r

/-- The function `remove_my_pools`: the returned pointer and the value of `*modified`
after the call, given its value before. -/
def remove_my_pools (H : helpers) : sm_state → state_list_stack → Bool → sm_state × Bool
  | .NULL, _, modified => (.NULL, modified)
  | .node d l r, pools, modified =>
    if d.nr_children > 4000 then (.NULL, modified)
    else if pool_in_pools d.my_pool pools then (.NULL, true)
    else if !d.merged then (.node d l r, modified)
    else
      let lres := remove_my_pools H l pools false
      let rres := remove_my_pools H r pools lres.2
      let left := lres.1
      let right := rres.1
      let removed := rres.2
      if !removed then (.node d l r, modified)
      else if left.isNull && right.isNull then (.NULL, true)
      else
        let ret :=
          if left.isNull then
            ((H.clone_sm right).set_merged_children .NULL right).set_my_pool d.my_pool
          else if right.isNull then
            ((H.clone_sm left).set_merged_children left .NULL).set_my_pool d.my_pool
          else (H.merge_sm_states left right).set_my_pool d.my_pool
        (ret.set_implied, true)

/-- Writes of `filtered_sm->name = tmp->name; filtered_sm->sym = tmp->sym`. -/
def copy_name_sym (tmp filtered_sm : sm_state) : sm_state :=
  match tmp with
  | .NULL => filtered_sm
  | .node td _ _ => filtered_sm.set_name_sym td.name td.sym

/-- The loop of `filter_stack` from the binding `tmp` on, with the list built so far
and the counter. -/
def filter_stack_loop (H : helpers) (stack : state_list_stack) :
    state_list → state_list → Nat → state_list
  | [], ret, _ => ret
  | tmp :: rest, ret, counter =>
    let res := remove_my_pools H tmp stack false
    let filtered_sm := res.1
    let modified := res.2
    if !filtered_sm.isNull && modified then
      let filtered_sm := copy_name_sym tmp filtered_sm
      let ret := ret ++ [filtered_sm]
      if counter % 10 ≠ 0 && H.out_of_memory counter then []
      else filter_stack_loop H stack rest ret (counter + 1)
    else filter_stack_loop H stack rest ret counter

/-- The function `filter_stack`. -/
def filter_stack (H : helpers) (pre_list : state_list) (stack : state_list_stack) : state_list :=
  if stack = [] then []
  else filter_stack_loop H stack pre_list [] 0

/-- Reading of `is_merged(sm)`. -/
def is_merged : sm_state → Bool
  | .NULL => false
  | .node d _ _ => d.merged

/-- The function `separate_and_filter`: the values of `*true_states` and `*false_states`
after the call, given their values before.  The stopwatch around the body, which sets
`__bail_on_rest_of_function` after seven seconds, is outside the model. -/
def separate_and_filter (H : helpers) (mem : pool_heap) (sm_state : sm_state) (comparison : Int)
    (vals : range_list) (lr : Int) (pre_list : state_list)
    (true_states false_states : state_list) : state_list × state_list :=
  if !is_merged sm_state then (true_states, false_states)
  else
    let st := separate_pools H mem comparison vals lr sm_state [] [] none
    let true_stack := st.1
    let false_stack := st.2.1
    (filter_stack H pre_list false_stack, filter_stack H pre_list true_stack)

/-! ## The state store -/

/-- Modelled from the spec: `get_sm_state` (smatch_states.c) is the `get` of the state
store on the current working snapshot `cur_slist`. -/
def get_sm_state (cur_slist : state_list) (owner : Nat) (name : String) (sym : Nat) : sm_state :=
  get_sm_state_slist cur_slist owner name sym

/-- Modelled from the spec: `get_state` is `get_sm_state` followed by the read of the state;
`none` is the NULL state of a variable without binding. -/
def get_state (cur_slist : state_list) (owner : Nat) (name : String) (sym : Nat) :
    Option smatch_state :=
  (get_sm_state cur_slist owner name sym).data.map sm_data.state

/-- Modelled from the spec: `__set_sm` (smatch_states.c) is the `set` of the state store on
the current working snapshot: the binding of the (checker, name, symbol) of `sm` becomes
`sm`, a variable without binding gets one, every other binding is left alone. -/
def __set_sm (sm : sm_state) : state_list → state_list
  | [] => if sm.isNull then [] else [sm]
  | tmp :: rest =>
    match sm, tmp with
    | .NULL, _ => tmp :: rest
    | .node _ _ _, .NULL => tmp :: __set_sm sm rest
    | .node d _ _, .node td _ _ =>
      if td.owner = d.owner ∧ td.name = d.name ∧ td.sym = d.sym then sm :: rest
      else tmp :: __set_sm sm rest

/-- Modelled from the spec: `set_state` allocates a binding of the state and installs it
with `__set_sm`; the result is the new binding and the snapshot. -/
def set_state (H : helpers) (owner : Nat) (name : String) (sym : Nat) (state : smatch_state)
    (cur_slist : state_list) : sm_state × state_list :=
  (H.alloc_state owner name sym state, __set_sm (H.alloc_state owner name sym state) cur_slist)

/-- Modelled from the spec: `get_sm_state_expr` is the expression-keyed variant of
`get_sm_state`: it resolves name and symbol from the expression; NULL when either is
missing. -/
def get_sm_state_expr (H : helpers) (cur_slist : state_list) (owner : Nat) (expr : expression) :
    sm_state :=
  match H.get_variable_from_expr expr with
  | (some name, sym) => if sym = 0 then .NULL else get_sm_state cur_slist owner name sym
  | (none, _) => .NULL

/-- Modelled from the spec: `set_state_expr` is the expression-keyed variant of `set_state`;
it does nothing and returns NULL when name or symbol is missing. -/
def set_state_expr (H : helpers) (owner : Nat) (expr : expression) (state : smatch_state)
    (cur_slist : state_list) : sm_state × state_list :=
  match H.get_variable_from_expr expr with
  | (some name, sym) =>
    if sym = 0 then (.NULL, cur_slist) else set_state H owner name sym state cur_slist
  | (none, _) => (.NULL, cur_slist)

/-- Modelled from the spec: `delete_state_slist` (smatch_slist.c) deletes the binding of one
(checker, variable name, symbol) from a snapshot, so that the snapshot holds no binding of
it afterwards; every other binding stays, in order. -/
def delete_state_slist (slist : state_list) (owner : Nat) (name : String) (sym : Nat) :
    state_list :=
  slist.filter fun sm =>
    match sm with
    | .NULL => true
    | .node d _ _ => !decide (d.owner = owner ∧ d.name = name ∧ d.sym = sym)

/-! ## smatch_constraints.c -/

/-- The comparison of two strings byte by byte: negative, zero or positive. -/
def strcmp_chars : List Char → List Char → Int
  | [], [] => 0
  | [], _ :: _ => -1
  | _ :: _, [] => 1
  | a :: as, b :: bs =>
    if a.toNat < b.toNat then -1
    else if b.toNat < a.toNat then 1
    else strcmp_chars as bs

/-- The C function `strcmp`. -/
def strcmp (a b : String) : Int := strcmp_chars a.data b.data

/-- The function `alloc_relation`. -/
def alloc_relation (op : Int) (name : String) (sym : Nat) : relation :=
  { op := op, name := name, sym := sym }

/-- The function `clone_related_list`: every relation is appended to a new list. -/
def clone_related_list (related : related_list) : related_list :=
  related.foldl (fun to_list rel => to_list ++ [rel]) []

/-- Modelled from the spec: `clone_estate` (smatch_extra.c) clones a state: the same name
and ranges and a clone of the relation list. -/
def clone_estate (state : smatch_state) : smatch_state :=
  { name := state.name,
    data := { related := clone_related_list (get_dinfo state).related,
              value_ranges := (get_dinfo state).value_ranges } }

/-- The loop of `get_common_relationship` over `estate_related(state)`; `none` is the NULL
it returns. -/
def get_common_relationship_loop (op : Int) (name : String) (sym : Nat) :
    related_list → Option relation
  | [] => none
  | tmp :: rest =>
    if tmp.op < op ∨ tmp.sym < sym ∨ strcmp tmp.name name < 0 then
      get_common_relationship_loop op name sym rest
    else if tmp.op = op ∧ tmp.sym = sym ∧ strcmp tmp.name name = 0 then some tmp
    else none

/-- The function `get_common_relationship`. -/
def get_common_relationship (state : smatch_state) (op : Int) (name : String) (sym : Nat) :
    Option relation :=
  get_common_relationship_loop op name sym (estate_related state)

/-- The loop of `add_related` over `dinfo->related`, falling through to `add_ptr_list`. -/
def add_related_loop (op : Int) (name : String) (sym : Nat) : related_list → related_list
  | [] => [alloc_relation op name sym]
  | tmp :: rest =>
    if tmp.op < op ∨ tmp.sym < sym ∨ strcmp tmp.name name < 0 then
      tmp :: add_related_loop op name sym rest
    else if tmp.op = op ∧ tmp.sym = sym ∧ strcmp tmp.name name = 0 then tmp :: rest
    else alloc_relation op name sym :: tmp :: rest

/-- The function `add_related`: the state after the call. -/
def add_related (state : smatch_state) (op : Int) (name : String) (sym : Nat) : smatch_state :=
  { state with data := { get_dinfo state with
      related := add_related_loop op name sym (get_dinfo state).related } }

/-- The loop of `del_related` over `estate_related(state)`. -/
def del_related_loop (name : String) (sym : Nat) : related_list → related_list
  | [] => []
  | tmp :: rest =>
    if tmp.sym < sym ∨ strcmp tmp.name name < 0 then tmp :: del_related_loop name sym rest
    else if tmp.sym = sym ∧ strcmp tmp.name name = 0 then del_related_loop name sym rest
    else tmp :: rest

/-- The function `del_related`: the state after the call (the operator is not read). -/
def del_related (state : smatch_state) (_op : Int) (name : String) (sym : Nat) : smatch_state :=
  { state with data := { get_dinfo state with
      related := del_related_loop name sym (estate_related state) } }

/-- The function `add_equiv`. -/
def add_equiv (state : smatch_state) (name : String) (sym : Nat) : smatch_state :=
  add_related state SPECIAL_EQUAL name sym

/-- The function `del_equiv`. -/
def del_equiv (state : smatch_state) (name : String) (sym : Nat) : smatch_state :=
  del_related state SPECIAL_EQUAL name sym

/-- The loop shared by `set_equiv` and `remove_from_equiv`: for every relation of the list
a clone of `orig_sm` with the name and symbol of the relation and the state `state` is
installed with `__set_sm`. -/
def install_for_each (H : helpers) (orig_sm : sm_state) (state : smatch_state) :
    related_list → state_list → state_list
  | [], cur_slist => cur_slist
  | rel :: rest, cur_slist =>
    let new_sm := ((H.clone_sm orig_sm).set_name_sym rel.name rel.sym).set_state state
    install_for_each H orig_sm state rest (__set_sm new_sm cur_slist)

/-- The function `remove_from_equiv`: the working snapshot after the call. -/
def remove_from_equiv (H : helpers) (name : String) (sym : Nat) (cur_slist : state_list) :
    state_list :=
  match get_sm_state cur_slist SMATCH_EXTRA name sym with
  | .NULL => cur_slist
  | .node od ol or_ =>
    if (get_dinfo od.state).related = [] then cur_slist
    else
      let state := clone_estate od.state
      let state := del_equiv state name sym
      let to_update := (get_dinfo state).related
      let state :=
        if to_update.length = 1 then
          { state with data := { get_dinfo state with related := [] } }
        else state
      install_for_each H (.node od ol or_) state to_update cur_slist

/-- The function `remove_from_equiv_expr`. -/
def remove_from_equiv_expr (H : helpers) (expr : expression) (cur_slist : state_list) :
    state_list :=
  match H.get_variable_from_expr expr with
  | (some name, sym) => if sym = 0 then cur_slist else remove_from_equiv H name sym cur_slist
  | (none, _) => cur_slist

/-- The function `set_equiv`: the working snapshot after the call. -/
def set_equiv (H : helpers) (left right : expression) (cur_slist : state_list) : state_list :=
  match H.get_variable_from_expr left with
  | (none, _) => cur_slist
  | (some left_name, left_sym) =>
    if left_sym = 0 then cur_slist
    else
      let found := get_sm_state_expr H cur_slist SMATCH_EXTRA right
      let fetched :=
        if found.isNull then set_state_expr H SMATCH_EXTRA right H.extra_undefined cur_slist
        else (found, cur_slist)
      match fetched.1 with
      | .NULL => fetched.2
      | .node rd rl rr =>
        let cur_slist := remove_from_equiv H left_name left_sym fetched.2
        let state := clone_estate rd.state
        let state :=
          if estate_related state = [] then add_equiv state rd.name rd.sym else state
        let state := add_equiv state left_name left_sym
        install_for_each H (.node rd rl rr) state (estate_related state) cur_slist

/-! ## smatch_function_hooks.c -/

/-- A `struct fcall_back`.  A callback is a function pointer; calling it changes the
working snapshot, which is what the callback is here: from the arguments of the call
(`fn`, the expression, the assignment expression or NULL, `info`) to a change of the
working snapshot.  `range` is read only when `type` is RANGED_CALL. -/
structure fcall_back where
  type : Nat
  range : data_range
  call_back : String → expression → Option expression → Nat → state_list → state_list
  info : Nat

/-- A `struct call_back_list *`. -/
abbrev call_back_list := List fcall_back

def REGULAR_CALL : Nat := 0
def ASSIGN_CALL : Nat := 1
def RANGED_CALL : Nat := 2
def MACRO_ASSIGN : Nat := 3

/-- A `struct return_implies_callback`: the fact kind and the consumer, called with the
expression, the parameter index, the key and the value. -/
structure return_implies_callback where
  type : Int
  callback : expression → Int → String → String → state_list → state_list

/-- Modelled from the spec: the current working snapshot and the stack of working
snapshots that are suspended while a scratch snapshot is current (smatch_states.c). -/
structure context where
  cur_slist : state_list
  suspended : List state_list

/-- Modelled from the spec: `__push_fake_cur_slist` pushes a fresh empty snapshot, which
becomes the working snapshot. -/
def __push_fake_cur_slist (ctx : context) : context :=
  { cur_slist := [], suspended := ctx.cur_slist :: ctx.suspended }

/-- Modelled from the spec: `__pop_fake_cur_slist` pops the scratch snapshot and returns
it; the snapshot that was suspended by the matching push is the working snapshot
again. -/
def __pop_fake_cur_slist (ctx : context) : state_list × context :=
  (ctx.cur_slist, { cur_slist := ctx.suspended.headD [], suspended := ctx.suspended.tail })

/-- Modelled from the spec: the working context while a condition is evaluated
(smatch_states.c): the working snapshot with its suspended snapshots, and the facts
recorded so far for the true branch and for the false branch of the condition. -/
structure cond_context where
  ctx : context
  cond_true : state_list
  cond_false : state_list

/-- Modelled from the spec: `__set_true_false_sm` (smatch_states.c) applies a binding as a
fact of the true branch, a binding as a fact of the false branch; a NULL argument records
nothing on its side. -/
def __set_true_false_sm (true_sm false_sm : sm_state) (cc : cond_context) : cond_context :=
  { ctx := cc.ctx,
    cond_true := __set_sm true_sm cc.cond_true,
    cond_false := __set_sm false_sm cc.cond_false }

/-- Modelled from the spec: `set_extra_mod` (smatch_extra.c) assigns the variable the state
as its SMATCH_EXTRA state in the working snapshot. -/
def set_extra_mod (H : helpers) (name : String) (sym : Nat) (state : smatch_state)
    (cur_slist : state_list) : state_list :=
  (set_state H SMATCH_EXTRA name sym state cur_slist).2

/-- Modelled from the spec: `set_extra_expr_mod` is the expression-keyed variant of
`set_extra_mod`; nothing happens when name or symbol is missing. -/
def set_extra_expr_mod (H : helpers) (expr : expression) (state : smatch_state)
    (cur_slist : state_list) : state_list :=
  (set_state_expr H SMATCH_EXTRA expr state cur_slist).2

/-- Modelled from the spec: `in_list_exact` (smatch_ranges.c) tells whether the very
interval, with the same bounds, is in the list. -/
def in_list_exact (list : range_list) (drange : data_range) : Bool :=
  list.any fun tmp => decide (tmp.min = drange.min ∧ tmp.max = drange.max)

/-- The `left` and `right` fields of an assignment expression. -/
def expression.assign_left : expression → Option expression
  | .EXPR_ASSIGNMENT _ left _ => some left
  | _ => none

def expression.assign_right : expression → Option expression
  | .EXPR_ASSIGNMENT _ _ right => some right
  | _ => none

/-- The function `call_call_backs`, on the working snapshot. -/
def call_call_backs : call_back_list → Nat → String → expression → state_list → state_list
  | [], _, _, _, cur_slist => cur_slist
  | tmp :: rest, type, fn, expr, cur_slist =>
    if tmp.type = type then
      call_call_backs rest type fn expr (tmp.call_back fn expr none tmp.info cur_slist)
    else call_call_backs rest type fn expr cur_slist

/-- The function `call_ranged_call_backs`, on the working snapshot. -/
def call_ranged_call_backs : call_back_list → String → expression → expression →
    state_list → state_list
  | [], _, _, _, cur_slist => cur_slist
  | tmp :: rest, fn, call_expr, assign_expr, cur_slist =>
    call_ranged_call_backs rest fn call_expr assign_expr
      (tmp.call_back fn call_expr (some assign_expr) tmp.info cur_slist)

/-- The function `get_same_ranged_call_backs`. -/
def get_same_ranged_call_backs : call_back_list → data_range → call_back_list
  | [], _ => []
  | tmp :: rest, drange =>
    if tmp.type ≠ RANGED_CALL then get_same_ranged_call_backs rest drange
    else if tmp.range.min = drange.min ∧ tmp.range.max = drange.max then
      tmp :: get_same_ranged_call_backs rest drange
    else get_same_ranged_call_backs rest drange

/-- The installation loop `FOR_EACH_PTR(list, sm) { __set_sm(sm); }`. -/
def set_each_sm : state_list → state_list → state_list
  | [], cur_slist => cur_slist
  | sm :: rest, cur_slist => set_each_sm rest (__set_sm sm cur_slist)

/-- The first loop of `assign_ranged_funcs` from the callback `tmp` on: the context,
`final_states` and `handled_ranges` after it.  `call_backs` is the whole list, `right`
is `expr->right`; `tack_on` appends the interval to the list. -/
def assign_ranged_loop (H : helpers) (fn : String) (expr right : expression)
    (var_name : String) (sym : Nat) (call_backs : call_back_list) :
    call_back_list → context → state_list → range_list → context × state_list × range_list
  | [], ctx, final_states, handled_ranges => (ctx, final_states, handled_ranges)
  | tmp :: rest, ctx, final_states, handled_ranges =>
    if tmp.type ≠ RANGED_CALL then
      assign_ranged_loop H fn expr right var_name sym call_backs rest ctx final_states
        handled_ranges
    else if in_list_exact handled_ranges tmp.range then
      assign_ranged_loop H fn expr right var_name sym call_backs rest ctx final_states
        handled_ranges
    else
      let ctx := __push_fake_cur_slist ctx
      let handled_ranges := handled_ranges ++ [tmp.range]
      let same_range_call_backs := get_same_ranged_call_backs call_backs tmp.range
      let called := call_ranged_call_backs same_range_call_backs fn right expr ctx.cur_slist
      let ctx := { ctx with cur_slist := called }
      let estate := H.alloc_estate_range tmp.range.min tmp.range.max
      let ctx := { ctx with cur_slist := set_extra_mod H var_name sym estate ctx.cur_slist }
      let popped := __pop_fake_cur_slist ctx
      let tmp_slist := popped.1
      let final_states := H.merge_slist final_states tmp_slist
      assign_ranged_loop H fn expr right var_name sym call_backs rest popped.2 final_states
        handled_ranges

/-- The function `assign_ranged_funcs`: the context after the call. -/
def assign_ranged_funcs (H : helpers) (fn : String) (expr : expression)
    (call_backs : call_back_list) (ctx : context) : context :=
  match expr with
  | .EXPR_ASSIGNMENT _ left right =>
    match H.get_variable_from_expr left with
    | (none, _) => ctx
    | (some var_name, sym) =>
      if sym = 0 then ctx
      else
        let res := assign_ranged_loop H fn expr right var_name sym call_backs call_backs ctx [] []
        { cur_slist := set_each_sm res.2.1 res.1.cur_slist, suspended := res.1.suspended }
  | _ => ctx

/-- The function `db_assign_callback` for one row `argv` (`argc` is its length): the
context and `db_info.slist` after the call.  `expr` is `db_info.expr`. -/
def db_assign_callback (H : helpers) (db_implies_list : List return_implies_callback)
    (expr : expression) (argv : List String) (ctx : context) (slist : state_list) :
    context × state_list :=
  match argv, expr with
  | [a0, a1, a2, key, value], .EXPR_ASSIGNMENT _ left right =>
    let ret_range := H.get_value_ranges a0
    let type := H.atoi a1
    let param := H.atoi a2
    let ctx := __push_fake_cur_slist ctx
    let called := db_implies_list.foldl
      (fun cur tmp => if tmp.type = type then tmp.callback right param key value cur else cur)
      ctx.cur_slist
    let ctx := { ctx with cur_slist := called }
    let assigned := set_extra_expr_mod H left (H.alloc_estate_range_list ret_range) ctx.cur_slist
    let ctx := { ctx with cur_slist := assigned }
    let popped := __pop_fake_cur_slist ctx
    (popped.2, H.merge_slist slist popped.1)
  | _, _ => (ctx, slist)

/-- The text of the query of `db_return_implies_assign` for a callee symbol and its
identifier. -/
def return_implies_query (H : helpers) (symbol : Nat) (ident : String) : String :=
  "select return, type, parameter, key, value from return_implies where " ++
    (if H.symbol_is_static symbol then
       "file = '" ++ H.get_filename ++ "' and function = '" ++ ident ++ "' and static = '1';"
     else "function = '" ++ ident ++ "' and static = '0';")

/-- The calls `run_sql` makes of `db_assign_callback`, row after row. -/
def run_db_assign_callback (H : helpers) (db_implies_list : List return_implies_callback)
    (expr : expression) : List (List String) → context → state_list → context × state_list
  | [], ctx, slist => (ctx, slist)
  | argv :: rows, ctx, slist =>
    let res := db_assign_callback H db_implies_list expr argv ctx slist
    run_db_assign_callback H db_implies_list expr rows res.1 res.2

/-- The function `db_return_implies_assign`: the context after the call. -/
def db_return_implies_assign (H : helpers) (db_implies_list : List return_implies_callback)
    (expr : expression) (ctx : context) : context :=
  match expr.assign_right with
  | some (.EXPR_CALL (.EXPR_SYMBOL symbol ident)) =>
    if symbol = 0 then ctx
    else
      let rows := H.run_sql (return_implies_query H symbol ident)
      let res := run_db_assign_callback H db_implies_list expr rows ctx []
      { cur_slist := set_each_sm res.2 res.1.cur_slist, suspended := res.1.suspended }
  | _ => ctx

/-- The function `match_assign_call`: the context after the call.  `func_hash` is the
registry: for a name, the callbacks registered on it (the NULL list when there are
none). -/
def match_assign_call (H : helpers) (func_hash : String → call_back_list)
    (db_implies_list : List return_implies_callback) (expr : expression) (ctx : context) :
    context :=
  match expr.assign_right with
  | none => ctx
  | some unstripped =>
    match H.strip_expr unstripped with
    | .EXPR_CALL (.EXPR_SYMBOL symbol fn) =>
      if symbol = 0 then ctx
      else
        let call_backs := func_hash fn
        if call_backs.isEmpty then db_return_implies_assign H db_implies_list expr ctx
        else
          let called := call_call_backs call_backs ASSIGN_CALL fn expr ctx.cur_slist
          assign_ranged_funcs H fn expr call_backs { ctx with cur_slist := called }
    | _ => ctx

/-- The function `alloc_fcall_back`.  It does not write `range`, which is written, and read,
for ranged callbacks only. -/
def alloc_fcall_back (type : Nat)
    (call_back : String → expression → Option expression → Nat → state_list → state_list)
    (info : Nat) : fcall_back :=
  { type := type, range := ⟨0, 0⟩, call_back := call_back, info := info }

/-- Modelled from the spec: `add_callback` (smatch_function_hashtable.h) registers a callback
on a name: it is appended to the callbacks already registered on the name. -/
def add_callback (func_hash : String → call_back_list) (look_for : String) (cb : fcall_back) :
    String → call_back_list :=
  fun name => if name = look_for then func_hash name ++ [cb] else func_hash name

/-- The function `add_function_hook`: the registry after the call. -/
def add_function_hook (look_for : String)
    (call_back : String → expression → Option expression → Nat → state_list → state_list)
    (info : Nat) (func_hash : String → call_back_list) : String → call_back_list :=
  add_callback func_hash look_for (alloc_fcall_back REGULAR_CALL call_back info)

/-- The function `add_function_assign_hook`: the registry after the call. -/
def add_function_assign_hook (look_for : String)
    (call_back : String → expression → Option expression → Nat → state_list → state_list)
    (info : Nat) (func_hash : String → call_back_list) : String → call_back_list :=
  add_callback func_hash look_for (alloc_fcall_back ASSIGN_CALL call_back info)

/-- The function `add_macro_assign_hook`: the registry after the call. -/
def add_macro_assign_hook (look_for : String)
    (call_back : String → expression → Option expression → Nat → state_list → state_list)
    (info : Nat) (func_hash : String → call_back_list) : String → call_back_list :=
  add_callback func_hash look_for (alloc_fcall_back MACRO_ASSIGN call_back info)

/-- The function `return_implies_state`: the registry after the call; `alloc_range_perm`
gives the interval from `start` to `end`. -/
def return_implies_state (look_for : String) (start finish : Int)
    (call_back : String → expression → Option expression → Nat → state_list → state_list)
    (info : Nat) (func_hash : String → call_back_list) : String → call_back_list :=
  let cb := alloc_fcall_back RANGED_CALL call_back info
  add_callback func_hash look_for
    { type := cb.type, range := ⟨start, finish⟩, call_back := cb.call_back, info := cb.info }

/-- The function `match_function_call`, on the working snapshot. -/
def match_function_call (func_hash : String → call_back_list) (expr : expression)
    (cur_slist : state_list) : state_list :=
  match expr with
  | .EXPR_CALL (.EXPR_SYMBOL symbol name) =>
    if symbol = 0 then cur_slist
    else
      let call_backs := func_hash name
      if call_backs.isEmpty then cur_slist
      else call_call_backs call_backs REGULAR_CALL name expr cur_slist
  | _ => cur_slist

/-- One loop of `call_implies_callbacks` over the callbacks, on the working snapshot.  The
two loops differ in the test of the interval only, which is `test`. -/
def call_implies_loop (test : data_range → Bool) (fn : String) (expr : expression) :
    call_back_list → state_list → state_list
  | [], cur_slist => cur_slist
  | tmp :: rest, cur_slist =>
    if tmp.type ≠ RANGED_CALL then call_implies_loop test fn expr rest cur_slist
    else if !test tmp.range then call_implies_loop test fn expr rest cur_slist
    else call_implies_loop test fn expr rest (tmp.call_back fn expr none tmp.info cur_slist)

/-- The loop `FOR_EACH_PTR(true_states, sm) { __set_true_false_sm(sm, NULL); }`. -/
def set_true_each : state_list → cond_context → cond_context
  | [], cc => cc
  | sm :: rest, cc => set_true_each rest (__set_true_false_sm sm .NULL cc)

/-- The loop `FOR_EACH_PTR(false_states, sm) { __set_true_false_sm(NULL, sm); }`. -/
def set_false_each : state_list → cond_context → cond_context
  | [], cc => cc
  | sm :: rest, cc => set_false_each rest (__set_true_false_sm .NULL sm cc)

/-- The function `call_implies_callbacks`: its result (`true` is 1) and the context after
the call.  `alloc_range(value, value)` is the interval from `value` to `value`. -/
def call_implies_callbacks (H : helpers) (C : cond_helpers) (func_hash : String → call_back_list)
    (comparison : Int) (expr : expression) (value : Int) (left : Int) (cc : cond_context) :
    Bool × cond_context :=
  match expr with
  | .EXPR_CALL (.EXPR_SYMBOL symbol fn) =>
    if symbol = 0 then (false, cc)
    else
      let call_backs := func_hash fn
      if call_backs.isEmpty then (false, cc)
      else
        let value_range : data_range := ⟨value, value⟩
        let pushed := __push_fake_cur_slist cc.ctx
        let called := call_implies_loop
          (fun range => C.true_comparison_range_lr comparison range value_range left)
          fn expr call_backs pushed.cur_slist
        let popped := __pop_fake_cur_slist { cur_slist := called, suspended := pushed.suspended }
        let true_states := H.merge_slist [] popped.1
        let pushed := __push_fake_cur_slist popped.2
        let called := call_implies_loop
          (fun range => C.false_comparison_range_lr comparison range value_range left)
          fn expr call_backs pushed.cur_slist
        let popped := __pop_fake_cur_slist { cur_slist := called, suspended := pushed.suspended }
        let false_states := H.merge_slist [] popped.1
        let cc := set_true_each true_states
          { ctx := popped.2, cond_true := cc.cond_true, cond_false := cc.cond_false }
        (true, set_false_each false_states cc)
  | _ => (false, cc)

/-- The function `db_compare_callback` for one row `argv` (`argc` is its length), on the
working snapshot; the other arguments are the fields of `db_info`. -/
def db_compare_callback (H : helpers) (C : cond_helpers)
    (db_implies_list : List return_implies_callback) (true_side : Bool) (comparison : Int)
    (expr : expression) (rl : range_list) (left : Int) (argv : List String)
    (cur_slist : state_list) : state_list :=
  match argv with
  | [a0, a1, a2, key, value] =>
    let ret_range := H.get_value_ranges a0
    let type := H.atoi a1
    let param := H.atoi a2
    let possible :=
      if true_side then C.possibly_true_range_lists_rl comparison ret_range rl left
      else C.possibly_false_range_lists_rl comparison ret_range rl left
    if !possible then cur_slist
    else
      db_implies_list.foldl
        (fun cur tmp => if tmp.type = type then tmp.callback expr param key value cur else cur)
        cur_slist
  | _ => cur_slist

/-- The function `compare_db_implies_callbacks`: the context after the call.
`alloc_range_list(value, value)` is the list of the one interval from `value` to
`value`. -/
def compare_db_implies_callbacks (H : helpers) (C : cond_helpers)
    (db_implies_list : List return_implies_callback) (comparison : Int) (expr : expression)
    (value : Int) (left : Int) (cc : cond_context) : cond_context :=
  match expr with
  | .EXPR_CALL (.EXPR_SYMBOL symbol ident) =>
    if symbol = 0 then cc
    else
      let rows := H.run_sql (return_implies_query H symbol ident)
      let rl : range_list := [⟨value, value⟩]
      let pushed := __push_fake_cur_slist cc.ctx
      let called := rows.foldl
        (fun cur argv => db_compare_callback H C db_implies_list true comparison expr rl left argv cur)
        pushed.cur_slist
      let popped := __pop_fake_cur_slist { cur_slist := called, suspended := pushed.suspended }
      let true_states := popped.1
      let pushed := __push_fake_cur_slist popped.2
      let called := rows.foldl
        (fun cur argv => db_compare_callback H C db_implies_list false comparison expr rl left argv cur)
        pushed.cur_slist
      let popped := __pop_fake_cur_slist { cur_slist := called, suspended := pushed.suspended }
      let false_states := popped.1
      let cc := set_true_each true_states
        { ctx := popped.2, cond_true := cc.cond_true, cond_false := cc.cond_false }
      set_false_each false_states cc
  | _ => cc

/-- The function `function_comparison`: the context after the call. -/
def function_comparison (H : helpers) (C : cond_helpers) (func_hash : String → call_back_list)
    (db_implies_list : List return_implies_callback) (comparison : Int) (expr : expression)
    (value : Int) (left : Int) (cc : cond_context) : cond_context :=
  let res := call_implies_callbacks H C func_hash comparison expr value left cc
  if res.1 then res.2
  else compare_db_implies_callbacks H C db_implies_list comparison expr value left cc

/-! ## smatch_implied.c: the condition hook -/

/-- The function `tmp_range_list`: the list of the one interval from `num` to `num` (the
static list is emptied, then the interval is added). -/
def tmp_range_list (num : Int) : range_list := [⟨num, num⟩]

/-- The number of nodes of an expression. -/
def expression.size : expression → Nat
  | .EXPR_SYMBOL _ _ => 1
  | .EXPR_VALUE _ => 1
  | .EXPR_CALL fn => fn.size + 1
  | .EXPR_ASSIGNMENT _ left right => left.size + right.size + 1
  | .EXPR_COMPARE _ left right => left.size + right.size + 1
  | .EXPR_POSTOP _ unop => unop.size + 1
  | .EXPR_PREOP _ unop => unop.size + 1
  | .EXPR_OTHER _ => 1

/-- The recursion of `get_left_most_sm`, unrolled at most `fuel` times. -/
def get_left_most_sm_fuel (H : helpers) (cur_slist : state_list) : Nat → expression → sm_state
  | 0, _ => .NULL
  | fuel + 1, expr =>
    match H.strip_expr expr with
    | .EXPR_ASSIGNMENT _ left _ => get_left_most_sm_fuel H cur_slist fuel left
    | stripped => get_sm_state_expr H cur_slist SMATCH_EXTRA stripped

/-- The function `get_left_most_sm`.  `strip_expr` returns a part of its argument, so the
recursion of the source goes through fewer calls than the expression has nodes. -/
def get_left_most_sm (H : helpers) (cur_slist : state_list) (expr : expression) : sm_state :=
  get_left_most_sm_fuel H cur_slist expr.size expr

/-- The function `is_merged_expr`; `true` is the C result 1. -/
def is_merged_expr (H : helpers) (C : cond_helpers) (cur_slist : state_list)
    (expr : expression) : Bool :=
  if (C.get_value expr).isSome then false
  else
    match get_sm_state_expr H cur_slist SMATCH_EXTRA expr with
    | .NULL => false
    | .node d _ _ => d.merged

/-- The function `delete_equiv_slist`: the snapshot `*slist` after the call.  `cur_slist` is
the working snapshot `get_state` reads.  The result is `none` when the variable has no
state, which `get_dinfo` dereferences. -/
def delete_equiv_slist (cur_slist : state_list) (slist : state_list) (name : String)
    (sym : Nat) : Option state_list :=
  match get_state cur_slist SMATCH_EXTRA name sym with
  | none => none
  | some state =>
    if (get_dinfo state).related = [] then
      some (delete_state_slist slist SMATCH_EXTRA name sym)
    else
      some ((get_dinfo state).related.foldl
        (fun slist rel => delete_state_slist slist SMATCH_EXTRA rel.name rel.sym) slist)

/-- The tail of `handle_comparison` and of `handle_zero_comparison`: `separate_and_filter`
on the working snapshot, then `delete_equiv_slist` on both results. -/
def filter_and_delete (H : helpers) (mem : pool_heap) (cur_slist : state_list) (sm : sm_state)
    (comparison : Int) (vals : range_list) (lr : Int) (name : String) (sym : Nat)
    (implied_true implied_false : state_list) : Option (state_list × state_list) :=
  let res := separate_and_filter H mem sm comparison vals lr cur_slist implied_true implied_false
  match delete_equiv_slist cur_slist res.1 name sym,
        delete_equiv_slist cur_slist res.2 name sym with
  | some t, some f => some (t, f)
  | _, _ => none

/-- The function `handle_comparison`: the values of `*implied_true` and `*implied_false`
after the call, given their values before; `none` when a NULL pointer is dereferenced.
The expression is a comparison (the caller has tested it). -/
def handle_comparison (H : helpers) (C : cond_helpers) (mem : pool_heap) (cur_slist : state_list)
    (expr : expression) (implied_true implied_false : state_list) :
    Option (state_list × state_list) :=
  match expr with
  | .EXPR_COMPARE op left right =>
    if is_merged_expr H C cur_slist left then
      let sm := get_left_most_sm H cur_slist left
      let ranges := C.get_range_list right
      match sm with
      | .NULL => some (implied_true, implied_false)
      | .node d l r =>
        if ranges = [] then some (implied_true, implied_false)
        else
          filter_and_delete H mem cur_slist (.node d l r) op ranges LEFT d.name d.sym
            implied_true implied_false
    else if is_merged_expr H C cur_slist right then
      let sm := get_left_most_sm H cur_slist right
      let ranges := C.get_range_list left
      match sm with
      | .NULL => some (implied_true, implied_false)
      | .node d l r =>
        if ranges = [] then some (implied_true, implied_false)
        else
          filter_and_delete H mem cur_slist (.node d l r) op ranges RIGHT d.name d.sym
            implied_true implied_false
    else some (implied_true, implied_false)
  | _ => none

/-- The first two statements of `handle_zero_comparison`: the value of `expr` after them.
The operand of a post-operation is taken, stripped; then the left side of an assignment
is taken. -/
def zero_comparison_operand (H : helpers) (expr : expression) : expression :=
  let expr :=
    match expr with
    | .EXPR_POSTOP _ unop => H.strip_expr unop
    | other => other
  match expr with
  | .EXPR_ASSIGNMENT _ left _ => left
  | other => other

/-- The function `handle_zero_comparison`: the values of `*implied_true` and
`*implied_false` after the call, given their values before; `none` when a NULL pointer is
dereferenced. -/
def handle_zero_comparison (H : helpers) (mem : pool_heap) (cur_slist : state_list)
    (expr : expression) (implied_true implied_false : state_list) :
    Option (state_list × state_list) :=
  let expr := zero_comparison_operand H expr
  match H.get_variable_from_expr expr with
  | (none, _) => some (implied_true, implied_false)
  | (some name, sym) =>
    if sym = 0 then some (implied_true, implied_false)
    else
      match get_sm_state cur_slist SMATCH_EXTRA name sym with
      | .NULL => some (implied_true, implied_false)
      | .node d l r =>
        filter_and_delete H mem cur_slist (.node d l r) SPECIAL_NOTEQUAL (tmp_range_list 0) LEFT
          name sym implied_true implied_false

/-- The function `get_tf_states`. -/
def get_tf_states (H : helpers) (C : cond_helpers) (mem : pool_heap) (cur_slist : state_list)
    (expr : expression) (implied_true implied_false : state_list) :
    Option (state_list × state_list) :=
  match expr with
  | .EXPR_COMPARE _ _ _ => handle_comparison H C mem cur_slist expr implied_true implied_false
  | _ => handle_zero_comparison H mem cur_slist expr implied_true implied_false

/-- The function `implied_states_hook`: the context after the call; `option_no_implied` is
the global option. -/
def implied_states_hook (H : helpers) (C : cond_helpers) (mem : pool_heap)
    (option_no_implied : Bool) (expr : expression) (cc : cond_context) : Option cond_context :=
  if option_no_implied then some cc
  else
    match get_tf_states H C mem cc.ctx.cur_slist expr [] [] with
    | none => none
    | some (implied_true, implied_false) =>
      some (set_false_each implied_false (set_true_each implied_true cc))

/-- The function `get_implications`: the values of `*true_states` and `*false_states` after
the call, given their values before. -/
def get_implications (H : helpers) (C : cond_helpers) (mem : pool_heap) (cur_slist : state_list)
    (name : String) (sym : Nat) (comparison : Int) (num : Int)
    (true_states false_states : state_list) : state_list × state_list :=
  match get_sm_state cur_slist SMATCH_EXTRA name sym with
  | .NULL => (true_states, false_states)
  | .node d l r =>
    if C.slist_has_state d.possible C.undefined then (true_states, false_states)
    else
      separate_and_filter H mem (.node d l r) comparison (tmp_range_list num) LEFT cur_slist
        true_states false_states

/-! ## smatch_implied.c: the cases of a switch -/

/-- A `struct range_list_stack *`: a pointer list of range lists, the top last. -/
abbrev range_list_stack := List range_list

/-- Functions and data that `__get_implied_values` and `__implied_case_slist` use and whose
definitions are in files that are not among the sources (`smatch_ranges.c`,
`smatch_extra.c`, `smatch_slist.c`); they are parameters of the embedding.  `whole_range`
is the global of that name; `add_range` yields the list after the call; the functions on a
range list stack yield the top list and the stack after the call; `set_state_slist` and
`overwrite_slist` yield the snapshot they leave behind their pointer argument
(`overwrite_slist` takes the snapshot written from first, as in C). -/
structure switch_helpers where
  whole_range : data_range
  clone_range_list : range_list → range_list
  add_range : range_list → Int → Int → range_list
  top_range_list : range_list_stack → range_list
  filter_top_range_list : range_list_stack → Int → range_list_stack
  clone_slist : state_list → state_list
  set_state_slist : state_list → Nat → String → Nat → smatch_state → state_list
  overwrite_slist : state_list → state_list → state_list
  alloc_extra_state_range_list : range_list → smatch_state

/-- The function `__get_implied_values`, on the working snapshot; the empty list is the
NULL that `ret` holds at the label `free` when nothing was cloned. -/
def __get_implied_values (H : helpers) (S : switch_helpers) (cur_slist : state_list)
    (switch_expr : expression) : range_list :=
  let ret : range_list :=
    match H.get_variable_from_expr switch_expr with
    | (none, _) => []
    | (some name, sym) =>
      if sym = 0 then []
      else
        match get_state cur_slist SMATCH_EXTRA name sym with
        | none => []
        | some state => S.clone_range_list (get_dinfo state).value_ranges
  if ret = [] then S.add_range ret S.whole_range.min S.whole_range.max else ret

/-- The value list of a case in `__implied_case_slist` and the stack of remaining cases
after it was computed; `none` is the jump to `free` for a case expression without a value.
`case_expr` is `none` for the NULL of the default case. -/
def case_vals (C : cond_helpers) (S : switch_helpers) (case_expr : Option expression)
    (remaining_cases : range_list_stack) : Option (range_list × range_list_stack) :=
  match case_expr with
  | none => some (S.top_range_list remaining_cases, remaining_cases)
  | some ce =>
    match C.get_value ce with
    | none => none
    | some val => some ([⟨val, val⟩], S.filter_top_range_list remaining_cases val)

/-- The function `__implied_case_slist`: the snapshot it returns and the stack behind
`remaining_cases` after the call. -/
def __implied_case_slist (H : helpers) (C : cond_helpers) (S : switch_helpers) (mem : pool_heap)
    (switch_expr : expression) (case_expr : Option expression)
    (remaining_cases : range_list_stack) (raw_slist : state_list) :
    state_list × range_list_stack :=
  let ret := S.clone_slist raw_slist
  match H.get_variable_from_expr switch_expr with
  | (none, _) => (ret, remaining_cases)
  | (some name, sym) =>
    if sym = 0 then (ret, remaining_cases)
    else
      let sm := get_sm_state_slist raw_slist SMATCH_EXTRA name sym
      match case_vals C S case_expr remaining_cases with
      | none => (ret, remaining_cases)
      | some (vals, remaining_cases) =>
        let tf :=
          if sm.isNull then ([], [])
          else separate_and_filter H mem sm SPECIAL_EQUAL vals LEFT raw_slist [] []
        let true_states := tf.1
        let true_sm := get_sm_state_slist true_states SMATCH_EXTRA name sym
        let true_states :=
          if true_sm.isNull then
            S.set_state_slist true_states SMATCH_EXTRA name sym
              (S.alloc_extra_state_range_list vals)
          else true_states
        (S.overwrite_slist true_states ret, remaining_cases)

/-! ## Predicates and auxiliary definitions used in the statements -/

/-- The relation list of the SMATCH_EXTRA state bound to a variable; empty when the
variable has no binding. -/
def related_of (cur_slist : state_list) (name : String) (sym : Nat) : related_list :=
  match get_state cur_slist SMATCH_EXTRA name sym with
  | none => []
  | some state => estate_related state

/-- The relation list has an entry, under any operator, for the variable. -/
def names_variable (related : related_list) (name : String) (sym : Nat) : Prop :=
  ∃ rel ∈ related, rel.name = name ∧ rel.sym = sym

/-- What is used of the allocating helpers: the clone of a binding is a binding of the same
owner, a newly allocated binding has the owner, name, symbol and state it was allocated
with, and the state `extra_undefined()` returns carries no relation. -/
structure allocators_ok (H : helpers) : Prop where
  clone_sm_owner : ∀ (d : sm_data) (l r : sm_state), ∃ (d2 : sm_data) (l2 r2 : sm_state),
    H.clone_sm (.node d l r) = .node d2 l2 r2 ∧ d2.owner = d.owner
  alloc_state_fields : ∀ (owner : Nat) (name : String) (sym : Nat) (state : smatch_state),
    ∃ (d : sm_data) (l r : sm_state), H.alloc_state owner name sym state = .node d l r ∧
      d.owner = owner ∧ d.name = name ∧ d.sym = sym ∧ d.state = state
  extra_undefined_related : estate_related H.extra_undefined = []

/-- The state `set_equiv` builds from the state of the source binding: its clone, seeded
with the relation to the source itself when it has no relation yet, with the relation to
the target added. -/
def equiv_state (source : smatch_state) (right_name : String) (right_sym : Nat)
    (left_name : String) (left_sym : Nat) : smatch_state :=
  add_equiv
    (if estate_related (clone_estate source) = [] then
      add_equiv (clone_estate source) right_name right_sym
     else clone_estate source)
    left_name left_sym

/-- The state `remove_from_equiv` builds from the state of the variable it removes: its clone
without the entry of the variable, and without any relation list when a single entry
remains. -/
def removed_state (orig : smatch_state) (name : String) (sym : Nat) : smatch_state :=
  if (get_dinfo (del_equiv (clone_estate orig) name sym)).related.length = 1 then
    { del_equiv (clone_estate orig) name sym with
      data := { get_dinfo (del_equiv (clone_estate orig) name sym) with related := [] } }
  else del_equiv (clone_estate orig) name sym

/-- A relation list built from the empty list by calls of `add_equiv`. -/
inductive built_by_add_equiv : related_list → Prop where
  | nil : built_by_add_equiv []
  | add (related : related_list) (name : String) (sym : Nat) :
      built_by_add_equiv related →
      built_by_add_equiv (add_related_loop SPECIAL_EQUAL name sym related)

/-- The order in which `add_related` keeps two entries of one operator: the earlier one has
the smaller symbol or the smaller name. -/
def entry_before (x y : relation) : Prop :=
  x.sym < y.sym ∨ strcmp x.name y.name < 0

/-- A list of equality relations in which every entry stands before all later ones. -/
def equiv_list_ok (related : related_list) : Prop :=
  (∀ x ∈ related, x.op = SPECIAL_EQUAL) ∧ related.Pairwise entry_before

/-- Relation symmetry of a store: the state of X lists Y as equal exactly when the state of
Y lists X as equal. -/
def relation_symmetric (cur_slist : state_list) : Prop :=
  ∀ (x : String) (sx : Nat) (y : String) (sy : Nat),
    ⟨SPECIAL_EQUAL, y, sy⟩ ∈ related_of cur_slist x sx ↔
    ⟨SPECIAL_EQUAL, x, sx⟩ ∈ related_of cur_slist y sy

/-- The relation set of the variable, if it has one, is an equivalence class: a list of
equality relations in the order `add_related` keeps, which names the variable itself, and
every variable it names has the very same relation set. -/
def class_at (R : String → Nat → related_list) (x : String) (sx : Nat) : Prop :=
  R x sx ≠ [] →
    equiv_list_ok (R x sx) ∧ names_variable (R x sx) x sx ∧
    ∀ (y : String) (sy : Nat), names_variable (R x sx) y sy → R y sy = R x sx

/-- Every relation set of the store is an equivalence class. -/
def class_store (cur_slist : state_list) : Prop :=
  ∀ (x : String) (sx : Nat), class_at (related_of cur_slist) x sx

/-- Two bindings are bindings of the same (checker, variable name, symbol). -/
def same_key (a b : sm_state) : Prop :=
  match a, b with
  | .node x _ _, .node y _ _ => x.owner = y.owner ∧ x.name = y.name ∧ x.sym = y.sym
  | _, _ => False

/-- A snapshot as the data model has it: bindings, one for each (checker, variable). -/
def wf_slist (slist : state_list) : Prop :=
  (∀ sm ∈ slist, sm.isNull = false) ∧ slist.Pairwise (fun a b => ¬ same_key a b)

/-- What is used of `merge_slist` (smatch_slist.c): merged into the NULL snapshot a snapshot
is the result itself (both `final_states` and `db_info.slist` start NULL, and
`call_implies_callbacks` merges into a NULL list only); the join of two snapshots is a
snapshot; a variable bound on both sides is bound in the join, to a state whose range set
is the union of the two range sets. -/
structure merge_slist_ok (H : helpers) : Prop where
  nil_left : ∀ slist : state_list, H.merge_slist [] slist = slist
  wf : ∀ dest slist : state_list, wf_slist dest → wf_slist slist →
    wf_slist (H.merge_slist dest slist)
  join : ∀ (dest slist : state_list) (owner : Nat) (name : String) (sym : Nat)
    (s1 s2 : smatch_state),
    get_state dest owner name sym = some s1 → get_state slist owner name sym = some s2 →
    ∃ st : smatch_state, get_state (H.merge_slist dest slist) owner name sym = some st ∧
      ∀ v : Int, in_range_list v (get_dinfo st).value_ranges ↔
        (in_range_list v (get_dinfo s1).value_ranges ∨
         in_range_list v (get_dinfo s2).value_ranges)

/-- What is used of the allocation of range states (smatch_extra.c): the state holds the
ranges it was allocated with. -/
structure estate_alloc_ok (H : helpers) : Prop where
  range : ∀ lo hi : Int, (get_dinfo (H.alloc_estate_range lo hi)).value_ranges = [⟨lo, hi⟩]
  range_list : ∀ rl : range_list,
    (get_dinfo (H.alloc_estate_range_list rl)).value_ranges = rl

/-- The callbacks of the list leave a snapshot a snapshot. -/
def call_backs_keep_wf (call_backs : call_back_list) : Prop :=
  ∀ tmp ∈ call_backs, ∀ (fn : String) (e1 : expression) (e2 : Option expression) (info : Nat)
    (slist : state_list), wf_slist slist → wf_slist (tmp.call_back fn e1 e2 info slist)

/-- The fact consumers of the list leave a snapshot a snapshot. -/
def db_callbacks_keep_wf (db_implies_list : List return_implies_callback) : Prop :=
  ∀ tmp ∈ db_implies_list, ∀ (e : expression) (param : Int) (key value : String)
    (slist : state_list), wf_slist slist → wf_slist (tmp.callback e param key value slist)

/-- The scratch snapshot of one interval, run on its own: the callbacks registered with
this very interval run from the empty snapshot, then the variable is set to the
interval. -/
def ranged_scratch (H : helpers) (fn : String) (expr right : expression) (var_name : String)
    (sym : Nat) (call_backs : call_back_list) (r : data_range) : state_list :=
  set_extra_mod H var_name sym (H.alloc_estate_range r.min r.max)
    (call_ranged_call_backs (get_same_ranged_call_backs call_backs r) fn right expr [])

/-- The intervals for which the loop of `assign_ranged_funcs` opens a scratch snapshot: the
intervals of the ranged callbacks, each once, in the order of registration. -/
def new_ranges : call_back_list → range_list → range_list
  | [], _ => []
  | tmp :: rest, handled =>
    if tmp.type ≠ RANGED_CALL then new_ranges rest handled
    else if in_list_exact handled tmp.range then new_ranges rest handled
    else tmp.range :: new_ranges rest (handled ++ [tmp.range])

/-- The scratch snapshot of one five-column row of the fact store, run on its own. -/
def row_scratch (H : helpers) (db_implies_list : List return_implies_callback)
    (left right : expression) (a0 a1 a2 key value : String) : state_list :=
  set_extra_expr_mod H left (H.alloc_estate_range_list (H.get_value_ranges a0))
    (db_implies_list.foldl
      (fun cur tmp =>
        if tmp.type = H.atoi a1 then tmp.callback right (H.atoi a2) key value cur else cur)
      [])

/-- The scratch snapshot of a row, if the row has five columns. -/
def row_scratch_of (H : helpers) (db_implies_list : List return_implies_callback)
    (left right : expression) (argv : List String) : Option state_list :=
  match argv with
  | [a0, a1, a2, key, value] => some (row_scratch H db_implies_list left right a0 a1 a2 key value)
  | _ => none

/-- Every merged node of the tree holds, as its range set, the union of the range sets of
its `left` and `right` children. -/
def ranges_are_unions : sm_state → Prop
  | .NULL => True
  | .node d l r =>
    (d.merged = true → ∀ v : Int, in_range_list v (get_dinfo d.state).value_ranges ↔
        (in_range_list v l.ranges ∨ in_range_list v r.ranges)) ∧
    ranges_are_unions l ∧ ranges_are_unions r

/-- The binding carries the name and the symbol of `tmp`. -/
def same_variable (tmp sm : sm_state) : Prop :=
  sm.data.map sm_data.name = tmp.data.map sm_data.name ∧
  sm.data.map sm_data.sym = tmp.data.map sm_data.sym

/-- One call of a registration function of the dispatcher, with its arguments. -/
inductive registration where
  | function_hook (look_for : String)
      (call_back : String → expression → Option expression → Nat → state_list → state_list)
      (info : Nat) : registration
  | function_assign_hook (look_for : String)
      (call_back : String → expression → Option expression → Nat → state_list → state_list)
      (info : Nat) : registration
  | macro_assign_hook (look_for : String)
      (call_back : String → expression → Option expression → Nat → state_list → state_list)
      (info : Nat) : registration
  | return_implies (look_for : String) (start finish : Int)
      (call_back : String → expression → Option expression → Nat → state_list → state_list)
      (info : Nat) : registration

/-- The registry after one registration call. -/
def register (func_hash : String → call_back_list) : registration → String → call_back_list
  | .function_hook look_for call_back info => add_function_hook look_for call_back info func_hash
  | .function_assign_hook look_for call_back info =>
    add_function_assign_hook look_for call_back info func_hash
  | .macro_assign_hook look_for call_back info =>
    add_macro_assign_hook look_for call_back info func_hash
  | .return_implies look_for start finish call_back info =>
    return_implies_state look_for start finish call_back info func_hash

/-- The registry after a sequence of registration calls, starting from the empty hash
table. -/
def registry_of (calls : List registration) : String → call_back_list :=
  calls.foldl register (fun _ => [])

/-- The callbacks registered on the name with `add_function_hook`, with their `info`, in
the order of the calls. -/
def plain_hooks_on (name : String) : List registration →
    List ((String → expression → Option expression → Nat → state_list → state_list) × Nat)
  | [] => []
  | .function_hook look_for call_back info :: rest =>
    if look_for = name then (call_back, info) :: plain_hooks_on name rest
    else plain_hooks_on name rest
  | _ :: rest => plain_hooks_on name rest

/-- The callback list entry a registration call makes, when it is on the name. -/
def entry_on (name : String) : registration → Option fcall_back
  | .function_hook look_for call_back info =>
    if look_for = name then some (alloc_fcall_back REGULAR_CALL call_back info) else none
  | .function_assign_hook look_for call_back info =>
    if look_for = name then some (alloc_fcall_back ASSIGN_CALL call_back info) else none
  | .macro_assign_hook look_for call_back info =>
    if look_for = name then some (alloc_fcall_back MACRO_ASSIGN call_back info) else none
  | .return_implies look_for start finish call_back info =>
    if look_for = name then
      some { type := RANGED_CALL, range := ⟨start, finish⟩, call_back := call_back, info := info }
    else none

/-- The snapshot holds no SMATCH_EXTRA binding of the variable. -/
def no_extra_binding (slist : state_list) (name : String) (sym : Nat) : Prop :=
  ∀ (d : sm_data) (l r : sm_state), .node d l r ∈ slist →
    ¬ (d.owner = SMATCH_EXTRA ∧ d.name = name ∧ d.sym = sym)

/-- Neither snapshot of the pair holds a SMATCH_EXTRA binding of the variable or of a
variable that the relation list names. -/
def equiv_deleted (related : related_list) (name : String) (sym : Nat)
    (res : state_list × state_list) : Prop :=
  ∀ (y : String) (sy : Nat), ((y = name ∧ sy = sym) ∨ names_variable related y sy) →
    no_extra_binding res.1 y sy ∧ no_extra_binding res.2 y sy

/-- The comparison `x != 0` as an expression of the front-end. -/
def not_equal_zero (x : expression) : expression :=
  .EXPR_COMPARE SPECIAL_NOTEQUAL x (.EXPR_VALUE 0)

/-- The handling of an assignment condition as the specification words it: the engine
recurses into both sides, the right side first, then the left side, each call going on
from the snapshots the one before left. -/
def spec_assignment_recursion (H : helpers) (C : cond_helpers) (mem : pool_heap)
    (cur_slist : state_list) (left right : expression) (implied_true implied_false : state_list) :
    Option (state_list × state_list) :=
  match get_tf_states H C mem cur_slist right implied_true implied_false with
  | none => none
  | some (t, f) => get_tf_states H C mem cur_slist left t f

/-- What is used of `strip_expr` (smatch_helper.c): it returns a part of its argument, so
the result has no more nodes than the argument. -/
def strip_expr_ok (H : helpers) : Prop :=
  ∀ expr : expression, (H.strip_expr expr).size ≤ expr.size

/-- Every relation set of the store is empty or names the variable whose state holds it. -/
def names_itself (cur_slist : state_list) : Prop :=
  ∀ (x : String) (sx : Nat),
    related_of cur_slist x sx = [] ∨ names_variable (related_of cur_slist x sx) x sx

/-- What is used of `clone_sm` (smatch_slist.c) where a filtered binding is rebuilt: the clone
of a binding is a binding with the same state. -/
def clone_keeps_state (H : helpers) : Prop :=
  ∀ (d : sm_data) (l r : sm_state), ∃ (d2 : sm_data) (l2 r2 : sm_state),
    H.clone_sm (.node d l r) = .node d2 l2 r2 ∧ d2.state = d.state

/-- No binding that is reachable from the binding through `left` and `right`, the binding
included, has its `my_pool` in the pool stack. -/
def no_pool_in : sm_state → state_list_stack → Prop
  | .NULL, _ => True
  | .node d l r, pools => d.my_pool ∉ pools ∧ no_pool_in l pools ∧ no_pool_in r pools

/-- The bindings `filter_stack` is after: for every binding of the pre-condition snapshot,
in order, for which `remove_my_pools` from a cleared flag returns a binding and sets the
flag, the binding returned, carrying the name and the symbol of the binding of the
snapshot. -/
def filtered_bindings (H : helpers) (pre_list : state_list) (stack : state_list_stack) :
    state_list :=
  pre_list.filterMap fun tmp =>
    if !(remove_my_pools H tmp stack false).1.isNull && (remove_my_pools H tmp stack false).2
    then some (copy_name_sym tmp (remove_my_pools H tmp stack false).1)
    else none

/-- The test `(counter++)%10 && out_of_memory()` succeeds at one of `n` additions in a row,
the first of which finds the counter at `counter`. -/
def runs_out (H : helpers) : Nat → Nat → Bool
  | _, 0 => false
  | counter, n + 1 =>
    (decide (counter % 10 ≠ 0) && H.out_of_memory counter) || runs_out H (counter + 1) n

/-- The order `add_related` keeps between an entry and every later one: the test that
makes its loop step over an entry, `tmp->op < op || tmp->sym < sym ||
strcmp(tmp->name, name) < 0`. -/
def stepped_over (x y : relation) : Prop :=
  x.op < y.op ∨ x.sym < y.sym ∨ strcmp x.name y.name < 0

/-- A sequence of `add_related` calls on one state, one call for every triple of the
list, in order. -/
def add_related_calls (state : smatch_state) (calls : List relation) : smatch_state :=
  calls.foldl (fun st c => add_related st c.op c.name c.sym) state

/-- The identity of a binding: the address a pointer to it holds, nothing for NULL. -/
def sm_state.ident (sm : sm_state) : Option Nat := sm.data.map sm_data.addr

/-- Every binding reachable from a binding through `left` and `right`, itself included. -/
def sm_state.subnodes : sm_state → List sm_state
  | .NULL => []
  | .node d l r => .node d l r :: (sm_state.subnodes l ++ sm_state.subnodes r)

/-- Pointers are honest in a merge graph: two bindings reachable from the root that have
the same address are the same binding, with the same fields and the same children. -/
def addr_consistent (root : sm_state) : Prop :=
  ∀ x ∈ root.subnodes, ∀ y ∈ root.subnodes, x.ident = y.ident → x = y

/-- A binding is reached from the root along `left` and `right` through bindings, its
ancestors on the path, that all have at most 4000 children. -/
inductive guarded_path (root : sm_state) : sm_state → Prop where
  | root (d : sm_data) (l r : sm_state) : root = .node d l r → guarded_path root root
  | left (d : sm_data) (r : sm_state) (cd : sm_data) (cl cr : sm_state) :
      guarded_path root (.node d (.node cd cl cr) r) → d.nr_children ≤ 4000 →
      guarded_path root (.node cd cl cr)
  | right (d : sm_data) (l : sm_state) (cd : sm_data) (cl cr : sm_state) :
      guarded_path root (.node d l (.node cd cl cr)) → d.nr_children ≤ 4000 →
      guarded_path root (.node cd cl cr)

/-- The bindings `do_compare` is invoked on by one top-level call of `separate_pools`, in
the order of the invocations: `separate_pools` appends a binding to the list behind
`checked` right before it invokes `do_compare` on it, so these are the bindings of that
list, read off a call that is given an empty list instead of the NULL pointer. -/
def do_compare_calls (H : helpers) (mem : pool_heap) (comparison : Int) (vals : range_list)
    (lr : Int) (sm : sm_state) : state_list :=
  (separate_pools H mem comparison vals lr sm [] [] (some [])).2.2.getD []

/-- The bindings a call of `separate_pools` adds to the list behind `checked`, in order,
when the list holds `checked` at the call. -/
def visits : sm_state → state_list → state_list
  | .NULL, _ => []
  | .node d l r, checked =>
    if d.nr_children > 4000 then []
    else if is_checked checked (.node d l r) then []
    else
      .node d l r ::
        (visits l (checked ++ [.node d l r]) ++
         visits r (checked ++ [.node d l r] ++ visits l (checked ++ [.node d l r])))

/-- The order of two relations by the key (operator, symbol address, name), compared
lexicographically: the first differs first in a smaller component, or the keys are the
same. -/
def key_le (x y : relation) : Prop :=
  x.op < y.op ∨ (x.op = y.op ∧ (x.sym < y.sym ∨ (x.sym = y.sym ∧ strcmp x.name y.name ≤ 0)))

/-- A relation list sorted by the key (operator, symbol address, name). -/
def sorted_by_key (related : related_list) : Prop := related.Pairwise key_le

/-- What is used of the range list helpers (smatch_ranges.c): a clone of a range list holds
the intervals of the list, and `add_range` on the NULL list makes the list of the one
interval. -/
structure range_helpers_ok (S : switch_helpers) : Prop where
  clone_range_list_eq : ∀ rl : range_list, S.clone_range_list rl = rl
  add_range_null : ∀ lo hi : Int, S.add_range [] lo hi = [⟨lo, hi⟩]

/-- What is used of the snapshot helpers (smatch_slist.c, smatch_extra.c): a clone of a
snapshot binds as the snapshot does; `set_state_slist` binds the variable to the state in
the snapshot and leaves the other bindings alone; `overwrite_slist` leaves a snapshot in
which every variable bound in the first snapshot is bound as there and every other variable
as it was; the state allocated for a range list holds the range list. -/
structure slist_helpers_ok (S : switch_helpers) : Prop where
  clone_slist_get : ∀ (slist : state_list) (owner : Nat) (name : String) (sym : Nat),
    get_state (S.clone_slist slist) owner name sym = get_state slist owner name sym
  set_state_slist_wf : ∀ (slist : state_list) (owner : Nat) (name : String) (sym : Nat)
    (state : smatch_state), wf_slist slist →
    wf_slist (S.set_state_slist slist owner name sym state)
  set_state_slist_get : ∀ (slist : state_list) (owner : Nat) (name : String) (sym : Nat)
    (state : smatch_state) (o : Nat) (n : String) (s : Nat),
    get_state (S.set_state_slist slist owner name sym state) o n s =
      if owner = o ∧ name = n ∧ sym = s then some state else get_state slist o n s
  overwrite_slist_get : ∀ (src dst : state_list), wf_slist src →
    ∀ (o : Nat) (n : String) (s : Nat),
      get_state (S.overwrite_slist src dst) o n s =
        match get_state src o n s with
        | some st => some st
        | none => get_state dst o n s
  alloc_ranges : ∀ rl : range_list,
    (get_dinfo (S.alloc_extra_state_range_list rl)).value_ranges = rl

/-- The derived true snapshot of a case of a switch on the variable: what
`separate_and_filter` stores through `true_states` for the comparison of the variable with
the value list of the case, and NULL when the raw snapshot has no binding of the variable
or a binding that is not merged. -/
def derived_true (H : helpers) (mem : pool_heap) (raw_slist : state_list) (name : String)
    (sym : Nat) (vals : range_list) : state_list :=
  (if (get_sm_state_slist raw_slist SMATCH_EXTRA name sym).isNull then ([], [])
   else separate_and_filter H mem (get_sm_state_slist raw_slist SMATCH_EXTRA name sym)
     SPECIAL_EQUAL vals LEFT raw_slist [] []).1

/-! ## Example data

A small value domain and small allocating helpers, used to run the definitions on
concrete inputs. -/

/-- Modelled from the spec: the value domain (smatch_ranges.c) is a supplied capability that
compares interval sets under an operator.  `possibly_true_range op l r` says that some value
of `l` and some value of `r` satisfy `l op r`. -/
def possibly_true_range (op : Int) (l r : data_range) : Bool :=
  if op = SPECIAL_EQUAL then decide (l.min ≤ r.max ∧ r.min ≤ l.max)
  else if op = SPECIAL_NOTEQUAL then !decide (l.min = l.max ∧ r.min = r.max ∧ l.min = r.min)
  else if op = 60 then decide (l.min < r.max)
  else if op = 62 then decide (r.min < l.max)
  else if op = SPECIAL_LTE then decide (l.min ≤ r.max)
  else if op = SPECIAL_GTE then decide (r.min ≤ l.max)
  else true

/-- Modelled from the spec: some value of `l` and some value of `r` falsify `l op r`. -/
def possibly_false_range (op : Int) (l r : data_range) : Bool :=
  if op = SPECIAL_EQUAL then possibly_true_range SPECIAL_NOTEQUAL l r
  else if op = SPECIAL_NOTEQUAL then possibly_true_range SPECIAL_EQUAL l r
  else if op = 60 then possibly_true_range SPECIAL_GTE l r
  else if op = 62 then possibly_true_range SPECIAL_LTE l r
  else if op = SPECIAL_LTE then possibly_true_range 62 l r
  else if op = SPECIAL_GTE then possibly_true_range 60 l r
  else true

/-- Modelled from the spec: a comparison of a state against a value list is possibly true
when it is for one interval of the state and one interval of the list; `left` tells on
which side of the operator the state stands. -/
def example_possibly_true (op : Int) (dinfo : data_info) (vals : range_list) (left : Int) : Bool :=
  dinfo.value_ranges.any fun a => vals.any fun b =>
    if left ≠ 0 then possibly_true_range op a b else possibly_true_range op b a

/-- Modelled from the spec: the counterpart of `example_possibly_true` for falsity. -/
def example_possibly_false (op : Int) (dinfo : data_info) (vals : range_list) (left : Int) : Bool :=
  dinfo.value_ranges.any fun a => vals.any fun b =>
    if left ≠ 0 then possibly_false_range op a b else possibly_false_range op b a

/-- Modelled from the spec: `clone_sm` (smatch_slist.c) copies a binding into a new object;
the example allocator places the copy of the node at address `a` at `a + 1000`. -/
def example_clone_sm : sm_state → sm_state
  | .NULL => .NULL
  | .node d l r => .node { d with addr := d.addr + 1000 } l r

/-- Modelled from the spec: `merge_sm_states` (smatch_slist.c) creates a new `merged`
binding whose `left` and `right` point at the two inputs, whose `my_pool` is unset and
whose state is the join of the two states, the union of their ranges. -/
def example_merge_sm_states : sm_state → sm_state → sm_state
  | .node d1 l1 r1, .node d2 l2 r2 =>
    .node { addr := d1.addr + d2.addr + 2000, owner := d1.owner, name := d1.name, sym := d1.sym,
            state := { name := "merged",
                       data := { related := [],
                                 value_ranges := (get_dinfo d1.state).value_ranges ++
                                                 (get_dinfo d2.state).value_ranges } },
            my_pool := 0, merged := true, implied := false,
            nr_children := d1.nr_children + d2.nr_children,
            line := d1.line, possible := d1.possible ++ d2.possible }
      (.node d1 l1 r1) (.node d2 l2 r2)
  | .node d1 l1 r1, .NULL => .node d1 l1 r1
  | .NULL, other => other

/-- A SMATCH_EXTRA state holding the single interval `[lo,hi]` and no relation. -/
def example_estate (lo hi : Int) : smatch_state :=
  { name := "", data := { related := [], value_ranges := [⟨lo, hi⟩] } }

/-- A binding of the first snapshot joined with its counterpart in `slist`, if there is
one. -/
def example_merge_one (slist : state_list) (sm : sm_state) : sm_state :=
  match sm with
  | .NULL => .NULL
  | .node d l r =>
    if (get_sm_state_slist slist d.owner d.name d.sym).isNull then .node d l r
    else example_merge_sm_states (.node d l r) (get_sm_state_slist slist d.owner d.name d.sym)

/-- The bindings of `slist` that have no counterpart in `dest`. -/
def example_only_in (dest : state_list) (sm : sm_state) : Bool :=
  match sm with
  | .NULL => false
  | .node d _ _ => (get_sm_state_slist dest d.owner d.name d.sym).isNull

/-- Modelled from the spec: `merge_slist` (smatch_slist.c) joins two snapshots: a variable
bound on both sides gets the merged binding of `merge_sm_states`, an empty snapshot is
joined with nothing, so the other snapshot is the result; in this example a variable bound
on one side only keeps its binding. -/
def example_merge_slist (dest slist : state_list) : state_list :=
  if dest = [] then slist
  else dest.map (example_merge_one slist) ++ slist.filter (example_only_in dest)

/-- The example helpers: the example value domain and allocator, and memory that never runs out. -/
def example_helpers : helpers where
  possibly_true_range_list_lr := example_possibly_true
  possibly_false_range_list_lr := example_possibly_false
  clone_sm := example_clone_sm
  merge_sm_states := example_merge_sm_states
  out_of_memory := fun _ => false
  get_variable_from_expr := fun expr =>
    match expr with
    | .EXPR_SYMBOL symbol ident => (some ident, symbol)
    | _ => (none, 0)
  alloc_state := fun owner name sym state =>
    .node { addr := 5000 + sym, owner := owner, name := name, sym := sym, state := state,
            my_pool := 0, merged := false, implied := false, nr_children := 1, line := 0,
            possible := [state] } .NULL .NULL
  extra_undefined := { name := "unknown", data := { related := [], value_ranges :=
    [⟨-9223372036854775808, 9223372036854775807⟩] } }
  alloc_estate_range := fun lo hi => example_estate lo hi
  alloc_estate_range_list := fun rl => { name := "", data := { related := [], value_ranges := rl } }
  merge_slist := example_merge_slist
  strip_expr := fun expr => expr
  symbol_is_static := fun _ => false
  get_filename := "example.c"
  run_sql := fun _ => [["-4095--1", "0", "0", "", ""], ["malformed"]]
  get_value_ranges := fun text => if text = "-4095--1" then [⟨-4095, -1⟩] else []
  atoi := fun _ => 0

/-- A binding of `name` (symbol `sym`) at address `addr`, set in pool `pool`, not merged. -/
def example_leaf (addr : Nat) (name : String) (sym : Nat) (lo hi : Int) (pool : Nat) : sm_state :=
  .node { addr := addr, owner := SMATCH_EXTRA, name := name, sym := sym,
          state := example_estate lo hi, my_pool := pool, merged := false, implied := false,
          nr_children := 1, line := 0, possible := [] } .NULL .NULL

/-- A merged binding of `name` over two children, holding the ranges `rl`, with a given
child count. -/
def example_merged (addr : Nat) (name : String) (sym : Nat) (rl : range_list) (pool nr : Nat)
    (l r : sm_state) : sm_state :=
  .node { addr := addr, owner := SMATCH_EXTRA, name := name, sym := sym,
          state := { name := "merged", data := { related := [], value_ranges := rl } },
          my_pool := pool, merged := true, implied := false,
          nr_children := nr, line := 0, possible := [] } l r

/-- The binding of `foo` after `foo = 1; if (bar) foo = 99; else frob();`, with child
count `nr`: 99 in pool 100 and 1 in pool 200. -/
def example_foo (nr : Nat) : sm_state :=
  example_merged 10 "foo" 1 [⟨1, 1⟩, ⟨99, 99⟩] 0 nr
    (example_leaf 11 "foo" 1 99 99 100) (example_leaf 12 "foo" 1 1 1 200)

/-- The binding of `bar` merged at the same point: non-zero in pool 100, zero in pool 200. -/
def example_bar : sm_state :=
  example_merged 20 "bar" 2 [⟨0, 0⟩, ⟨1, 5⟩] 0 2
    (example_leaf 21 "bar" 2 1 5 100) (example_leaf 22 "bar" 2 0 0 200)

/-- A working snapshot in which `b` (symbol 7) is bound to the range `[1,5]` without
relation and `a` (symbol 3) has no binding. -/
def example_store : state_list := [example_leaf 1 "b" 7 1 5 0]

/-- The expressions `a` and `b` of the assignment `a = b`. -/
def example_expr_a : expression := .EXPR_SYMBOL 3 "a"
def example_expr_b : expression := .EXPR_SYMBOL 7 "b"

/-- The example store after `a = b`: `a` and `b` share the relation set `a`, `b`. -/
def example_equiv_store : state_list :=
  set_equiv example_helpers example_expr_a example_expr_b example_store

/-- The example store after `a = b; c = b`: the three variables share one relation set. -/
def example_equiv_store3 : state_list :=
  set_equiv example_helpers (.EXPR_SYMBOL 9 "c") example_expr_b example_equiv_store

/-- A binding of `name` whose state lists exactly one other variable as equal. -/
def example_lists (addr : Nat) (name : String) (sym : Nat) (other : String) (other_sym : Nat) :
    sm_state :=
  .node { addr := addr, owner := SMATCH_EXTRA, name := name, sym := sym,
          state := add_equiv (example_estate 1 5) other other_sym,
          my_pool := 0, merged := false, implied := false,
          nr_children := 1, line := 0, possible := [] } .NULL .NULL

/-- A symmetric store that is not made of equivalence classes: `b` lists `c` only and `c`
lists `b` only. -/
def example_crossed_store : state_list :=
  [example_lists 1 "b" 7 "c" 9, example_lists 2 "c" 9 "b" 7]

/-- A binding of another checker (owner 2) for a variable, in the state of the given name. -/
def example_checker_sm (name : String) (sym : Nat) (state_name : String) : sm_state :=
  .node { addr := 6000 + sym, owner := 2, name := name, sym := sym,
          state := { name := state_name, data := { related := [], value_ranges := [] } },
          my_pool := 0, merged := false, implied := false, nr_children := 1, line := 0,
          possible := [] } .NULL .NULL

/-- A ranged hook with the interval `[0,0]`, as `return_implies_state` registers it: it
marks `p` checked. -/
def example_checked_hook : fcall_back :=
  { type := RANGED_CALL, range := ⟨0, 0⟩, info := 0,
    call_back := fun _ _ _ _ cur => __set_sm (example_checker_sm "p" 5 "checked") cur }

/-- A ranged hook with the interval `[1,10]`: it marks `p` an error pointer. -/
def example_err_hook : fcall_back :=
  { type := RANGED_CALL, range := ⟨1, 10⟩, info := 0,
    call_back := fun _ _ _ _ cur => __set_sm (example_checker_sm "p" 5 "err_ptr") cur }

/-- The two ranged hooks registered on one name. -/
def example_ranged_hooks : call_back_list := [example_checked_hook, example_err_hook]

/-- The callback list of `PTR_ERR` as check_err_ptr_deref.c registers it: one
call-with-assignment hook and no ranged hook. -/
def example_ptr_err_hooks : call_back_list :=
  [ { type := ASSIGN_CALL, range := ⟨0, 0⟩, info := 0, call_back := fun _ _ _ _ cur => cur } ]

/-- The assignment `b = f(p)` (61 is the code of `=`). -/
def example_assign_expr : expression :=
  .EXPR_ASSIGNMENT 61 example_expr_b (.EXPR_CALL (.EXPR_SYMBOL 50 "f"))

/-- The context in which the example store is the working snapshot and nothing is
suspended. -/
def example_context : context := { cur_slist := example_store, suspended := [] }

/-- The assignment `b = g(p)` from a function without any registered hook. -/
def example_db_assign_expr : expression :=
  .EXPR_ASSIGNMENT 61 example_expr_b (.EXPR_CALL (.EXPR_SYMBOL 51 "g"))

/-- A registry without any callback list. -/
def example_empty_hash : String → call_back_list := fun _ => []

/-- One fact consumer, of kind 0: it marks `p` an error pointer. -/
def example_db_implies_list : List return_implies_callback :=
  [ { type := 0,
      callback := fun _ _ _ _ cur => __set_sm (example_checker_sm "p" 5 "err_ptr") cur } ]

/-- A heap in which every pool is empty. -/
def example_heap : pool_heap := fun _ => []

/-- A callback that leaves a mark: it appends a binding of checker 2 whose symbol is the
`info` it was registered with. -/
def example_marking_hook :
    String → expression → Option expression → Nat → state_list → state_list :=
  fun _ _ _ info cur => cur ++ [example_checker_sm "p" info "called"]

/-- Six registrations: plain hooks on `f` (twice) and on `g`, and one hook of each other kind
on `f`. -/
def example_registrations : List registration :=
  [.function_hook "f" example_marking_hook 1, .function_assign_hook "f" example_marking_hook 2,
   .function_hook "g" example_marking_hook 3, .return_implies "f" 0 0 example_marking_hook 4,
   .function_hook "f" example_marking_hook 5, .macro_assign_hook "f" example_marking_hook 6]

/-- The fields of an implied binding of `foo` that was set in pool 100. -/
def example_implied_data : sm_data :=
  { addr := 13, owner := SMATCH_EXTRA, name := "foo", sym := 1, state := example_estate 99 99,
    my_pool := 100, merged := false, implied := true, nr_children := 1, line := 0,
    possible := [] }

/-- The example condition helpers: a constant has its value and the range list of its value,
other expressions have neither; the comparisons are those of the example value domain. -/
def example_cond_helpers : cond_helpers where
  get_value := fun expr =>
    match expr with
    | .EXPR_VALUE v => some v
    | _ => none
  get_range_list := fun expr =>
    match expr with
    | .EXPR_VALUE v => [⟨v, v⟩]
    | _ => []
  true_comparison_range_lr := fun op l r left =>
    if left ≠ 0 then possibly_true_range op l r else possibly_true_range op r l
  false_comparison_range_lr := fun op l r left =>
    if left ≠ 0 then possibly_false_range op l r else possibly_false_range op r l
  possibly_true_range_lists_rl := fun op l r left =>
    l.any fun a => r.any fun b =>
      if left ≠ 0 then possibly_true_range op a b else possibly_true_range op b a
  possibly_false_range_lists_rl := fun op l r left =>
    l.any fun a => r.any fun b =>
      if left ≠ 0 then possibly_false_range op a b else possibly_false_range op b a
  slist_has_state := fun possible state => possible.contains state
  undefined := { name := "undefined", data := { related := [], value_ranges := [] } }

/-- The working snapshot after `foo = 1; if (bar) foo = 99; else frob();`: the merged `foo`
and `bar`, and `a` (symbol 3) set since the merge. -/
def example_cond_store : state_list := [example_foo 2, example_bar, example_leaf 30 "a" 3 0 5 0]

/-- The expressions `foo` and `bar`. -/
def example_expr_foo : expression := .EXPR_SYMBOL 1 "foo"

def example_expr_bar : expression := .EXPR_SYMBOL 2 "bar"

/-- A registry in which `PTR_ERR` has the callback list check_err_ptr_deref.c registers and
no other name has any. -/
def example_ptr_err_hash : String → call_back_list :=
  fun name => if name = "PTR_ERR" then example_ptr_err_hooks else []

/-- The context of a condition on the example store, with no fact recorded yet. -/
def example_cond_context : cond_context :=
  { ctx := example_context, cond_true := [], cond_false := [] }

/-- The call `PTR_ERR(p)` and the call `g(p)` of a function without any registered hook. -/
def example_call_ptr_err : expression := .EXPR_CALL (.EXPR_SYMBOL 60 "PTR_ERR")

def example_call_g : expression := .EXPR_CALL (.EXPR_SYMBOL 51 "g")

/-- A heap in which pool 100 holds a binding of `foo` with the state `[99,99]` that was set
in pool 50. -/
def example_borrowing_heap : pool_heap :=
  fun pool => if pool = 100 then [example_leaf 14 "foo" 1 99 99 50] else []

/-- A heap in which pool 100 holds a binding of `foo` with the state `[99,99]` that was set
in pool 100 itself. -/
def example_own_pool_heap : pool_heap :=
  fun pool => if pool = 100 then [example_leaf 14 "foo" 1 99 99 100] else []

/-- The fields of an implied binding of `foo` whose own state is `[1,1]` and whose pool is
pool 100. -/
def example_implied_one : sm_data :=
  { addr := 15, owner := SMATCH_EXTRA, name := "foo", sym := 1, state := example_estate 1 1,
    my_pool := 100, merged := false, implied := true, nr_children := 1, line := 0,
    possible := [] }

/-- A merged binding of `foo` whose own pool is pool 300, over the leaf `[99,99]` of pool 100
and a merged binding over the leaves of the pools 100 and 200. -/
def example_pooled_foo : sm_state :=
  example_merged 40 "foo" 1 [⟨1, 1⟩, ⟨99, 99⟩] 300 3 (example_leaf 41 "foo" 1 99 99 100)
    (example_foo 2)

/-- The example helpers with memory that has run out. -/
def example_exhausted_helpers : helpers :=
  { example_helpers with out_of_memory := fun _ => true }

/-- A state whose relation set is empty. -/
def example_unrelated_state : smatch_state :=
  { name := "1-5", data := { related := [], value_ranges := [⟨1, 5⟩] } }

/-- Four calls of `add_related` with two operators, the last one repeating the first. -/
def example_related_calls : List relation :=
  [⟨SPECIAL_EQUAL, "a", 5⟩, ⟨SPECIAL_EQUAL, "b", 3⟩, ⟨60, "a", 5⟩, ⟨SPECIAL_EQUAL, "a", 5⟩]

/-- A merge graph with a shared binding: the leaf of pool 100 (address 11) is the left
child of the merged `foo` (address 10) and of the merged binding of address 51. -/
def example_shared_foo : sm_state :=
  example_merged 50 "foo" 1 [⟨1, 1⟩, ⟨99, 99⟩] 0 4 (example_foo 2)
    (example_merged 51 "foo" 1 [⟨7, 7⟩, ⟨99, 99⟩] 0 2 (example_leaf 11 "foo" 1 99 99 100)
      (example_leaf 13 "foo" 1 7 7 300))

/-- Two calls of `add_equiv`: `a` with the symbol at address 5, then `b` with the symbol at
address 3. -/
def example_unsorted_calls : List relation :=
  [⟨SPECIAL_EQUAL, "a", 5⟩, ⟨SPECIAL_EQUAL, "b", 3⟩]

/-- A registry in which `f` has the two ranged hooks and a call-with-assignment hook between
them, and no other name has any callback. -/
def example_ranged_hash : String → call_back_list :=
  fun name =>
    if name = "f" then
      [example_checked_hook,
       { type := ASSIGN_CALL, range := ⟨0, 0⟩, info := 0,
         call_back := fun _ _ _ _ cur => __set_sm (example_checker_sm "q" 6 "assigned") cur },
       example_err_hook]
    else []

/-- A heap in which pool 100 holds a binding of `foo` with an empty range set that was set
in pool 50. -/
def example_void_heap : pool_heap :=
  fun pool =>
    if pool = 100 then
      [.node { addr := 16, owner := SMATCH_EXTRA, name := "foo", sym := 1,
               state := { name := "", data := { related := [], value_ranges := [] } },
               my_pool := 50, merged := false, implied := false, nr_children := 1, line := 0,
               possible := [] } .NULL .NULL]
    else []

/-- The fields of a binding of `foo` of pool 100 with an empty range set, not implied. -/
def example_void_data : sm_data :=
  { addr := 17, owner := SMATCH_EXTRA, name := "foo", sym := 1,
    state := { name := "", data := { related := [], value_ranges := [] } },
    my_pool := 100, merged := false, implied := false, nr_children := 1, line := 0,
    possible := [] }

/-- The binding of `foo` of pool 100 with an empty range set. -/
def example_void_leaf : sm_state := .node example_void_data .NULL .NULL

/-- The merged `foo` over the binding with the empty range set, of pool 100, and the leaf
`[1,1]` of pool 200. -/
def example_void_foo : sm_state :=
  example_merged 18 "foo" 1 [⟨1, 1⟩] 0 2 example_void_leaf (example_leaf 12 "foo" 1 1 1 200)

/-- Example helpers for the cases of a switch: the whole range is that of `long long`;
clones are the lists themselves; the top of a stack of range lists is its last list, from
which `filter_top_range_list` takes the interval of the value out; `set_state_slist` and
`overwrite_slist` install bindings with `__set_sm`. -/
def example_switch_helpers : switch_helpers where
  whole_range := ⟨-9223372036854775808, 9223372036854775807⟩
  clone_range_list := fun rl => rl
  add_range := fun rl lo hi => rl ++ [⟨lo, hi⟩]
  top_range_list := fun stack => stack.getLastD []
  filter_top_range_list := fun stack val =>
    stack.dropLast ++ [(stack.getLastD []).filter fun r => !(decide (r.min = val ∧ r.max = val))]
  clone_slist := fun slist => slist
  set_state_slist := fun slist owner name sym state =>
    __set_sm (example_helpers.alloc_state owner name sym state) slist
  overwrite_slist := fun src dst => set_each_sm src dst
  alloc_extra_state_range_list := example_helpers.alloc_estate_range_list

theorem mem_add_pool_self (stack : state_list_stack) (p : Nat) : p ∈ add_pool stack p := by
  induction stack with
  | nil => simp [add_pool]
  | cons t rest ih =>
    unfold add_pool
    split
    · exact List.mem_cons_of_mem _ ih
    · split
      · rename_i h; subst h; exact List.mem_cons_self _ _
      · exact List.mem_cons_self _ _

theorem mem_add_pool_of_mem (stack : state_list_stack) (p q : Nat) (h : q ∈ stack) :
    q ∈ add_pool stack p := by
  induction stack with
  | nil => cases h
  | cons t rest ih =>
    unfold add_pool
    split
    · rcases List.mem_cons.mp h with h1 | h1
      · subst h1; exact List.mem_cons_self _ _
      · exact List.mem_cons_of_mem _ (ih h1)
    · split
      · exact h
      · exact List.mem_cons_of_mem _ h

theorem mem_add_pool_iff (stack : state_list_stack) (p q : Nat) :
    q ∈ add_pool stack p ↔ q = p ∨ q ∈ stack := by
  constructor
  · intro h
    induction stack with
    | nil => simp [add_pool] at h; exact Or.inl h
    | cons t rest ih =>
      unfold add_pool at h
      split at h
      · rcases List.mem_cons.mp h with h1 | h1
        · exact Or.inr (h1 ▸ List.mem_cons_self _ _)
        · rcases ih h1 with h2 | h2
          · exact Or.inl h2
          · exact Or.inr (List.mem_cons_of_mem _ h2)
      · split at h
        · exact Or.inr h
        · rcases List.mem_cons.mp h with h1 | h1
          · exact Or.inl h1
          · exact Or.inr h1
  · rintro (h | h)
    · subst h; exact mem_add_pool_self _ _
    · exact mem_add_pool_of_mem _ _ _ h

theorem pool_in_pools_of_sorted (p : Nat) (stack : state_list_stack)
    (hsorted : stack.Pairwise (· ≤ ·)) : pool_in_pools p stack = true ↔ p ∈ stack := by
  induction stack with
  | nil => simp [pool_in_pools]
  | cons t rest ih =>
    have hrest := (List.pairwise_cons.mp hsorted).2
    have hle := (List.pairwise_cons.mp hsorted).1
    unfold pool_in_pools
    split
    · rename_i h; subst h; simp
    · rename_i hne
      split
      · rename_i hgt
        constructor
        · intro h; cases h
        · intro h
          rcases List.mem_cons.mp h with h1 | h1
          · exact absurd h1.symm hne
          · have := hle p h1; omega
      · rw [ih hrest]
        constructor
        · intro h; exact List.mem_cons_of_mem _ h
        · intro h
          rcases List.mem_cons.mp h with h1 | h1
          · exact absurd h1.symm hne
          · exact h1

/-! ### The walk of the merge tree never forgets a recorded pool -/

theorem do_compare_true_mono (H : helpers) (mem : pool_heap) (sm : sm_state) (comparison : Int)
    (vals : range_list) (lr : Int) (ts fs : state_list_stack) (q : Nat) (h : q ∈ ts) :
    q ∈ (do_compare H mem sm comparison vals lr ts fs).1 := by
  cases sm with
  | NULL => exact h
  | node d l r =>
    unfold do_compare
    dsimp only
    split
    · exact h
    · generalize (if d.implied = true then get_sm_state_slist (mem d.my_pool) d.owner d.name d.sym
        else sm_state.node d l r) = s
      cases s with
      | NULL => exact h
      | node sd sl sr =>
        dsimp only
        split
        · exact mem_add_pool_of_mem _ _ _ h
        · exact h

theorem do_compare_false_mono (H : helpers) (mem : pool_heap) (sm : sm_state) (comparison : Int)
    (vals : range_list) (lr : Int) (ts fs : state_list_stack) (q : Nat) (h : q ∈ fs) :
    q ∈ (do_compare H mem sm comparison vals lr ts fs).2 := by
  cases sm with
  | NULL => exact h
  | node d l r =>
    unfold do_compare
    dsimp only
    split
    · exact h
    · generalize (if d.implied = true then get_sm_state_slist (mem d.my_pool) d.owner d.name d.sym
        else sm_state.node d l r) = s
      cases s with
      | NULL => exact h
      | node sd sl sr =>
        dsimp only
        split
        · exact mem_add_pool_of_mem _ _ _ h
        · exact h

theorem separate_pools_true_mono (H : helpers) (mem : pool_heap) (comparison : Int)
    (vals : range_list) (lr : Int) (sm : sm_state) :
    ∀ (ts fs : state_list_stack) (checked : Option state_list) (q : Nat), q ∈ ts →
      q ∈ (separate_pools H mem comparison vals lr sm ts fs checked).1 := by
  induction sm with
  | NULL => intro ts fs checked q h; simpa [separate_pools] using h
  | node d l r ihl ihr =>
    intro ts fs checked q h
    unfold separate_pools
    split
    · exact h
    · dsimp only
      split
      · exact h
      · have h1 := do_compare_true_mono H mem (.node d l r) comparison vals lr ts fs q h
        have h2 := ihl _ (do_compare H mem (.node d l r) comparison vals lr ts fs).2
          (some (checked.getD [] ++ [.node d l r])) q h1
        have h3 := ihr _ (separate_pools H mem comparison vals lr l
          (do_compare H mem (.node d l r) comparison vals lr ts fs).1
          (do_compare H mem (.node d l r) comparison vals lr ts fs).2
          (some (checked.getD [] ++ [.node d l r]))).2.1
          (separate_pools H mem comparison vals lr l
          (do_compare H mem (.node d l r) comparison vals lr ts fs).1
          (do_compare H mem (.node d l r) comparison vals lr ts fs).2
          (some (checked.getD [] ++ [.node d l r]))).2.2 q h2
        split
        · exact h3
        · exact h3

/-- C1. Recursion guard: for a merged binding with more than 4000 children, whatever the
comparison, the value list and the pre-condition snapshot, `separate_pools` returns at once
(both stacks stay empty, nothing is marked checked) and `separate_and_filter` yields an
empty true snapshot and an empty false snapshot; a binding with exactly 4000 children is
not cut off: when its own state is definitely true its pool is recorded in the true stack. -/
theorem C1_recursion_guard :
    (∀ (H : helpers) (mem : pool_heap) (d : sm_data) (l r : sm_state) (comparison : Int)
        (vals : range_list) (lr : Int) (pre_list true_states false_states : state_list),
        d.merged = true → 4000 < d.nr_children →
        separate_pools H mem comparison vals lr (.node d l r) [] [] none = ([], [], none) ∧
        separate_and_filter H mem (.node d l r) comparison vals lr pre_list
          true_states false_states = ([], [])) ∧
    (∀ (H : helpers) (mem : pool_heap) (d : sm_data) (l r : sm_state) (comparison : Int)
        (vals : range_list) (lr : Int),
        d.nr_children = 4000 → d.my_pool ≠ 0 → d.implied = false →
        H.possibly_false_range_list_lr comparison (get_dinfo d.state) vals lr = false →
        d.my_pool ∈ (separate_pools H mem comparison vals lr (.node d l r) [] [] none).1) := by
  refine ⟨?_, ?_⟩
  · intro H mem d l r comparison vals lr pre_list true_states false_states hm hn
    have hsp : separate_pools H mem comparison vals lr (.node d l r) [] [] none
        = ([], [], none) := by
      unfold separate_pools
      simp [hn]
    refine ⟨hsp, ?_⟩
    unfold separate_and_filter
    simp [is_merged, hm, hsp, filter_stack]
  · intro H mem d l r comparison vals lr hn hp hi hpf
    have hdc : d.my_pool ∈ (do_compare H mem (.node d l r) comparison vals lr [] []).1 := by
      unfold do_compare
      simp [hp, hi, hpf, mem_add_pool_self]
    have h2 := separate_pools_true_mono H mem comparison vals lr l _
      (do_compare H mem (.node d l r) comparison vals lr [] []).2
      (some [.node d l r]) d.my_pool hdc
    have h3 := separate_pools_true_mono H mem comparison vals lr r _
      (separate_pools H mem comparison vals lr l
        (do_compare H mem (.node d l r) comparison vals lr [] []).1
        (do_compare H mem (.node d l r) comparison vals lr [] []).2
        (some [.node d l r])).2.1
      (separate_pools H mem comparison vals lr l
        (do_compare H mem (.node d l r) comparison vals lr [] []).1
        (do_compare H mem (.node d l r) comparison vals lr [] []).2
        (some [.node d l r])).2.2 d.my_pool h2
    unfold separate_pools
    simp [hn, is_checked]
    exact h3

/-- Witness of C1: the oversized `foo` gives nothing for `foo == 99`; with exactly 4000
children and its own pool 300 definitely true for `foo >= 1`, pool 300 is recorded. -/
theorem C1_recursion_guard_witness :
    separate_and_filter example_helpers example_heap (example_foo 4001) SPECIAL_EQUAL
        [⟨99, 99⟩] LEFT [example_foo 4001, example_bar] [] [] = ([], []) ∧
    300 ∈ (separate_pools example_helpers example_heap SPECIAL_GTE [⟨1, 1⟩] LEFT
        (example_merged 10 "foo" 1 [⟨1, 99⟩] 300 4000 .NULL .NULL) [] [] none).1 :=
  ⟨(C1_recursion_guard.1 example_helpers example_heap _ _ _ SPECIAL_EQUAL [⟨99, 99⟩] LEFT
      [example_foo 4001, example_bar] [] [] rfl (by decide)).2,
   C1_recursion_guard.2 example_helpers example_heap _ .NULL .NULL SPECIAL_GTE [⟨1, 1⟩] LEFT
      rfl (by decide) rfl (by decide)⟩

/-- C10. Pool membership is by identity: on a stack that is ascending by pool address,
`pool_in_pools` answers 1 exactly when the address of the pool is in the stack; a pool
that is not in the stack is not reported, even when a member of the stack stores the very
same snapshot. -/
theorem C10_pool_membership_by_identity (mem : pool_heap) (p : Nat) (stack : state_list_stack)
    (hsorted : stack.Pairwise (· ≤ ·)) :
    (pool_in_pools p stack = true ↔ p ∈ stack) ∧
    (p ∉ stack → (∃ q ∈ stack, mem q = mem p) → pool_in_pools p stack = false) := by
  refine ⟨pool_in_pools_of_sorted p stack hsorted, ?_⟩
  intro hp _
  cases h : pool_in_pools p stack
  · rfl
  · exact absurd ((pool_in_pools_of_sorted p stack hsorted).mp h) hp

/-- Witness of C10: pool 300 stores the same (empty) snapshot as pools 100 and 200 and is
not a member of the stack of these two. -/
theorem C10_pool_membership_by_identity_witness :
    (pool_in_pools 300 [100, 200] = true ↔ 300 ∈ [100, 200]) ∧
    pool_in_pools 300 [100, 200] = false ∧ pool_in_pools 200 [100, 200] = true :=
  ⟨(C10_pool_membership_by_identity example_heap 300 [100, 200] (by decide)).1,
   (C10_pool_membership_by_identity example_heap 300 [100, 200] (by decide)).2 (by decide)
     ⟨100, by decide, rfl⟩,
   by decide⟩

/-! ### Filtering only narrows -/

theorem not_in_range_list_nil (v : Int) : ¬ in_range_list v [] := by
  rintro ⟨r, hr, _⟩
  cases hr

@[simp] theorem ranges_set_implied (sm : sm_state) : sm.set_implied.ranges = sm.ranges := by
  cases sm <;> rfl

@[simp] theorem ranges_set_my_pool (sm : sm_state) (p : Nat) :
    (sm.set_my_pool p).ranges = sm.ranges := by
  cases sm <;> rfl

@[simp] theorem ranges_set_name_sym (sm : sm_state) (n : String) (y : Nat) :
    (sm.set_name_sym n y).ranges = sm.ranges := by
  cases sm <;> rfl

@[simp] theorem ranges_copy_name_sym (tmp sm : sm_state) :
    (copy_name_sym tmp sm).ranges = sm.ranges := by
  cases tmp <;> simp [copy_name_sym]

theorem ranges_set_merged_children (sm l r : sm_state) (h : sm.isNull = false) :
    (sm.set_merged_children l r).ranges = sm.ranges := by
  cases sm with
  | NULL => cases h
  | node d _ _ => rfl

theorem ranges_set_merged_children_sub (sm l r : sm_state) (v : Int)
    (h : in_range_list v (sm.set_merged_children l r).ranges) : in_range_list v sm.ranges := by
  cases sm with
  | NULL => exact absurd h (not_in_range_list_nil v)
  | node d _ _ => exact h

theorem remove_my_pools_ranges (H : helpers)
    (h_merge : ∀ (a b : sm_state) (v : Int), in_range_list v (H.merge_sm_states a b).ranges ↔
      (in_range_list v a.ranges ∨ in_range_list v b.ranges))
    (h_clone : ∀ a : sm_state, (H.clone_sm a).ranges = a.ranges)
    (pools : state_list_stack) (sm : sm_state) :
    ∀ (modified : Bool), ranges_are_unions sm → ∀ v : Int,
      in_range_list v (remove_my_pools H sm pools modified).1.ranges →
      in_range_list v sm.ranges := by
  induction sm with
  | NULL => intro modified _ v h; simpa [remove_my_pools] using h
  | node d l r ihl ihr =>
    intro modified hwf v h
    obtain ⟨hu, hwl, hwr⟩ := hwf
    unfold remove_my_pools at h
    split at h
    · exact absurd h (not_in_range_list_nil v)
    · split at h
      · exact absurd h (not_in_range_list_nil v)
      · split at h
        · exact h
        · rename_i hmerged
          have hm : d.merged = true := by simpa using hmerged
          have hleft := ihl false hwl v
          have hright := ihr (remove_my_pools H l pools false).2 hwr v
          dsimp only at h
          split at h
          · exact h
          · split at h
            · exact absurd h (not_in_range_list_nil v)
            · simp only [ranges_set_implied] at h
              split at h
              · simp only [ranges_set_my_pool] at h
                have h1 := ranges_set_merged_children_sub _ _ _ v h
                rw [h_clone] at h1
                exact (hu hm v).mpr (Or.inr (hright h1))
              · split at h
                · simp only [ranges_set_my_pool] at h
                  have h1 := ranges_set_merged_children_sub _ _ _ v h
                  rw [h_clone] at h1
                  exact (hu hm v).mpr (Or.inl (hleft h1))
                · simp only [ranges_set_my_pool] at h
                  rcases (h_merge _ _ v).mp h with h1 | h1
                  · exact (hu hm v).mpr (Or.inl (hleft h1))
                  · exact (hu hm v).mpr (Or.inr (hright h1))

theorem same_variable_copy_name_sym (tmp sm : sm_state) (htmp : tmp.isNull = false)
    (hsm : sm.isNull = false) : same_variable tmp (copy_name_sym tmp sm) := by
  cases tmp with
  | NULL => cases htmp
  | node td tl tr =>
    cases sm with
    | NULL => cases hsm
    | node d l r => exact ⟨rfl, rfl⟩

theorem filter_stack_loop_mem (H : helpers) (stack : state_list_stack) (rest : state_list) :
    ∀ (ret : state_list) (counter : Nat) (x : sm_state),
      x ∈ filter_stack_loop H stack rest ret counter →
      x ∈ ret ∨ ∃ tmp ∈ rest, (remove_my_pools H tmp stack false).1.isNull = false ∧
        (remove_my_pools H tmp stack false).2 = true ∧
        x = copy_name_sym tmp (remove_my_pools H tmp stack false).1 := by
  induction rest with
  | nil => intro ret counter x h; exact Or.inl (by simpa [filter_stack_loop] using h)
  | cons tmp rest ih =>
    intro ret counter x h
    unfold filter_stack_loop at h
    dsimp only at h
    split at h
    · rename_i hcond
      simp only [Bool.and_eq_true, Bool.not_eq_true'] at hcond
      split at h
      · cases h
      · rcases ih _ _ x h with h1 | ⟨t, ht, h2⟩
        · rcases List.mem_append.mp h1 with h3 | h3
          · exact Or.inl h3
          · refine Or.inr ⟨tmp, List.mem_cons_self _ _, hcond.1, hcond.2, ?_⟩
            simpa using h3
        · exact Or.inr ⟨t, List.mem_cons_of_mem _ ht, h2⟩
    · rcases ih _ _ x h with h1 | ⟨t, ht, h2⟩
      · exact Or.inl h1
      · exact Or.inr ⟨t, List.mem_cons_of_mem _ ht, h2⟩

/-- C2. Implication conservativeness: with `merge_sm_states` joining by range union and
`clone_sm` copying the state, on a tree whose merged nodes hold the union of their
children, every value of the range set of the binding `remove_my_pools` returns is a value
of the range set of the binding it was given; hence every binding of a snapshot produced
by `filter_stack` carries the name and symbol of a binding of the pre-condition snapshot
and a range set included in the range set of that binding. -/
theorem C2_implication_conservative (H : helpers)
    (h_merge : ∀ (a b : sm_state) (v : Int), in_range_list v (H.merge_sm_states a b).ranges ↔
      (in_range_list v a.ranges ∨ in_range_list v b.ranges))
    (h_clone : ∀ a : sm_state, (H.clone_sm a).ranges = a.ranges) :
    (∀ (sm : sm_state) (pools : state_list_stack) (modified : Bool), ranges_are_unions sm →
      ∀ v : Int, in_range_list v (remove_my_pools H sm pools modified).1.ranges →
        in_range_list v sm.ranges) ∧
    (∀ (pre_list : state_list) (stack : state_list_stack),
      (∀ tmp ∈ pre_list, tmp.isNull = false ∧ ranges_are_unions tmp) →
      ∀ x ∈ filter_stack H pre_list stack, ∃ tmp ∈ pre_list, same_variable tmp x ∧
        ∀ v : Int, in_range_list v x.ranges → in_range_list v tmp.ranges) := by
  refine ⟨fun sm pools modified hwf v h =>
    remove_my_pools_ranges H h_merge h_clone pools sm modified hwf v h, ?_⟩
  intro pre_list stack hwf x hx
  unfold filter_stack at hx
  split at hx
  · cases hx
  · rcases filter_stack_loop_mem H stack pre_list [] 0 x hx with h | ⟨tmp, htmp, hnn, _, hxe⟩
    · cases h
    · refine ⟨tmp, htmp, ?_, ?_⟩
      · rw [hxe]
        exact same_variable_copy_name_sym tmp _ (hwf tmp htmp).1 hnn
      · intro v hv
        rw [hxe, ranges_copy_name_sym] at hv
        exact remove_my_pools_ranges H h_merge h_clone stack tmp false (hwf tmp htmp).2 v hv

theorem in_range_list_append (v : Int) (a b : range_list) :
    in_range_list v (a ++ b) ↔ (in_range_list v a ∨ in_range_list v b) := by
  unfold in_range_list
  constructor
  · rintro ⟨r, hr, h⟩
    rcases List.mem_append.mp hr with h1 | h1
    · exact Or.inl ⟨r, h1, h⟩
    · exact Or.inr ⟨r, h1, h⟩
  · rintro (⟨r, hr, h⟩ | ⟨r, hr, h⟩)
    · exact ⟨r, List.mem_append.mpr (Or.inl hr), h⟩
    · exact ⟨r, List.mem_append.mpr (Or.inr hr), h⟩

theorem example_merge_is_union (a b : sm_state) (v : Int) :
    in_range_list v (example_helpers.merge_sm_states a b).ranges ↔
      (in_range_list v a.ranges ∨ in_range_list v b.ranges) := by
  cases a with
  | NULL =>
    show in_range_list v b.ranges ↔ _
    constructor
    · exact Or.inr
    · rintro (h | h)
      · exact absurd h (not_in_range_list_nil v)
      · exact h
  | node d1 l1 r1 =>
    cases b with
    | NULL =>
      show in_range_list v (sm_state.node d1 l1 r1).ranges ↔ _
      constructor
      · exact Or.inl
      · rintro (h | h)
        · exact h
        · exact absurd h (not_in_range_list_nil v)
    | node d2 l2 r2 => exact in_range_list_append v _ _

theorem example_clone_keeps_ranges (a : sm_state) :
    (example_helpers.clone_sm a).ranges = a.ranges := by
  cases a <;> rfl

theorem example_leaf_ranges_are_unions (addr : Nat) (name : String) (sym : Nat) (lo hi : Int)
    (pool : Nat) : ranges_are_unions (example_leaf addr name sym lo hi pool) := by
  simp [example_leaf, ranges_are_unions]

theorem example_bar_ranges_are_unions : ranges_are_unions example_bar := by
  refine ⟨?_, example_leaf_ranges_are_unions _ _ _ _ _ _, example_leaf_ranges_are_unions _ _ _ _ _ _⟩
  intro _ v
  exact in_range_list_append v [⟨0, 0⟩] [⟨1, 5⟩] |>.trans Or.comm

theorem example_foo_ranges_are_unions (nr : Nat) : ranges_are_unions (example_foo nr) := by
  refine ⟨?_, example_leaf_ranges_are_unions _ _ _ _ _ _, example_leaf_ranges_are_unions _ _ _ _ _ _⟩
  intro _ v
  exact in_range_list_append v [⟨1, 1⟩] [⟨99, 99⟩] |>.trans Or.comm

/-- Witness of C2: filtering `bar` against the stack holding pool 200 leaves the range
`[1,5]`, whose value 3 is a value of the range set of `bar` before; and the snapshot
filtered from `foo` and `bar` only holds narrowed bindings of `foo` and `bar`. -/
theorem C2_implication_conservative_witness :
    in_range_list 3 (remove_my_pools example_helpers example_bar [200] false).1.ranges ∧
    in_range_list 3 example_bar.ranges ∧
    (filter_stack example_helpers [example_foo 2, example_bar] [200]).length = 2 ∧
    ∀ x ∈ filter_stack example_helpers [example_foo 2, example_bar] [200],
      ∃ tmp ∈ [example_foo 2, example_bar], same_variable tmp x ∧
        ∀ v : Int, in_range_list v x.ranges → in_range_list v tmp.ranges :=
  ⟨by decide,
   (C2_implication_conservative example_helpers example_merge_is_union
      example_clone_keeps_ranges).1 example_bar [200] false example_bar_ranges_are_unions 3
      (by decide),
   by decide,
   (C2_implication_conservative example_helpers example_merge_is_union
      example_clone_keeps_ranges).2 [example_foo 2, example_bar] [200]
      (by
        intro tmp htmp
        rcases List.mem_cons.mp htmp with h | h
        · subst h; exact ⟨rfl, example_foo_ranges_are_unions 2⟩
        · rcases List.mem_cons.mp h with h1 | h1
          · subst h1; exact ⟨rfl, example_bar_ranges_are_unions⟩
          · cases h1)⟩

/-! ### The state store -/

theorem get_sm_state_slist_key (cur : state_list) (owner : Nat) (name : String) (sym : Nat)
    (d : sm_data) (l r : sm_state)
    (h : get_sm_state_slist cur owner name sym = .node d l r) :
    d.owner = owner ∧ d.name = name ∧ d.sym = sym := by
  induction cur with
  | nil => simp [get_sm_state_slist] at h
  | cons tmp rest ih =>
    cases tmp with
    | NULL => exact ih (by simpa [get_sm_state_slist] using h)
    | node td tl tr =>
      unfold get_sm_state_slist at h
      split at h
      · rename_i hk
        injection h with h1 _ _
        subst h1
        exact hk
      · exact ih h

theorem get_sm_state_slist_set_sm (d : sm_data) (l r : sm_state) (cur : state_list)
    (owner : Nat) (name : String) (sym : Nat) :
    get_sm_state_slist (__set_sm (.node d l r) cur) owner name sym =
      if d.owner = owner ∧ d.name = name ∧ d.sym = sym then .node d l r
      else get_sm_state_slist cur owner name sym := by
  induction cur with
  | nil =>
    simp only [__set_sm, sm_state.isNull, get_sm_state_slist]
  | cons tmp rest ih =>
    cases tmp with
    | NULL =>
      simp only [__set_sm, get_sm_state_slist]
      exact ih
    | node td tl tr =>
      simp only [__set_sm]
      by_cases hk : td.owner = d.owner ∧ td.name = d.name ∧ td.sym = d.sym
      · rw [if_pos hk]
        simp only [get_sm_state_slist]
        by_cases hq : d.owner = owner ∧ d.name = name ∧ d.sym = sym
        · rw [if_pos hq, if_pos hq]
        · rw [if_neg hq, if_neg hq]
          have : ¬ (td.owner = owner ∧ td.name = name ∧ td.sym = sym) := by
            rw [hk.1, hk.2.1, hk.2.2]; exact hq
          rw [if_neg this]
      · rw [if_neg hk]
        simp only [get_sm_state_slist]
        by_cases ht : td.owner = owner ∧ td.name = name ∧ td.sym = sym
        · rw [if_pos ht]
          have : ¬ (d.owner = owner ∧ d.name = name ∧ d.sym = sym) := by
            intro hq
            exact hk ⟨ht.1.trans hq.1.symm, ht.2.1.trans hq.2.1.symm, ht.2.2.trans hq.2.2.symm⟩
          rw [if_neg this, if_pos ht]
        · rw [if_neg ht, ih]
          by_cases hq : d.owner = owner ∧ d.name = name ∧ d.sym = sym
          · rw [if_pos hq, if_pos hq]
          · rw [if_neg hq, if_neg hq, if_neg ht]

theorem get_state_set_sm (d : sm_data) (l r : sm_state) (cur : state_list)
    (owner : Nat) (name : String) (sym : Nat) :
    get_state (__set_sm (.node d l r) cur) owner name sym =
      if d.owner = owner ∧ d.name = name ∧ d.sym = sym then some d.state
      else get_state cur owner name sym := by
  unfold get_state get_sm_state
  rw [get_sm_state_slist_set_sm]
  split <;> rfl

/-- The binding the loop of `set_equiv` and `remove_from_equiv` installs for one relation. -/
theorem installed_binding (H : helpers) (hH : allocators_ok H) (od : sm_data)
    (ol or_ : sm_state) (state : smatch_state) (rel : relation) :
    ∃ (d : sm_data) (l r : sm_state),
      ((H.clone_sm (.node od ol or_)).set_name_sym rel.name rel.sym).set_state state
        = .node d l r ∧
      d.owner = od.owner ∧ d.name = rel.name ∧ d.sym = rel.sym ∧ d.state = state := by
  obtain ⟨d2, l2, r2, hc, ho⟩ := hH.clone_sm_owner od ol or_
  rw [hc]
  exact ⟨_, l2, r2, rfl, ho, rfl, rfl, rfl⟩

theorem get_state_install_for_each (H : helpers) (hH : allocators_ok H) (od : sm_data)
    (ol or_ : sm_state) (state : smatch_state) (related : related_list) :
    ∀ (cur : state_list) (name : String) (sym : Nat),
      (names_variable related name sym →
        get_state (install_for_each H (.node od ol or_) state related cur) od.owner name sym
          = some state) ∧
      (¬ names_variable related name sym →
        get_state (install_for_each H (.node od ol or_) state related cur) od.owner name sym
          = get_state cur od.owner name sym) := by
  induction related with
  | nil =>
    intro cur name sym
    refine ⟨?_, fun _ => rfl⟩
    rintro ⟨rel, hrel, _⟩
    cases hrel
  | cons rel rest ih =>
    intro cur name sym
    obtain ⟨d, l, r, hnew, hown, hname, hsym, hstate⟩ :=
      installed_binding H hH od ol or_ state rel
    have hstep : install_for_each H (.node od ol or_) state (rel :: rest) cur
        = install_for_each H (.node od ol or_) state rest (__set_sm (.node d l r) cur) := by
      simp only [install_for_each, hnew]
    rw [hstep]
    have ih1 := ih (__set_sm (.node d l r) cur) name sym
    have hget := get_state_set_sm d l r cur od.owner name sym
    rw [hown, hname, hsym, hstate] at hget
    by_cases hrest : names_variable rest name sym
    · refine ⟨fun _ => ih1.1 hrest, ?_⟩
      intro hn
      exact absurd (by
        obtain ⟨x, hx, hx2⟩ := hrest
        exact ⟨x, List.mem_cons_of_mem _ hx, hx2⟩) hn
    · constructor
      · rintro ⟨x, hx, hxn, hxs⟩
        rcases List.mem_cons.mp hx with h1 | h1
        · subst h1
          rw [ih1.2 hrest, hget, if_pos ⟨rfl, hxn, hxs⟩]
        · exact absurd ⟨x, h1, hxn, hxs⟩ hrest
      · intro hn
        have hk : ¬ (od.owner = od.owner ∧ rel.name = name ∧ rel.sym = sym) := by
          rintro ⟨_, h2, h3⟩
          exact hn ⟨rel, List.mem_cons_self _ _, h2, h3⟩
        rw [ih1.2 hrest, hget, if_neg hk]

/-! ### String comparison -/

theorem char_toNat_inj (a b : Char) (h : a.toNat = b.toNat) : a = b := by
  apply Char.ext
  apply UInt32.ext
  exact h

theorem strcmp_chars_eq_zero (a : List Char) :
    ∀ b : List Char, strcmp_chars a b = 0 ↔ a = b := by
  induction a with
  | nil => intro b; cases b <;> simp [strcmp_chars]
  | cons x xs ih =>
    intro b
    cases b with
    | nil => simp [strcmp_chars]
    | cons y ys =>
      unfold strcmp_chars
      split
      · constructor
        · intro h0; omega
        · intro he; injection he with h1 _; subst h1; omega
      · split
        · constructor
          · intro h0; omega
          · intro he; injection he with h1 _; subst h1; omega
        · have hxy : x = y := char_toNat_inj x y (by omega)
          rw [ih ys]
          constructor
          · intro h; rw [hxy, h]
          · intro h; injection h

theorem strcmp_eq_zero (a b : String) : strcmp a b = 0 ↔ a = b := by
  unfold strcmp
  rw [strcmp_chars_eq_zero]
  constructor
  · intro h; exact String.ext h
  · intro h; rw [h]

theorem strcmp_chars_swap (a : List Char) :
    ∀ b : List Char, strcmp_chars a b < 0 ↔ 0 < strcmp_chars b a := by
  induction a with
  | nil => intro b; cases b <;> simp [strcmp_chars]
  | cons x xs ih =>
    intro b
    cases b with
    | nil => simp [strcmp_chars]
    | cons y ys =>
      simp only [strcmp_chars]
      split_ifs <;> first | omega | exact ih ys

theorem strcmp_chars_trans (a : List Char) :
    ∀ b c : List Char, strcmp_chars a b ≤ 0 → strcmp_chars b c < 0 → strcmp_chars a c < 0 := by
  induction a with
  | nil =>
    intro b c h1 h2
    cases c with
    | nil => cases b <;> simp [strcmp_chars] at h2
    | cons z zs => simp [strcmp_chars]
  | cons x xs ih =>
    intro b c h1 h2
    cases b with
    | nil => simp [strcmp_chars] at h1
    | cons y ys =>
      cases c with
      | nil => simp [strcmp_chars] at h2
      | cons z zs =>
        simp only [strcmp_chars] at h1 h2 ⊢
        split_ifs at h1 h2 ⊢ <;> first | omega | exact ih ys zs h1 h2

theorem strcmp_swap (a b : String) : strcmp a b < 0 ↔ 0 < strcmp b a :=
  strcmp_chars_swap a.data b.data

theorem strcmp_trans (a b c : String) (h1 : ¬ strcmp b a < 0) (h2 : strcmp b c < 0) :
    strcmp a c < 0 := by
  have h3 : strcmp_chars a.data b.data ≤ 0 := by
    have := (strcmp_chars_swap b.data a.data).not
    unfold strcmp at h1
    have h4 := (strcmp_chars_swap a.data b.data)
    by_contra hc
    have h5 : 0 < strcmp_chars a.data b.data := by omega
    exact h1 ((strcmp_chars_swap b.data a.data).mpr h5)
  exact strcmp_chars_trans a.data b.data c.data h3 h2

/-! ### Relation lists -/

theorem clone_related_list_foldl (related acc : related_list) :
    related.foldl (fun to_list rel => to_list ++ [rel]) acc = acc ++ related := by
  induction related generalizing acc with
  | nil => simp
  | cons x xs ih => simp [List.foldl, ih]

theorem clone_related_list_eq (related : related_list) :
    clone_related_list related = related := by
  unfold clone_related_list
  rw [clone_related_list_foldl]
  simp

theorem clone_estate_eq (state : smatch_state) : clone_estate state = state := by
  unfold clone_estate
  rw [clone_related_list_eq]
  rfl

theorem mem_add_related_loop (op : Int) (name : String) (sym : Nat) (related : related_list)
    (x : relation) :
    x ∈ add_related_loop op name sym related ↔ (x = ⟨op, name, sym⟩ ∨ x ∈ related) := by
  induction related with
  | nil => simp [add_related_loop, alloc_relation]
  | cons tmp rest ih =>
    unfold add_related_loop
    split
    · simp only [List.mem_cons, ih]
      tauto
    · split
      · rename_i heq
        have hname : tmp.name = name := (strcmp_eq_zero _ _).mp heq.2.2
        have htmp : tmp = ⟨op, name, sym⟩ := by
          cases tmp
          simp only [relation.mk.injEq]
          exact ⟨heq.1, hname, heq.2.1⟩
        simp only [List.mem_cons]
        constructor
        · intro h; exact Or.inr h
        · rintro (h | h)
          · exact Or.inl (h.trans htmp.symm)
          · exact h
      · simp only [List.mem_cons, alloc_relation]

theorem estate_related_add_equiv (state : smatch_state) (name : String) (sym : Nat) :
    estate_related (add_equiv state name sym) =
      add_related_loop SPECIAL_EQUAL name sym (estate_related state) := rfl

theorem value_ranges_add_equiv (state : smatch_state) (name : String) (sym : Nat) :
    (get_dinfo (add_equiv state name sym)).value_ranges = (get_dinfo state).value_ranges := rfl

theorem mem_equiv_state_left (source : smatch_state) (rn : String) (rs : Nat) (ln : String)
    (ls : Nat) : ⟨SPECIAL_EQUAL, ln, ls⟩ ∈ estate_related (equiv_state source rn rs ln ls) := by
  unfold equiv_state
  rw [estate_related_add_equiv]
  exact (mem_add_related_loop _ _ _ _ _).mpr (Or.inl rfl)

theorem mem_equiv_state_right (source : smatch_state) (rn : String) (rs : Nat) (ln : String)
    (ls : Nat)
    (hself : estate_related source = [] ∨ ⟨SPECIAL_EQUAL, rn, rs⟩ ∈ estate_related source) :
    ⟨SPECIAL_EQUAL, rn, rs⟩ ∈ estate_related (equiv_state source rn rs ln ls) := by
  unfold equiv_state
  rw [estate_related_add_equiv, clone_estate_eq]
  refine (mem_add_related_loop _ _ _ _ _).mpr (Or.inr ?_)
  split
  · rw [estate_related_add_equiv]
    exact (mem_add_related_loop _ _ _ _ _).mpr (Or.inl rfl)
  · rename_i hne
    rcases hself with h | h
    · exact absurd h hne
    · exact h

theorem value_ranges_equiv_state (source : smatch_state) (rn : String) (rs : Nat) (ln : String)
    (ls : Nat) :
    (get_dinfo (equiv_state source rn rs ln ls)).value_ranges
      = (get_dinfo source).value_ranges := by
  unfold equiv_state
  rw [value_ranges_add_equiv, clone_estate_eq]
  split
  · rw [value_ranges_add_equiv]
  · rfl

/-! ### set_equiv -/

theorem set_equiv_resolved (H : helpers) (hH : allocators_ok H) (left right : expression)
    (cur : state_list) (a : String) (sa : Nat) (b : String) (sb : Nat)
    (hleft : H.get_variable_from_expr left = (some a, sa)) (hsa : sa ≠ 0)
    (hright : H.get_variable_from_expr right = (some b, sb)) (hsb : sb ≠ 0) :
    ∃ (rd : sm_data) (rl rr : sm_state) (cur1 : state_list),
      rd.owner = SMATCH_EXTRA ∧ rd.name = b ∧ rd.sym = sb ∧
      ((get_state cur SMATCH_EXTRA b sb = some rd.state ∧ cur1 = cur) ∨
       (get_state cur SMATCH_EXTRA b sb = none ∧ rd.state = H.extra_undefined ∧
         cur1 = __set_sm (.node rd rl rr) cur)) ∧
      set_equiv H left right cur =
        install_for_each H (.node rd rl rr) (equiv_state rd.state b sb a sa)
          (estate_related (equiv_state rd.state b sb a sa)) (remove_from_equiv H a sa cur1) := by
  cases hfound : get_sm_state cur SMATCH_EXTRA b sb with
  | NULL =>
    obtain ⟨d, l, r, halloc, ho, hn, hs, hst⟩ :=
      hH.alloc_state_fields SMATCH_EXTRA b sb H.extra_undefined
    refine ⟨d, l, r, __set_sm (.node d l r) cur, ho, hn, hs, Or.inr ⟨?_, hst, rfl⟩, ?_⟩
    · unfold get_state
      rw [hfound]
      rfl
    · subst hn hs
      unfold set_equiv
      simp only [hleft, hsa, hsb, if_false, get_sm_state_expr, hright, hfound, sm_state.isNull,
        if_true, set_state_expr, set_state, halloc]
      rfl
  | node rd rl rr =>
    obtain ⟨ho, hn, hs⟩ := get_sm_state_slist_key cur SMATCH_EXTRA b sb rd rl rr hfound
    refine ⟨rd, rl, rr, cur, ho, hn, hs, Or.inl ⟨?_, rfl⟩, ?_⟩
    · unfold get_state
      rw [hfound]
      rfl
    · subst hn hs
      unfold set_equiv
      simp only [hleft, hsa, hsb, if_false, get_sm_state_expr, hright, hfound, sm_state.isNull,
        Bool.false_eq_true]
      rfl

theorem get_state_set_equiv (H : helpers) (hH : allocators_ok H) (left right : expression)
    (cur : state_list) (a : String) (sa : Nat) (b : String) (sb : Nat)
    (hleft : H.get_variable_from_expr left = (some a, sa)) (hsa : sa ≠ 0)
    (hright : H.get_variable_from_expr right = (some b, sb)) (hsb : sb ≠ 0) :
    ∃ source : smatch_state,
      (get_state cur SMATCH_EXTRA b sb = some source ∨
        (get_state cur SMATCH_EXTRA b sb = none ∧ source = H.extra_undefined)) ∧
      ∀ (name : String) (sym : Nat),
        names_variable (estate_related (equiv_state source b sb a sa)) name sym →
        get_state (set_equiv H left right cur) SMATCH_EXTRA name sym
          = some (equiv_state source b sb a sa) := by
  obtain ⟨rd, rl, rr, cur1, ho, _, _, hsrc, heq⟩ :=
    set_equiv_resolved H hH left right cur a sa b sb hleft hsa hright hsb
  refine ⟨rd.state, ?_, ?_⟩
  · rcases hsrc with ⟨h, _⟩ | ⟨h, h2, _⟩
    · exact Or.inl h
    · exact Or.inr ⟨h, h2⟩
  · intro name sym hn
    rw [heq]
    have := (get_state_install_for_each H hH rd rl rr (equiv_state rd.state b sb a sa)
      (estate_related (equiv_state rd.state b sb a sa)) (remove_from_equiv H a sa cur1)
      name sym).1 hn
    rw [ho] at this
    exact this

theorem example_helpers_ok : allocators_ok example_helpers where
  clone_sm_owner := fun _ l r => ⟨_, l, r, rfl, rfl⟩
  alloc_state_fields := fun _ _ _ _ => ⟨_, .NULL, .NULL, rfl, rfl, rfl, rfl, rfl⟩
  extra_undefined_related := rfl

/-- C6. Direct equivalence: when the source `b` is bound to a state of range `[1,5]` without
relation set, then after `set_equiv(a, b)`, whatever `a` was bound to, `a` and `b` are bound
to one state of range `[1,5]` whose relation set holds exactly the equality relations to
`a` and to `b`; and in general the value range of the target after `set_equiv` is the
value range of the source before it. -/
theorem C6_direct_equivalence (H : helpers) (hH : allocators_ok H) (left right : expression)
    (cur : state_list) (a : String) (sa : Nat) (b : String) (sb : Nat)
    (hleft : H.get_variable_from_expr left = (some a, sa)) (hsa : sa ≠ 0)
    (hright : H.get_variable_from_expr right = (some b, sb)) (hsb : sb ≠ 0)
    (source : smatch_state) (hb : get_state cur SMATCH_EXTRA b sb = some source) :
    ((get_dinfo source).value_ranges = [⟨1, 5⟩] → estate_related source = [] →
      ∃ st : smatch_state,
        get_state (set_equiv H left right cur) SMATCH_EXTRA a sa = some st ∧
        get_state (set_equiv H left right cur) SMATCH_EXTRA b sb = some st ∧
        (get_dinfo st).value_ranges = [⟨1, 5⟩] ∧
        ∀ rel : relation, rel ∈ estate_related st ↔
          (rel = ⟨SPECIAL_EQUAL, a, sa⟩ ∨ rel = ⟨SPECIAL_EQUAL, b, sb⟩)) ∧
    (∃ st : smatch_state,
        get_state (set_equiv H left right cur) SMATCH_EXTRA a sa = some st ∧
        (get_dinfo st).value_ranges = (get_dinfo source).value_ranges) := by
  obtain ⟨src, hsrc, hget⟩ :=
    get_state_set_equiv H hH left right cur a sa b sb hleft hsa hright hsb
  have hs : src = source := by
    rcases hsrc with h | ⟨h, _⟩
    · rw [hb] at h; injection h with h; exact h.symm
    · rw [hb] at h; cases h
  subst hs
  have ha := hget a sa ⟨_, mem_equiv_state_left src b sb a sa, rfl, rfl⟩
  refine ⟨?_, ⟨_, ha, value_ranges_equiv_state src b sb a sa⟩⟩
  intro hr hrel
  have hbm := mem_equiv_state_right src b sb a sa (Or.inl hrel)
  refine ⟨_, ha, hget b sb ⟨_, hbm, rfl, rfl⟩, ?_, ?_⟩
  · rw [value_ranges_equiv_state, hr]
  · intro rel
    unfold equiv_state
    rw [estate_related_add_equiv, clone_estate_eq, if_pos hrel, estate_related_add_equiv, hrel,
      mem_add_related_loop, mem_add_related_loop]
    simp

/-- Witness of C6: the example store binds `b` to `[1,5]` without relation; after `a = b`
both variables are bound to one state of range `[1,5]` and relation set `a`, `b`. -/
theorem C6_direct_equivalence_witness :
    ∃ st : smatch_state,
      get_state (set_equiv example_helpers example_expr_a example_expr_b example_store)
        SMATCH_EXTRA "a" 3 = some st ∧
      get_state (set_equiv example_helpers example_expr_a example_expr_b example_store)
        SMATCH_EXTRA "b" 7 = some st ∧
      (get_dinfo st).value_ranges = [⟨1, 5⟩] ∧
      ∀ rel : relation, rel ∈ estate_related st ↔
        (rel = ⟨SPECIAL_EQUAL, "a", 3⟩ ∨ rel = ⟨SPECIAL_EQUAL, "b", 7⟩) :=
  (C6_direct_equivalence example_helpers example_helpers_ok example_expr_a example_expr_b
    example_store "a" 3 "b" 7 rfl (by decide) rfl (by decide) (example_estate 1 5) rfl).1 rfl rfl

/-! ### Lists built by add_equiv, and deletion from them -/

theorem add_related_loop_ok (name : String) (sym : Nat) (related : related_list)
    (h : equiv_list_ok related) :
    equiv_list_ok (add_related_loop SPECIAL_EQUAL name sym related) := by
  induction related with
  | nil =>
    refine ⟨?_, ?_⟩
    · intro x hx
      simp only [add_related_loop, alloc_relation, List.mem_singleton] at hx
      rw [hx]
    · simp [add_related_loop]
  | cons tmp rest ih =>
    obtain ⟨hop, hpw⟩ := h
    have hrest : equiv_list_ok rest :=
      ⟨fun x hx => hop x (List.mem_cons_of_mem _ hx), (List.pairwise_cons.mp hpw).2⟩
    have htmp := (List.pairwise_cons.mp hpw).1
    have htop : tmp.op = SPECIAL_EQUAL := hop tmp (List.mem_cons_self _ _)
    unfold add_related_loop
    split
    · rename_i hskip
      have hbefore : entry_before tmp ⟨SPECIAL_EQUAL, name, sym⟩ := by
        rcases hskip with h1 | h1 | h1
        · rw [htop] at h1; exact absurd h1 (lt_irrefl _)
        · exact Or.inl h1
        · exact Or.inr h1
      obtain ⟨ihop, ihpw⟩ := ih hrest
      refine ⟨?_, ?_⟩
      · intro x hx
        rcases List.mem_cons.mp hx with h1 | h1
        · rw [h1]; exact htop
        · exact ihop x h1
      · refine List.pairwise_cons.mpr ⟨?_, ihpw⟩
        intro y hy
        rcases (mem_add_related_loop _ _ _ _ _).mp hy with h1 | h1
        · rw [h1]; exact hbefore
        · exact htmp y h1
    · rename_i hskip
      split
      · exact ⟨hop, hpw⟩
      · rename_i hneq
        have hs1 : ¬ tmp.sym < sym := fun h => hskip (Or.inr (Or.inl h))
        have hs2 : ¬ strcmp tmp.name name < 0 := fun h => hskip (Or.inr (Or.inr h))
        have hnew : entry_before ⟨SPECIAL_EQUAL, name, sym⟩ tmp := by
          by_cases hsym : sym < tmp.sym
          · exact Or.inl hsym
          · have hse : tmp.sym = sym := by omega
            have hne : strcmp tmp.name name ≠ 0 := fun h0 => hneq ⟨htop, hse, h0⟩
            refine Or.inr ?_
            show strcmp name tmp.name < 0
            exact (strcmp_swap _ _).mpr (by omega)
        refine ⟨?_, ?_⟩
        · intro x hx
          rcases List.mem_cons.mp hx with h1 | h1
          · rw [h1]; rfl
          · exact hop x h1
        · refine List.pairwise_cons.mpr ⟨?_, hpw⟩
          intro y hy
          rcases List.mem_cons.mp hy with h1 | h1
          · rw [h1]; exact hnew
          · rcases htmp y h1 with h2 | h2
            · exact Or.inl (by show sym < y.sym; omega)
            · exact Or.inr (strcmp_trans name tmp.name y.name hs2 h2)

theorem built_by_add_equiv_ok (related : related_list) (h : built_by_add_equiv related) :
    equiv_list_ok related := by
  induction h with
  | nil =>
    constructor
    · intro x hx; cases hx
    · exact List.Pairwise.nil
  | add related name sym _ ih => exact add_related_loop_ok name sym related ih

theorem filter_cons_keep (p : relation → Bool) (x : relation) (xs : related_list)
    (h : p x = true) : List.filter p (x :: xs) = x :: List.filter p xs := by
  rw [List.filter_cons, if_pos h]

theorem filter_cons_drop (p : relation → Bool) (x : relation) (xs : related_list)
    (h : ¬ p x = true) : List.filter p (x :: xs) = List.filter p xs := by
  rw [List.filter_cons, if_neg h]

theorem del_related_loop_eq_filter (name : String) (sym : Nat) (related : related_list)
    (h : related.Pairwise entry_before) :
    del_related_loop name sym related
      = related.filter (fun e => decide (¬ (e.name = name ∧ e.sym = sym))) := by
  induction related with
  | nil => rfl
  | cons tmp rest ih =>
    have hrest := (List.pairwise_cons.mp h).2
    have htmp := (List.pairwise_cons.mp h).1
    unfold del_related_loop
    split
    · rename_i hskip
      have hk : ¬ (tmp.name = name ∧ tmp.sym = sym) := by
        rintro ⟨h1, h2⟩
        rcases hskip with h3 | h3
        · omega
        · rw [(strcmp_eq_zero _ _).mpr h1] at h3; exact absurd h3 (lt_irrefl _)
      rw [filter_cons_keep (fun e => decide (¬ (e.name = name ∧ e.sym = sym))) tmp rest
        (decide_eq_true hk), ih hrest]
    · rename_i hskip
      split
      · rename_i heq
        have hk : tmp.name = name ∧ tmp.sym = sym := ⟨(strcmp_eq_zero _ _).mp heq.2, heq.1⟩
        rw [filter_cons_drop (fun e => decide (¬ (e.name = name ∧ e.sym = sym))) tmp rest
          (by rw [decide_eq_true_eq]; exact not_not.mpr hk), ih hrest]
      · rename_i hneq
        have hs1 : ¬ tmp.sym < sym := fun h => hskip (Or.inl h)
        have hs2 : ¬ strcmp tmp.name name < 0 := fun h => hskip (Or.inr h)
        have hk : ¬ (tmp.name = name ∧ tmp.sym = sym) := by
          rintro ⟨h1, h2⟩
          exact hneq ⟨h2, (strcmp_eq_zero _ _).mpr h1⟩
        rw [filter_cons_keep (fun e => decide (¬ (e.name = name ∧ e.sym = sym))) tmp rest
          (decide_eq_true hk)]
        congr 1
        symm
        rw [List.filter_eq_self]
        intro y hy
        have hy2 : ¬ (y.name = name ∧ y.sym = sym) := by
          rintro ⟨h1, h2⟩
          rcases htmp y hy with h3 | h3
          · omega
          · rw [h1] at h3; exact hs2 h3
        exact decide_eq_true hy2

theorem not_names_variable_del (name : String) (sym : Nat) (related : related_list)
    (h : related.Pairwise entry_before) :
    ¬ names_variable (del_related_loop name sym related) name sym := by
  rw [del_related_loop_eq_filter name sym related h]
  rintro ⟨x, hx, hxn, hxs⟩
  have := (List.mem_filter.mp hx).2
  simp only [decide_eq_true_eq] at this
  exact this ⟨hxn, hxs⟩

theorem names_variable_del_of_ne (name : String) (sym : Nat) (related : related_list)
    (h : related.Pairwise entry_before) (b : String) (sb : Nat)
    (hb : names_variable related b sb) (hne : ¬ (b = name ∧ sb = sym)) :
    names_variable (del_related_loop name sym related) b sb := by
  rw [del_related_loop_eq_filter name sym related h]
  obtain ⟨x, hx, hxn, hxs⟩ := hb
  refine ⟨x, List.mem_filter.mpr ⟨hx, ?_⟩, hxn, hxs⟩
  simp only [decide_eq_true_eq]
  rw [hxn, hxs]
  exact hne

theorem related_of_eq (cur : state_list) (name : String) (sym : Nat) (od : sm_data)
    (ol or_ : sm_state) (h : get_sm_state cur SMATCH_EXTRA name sym = .node od ol or_) :
    related_of cur name sym = estate_related od.state := by
  unfold related_of get_state
  rw [h]
  rfl

theorem related_of_unbound (cur : state_list) (name : String) (sym : Nat)
    (h : get_sm_state cur SMATCH_EXTRA name sym = .NULL) : related_of cur name sym = [] := by
  unfold related_of get_state
  rw [h]
  rfl

theorem estate_related_removed_state (orig : smatch_state) (name : String) (sym : Nat) :
    estate_related (removed_state orig name sym) =
      if (del_related_loop name sym (estate_related orig)).length = 1 then []
      else del_related_loop name sym (estate_related orig) := by
  unfold removed_state
  rw [clone_estate_eq]
  split
  · rename_i h
    have h2 : (del_related_loop name sym (estate_related orig)).length = 1 := h
    rw [if_pos h2]
    rfl
  · rename_i h
    have h2 : ¬ (del_related_loop name sym (estate_related orig)).length = 1 := h
    rw [if_neg h2]
    rfl

theorem remove_from_equiv_bound (H : helpers) (cur : state_list) (name : String) (sym : Nat)
    (od : sm_data) (ol or_ : sm_state)
    (h : get_sm_state cur SMATCH_EXTRA name sym = .node od ol or_)
    (hrel : estate_related od.state ≠ []) :
    remove_from_equiv H name sym cur =
      install_for_each H (.node od ol or_) (removed_state od.state name sym)
        (del_related_loop name sym (estate_related od.state)) cur := by
  unfold remove_from_equiv
  rw [h]
  have hrel2 : ¬ (get_dinfo od.state).related = [] := hrel
  simp only [hrel2, if_false]
  unfold removed_state
  rw [clone_estate_eq]
  rfl

theorem remove_from_equiv_noop (H : helpers) (cur : state_list) (name : String) (sym : Nat)
    (h : related_of cur name sym = []) : remove_from_equiv H name sym cur = cur := by
  unfold remove_from_equiv
  cases hfound : get_sm_state cur SMATCH_EXTRA name sym with
  | NULL => rfl
  | node od ol or_ =>
    rw [related_of_eq cur name sym od ol or_ hfound] at h
    have h2 : (get_dinfo od.state).related = [] := h
    simp only [h2, if_true]

/-- C4. For a variable A whose relation set was built by `add_equiv`, and any other variable
B named in it, after `remove_from_equiv(A)` the relation set of the state of B has no entry
for A: `del_related` deletes the entry of A wherever it stands, and B is bound to the
updated state, whose relation set is the list without A, or no list when one entry is
left. -/
theorem C4_removed_from_relation_sets (H : helpers) (hH : allocators_ok H) (cur : state_list)
    (a : String) (sa : Nat) (b : String) (sb : Nat)
    (hbuilt : built_by_add_equiv (related_of cur a sa))
    (hb : names_variable (related_of cur a sa) b sb) (hne : ¬ (b = a ∧ sb = sa)) :
    ¬ names_variable (related_of (remove_from_equiv H a sa cur) b sb) a sa ∧
    ¬ names_variable (del_related_loop a sa (related_of cur a sa)) a sa ∧
    related_of (remove_from_equiv H a sa cur) b sb =
      (if (del_related_loop a sa (related_of cur a sa)).length = 1 then []
       else del_related_loop a sa (related_of cur a sa)) := by
  have hok := built_by_add_equiv_ok _ hbuilt
  cases hfound : get_sm_state cur SMATCH_EXTRA a sa with
  | NULL =>
    rw [related_of_unbound cur a sa hfound] at hb
    obtain ⟨x, hx, _⟩ := hb
    cases hx
  | node od ol or_ =>
    obtain ⟨ho, _, _⟩ := get_sm_state_slist_key cur SMATCH_EXTRA a sa od ol or_ hfound
    rw [related_of_eq cur a sa od ol or_ hfound] at hb hok ⊢
    have hne2 : estate_related od.state ≠ [] := by
      intro h
      rw [h] at hb
      obtain ⟨x, hx, _⟩ := hb
      cases hx
    have hdel := not_names_variable_del a sa _ hok.2
    have hkeep := names_variable_del_of_ne a sa _ hok.2 b sb hb hne
    have hget := (get_state_install_for_each H hH od ol or_ (removed_state od.state a sa)
      (del_related_loop a sa (estate_related od.state)) cur b sb).1 hkeep
    rw [ho] at hget
    have hrel : related_of (remove_from_equiv H a sa cur) b sb =
        (if (del_related_loop a sa (estate_related od.state)).length = 1 then []
         else del_related_loop a sa (estate_related od.state)) := by
      rw [remove_from_equiv_bound H cur a sa od ol or_ hfound hne2]
      unfold related_of
      rw [hget]
      exact estate_related_removed_state od.state a sa
    refine ⟨?_, hdel, hrel⟩
    rw [hrel]
    split
    · rintro ⟨x, hx, _⟩
      cases hx
    · exact hdel

/-! ### Relation sets as equivalence classes -/

theorem names_variable_nil (x : String) (sx : Nat) : ¬ names_variable [] x sx := by
  rintro ⟨r, hr, _⟩
  cases hr

theorem names_variable_add (op : Int) (name : String) (sym : Nat) (related : related_list)
    (y : String) (sy : Nat) :
    names_variable (add_related_loop op name sym related) y sy ↔
      ((y = name ∧ sy = sym) ∨ names_variable related y sy) := by
  constructor
  · rintro ⟨r, hr, hn, hs⟩
    rcases (mem_add_related_loop _ _ _ _ _).mp hr with h | h
    · subst h; exact Or.inl ⟨hn.symm, hs.symm⟩
    · exact Or.inr ⟨r, h, hn, hs⟩
  · rintro (⟨h1, h2⟩ | ⟨r, hr, hn, hs⟩)
    · exact ⟨⟨op, name, sym⟩, (mem_add_related_loop _ _ _ _ _).mpr (Or.inl rfl), h1.symm, h2.symm⟩
    · exact ⟨r, (mem_add_related_loop _ _ _ _ _).mpr (Or.inr hr), hn, hs⟩

theorem names_variable_of_del (name : String) (sym : Nat) (related : related_list)
    (h : related.Pairwise entry_before) (y : String) (sy : Nat)
    (hy : names_variable (del_related_loop name sym related) y sy) :
    names_variable related y sy := by
  rw [del_related_loop_eq_filter name sym related h] at hy
  obtain ⟨r, hr, hn⟩ := hy
  exact ⟨r, (List.mem_filter.mp hr).1, hn⟩

theorem del_related_loop_ok (name : String) (sym : Nat) (related : related_list)
    (h : equiv_list_ok related) : equiv_list_ok (del_related_loop name sym related) := by
  rw [del_related_loop_eq_filter name sym related h.2]
  refine ⟨?_, ?_⟩
  · intro x hx
    exact h.1 x (List.mem_filter.mp hx).1
  · exact List.Pairwise.sublist (List.filter_sublist _) h.2

theorem mem_equal_of_names (related : related_list) (h : equiv_list_ok related) (y : String)
    (sy : Nat) : names_variable related y sy ↔ ⟨SPECIAL_EQUAL, y, sy⟩ ∈ related := by
  constructor
  · rintro ⟨r, hr, hn, hs⟩
    have hop := h.1 r hr
    have : r = ⟨SPECIAL_EQUAL, y, sy⟩ := by
      cases r
      simp only [relation.mk.injEq]
      exact ⟨hop, hn, hs⟩
    rw [← this]
    exact hr
  · intro hm
    exact ⟨_, hm, rfl, rfl⟩

theorem relation_symmetric_of_class_store (cur : state_list) (h : class_store cur) :
    relation_symmetric cur := by
  have key : ∀ (x : String) (sx : Nat) (y : String) (sy : Nat),
      ⟨SPECIAL_EQUAL, y, sy⟩ ∈ related_of cur x sx →
      ⟨SPECIAL_EQUAL, x, sx⟩ ∈ related_of cur y sy := by
    intro x sx y sy hm
    have hne : related_of cur x sx ≠ [] := by
      intro h0
      rw [h0] at hm
      cases hm
    obtain ⟨hok, hself, hall⟩ := h x sx hne
    rw [hall y sy ⟨_, hm, rfl, rfl⟩]
    exact (mem_equal_of_names _ hok x sx).mp hself
  intro x sx y sy
  exact ⟨key x sx y sy, key y sy x sx⟩

/-- The effect of `remove_from_equiv` on relation sets, on the level of the map from
variables to relation sets. -/
theorem class_at_after_remove (R R2 : String → Nat → related_list) (a : String) (sa : Nat)
    (hR : ∀ (x : String) (sx : Nat), class_at R x sx) (hL : R a sa ≠ [])
    (hR2 : ∀ (x : String) (sx : Nat),
      (names_variable (del_related_loop a sa (R a sa)) x sx →
        R2 x sx = (if (del_related_loop a sa (R a sa)).length = 1 then []
                   else del_related_loop a sa (R a sa))) ∧
      (¬ names_variable (del_related_loop a sa (R a sa)) x sx → R2 x sx = R x sx)) :
    R2 a sa = R a sa ∧
    (∀ (x : String) (sx : Nat), ¬ (x = a ∧ sx = sa) → class_at R2 x sx) ∧
    (∀ (x : String) (sx : Nat), ¬ (x = a ∧ sx = sa) → ¬ names_variable (R2 x sx) a sa) := by
  obtain ⟨hokL, _, hallL⟩ := hR a sa hL
  have hnoa := not_names_variable_del a sa (R a sa) hokL.2
  have hsub := names_variable_of_del a sa (R a sa) hokL.2
  have hkeep := names_variable_del_of_ne a sa (R a sa) hokL.2
  have hMs : ∀ (y : String) (sy : Nat),
      names_variable (if (del_related_loop a sa (R a sa)).length = 1 then []
        else del_related_loop a sa (R a sa)) y sy →
      names_variable (del_related_loop a sa (R a sa)) y sy := by
    intro y sy hy
    split at hy
    · exact absurd hy (names_variable_nil y sy)
    · exact hy
  -- a variable outside the class of `a` names no member of the class
  have hout : ∀ (x : String) (sx : Nat), ¬ (x = a ∧ sx = sa) →
      ¬ names_variable (del_related_loop a sa (R a sa)) x sx → R x sx ≠ [] →
      ∀ (y : String) (sy : Nat), names_variable (R x sx) y sy →
        ¬ names_variable (R a sa) y sy := by
    intro x sx hxa hxM hx y sy hy hyL
    obtain ⟨_, hselfx, hallx⟩ := hR x sx hx
    have h1 : R y sy = R a sa := hallL y sy hyL
    have h2 : R y sy = R x sx := hallx y sy hy
    have h3 : names_variable (R a sa) x sx := by
      rw [← h1, h2]; exact hselfx
    exact hxM (hkeep x sx h3 hxa)
  refine ⟨(hR2 a sa).2 hnoa, ?_, ?_⟩
  · intro x sx hxa hne
    by_cases hxM : names_variable (del_related_loop a sa (R a sa)) x sx
    · have hx2 := (hR2 x sx).1 hxM
      rw [hx2] at hne ⊢
      split at hne
      · exact absurd rfl hne
      · rename_i hlen
        rw [if_neg hlen]
        refine ⟨del_related_loop_ok a sa _ hokL, hxM, ?_⟩
        intro y sy hy
        rw [(hR2 y sy).1 hy, if_neg hlen]
    · have hx2 := (hR2 x sx).2 hxM
      rw [hx2] at hne ⊢
      obtain ⟨hokx, hselfx, hallx⟩ := hR x sx hne
      refine ⟨hokx, hselfx, ?_⟩
      intro y sy hy
      have hyL := hout x sx hxa hxM hne y sy hy
      have hyM : ¬ names_variable (del_related_loop a sa (R a sa)) y sy :=
        fun h => hyL (hsub y sy h)
      rw [(hR2 y sy).2 hyM]
      exact hallx y sy hy
  · intro x sx hxa hna
    by_cases hxM : names_variable (del_related_loop a sa (R a sa)) x sx
    · rw [(hR2 x sx).1 hxM] at hna
      exact hnoa (hMs a sa hna)
    · rw [(hR2 x sx).2 hxM] at hna
      have hne : R x sx ≠ [] := by
        intro h0
        rw [h0] at hna
        exact names_variable_nil a sa hna
      exact hout x sx hxa hxM hne a sa hna ((hR a sa hL).2.1)

/-- The removal step without the assumption that the removed variable has a relation set:
without one nothing is deleted and the map is unchanged. -/
theorem class_at_after_remove_any (R R2 : String → Nat → related_list) (a : String) (sa : Nat)
    (hR : ∀ (x : String) (sx : Nat), class_at R x sx)
    (hR2 : ∀ (x : String) (sx : Nat),
      (names_variable (del_related_loop a sa (R a sa)) x sx →
        R2 x sx = (if (del_related_loop a sa (R a sa)).length = 1 then []
                   else del_related_loop a sa (R a sa))) ∧
      (¬ names_variable (del_related_loop a sa (R a sa)) x sx → R2 x sx = R x sx)) :
    R2 a sa = R a sa ∧
    (∀ (x : String) (sx : Nat), ¬ (x = a ∧ sx = sa) → class_at R2 x sx) ∧
    (∀ (x : String) (sx : Nat), ¬ (x = a ∧ sx = sa) → ¬ names_variable (R2 x sx) a sa) := by
  by_cases hL : R a sa = []
  · have hdel : del_related_loop a sa (R a sa) = [] := by rw [hL]; rfl
    have hsame : ∀ (x : String) (sx : Nat), R2 x sx = R x sx := by
      intro x sx
      apply (hR2 x sx).2
      rw [hdel]
      exact names_variable_nil x sx
    refine ⟨hsame a sa, ?_, ?_⟩
    · intro x sx _ hne
      rw [hsame x sx] at hne ⊢
      obtain ⟨h1, h2, h3⟩ := hR x sx hne
      refine ⟨h1, h2, ?_⟩
      intro y sy hy
      rw [hsame y sy]
      exact h3 y sy hy
    · intro x sx _ hna
      rw [hsame x sx] at hna
      have hne : R x sx ≠ [] := by
        intro h0
        rw [h0] at hna
        exact names_variable_nil a sa hna
      have := (hR x sx hne).2.2 a sa hna
      exact hne (this ▸ hL)
  · exact class_at_after_remove R R2 a sa hR hL hR2

/-- The installation step of `set_equiv` on the level of the map from variables to
relation sets. -/
theorem class_at_after_add (R1 R2 : String → Nat → related_list) (a : String) (sa : Nat)
    (Lnew : related_list) (hok : equiv_list_ok Lnew)
    (h1 : ∀ (x : String) (sx : Nat), ¬ (x = a ∧ sx = sa) → class_at R1 x sx)
    (h1a : ∀ (x : String) (sx : Nat), ¬ (x = a ∧ sx = sa) → ¬ names_variable (R1 x sx) a sa)
    (ha : names_variable Lnew a sa)
    (hP : ∀ (y : String) (sy : Nat), ¬ (y = a ∧ sy = sa) → names_variable Lnew y sy →
      ∀ (z : String) (sz : Nat), names_variable (R1 y sy) z sz → names_variable Lnew z sz)
    (hR2 : ∀ (x : String) (sx : Nat),
      (names_variable Lnew x sx → R2 x sx = Lnew) ∧
      (¬ names_variable Lnew x sx → R2 x sx = R1 x sx)) :
    ∀ (x : String) (sx : Nat), class_at R2 x sx := by
  intro x sx hne
  by_cases hx : names_variable Lnew x sx
  · rw [(hR2 x sx).1 hx]
    refine ⟨hok, hx, ?_⟩
    intro y sy hy
    exact (hR2 y sy).1 hy
  · have hxa : ¬ (x = a ∧ sx = sa) := by
      rintro ⟨h1, h2⟩
      subst h1 h2
      exact hx ha
    rw [(hR2 x sx).2 hx] at hne ⊢
    obtain ⟨hokx, hselfx, hallx⟩ := h1 x sx hxa hne
    refine ⟨hokx, hselfx, ?_⟩
    intro y sy hy
    have hya : ¬ (y = a ∧ sy = sa) := by
      rintro ⟨h1, h2⟩
      subst h1 h2
      exact h1a x sx hxa hy
    have hyn : ¬ names_variable Lnew y sy := by
      intro hyl
      have h2 : R1 y sy = R1 x sx := hallx y sy hy
      have h3 : names_variable (R1 y sy) x sx := by rw [h2]; exact hselfx
      exact hx (hP y sy hya hyl x sx h3)
    rw [(hR2 y sy).2 hyn]
    exact hallx y sy hy

/-- The relation list `set_equiv` installs: the list of the source, seeded with the source
itself when empty, with the target added. -/
theorem estate_related_equiv_state (source : smatch_state) (b : String) (sb : Nat) (a : String)
    (sa : Nat) :
    estate_related (equiv_state source b sb a sa) =
      add_related_loop SPECIAL_EQUAL a sa
        (if estate_related source = [] then add_related_loop SPECIAL_EQUAL b sb []
         else estate_related source) := by
  unfold equiv_state
  rw [estate_related_add_equiv, clone_estate_eq]
  split
  · rename_i h
    rw [estate_related_add_equiv, h]
  · rfl

theorem equiv_list_ok_nil : equiv_list_ok [] := by
  constructor
  · intro x hx; cases hx
  · exact List.Pairwise.nil

/-- Both steps of `set_equiv` on the level of the map from variables to relation sets:
from a map of equivalence classes to a map of equivalence classes. -/
theorem class_at_after_set_equiv (R R1 R2 : String → Nat → related_list) (a : String) (sa : Nat)
    (b : String) (sb : Nat)
    (hR : ∀ (x : String) (sx : Nat), class_at R x sx)
    (hR1 : ∀ (x : String) (sx : Nat),
      (names_variable (del_related_loop a sa (R a sa)) x sx →
        R1 x sx = (if (del_related_loop a sa (R a sa)).length = 1 then []
                   else del_related_loop a sa (R a sa))) ∧
      (¬ names_variable (del_related_loop a sa (R a sa)) x sx → R1 x sx = R x sx))
    (hR2 : ∀ (x : String) (sx : Nat),
      (names_variable (add_related_loop SPECIAL_EQUAL a sa
          (if R b sb = [] then add_related_loop SPECIAL_EQUAL b sb [] else R b sb)) x sx →
        R2 x sx = add_related_loop SPECIAL_EQUAL a sa
          (if R b sb = [] then add_related_loop SPECIAL_EQUAL b sb [] else R b sb)) ∧
      (¬ names_variable (add_related_loop SPECIAL_EQUAL a sa
          (if R b sb = [] then add_related_loop SPECIAL_EQUAL b sb [] else R b sb)) x sx →
        R2 x sx = R1 x sx)) :
    ∀ (x : String) (sx : Nat), class_at R2 x sx := by
  obtain ⟨_, h1, h1a⟩ := class_at_after_remove_any R R1 a sa hR hR1
  have hnil : equiv_list_ok [] := equiv_list_ok_nil
  have hokB : equiv_list_ok
      (if R b sb = [] then add_related_loop SPECIAL_EQUAL b sb [] else R b sb) := by
    split
    · exact add_related_loop_ok b sb [] hnil
    · rename_i hne
      exact (hR b sb hne).1
  refine class_at_after_add R1 R2 a sa _ (add_related_loop_ok a sa _ hokB) h1 h1a
    ((names_variable_add _ _ _ _ _ _).mpr (Or.inl ⟨rfl, rfl⟩)) ?_ hR2
  intro y sy hya hy z sz hz
  refine (names_variable_add _ _ _ _ _ _).mpr (Or.inr ?_)
  rcases (names_variable_add _ _ _ _ _ _).mp hy with h | h
  · exact absurd h hya
  · -- the list of `a` before the call, needed only when it is not empty
    have hMsub : ∀ (u : String) (su : Nat),
        names_variable (del_related_loop a sa (R a sa)) u su →
        R a sa ≠ [] ∧ names_variable (R a sa) u su := by
      intro u su hu
      have hne : R a sa ≠ [] := by
        intro h0
        rw [h0] at hu
        exact names_variable_nil u su hu
      exact ⟨hne, names_variable_of_del a sa (R a sa) (hR a sa hne).1.2 u su hu⟩
    by_cases hB : R b sb = []
    · rw [if_pos hB] at h ⊢
      rcases (names_variable_add _ _ _ _ _ _).mp h with ⟨hyb, hsyb⟩ | h
      · subst hyb hsyb
        have hyM : ¬ names_variable (del_related_loop a sa (R a sa)) y sy := by
          intro hu
          obtain ⟨hne, hu2⟩ := hMsub y sy hu
          have := (hR a sa hne).2.2 y sy hu2
          exact hne (this ▸ hB)
        rw [(hR1 y sy).2 hyM, hB] at hz
        exact absurd hz (names_variable_nil z sz)
      · exact absurd h (names_variable_nil y sy)
    · rw [if_neg hB] at h ⊢
      have hyB : R y sy = R b sb := (hR b sb hB).2.2 y sy h
      by_cases hyM : names_variable (del_related_loop a sa (R a sa)) y sy
      · obtain ⟨hne, hu2⟩ := hMsub y sy hyM
        have hLB : R a sa = R b sb := by
          rw [← (hR a sa hne).2.2 y sy hu2, hyB]
        rw [(hR1 y sy).1 hyM] at hz
        have hz2 : names_variable (del_related_loop a sa (R a sa)) z sz := by
          split at hz
          · exact absurd hz (names_variable_nil z sz)
          · exact hz
        rw [← hLB]
        exact (hMsub z sz hz2).2
      · rw [(hR1 y sy).2 hyM, hyB] at hz
        exact hz

/-! ### Relation sets of the store after the two operations -/

theorem related_of_install_for_each (H : helpers) (hH : allocators_ok H) (od : sm_data)
    (ol or_ : sm_state) (ho : od.owner = SMATCH_EXTRA) (state : smatch_state)
    (related : related_list) (cur : state_list) (name : String) (sym : Nat) :
    (names_variable related name sym →
      related_of (install_for_each H (.node od ol or_) state related cur) name sym
        = estate_related state) ∧
    (¬ names_variable related name sym →
      related_of (install_for_each H (.node od ol or_) state related cur) name sym
        = related_of cur name sym) := by
  have h := get_state_install_for_each H hH od ol or_ state related cur name sym
  rw [ho] at h
  constructor
  · intro hn
    unfold related_of
    rw [h.1 hn]
  · intro hn
    unfold related_of
    rw [h.2 hn]

theorem get_state_remove_from_equiv (H : helpers) (hH : allocators_ok H) (cur : state_list)
    (a : String) (sa : Nat) (x : String) (sx : Nat)
    (hx : ¬ names_variable (del_related_loop a sa (related_of cur a sa)) x sx) :
    get_state (remove_from_equiv H a sa cur) SMATCH_EXTRA x sx
      = get_state cur SMATCH_EXTRA x sx := by
  by_cases hL : related_of cur a sa = []
  · rw [remove_from_equiv_noop H cur a sa hL]
  · cases hfound : get_sm_state cur SMATCH_EXTRA a sa with
    | NULL => exact absurd (related_of_unbound cur a sa hfound) hL
    | node od ol or_ =>
      obtain ⟨ho, _, _⟩ := get_sm_state_slist_key cur SMATCH_EXTRA a sa od ol or_ hfound
      rw [related_of_eq cur a sa od ol or_ hfound] at hL hx
      rw [remove_from_equiv_bound H cur a sa od ol or_ hfound hL]
      have h := (get_state_install_for_each H hH od ol or_ (removed_state od.state a sa)
        (del_related_loop a sa (estate_related od.state)) cur x sx).2 hx
      rw [ho] at h
      exact h

theorem related_of_remove_from_equiv (H : helpers) (hH : allocators_ok H) (cur : state_list)
    (a : String) (sa : Nat) (x : String) (sx : Nat) :
    (names_variable (del_related_loop a sa (related_of cur a sa)) x sx →
      related_of (remove_from_equiv H a sa cur) x sx =
        (if (del_related_loop a sa (related_of cur a sa)).length = 1 then []
         else del_related_loop a sa (related_of cur a sa))) ∧
    (¬ names_variable (del_related_loop a sa (related_of cur a sa)) x sx →
      related_of (remove_from_equiv H a sa cur) x sx = related_of cur x sx) := by
  constructor
  · intro hx
    cases hfound : get_sm_state cur SMATCH_EXTRA a sa with
    | NULL =>
      rw [related_of_unbound cur a sa hfound] at hx
      exact absurd hx (names_variable_nil x sx)
    | node od ol or_ =>
      obtain ⟨ho, _, _⟩ := get_sm_state_slist_key cur SMATCH_EXTRA a sa od ol or_ hfound
      rw [related_of_eq cur a sa od ol or_ hfound] at hx ⊢
      have hL : estate_related od.state ≠ [] := by
        intro h0
        rw [h0] at hx
        exact names_variable_nil x sx hx
      rw [remove_from_equiv_bound H cur a sa od ol or_ hfound hL,
        (related_of_install_for_each H hH od ol or_ ho _ _ cur x sx).1 hx]
      exact estate_related_removed_state od.state a sa
  · intro hx
    unfold related_of
    rw [get_state_remove_from_equiv H hH cur a sa x sx hx]

theorem related_of_set_sm_fresh (d : sm_data) (l r : sm_state) (cur : state_list)
    (ho : d.owner = SMATCH_EXTRA) (hrel : estate_related d.state = [])
    (hunbound : get_state cur SMATCH_EXTRA d.name d.sym = none) (x : String) (sx : Nat) :
    related_of (__set_sm (.node d l r) cur) x sx = related_of cur x sx := by
  unfold related_of
  rw [get_state_set_sm, ho]
  by_cases hk : SMATCH_EXTRA = SMATCH_EXTRA ∧ d.name = x ∧ d.sym = sx
  · rw [if_pos hk, ← hk.2.1, ← hk.2.2, hunbound]
    exact hrel
  · rw [if_neg hk]

theorem related_of_set_equiv (H : helpers) (hH : allocators_ok H) (left right : expression)
    (cur : state_list) (a : String) (sa : Nat) (b : String) (sb : Nat)
    (hleft : H.get_variable_from_expr left = (some a, sa)) (hsa : sa ≠ 0)
    (hright : H.get_variable_from_expr right = (some b, sb)) (hsb : sb ≠ 0) :
    ∃ cur1 : state_list,
      (∀ (x : String) (sx : Nat), related_of cur1 x sx = related_of cur x sx) ∧
      ∀ (x : String) (sx : Nat),
        (names_variable (add_related_loop SPECIAL_EQUAL a sa
            (if related_of cur b sb = [] then add_related_loop SPECIAL_EQUAL b sb []
             else related_of cur b sb)) x sx →
          related_of (set_equiv H left right cur) x sx =
            add_related_loop SPECIAL_EQUAL a sa
              (if related_of cur b sb = [] then add_related_loop SPECIAL_EQUAL b sb []
               else related_of cur b sb)) ∧
        (¬ names_variable (add_related_loop SPECIAL_EQUAL a sa
            (if related_of cur b sb = [] then add_related_loop SPECIAL_EQUAL b sb []
             else related_of cur b sb)) x sx →
          related_of (set_equiv H left right cur) x sx =
            related_of (remove_from_equiv H a sa cur1) x sx) := by
  obtain ⟨rd, rl, rr, cur1, ho, hn, hs, hsrc, heq⟩ :=
    set_equiv_resolved H hH left right cur a sa b sb hleft hsa hright hsb
  have hLB : estate_related rd.state = related_of cur b sb := by
    rcases hsrc with ⟨h, _⟩ | ⟨h, h2, _⟩
    · unfold related_of; rw [h]
    · unfold related_of; rw [h, h2]; exact hH.extra_undefined_related
  have hcur1 : ∀ (x : String) (sx : Nat), related_of cur1 x sx = related_of cur x sx := by
    intro x sx
    rcases hsrc with ⟨_, h⟩ | ⟨h, h2, h3⟩
    · rw [h]
    · rw [h3]
      apply related_of_set_sm_fresh rd rl rr cur ho
      · rw [h2]; exact hH.extra_undefined_related
      · rw [hn, hs]; exact h
  refine ⟨cur1, hcur1, ?_⟩
  intro x sx
  rw [heq, estate_related_equiv_state, hLB]
  have h := related_of_install_for_each H hH rd rl rr ho (equiv_state rd.state b sb a sa)
    (add_related_loop SPECIAL_EQUAL a sa
      (if related_of cur b sb = [] then add_related_loop SPECIAL_EQUAL b sb []
       else related_of cur b sb)) (remove_from_equiv H a sa cur1) x sx
  rw [estate_related_equiv_state, hLB] at h
  exact h

theorem set_equiv_unresolved (H : helpers) (left right : expression) (cur : state_list)
    (h : (H.get_variable_from_expr left).1 = none ∨ (H.get_variable_from_expr left).2 = 0 ∨
      (H.get_variable_from_expr right).1 = none ∨ (H.get_variable_from_expr right).2 = 0) :
    set_equiv H left right cur = cur := by
  unfold set_equiv
  rcases hl : H.get_variable_from_expr left with ⟨ln, ls⟩
  rw [hl] at h
  cases ln with
  | none => rfl
  | some left_name =>
    dsimp only
    by_cases hls : ls = 0
    · rw [if_pos hls]
    · rw [if_neg hls]
      have hr : (H.get_variable_from_expr right).1 = none ∨
          (H.get_variable_from_expr right).2 = 0 := by
        rcases h with h | h | h | h
        · cases h
        · exact absurd h hls
        · exact Or.inl h
        · exact Or.inr h
      have hfound : get_sm_state_expr H cur SMATCH_EXTRA right = .NULL := by
        unfold get_sm_state_expr
        rcases hrr : H.get_variable_from_expr right with ⟨rn, rs⟩
        rw [hrr] at hr
        cases rn with
        | none => rfl
        | some n =>
          rcases hr with h | h
          · cases h
          · dsimp only at h ⊢
            rw [if_pos h]
      have hset : set_state_expr H SMATCH_EXTRA right H.extra_undefined cur = (.NULL, cur) := by
        unfold set_state_expr
        rcases hrr : H.get_variable_from_expr right with ⟨rn, rs⟩
        rw [hrr] at hr
        cases rn with
        | none => rfl
        | some n =>
          rcases hr with h | h
          · cases h
          · dsimp only at h ⊢
            rw [if_pos h]
      rw [hfound]
      simp only [sm_state.isNull, if_true, hset]

theorem class_store_set_equiv (H : helpers) (hH : allocators_ok H) (left right : expression)
    (cur : state_list) (h : class_store cur) : class_store (set_equiv H left right cur) := by
  rcases hl : H.get_variable_from_expr left with ⟨ln, ls⟩
  rcases hr : H.get_variable_from_expr right with ⟨rn, rs⟩
  cases ln with
  | none => rw [set_equiv_unresolved H left right cur (Or.inl (by rw [hl]))]; exact h
  | some a =>
    cases rn with
    | none =>
      rw [set_equiv_unresolved H left right cur (Or.inr (Or.inr (Or.inl (by rw [hr]))))]
      exact h
    | some b =>
      by_cases hls : ls = 0
      · rw [set_equiv_unresolved H left right cur (Or.inr (Or.inl (by rw [hl]; exact hls)))]
        exact h
      · by_cases hrs : rs = 0
        · rw [set_equiv_unresolved H left right cur
            (Or.inr (Or.inr (Or.inr (by rw [hr]; exact hrs))))]
          exact h
        · obtain ⟨cur1, hcur1, h2⟩ :=
            related_of_set_equiv H hH left right cur a ls b rs hl hls hr hrs
          refine class_at_after_set_equiv (related_of cur)
            (related_of (remove_from_equiv H a ls cur1)) _ a ls b rs h ?_ h2
          intro x sx
          have h1 := related_of_remove_from_equiv H hH cur1 a ls x sx
          rw [hcur1 a ls, hcur1 x sx] at h1
          exact h1

theorem class_store_of_no_relation (cur : state_list)
    (h : ∀ (x : String) (sx : Nat), related_of cur x sx = []) : class_store cur := by
  intro x sx hne
  exact absurd (h x sx) hne

theorem related_of_nil (x : String) (sx : Nat) : related_of [] x sx = [] := rfl

theorem related_of_cons (d : sm_data) (l r : sm_state) (rest : state_list) (x : String)
    (sx : Nat) :
    related_of (.node d l r :: rest) x sx =
      if d.owner = SMATCH_EXTRA ∧ d.name = x ∧ d.sym = sx then estate_related d.state
      else related_of rest x sx := by
  unfold related_of get_state get_sm_state
  simp only [get_sm_state_slist]
  by_cases hk : d.owner = SMATCH_EXTRA ∧ d.name = x ∧ d.sym = sx
  · rw [if_pos hk, if_pos hk]; rfl
  · rw [if_neg hk, if_neg hk]

theorem example_store_no_relation (x : String) (sx : Nat) :
    related_of example_store x sx = [] := by
  unfold example_store example_leaf
  rw [related_of_cons, related_of_nil]
  split <;> rfl

theorem example_crossed_store_symmetric : relation_symmetric example_crossed_store := by
  have key : ∀ (x : String) (sx : Nat) (y : String) (sy : Nat),
      ⟨SPECIAL_EQUAL, y, sy⟩ ∈ related_of example_crossed_store x sx →
      ⟨SPECIAL_EQUAL, x, sx⟩ ∈ related_of example_crossed_store y sy := by
    intro x sx y sy h
    unfold example_crossed_store example_lists at h
    rw [related_of_cons, related_of_cons, related_of_nil] at h
    split at h
    · rename_i hb
      have h2 : (⟨SPECIAL_EQUAL, y, sy⟩ : relation) ∈ [⟨SPECIAL_EQUAL, "c", 9⟩] := h
      simp only [List.mem_singleton, relation.mk.injEq] at h2
      obtain ⟨_, hy, hsy⟩ := h2
      obtain ⟨_, hx, hsx⟩ := hb
      dsimp only at hx hsx
      subst hy hsy hx hsx
      decide
    · split at h
      · rename_i hc
        have h2 : (⟨SPECIAL_EQUAL, y, sy⟩ : relation) ∈ [⟨SPECIAL_EQUAL, "b", 7⟩] := h
        simp only [List.mem_singleton, relation.mk.injEq] at h2
        obtain ⟨_, hy, hsy⟩ := h2
        obtain ⟨_, hx, hsx⟩ := hc
        dsimp only at hx hsx
        subst hy hsy hx hsx
        decide
      · exact absurd h (List.not_mem_nil _)
  intro x sx y sy
  exact ⟨key x sx y sy, key y sy x sx⟩

/-- Counterexample to C5 as stated.  The store after `a = b` is symmetric, and after
`remove_from_equiv(a)` it is not: `b` no longer lists `a`, yet the state bound to `a`
still lists `b`.  And from the symmetric store in which `b` lists only `c` and `c` lists
only `b`, `set_equiv(a, b)` leaves `b` listing `c` while `c` no longer lists `b`. -/
theorem C5_counterexample :
    (relation_symmetric example_equiv_store ∧
      ⟨SPECIAL_EQUAL, "b", 7⟩ ∈
        related_of (remove_from_equiv example_helpers "a" 3 example_equiv_store) "a" 3 ∧
      ⟨SPECIAL_EQUAL, "a", 3⟩ ∉
        related_of (remove_from_equiv example_helpers "a" 3 example_equiv_store) "b" 7 ∧
      ¬ relation_symmetric (remove_from_equiv example_helpers "a" 3 example_equiv_store)) ∧
    (relation_symmetric example_crossed_store ∧
      ¬ relation_symmetric
        (set_equiv example_helpers example_expr_a example_expr_b example_crossed_store)) := by
  refine ⟨⟨?_, by decide, by decide, ?_⟩, example_crossed_store_symmetric, ?_⟩
  · exact relation_symmetric_of_class_store _
      (class_store_set_equiv example_helpers example_helpers_ok _ _ _
        (class_store_of_no_relation _ example_store_no_relation))
  · intro h
    have h1 := (h "a" 3 "b" 7).mp (by decide)
    revert h1
    decide
  · intro h
    have h1 := (h "b" 7 "c" 9).mp (by decide)
    revert h1
    decide

/-- C5, amended.  In a store whose relation sets are equivalence classes, relation sets are
symmetric; `set_equiv` turns such a store into such a store, so symmetry holds after it;
`remove_from_equiv(A)` leaves the state bound to A itself as it was, and keeps the
relation sets of all variables other than A equivalence classes, symmetric among
themselves. -/
theorem C5_relation_classes (H : helpers) (hH : allocators_ok H) (cur : state_list)
    (hcls : class_store cur) :
    relation_symmetric cur ∧
    (∀ (left right : expression),
      class_store (set_equiv H left right cur) ∧
      relation_symmetric (set_equiv H left right cur)) ∧
    (∀ (a : String) (sa : Nat),
      get_state (remove_from_equiv H a sa cur) SMATCH_EXTRA a sa
        = get_state cur SMATCH_EXTRA a sa ∧
      (∀ (x : String) (sx : Nat), ¬ (x = a ∧ sx = sa) →
        class_at (related_of (remove_from_equiv H a sa cur)) x sx) ∧
      (∀ (x : String) (sx : Nat) (y : String) (sy : Nat),
        ¬ (x = a ∧ sx = sa) → ¬ (y = a ∧ sy = sa) →
        (⟨SPECIAL_EQUAL, y, sy⟩ ∈ related_of (remove_from_equiv H a sa cur) x sx ↔
         ⟨SPECIAL_EQUAL, x, sx⟩ ∈ related_of (remove_from_equiv H a sa cur) y sy))) := by
  refine ⟨relation_symmetric_of_class_store cur hcls, ?_, ?_⟩
  · intro left right
    have h := class_store_set_equiv H hH left right cur hcls
    exact ⟨h, relation_symmetric_of_class_store _ h⟩
  · intro a sa
    obtain ⟨_, hcl, _⟩ := class_at_after_remove_any (related_of cur)
      (related_of (remove_from_equiv H a sa cur)) a sa hcls
      (fun x sx => related_of_remove_from_equiv H hH cur a sa x sx)
    have hnoa : ¬ names_variable (del_related_loop a sa (related_of cur a sa)) a sa := by
      by_cases hL : related_of cur a sa = []
      · rw [hL]
        exact names_variable_nil a sa
      · exact not_names_variable_del a sa _ (hcls a sa hL).1.2
    refine ⟨get_state_remove_from_equiv H hH cur a sa a sa hnoa, hcl, ?_⟩
    have key : ∀ (x : String) (sx : Nat) (y : String) (sy : Nat), ¬ (x = a ∧ sx = sa) →
        ⟨SPECIAL_EQUAL, y, sy⟩ ∈ related_of (remove_from_equiv H a sa cur) x sx →
        ⟨SPECIAL_EQUAL, x, sx⟩ ∈ related_of (remove_from_equiv H a sa cur) y sy := by
      intro x sx y sy hx hm
      have hne : related_of (remove_from_equiv H a sa cur) x sx ≠ [] := by
        intro h0
        rw [h0] at hm
        cases hm
      obtain ⟨hok, hself, hall⟩ := hcl x sx hx hne
      rw [hall y sy ⟨_, hm, rfl, rfl⟩]
      exact (mem_equal_of_names _ hok x sx).mp hself
    intro x sx y sy hx hy
    exact ⟨key x sx y sy hx, key y sy x sx hy⟩

theorem example_equiv_store3_classes : class_store example_equiv_store3 :=
  class_store_set_equiv example_helpers example_helpers_ok _ _ _
    (class_store_set_equiv example_helpers example_helpers_ok _ _ _
      (class_store_of_no_relation _ example_store_no_relation))

/-- Witness of the amended C5: the store after `a = b; c = b` is made of equivalence classes;
it is symmetric, and after `remove_from_equiv(a)` the variables other than `a` list one
another symmetrically. -/
theorem C5_relation_classes_witness :
    relation_symmetric example_equiv_store3 ∧
    related_of (remove_from_equiv example_helpers "a" 3 example_equiv_store3) "b" 7
      = [⟨SPECIAL_EQUAL, "b", 7⟩, ⟨SPECIAL_EQUAL, "c", 9⟩] ∧
    ∀ (x : String) (sx : Nat) (y : String) (sy : Nat),
      ¬ (x = "a" ∧ sx = 3) → ¬ (y = "a" ∧ sy = 3) →
      (⟨SPECIAL_EQUAL, y, sy⟩ ∈
          related_of (remove_from_equiv example_helpers "a" 3 example_equiv_store3) x sx ↔
       ⟨SPECIAL_EQUAL, x, sx⟩ ∈
          related_of (remove_from_equiv example_helpers "a" 3 example_equiv_store3) y sy) :=
  ⟨(C5_relation_classes example_helpers example_helpers_ok example_equiv_store3
      example_equiv_store3_classes).1,
   by decide,
   ((C5_relation_classes example_helpers example_helpers_ok example_equiv_store3
      example_equiv_store3_classes).2.2 "a" 3).2.2⟩

theorem example_equiv_store3_built :
    built_by_add_equiv (related_of example_equiv_store3 "a" 3) := by
  have h : related_of example_equiv_store3 "a" 3 =
      add_related_loop SPECIAL_EQUAL "c" 9
        (add_related_loop SPECIAL_EQUAL "a" 3 (add_related_loop SPECIAL_EQUAL "b" 7 [])) := by
    decide
  rw [h]
  exact .add _ _ _ (.add _ _ _ (.add _ _ _ .nil))

/-- Witness of C4: in the store after `a = b; c = b` the relation set of `a` names `b`;
after `remove_from_equiv(a)` the relation set of `b` is `b`, `c` and has no entry for
`a`. -/
theorem C4_removed_from_relation_sets_witness :
    ¬ names_variable
        (related_of (remove_from_equiv example_helpers "a" 3 example_equiv_store3) "b" 7) "a" 3 ∧
    related_of (remove_from_equiv example_helpers "a" 3 example_equiv_store3) "b" 7
      = [⟨SPECIAL_EQUAL, "b", 7⟩, ⟨SPECIAL_EQUAL, "c", 9⟩] :=
  ⟨(C4_removed_from_relation_sets example_helpers example_helpers_ok example_equiv_store3
      "a" 3 "b" 7 example_equiv_store3_built ⟨⟨SPECIAL_EQUAL, "b", 7⟩, by decide, rfl, rfl⟩
      (by decide)).1,
   by decide⟩

/-! ### Snapshots with one binding for each variable -/

theorem get_sm_state_slist_mem (cur : state_list) (owner : Nat) (name : String) (sym : Nat)
    (d : sm_data) (l r : sm_state)
    (h : get_sm_state_slist cur owner name sym = .node d l r) : .node d l r ∈ cur := by
  induction cur with
  | nil => simp [get_sm_state_slist] at h
  | cons tmp rest ih =>
    cases tmp with
    | NULL => exact List.mem_cons_of_mem _ (ih (by simpa [get_sm_state_slist] using h))
    | node td tl tr =>
      unfold get_sm_state_slist at h
      split at h
      · rw [h]; exact List.mem_cons_self _ _
      · exact List.mem_cons_of_mem _ (ih h)

theorem get_state_cons (d : sm_data) (l r : sm_state) (rest : state_list) (owner : Nat)
    (name : String) (sym : Nat) :
    get_state (.node d l r :: rest) owner name sym =
      if d.owner = owner ∧ d.name = name ∧ d.sym = sym then some d.state
      else get_state rest owner name sym := by
  unfold get_state get_sm_state
  simp only [get_sm_state_slist]
  by_cases hk : d.owner = owner ∧ d.name = name ∧ d.sym = sym
  · rw [if_pos hk, if_pos hk]; rfl
  · rw [if_neg hk, if_neg hk]

theorem get_state_none_of_no_key (d : sm_data) (l r : sm_state) (rest : state_list)
    (h : ∀ b ∈ rest, ¬ same_key (.node d l r) b) :
    get_state rest d.owner d.name d.sym = none := by
  unfold get_state get_sm_state
  cases hfound : get_sm_state_slist rest d.owner d.name d.sym with
  | NULL => rfl
  | node d2 l2 r2 =>
    have hm := get_sm_state_slist_mem rest _ _ _ d2 l2 r2 hfound
    obtain ⟨h1, h2, h3⟩ := get_sm_state_slist_key rest _ _ _ d2 l2 r2 hfound
    exact absurd (show same_key (.node d l r) (.node d2 l2 r2) from ⟨h1.symm, h2.symm, h3.symm⟩)
      (h _ hm)

theorem mem_set_sm (sm : sm_state) (cur : state_list) (x : sm_state)
    (h : x ∈ __set_sm sm cur) : x = sm ∨ x ∈ cur := by
  induction cur with
  | nil =>
    unfold __set_sm at h
    split at h
    · cases h
    · exact Or.inl (List.mem_singleton.mp h)
  | cons tmp rest ih =>
    cases sm with
    | NULL => exact Or.inr (by simpa [__set_sm] using h)
    | node d l r =>
      cases tmp with
      | NULL =>
        simp only [__set_sm] at h
        rcases List.mem_cons.mp h with h1 | h1
        · exact Or.inr (h1 ▸ List.mem_cons_self _ _)
        · rcases ih h1 with h2 | h2
          · exact Or.inl h2
          · exact Or.inr (List.mem_cons_of_mem _ h2)
      | node td tl tr =>
        simp only [__set_sm] at h
        split at h
        · rcases List.mem_cons.mp h with h1 | h1
          · exact Or.inl h1
          · exact Or.inr (List.mem_cons_of_mem _ h1)
        · rcases List.mem_cons.mp h with h1 | h1
          · exact Or.inr (h1 ▸ List.mem_cons_self _ _)
          · rcases ih h1 with h2 | h2
            · exact Or.inl h2
            · exact Or.inr (List.mem_cons_of_mem _ h2)

theorem wf_slist_nil : wf_slist [] := by
  constructor
  · intro sm h; cases h
  · exact List.Pairwise.nil

theorem wf_slist_set_sm (d : sm_data) (l r : sm_state) (cur : state_list) (h : wf_slist cur) :
    wf_slist (__set_sm (.node d l r) cur) := by
  induction cur with
  | nil =>
    constructor
    · intro sm hm
      simp only [__set_sm, sm_state.isNull] at hm
      rw [List.mem_singleton.mp hm]; rfl
    · simp [__set_sm, sm_state.isNull]
  | cons tmp rest ih =>
    obtain ⟨hnn, hpw⟩ := h
    have hrest : wf_slist rest :=
      ⟨fun x hx => hnn x (List.mem_cons_of_mem _ hx), (List.pairwise_cons.mp hpw).2⟩
    have htmp := (List.pairwise_cons.mp hpw).1
    cases tmp with
    | NULL => exact absurd (hnn .NULL (List.mem_cons_self _ _)) (by simp [sm_state.isNull])
    | node td tl tr =>
      simp only [__set_sm]
      split
      · rename_i hk
        constructor
        · intro x hx
          rcases List.mem_cons.mp hx with h1 | h1
          · rw [h1]; rfl
          · exact hnn x (List.mem_cons_of_mem _ h1)
        · refine List.pairwise_cons.mpr ⟨?_, hrest.2⟩
          intro y hy hsame
          apply htmp y hy
          cases y with
          | NULL => exact hsame
          | node yd yl yr =>
            exact ⟨hk.1.trans hsame.1, hk.2.1.trans hsame.2.1, hk.2.2.trans hsame.2.2⟩
      · rename_i hk
        obtain ⟨ihnn, ihpw⟩ := ih hrest
        constructor
        · intro x hx
          rcases List.mem_cons.mp hx with h1 | h1
          · rw [h1]; rfl
          · exact ihnn x h1
        · refine List.pairwise_cons.mpr ⟨?_, ihpw⟩
          intro y hy
          rcases mem_set_sm _ _ _ hy with h1 | h1
          · rw [h1]
            exact hk
          · exact htmp y h1

theorem get_state_set_each_sm (fs : state_list) (hwf : wf_slist fs) :
    ∀ (cur : state_list) (owner : Nat) (name : String) (sym : Nat),
      get_state (set_each_sm fs cur) owner name sym =
        match get_state fs owner name sym with
        | some st => some st
        | none => get_state cur owner name sym := by
  induction fs with
  | nil => intro cur owner name sym; rfl
  | cons sm rest ih =>
    intro cur owner name sym
    obtain ⟨hnn, hpw⟩ := hwf
    have hrest : wf_slist rest :=
      ⟨fun x hx => hnn x (List.mem_cons_of_mem _ hx), (List.pairwise_cons.mp hpw).2⟩
    have hsm := (List.pairwise_cons.mp hpw).1
    cases sm with
    | NULL => exact absurd (hnn .NULL (List.mem_cons_self _ _)) (by simp [sm_state.isNull])
    | node d l r =>
      simp only [set_each_sm]
      rw [ih hrest, get_state_set_sm, get_state_cons]
      by_cases hk : d.owner = owner ∧ d.name = name ∧ d.sym = sym
      · rw [if_pos hk, if_pos hk]
        have := get_state_none_of_no_key d l r rest hsm
        rw [hk.1, hk.2.1, hk.2.2] at this
        rw [this]
      · rw [if_neg hk, if_neg hk]

/-! ### The ranged-assignment protocol -/

theorem pop_after_push (ctx : context) (scratch : state_list) :
    __pop_fake_cur_slist { __push_fake_cur_slist ctx with cur_slist := scratch }
      = (scratch, ctx) := rfl

theorem assign_ranged_loop_eq (H : helpers) (fn : String) (expr right : expression)
    (var_name : String) (sym : Nat) (call_backs : call_back_list) (rest : call_back_list) :
    ∀ (ctx : context) (final_states : state_list) (handled : range_list),
      assign_ranged_loop H fn expr right var_name sym call_backs rest ctx final_states handled
        = (ctx,
           (new_ranges rest handled).foldl
             (fun acc r =>
               H.merge_slist acc (ranged_scratch H fn expr right var_name sym call_backs r))
             final_states,
           handled ++ new_ranges rest handled) := by
  induction rest with
  | nil => intro ctx final_states handled; simp [assign_ranged_loop, new_ranges]
  | cons tmp rest ih =>
    intro ctx final_states handled
    unfold assign_ranged_loop new_ranges
    split
    · exact ih ctx final_states handled
    · split
      · exact ih ctx final_states handled
      · simp only [pop_after_push, __push_fake_cur_slist]
        rw [ih]
        simp only [List.foldl_cons, List.append_assoc, List.singleton_append]
        rfl

theorem in_list_exact_iff (list : range_list) (r : data_range) :
    in_list_exact list r = true ↔ r ∈ list := by
  unfold in_list_exact
  rw [List.any_eq_true]
  constructor
  · rintro ⟨x, hx, hd⟩
    have h := of_decide_eq_true hd
    have : x = r := by
      cases x; cases r
      simp only [data_range.mk.injEq]
      exact h
    rw [← this]; exact hx
  · intro h
    exact ⟨r, h, decide_eq_true ⟨rfl, rfl⟩⟩

theorem mem_new_ranges (call_backs : call_back_list) :
    ∀ (handled : range_list) (r : data_range),
      r ∈ new_ranges call_backs handled ↔
        ((∃ cb ∈ call_backs, cb.type = RANGED_CALL ∧ cb.range = r) ∧ r ∉ handled) := by
  induction call_backs with
  | nil => intro handled r; simp [new_ranges]
  | cons tmp rest ih =>
    intro handled r
    unfold new_ranges
    split
    · rename_i hty
      rw [ih]
      constructor
      · rintro ⟨⟨cb, hcb, h1, h2⟩, h3⟩
        exact ⟨⟨cb, List.mem_cons_of_mem _ hcb, h1, h2⟩, h3⟩
      · rintro ⟨⟨cb, hcb, h1, h2⟩, h3⟩
        rcases List.mem_cons.mp hcb with h4 | h4
        · subst h4; exact absurd h1 hty
        · exact ⟨⟨cb, h4, h1, h2⟩, h3⟩
    · rename_i hty
      have hty2 : tmp.type = RANGED_CALL := not_not.mp hty
      split
      · rename_i hin
        have hin2 := (in_list_exact_iff _ _).mp hin
        rw [ih]
        constructor
        · rintro ⟨⟨cb, hcb, h1, h2⟩, h3⟩
          exact ⟨⟨cb, List.mem_cons_of_mem _ hcb, h1, h2⟩, h3⟩
        · rintro ⟨⟨cb, hcb, h1, h2⟩, h3⟩
          rcases List.mem_cons.mp hcb with h4 | h4
          · subst h4; subst h2; exact absurd hin2 h3
          · exact ⟨⟨cb, h4, h1, h2⟩, h3⟩
      · rename_i hin
        have hin2 : tmp.range ∉ handled := fun h => hin ((in_list_exact_iff _ _).mpr h)
        rw [List.mem_cons, ih]
        constructor
        · rintro (h | ⟨⟨cb, hcb, h1, h2⟩, h3⟩)
          · subst h
            exact ⟨⟨tmp, List.mem_cons_self _ _, hty2, rfl⟩, hin2⟩
          · refine ⟨⟨cb, List.mem_cons_of_mem _ hcb, h1, h2⟩, ?_⟩
            intro h
            exact h3 (List.mem_append.mpr (Or.inl h))
        · rintro ⟨⟨cb, hcb, h1, h2⟩, h3⟩
          by_cases hr : r = tmp.range
          · exact Or.inl hr
          · refine Or.inr ⟨?_, ?_⟩
            · rcases List.mem_cons.mp hcb with h4 | h4
              · subst h4; exact absurd h2.symm hr
              · exact ⟨cb, h4, h1, h2⟩
            · intro h
              rcases List.mem_append.mp h with h5 | h5
              · exact h3 h5
              · exact hr (List.mem_singleton.mp h5)

theorem mem_get_same_ranged_call_backs (call_backs : call_back_list) (r : data_range)
    (cb : fcall_back) (h : cb ∈ get_same_ranged_call_backs call_backs r) : cb ∈ call_backs := by
  induction call_backs with
  | nil => simp [get_same_ranged_call_backs] at h
  | cons tmp rest ih =>
    unfold get_same_ranged_call_backs at h
    split at h
    · exact List.mem_cons_of_mem _ (ih h)
    · split at h
      · rcases List.mem_cons.mp h with h1 | h1
        · rw [h1]; exact List.mem_cons_self _ _
        · exact List.mem_cons_of_mem _ (ih h1)
      · exact List.mem_cons_of_mem _ (ih h)

theorem wf_call_ranged_call_backs (list : call_back_list) (hk : call_backs_keep_wf list)
    (fn : String) (call_expr assign_expr : expression) :
    ∀ cur : state_list, wf_slist cur →
      wf_slist (call_ranged_call_backs list fn call_expr assign_expr cur) := by
  induction list with
  | nil => intro cur h; exact h
  | cons tmp rest ih =>
    intro cur h
    unfold call_ranged_call_backs
    exact ih (fun t ht => hk t (List.mem_cons_of_mem _ ht)) _
      (hk tmp (List.mem_cons_self _ _) fn call_expr (some assign_expr) tmp.info cur h)

theorem set_extra_mod_spec (H : helpers) (hH : allocators_ok H) (name : String) (sym : Nat)
    (state : smatch_state) (cur : state_list) (hwf : wf_slist cur) :
    wf_slist (set_extra_mod H name sym state cur) ∧
    get_state (set_extra_mod H name sym state cur) SMATCH_EXTRA name sym = some state := by
  obtain ⟨d, l, r, halloc, ho, hn, hs, hst⟩ := hH.alloc_state_fields SMATCH_EXTRA name sym state
  unfold set_extra_mod set_state
  rw [halloc]
  refine ⟨wf_slist_set_sm d l r cur hwf, ?_⟩
  rw [get_state_set_sm, if_pos ⟨ho, hn, hs⟩, hst]

theorem ranged_scratch_spec (H : helpers) (hH : allocators_ok H) (fn : String)
    (expr right : expression) (var_name : String) (sym : Nat) (call_backs : call_back_list)
    (hk : call_backs_keep_wf call_backs) (r : data_range) :
    wf_slist (ranged_scratch H fn expr right var_name sym call_backs r) ∧
    get_state (ranged_scratch H fn expr right var_name sym call_backs r)
      SMATCH_EXTRA var_name sym = some (H.alloc_estate_range r.min r.max) := by
  unfold ranged_scratch
  apply set_extra_mod_spec H hH
  apply wf_call_ranged_call_backs _ _ _ _ _ _ wf_slist_nil
  intro t ht
  exact hk t (mem_get_same_ranged_call_backs call_backs r t ht)

/-- Merging scratch snapshots one after the other into a snapshot that is NULL or binds the
variable: the result binds the variable to the union of all the range sets. -/
theorem merge_fold_ranges (H : helpers) (hm : merge_slist_ok H) (name : String) (sym : Nat)
    (scratches : List state_list) :
    ∀ (acc : state_list),
      (∀ s ∈ scratches, wf_slist s ∧ ∃ st, get_state s SMATCH_EXTRA name sym = some st) →
      (acc = [] ∨ (wf_slist acc ∧ ∃ st, get_state acc SMATCH_EXTRA name sym = some st)) →
      (acc = [] → scratches ≠ []) →
      wf_slist (scratches.foldl H.merge_slist acc) ∧
      ∃ st, get_state (scratches.foldl H.merge_slist acc) SMATCH_EXTRA name sym = some st ∧
        ∀ v : Int, in_range_list v (get_dinfo st).value_ranges ↔
          ((∃ sa, get_state acc SMATCH_EXTRA name sym = some sa ∧
              in_range_list v (get_dinfo sa).value_ranges) ∨
           (∃ s ∈ scratches, ∃ ss, get_state s SMATCH_EXTRA name sym = some ss ∧
              in_range_list v (get_dinfo ss).value_ranges)) := by
  induction scratches with
  | nil =>
    intro acc _ hacc hne
    rcases hacc with h | ⟨hwf, st, hst⟩
    · exact absurd rfl (hne h)
    · refine ⟨hwf, st, hst, ?_⟩
      intro v
      constructor
      · intro hv; exact Or.inl ⟨st, hst, hv⟩
      · rintro (⟨sa, hsa, hv⟩ | ⟨s, hs, _⟩)
        · rw [hst] at hsa; injection hsa with hsa; rw [hsa]; exact hv
        · cases hs
  | cons s rest ih =>
    intro acc hs hacc _
    obtain ⟨hswf, ss, hss⟩ := hs s (List.mem_cons_self _ _)
    have hrest : ∀ t ∈ rest, wf_slist t ∧ ∃ st, get_state t SMATCH_EXTRA name sym = some st :=
      fun t ht => hs t (List.mem_cons_of_mem _ ht)
    simp only [List.foldl_cons]
    rcases hacc with h | ⟨hwf, sa, hsa⟩
    · subst h
      rw [hm.nil_left]
      obtain ⟨h1, st, h2, h3⟩ := ih s hrest (Or.inr ⟨hswf, ss, hss⟩)
        (fun h0 => by rw [h0] at hss; cases hss)
      refine ⟨h1, st, h2, ?_⟩
      intro v
      rw [h3 v]
      constructor
      · rintro (⟨x, hx, hv⟩ | ⟨t, ht, x, hx, hv⟩)
        · exact Or.inr ⟨s, List.mem_cons_self _ _, x, hx, hv⟩
        · exact Or.inr ⟨t, List.mem_cons_of_mem _ ht, x, hx, hv⟩
      · rintro (⟨x, hx, _⟩ | ⟨t, ht, x, hx, hv⟩)
        · cases hx
        · rcases List.mem_cons.mp ht with h4 | h4
          · subst h4; exact Or.inl ⟨x, hx, hv⟩
          · exact Or.inr ⟨t, h4, x, hx, hv⟩
    · obtain ⟨sj, hsj, hjoin⟩ := hm.join acc s SMATCH_EXTRA name sym sa ss hsa hss
      obtain ⟨h1, st, h2, h3⟩ := ih (H.merge_slist acc s) hrest
        (Or.inr ⟨hm.wf acc s hwf hswf, sj, hsj⟩)
        (fun h0 => by rw [h0] at hsj; cases hsj)
      refine ⟨h1, st, h2, ?_⟩
      intro v
      rw [h3 v]
      constructor
      · rintro (⟨x, hx, hv⟩ | ⟨t, ht, x, hx, hv⟩)
        · rw [hsj] at hx; injection hx with hx; subst hx
          rcases (hjoin v).mp hv with h5 | h5
          · exact Or.inl ⟨sa, hsa, h5⟩
          · exact Or.inr ⟨s, List.mem_cons_self _ _, ss, hss, h5⟩
        · exact Or.inr ⟨t, List.mem_cons_of_mem _ ht, x, hx, hv⟩
      · rintro (⟨x, hx, hv⟩ | ⟨t, ht, x, hx, hv⟩)
        · rw [hsa] at hx; injection hx with hx; subst hx
          exact Or.inl ⟨sj, hsj, (hjoin v).mpr (Or.inl hv)⟩
        · rcases List.mem_cons.mp ht with h4 | h4
          · subst h4
            rw [hss] at hx; injection hx with hx; subst hx
            exact Or.inl ⟨sj, hsj, (hjoin v).mpr (Or.inr hv)⟩
          · exact Or.inr ⟨t, h4, x, hx, hv⟩

/-! ### The example merge of snapshots -/

theorem example_merge_one_key (slist : state_list) (d : sm_data) (l r : sm_state) :
    ∃ (d2 : sm_data) (l2 r2 : sm_state),
      example_merge_one slist (.node d l r) = .node d2 l2 r2 ∧
      d2.owner = d.owner ∧ d2.name = d.name ∧ d2.sym = d.sym := by
  simp only [example_merge_one]
  cases get_sm_state_slist slist d.owner d.name d.sym with
  | NULL => exact ⟨d, l, r, rfl, rfl, rfl, rfl⟩
  | node od ol or_ => exact ⟨_, _, _, rfl, rfl, rfl, rfl⟩

theorem get_sm_state_slist_ne_null_of_mem (cur : state_list) (d : sm_data) (l r : sm_state)
    (h : .node d l r ∈ cur) : get_sm_state_slist cur d.owner d.name d.sym ≠ .NULL := by
  induction cur with
  | nil => cases h
  | cons tmp rest ih =>
    cases tmp with
    | NULL =>
      simp only [get_sm_state_slist]
      rcases List.mem_cons.mp h with h1 | h1
      · cases h1
      · exact ih h1
    | node td tl tr =>
      simp only [get_sm_state_slist]
      split
      · intro h0; cases h0
      · rename_i hk
        rcases List.mem_cons.mp h with h1 | h1
        · injection h1 with h2 _ _
          subst h2
          exact absurd ⟨rfl, rfl, rfl⟩ hk
        · exact ih h1

theorem get_sm_state_slist_map_merge_one (slist tail : state_list) (dest : state_list)
    (owner : Nat) (name : String) (sym : Nat) (d : sm_data) (l r : sm_state)
    (h : get_sm_state_slist dest owner name sym = .node d l r) :
    get_sm_state_slist (dest.map (example_merge_one slist) ++ tail) owner name sym
      = example_merge_one slist (.node d l r) := by
  induction dest with
  | nil => simp [get_sm_state_slist] at h
  | cons tmp rest ih =>
    cases tmp with
    | NULL =>
      simp only [List.map_cons, List.cons_append, example_merge_one, get_sm_state_slist] at h ⊢
      exact ih h
    | node td tl tr =>
      obtain ⟨d2, l2, r2, hf, ho, hn, hs⟩ := example_merge_one_key slist td tl tr
      simp only [List.map_cons, List.cons_append, hf, get_sm_state_slist] at h ⊢
      rw [ho, hn, hs]
      split
      · rename_i hk
        rw [if_pos hk] at h
        rw [← h, hf]
      · rename_i hk
        rw [if_neg hk] at h
        exact ih h

theorem example_merge_slist_ok : merge_slist_ok example_helpers where
  nil_left := fun slist => by
    show example_merge_slist [] slist = slist
    simp [example_merge_slist]
  wf := fun dest slist hd hs => by
    show wf_slist (example_merge_slist dest slist)
    unfold example_merge_slist
    split
    · exact hs
    · obtain ⟨hdn, hdp⟩ := hd
      obtain ⟨hsn, hsp⟩ := hs
      constructor
      · intro x hx
        rcases List.mem_append.mp hx with h | h
        · obtain ⟨y, hy, hxy⟩ := List.mem_map.mp h
          cases y with
          | NULL => exact absurd (hdn .NULL hy) (by simp [sm_state.isNull])
          | node d l r =>
            obtain ⟨d2, l2, r2, hf, _⟩ := example_merge_one_key slist d l r
            rw [← hxy, hf]; rfl
        · exact hsn x (List.mem_filter.mp h).1
      · refine List.pairwise_append.mpr ⟨?_, ?_, ?_⟩
        · rw [List.pairwise_map]
          refine List.Pairwise.imp_of_mem ?_ hdp
          intro a b ha hb hab hsame
          apply hab
          cases a with
          | NULL => exact absurd (hdn .NULL ha) (by simp [sm_state.isNull])
          | node ad al ar =>
            cases b with
            | NULL => exact absurd (hdn .NULL hb) (by simp [sm_state.isNull])
            | node bd bl br =>
              obtain ⟨a2, _, _, hfa, hao, han, has⟩ := example_merge_one_key slist ad al ar
              obtain ⟨b2, _, _, hfb, hbo, hbn, hbs⟩ := example_merge_one_key slist bd bl br
              rw [hfa, hfb] at hsame
              exact ⟨hao.symm.trans (hsame.1.trans hbo), han.symm.trans (hsame.2.1.trans hbn),
                has.symm.trans (hsame.2.2.trans hbs)⟩
        · exact List.Pairwise.sublist (List.filter_sublist _) hsp
        · intro x hx y hy hsame
          obtain ⟨a, ha, hxa⟩ := List.mem_map.mp hx
          have hy2 := (List.mem_filter.mp hy).2
          cases a with
          | NULL => exact absurd (hdn .NULL ha) (by simp [sm_state.isNull])
          | node ad al ar =>
            obtain ⟨a2, _, _, hfa, hao, han, has⟩ := example_merge_one_key slist ad al ar
            rw [← hxa, hfa] at hsame
            cases y with
            | NULL => exact hsame
            | node yd yl yr =>
              have hfound := get_sm_state_slist_ne_null_of_mem dest ad al ar ha
              rw [← hao, ← han, ← has, hsame.1, hsame.2.1, hsame.2.2] at hfound
              simp only [example_only_in] at hy2
              cases hq : get_sm_state_slist dest yd.owner yd.name yd.sym with
              | NULL => exact hfound hq
              | node qd ql qr => rw [hq] at hy2; cases hy2
  join := fun dest slist owner name sym s1 s2 h1 h2 => by
    show ∃ st, get_state (example_merge_slist dest slist) owner name sym = some st ∧ _
    unfold get_state get_sm_state at h1 h2 ⊢
    cases hd : get_sm_state_slist dest owner name sym with
    | NULL => rw [hd] at h1; cases h1
    | node d l r =>
      cases hs : get_sm_state_slist slist owner name sym with
      | NULL => rw [hs] at h2; cases h2
      | node d2 l2 r2 =>
        rw [hd] at h1
        rw [hs] at h2
        injection h1 with h1
        injection h2 with h2
        obtain ⟨hko, hkn, hks⟩ := get_sm_state_slist_key dest owner name sym d l r hd
        have hne : dest ≠ [] := by
          intro h0
          rw [h0] at hd
          cases hd
        unfold example_merge_slist
        rw [if_neg hne,
          get_sm_state_slist_map_merge_one slist _ dest owner name sym d l r hd]
        simp only [example_merge_one]
        rw [hko, hkn, hks, hs]
        refine ⟨_, rfl, ?_⟩
        intro v
        rw [← h1, ← h2]
        exact in_range_list_append v _ _

theorem assign_ranged_funcs_resolved (H : helpers) (fn : String) (op : Int)
    (left right : expression) (call_backs : call_back_list) (ctx : context) (var_name : String)
    (sym : Nat) (hleft : H.get_variable_from_expr left = (some var_name, sym)) (hsym : sym ≠ 0) :
    assign_ranged_funcs H fn (.EXPR_ASSIGNMENT op left right) call_backs ctx =
      { cur_slist := set_each_sm
          (((new_ranges call_backs []).map
              (ranged_scratch H fn (.EXPR_ASSIGNMENT op left right) right var_name sym
                call_backs)).foldl H.merge_slist [])
          ctx.cur_slist,
        suspended := ctx.suspended } := by
  unfold assign_ranged_funcs
  simp only [hleft, hsym, if_false, assign_ranged_loop_eq, List.foldl_map]

theorem assign_ranged_funcs_suspended (H : helpers) (fn : String) (expr : expression)
    (call_backs : call_back_list) (ctx : context) :
    (assign_ranged_funcs H fn expr call_backs ctx).suspended = ctx.suspended := by
  unfold assign_ranged_funcs
  split
  · split
    · rfl
    · split
      · rfl
      · simp only [assign_ranged_loop_eq]
  · rfl

theorem get_same_ranged_call_backs_spec (call_backs : call_back_list) (r : data_range)
    (cb : fcall_back) (h : cb ∈ get_same_ranged_call_backs call_backs r) :
    cb ∈ call_backs ∧ cb.type = RANGED_CALL ∧ cb.range = r := by
  refine ⟨mem_get_same_ranged_call_backs call_backs r cb h, ?_⟩
  induction call_backs with
  | nil => simp [get_same_ranged_call_backs] at h
  | cons tmp rest ih =>
    unfold get_same_ranged_call_backs at h
    split at h
    · exact ih h
    · rename_i hty
      split at h
      · rename_i hr
        rcases List.mem_cons.mp h with h1 | h1
        · subst h1
          refine ⟨not_not.mp hty, ?_⟩
          cases hc : cb.range
          cases r
          rw [hc] at hr
          simp only [data_range.mk.injEq]
          exact hr
        · exact ih h1
      · exact ih h

/-- C8. Ranged-assignment isolation: the loop of `assign_ranged_funcs` hands back the
context it was given, working snapshot and stack of suspended snapshots alike; the scratch
snapshot it merges for an interval is the one obtained by running, from the empty
snapshot, the ranged callbacks registered with this very interval and no other callback;
and after `assign_ranged_funcs` the stack of suspended snapshots is the one before the
call: every push has had its pop. -/
theorem C8_ranged_assignment_isolation (H : helpers) (fn : String) (call_backs : call_back_list)
    (ctx : context) :
    (∀ (expr right : expression) (var_name : String) (sym : Nat),
      assign_ranged_loop H fn expr right var_name sym call_backs call_backs ctx [] []
        = (ctx,
           (new_ranges call_backs []).foldl
             (fun acc r =>
               H.merge_slist acc (ranged_scratch H fn expr right var_name sym call_backs r))
             [],
           new_ranges call_backs [])) ∧
    (∀ (r : data_range) (cb : fcall_back), cb ∈ get_same_ranged_call_backs call_backs r →
      cb ∈ call_backs ∧ cb.type = RANGED_CALL ∧ cb.range = r) ∧
    (∀ expr : expression,
      (assign_ranged_funcs H fn expr call_backs ctx).suspended = ctx.suspended) := by
  refine ⟨?_, get_same_ranged_call_backs_spec call_backs,
    fun expr => assign_ranged_funcs_suspended H fn expr call_backs ctx⟩
  intro expr right var_name sym
  rw [assign_ranged_loop_eq]
  rfl

/-- C7, amended.  When at least one RANGED_CALL callback is registered on the name, the
assigned variable resolves, `merge_slist` joins as the specification says and the
callbacks leave snapshots snapshots, then after `assign_ranged_funcs` the range set of
the variable is exactly the union of the intervals of the RANGED_CALL callbacks; with
the intervals `[0,0]` and `[1,10]` it is 0 together with 1 to 10. -/
theorem C7_ranged_assignment_range (H : helpers) (hH : allocators_ok H)
    (he : estate_alloc_ok H) (hm : merge_slist_ok H) (fn : String) (op : Int)
    (left right : expression) (call_backs : call_back_list) (ctx : context) (var_name : String)
    (sym : Nat) (hleft : H.get_variable_from_expr left = (some var_name, sym)) (hsym : sym ≠ 0)
    (hk : call_backs_keep_wf call_backs)
    (hex : ∃ cb ∈ call_backs, cb.type = RANGED_CALL) :
    ∃ st : smatch_state,
      get_state (assign_ranged_funcs H fn (.EXPR_ASSIGNMENT op left right) call_backs ctx).cur_slist
        SMATCH_EXTRA var_name sym = some st ∧
      (∀ v : Int, in_range_list v (get_dinfo st).value_ranges ↔
        ∃ cb ∈ call_backs, cb.type = RANGED_CALL ∧ cb.range.min ≤ v ∧ v ≤ cb.range.max) ∧
      ((∀ cb ∈ call_backs, cb.type = RANGED_CALL → (cb.range = ⟨0, 0⟩ ∨ cb.range = ⟨1, 10⟩)) →
       (∃ cb ∈ call_backs, cb.type = RANGED_CALL ∧ cb.range = ⟨0, 0⟩) →
       (∃ cb ∈ call_backs, cb.type = RANGED_CALL ∧ cb.range = ⟨1, 10⟩) →
       ∀ v : Int, in_range_list v (get_dinfo st).value_ranges ↔ (v = 0 ∨ (1 ≤ v ∧ v ≤ 10))) := by
  have hscr : ∀ s ∈ (new_ranges call_backs []).map
      (ranged_scratch H fn (.EXPR_ASSIGNMENT op left right) right var_name sym call_backs),
      wf_slist s ∧ ∃ st, get_state s SMATCH_EXTRA var_name sym = some st := by
    intro s hs
    obtain ⟨r, _, hr⟩ := List.mem_map.mp hs
    have := ranged_scratch_spec H hH fn (.EXPR_ASSIGNMENT op left right) right var_name sym
      call_backs hk r
    rw [hr] at this
    exact ⟨this.1, _, this.2⟩
  have hne : (new_ranges call_backs []).map
      (ranged_scratch H fn (.EXPR_ASSIGNMENT op left right) right var_name sym call_backs) ≠ [] := by
    obtain ⟨cb, hcb, hty⟩ := hex
    have : cb.range ∈ new_ranges call_backs [] :=
      (mem_new_ranges call_backs [] cb.range).mpr ⟨⟨cb, hcb, hty, rfl⟩, List.not_mem_nil _⟩
    intro h0
    have h1 := List.mem_map_of_mem
      (ranged_scratch H fn (.EXPR_ASSIGNMENT op left right) right var_name sym call_backs) this
    rw [h0] at h1
    cases h1
  obtain ⟨hwf, st, hst, hrange⟩ := merge_fold_ranges H hm var_name sym _ [] hscr (Or.inl rfl)
    (fun _ => hne)
  have hunion : ∀ v : Int, in_range_list v (get_dinfo st).value_ranges ↔
      ∃ cb ∈ call_backs, cb.type = RANGED_CALL ∧ cb.range.min ≤ v ∧ v ≤ cb.range.max := by
    intro v
    rw [hrange v]
    constructor
    · rintro (⟨sa, hsa, _⟩ | ⟨s, hs, ss, hss, hv⟩)
      · cases hsa
      · obtain ⟨r, hr, hrs⟩ := List.mem_map.mp hs
        have hspec := (ranged_scratch_spec H hH fn (.EXPR_ASSIGNMENT op left right) right var_name
          sym call_backs hk r).2
        rw [hrs, hss] at hspec
        injection hspec with hspec
        rw [hspec, he.range] at hv
        obtain ⟨x, hx, hv2⟩ := hv
        rw [List.mem_singleton.mp hx] at hv2
        obtain ⟨⟨cb, hcb, hty, hcr⟩, _⟩ := (mem_new_ranges call_backs [] r).mp hr
        exact ⟨cb, hcb, hty, by rw [hcr]; exact hv2⟩
    · rintro ⟨cb, hcb, hty, hv⟩
      have hr : cb.range ∈ new_ranges call_backs [] :=
        (mem_new_ranges call_backs [] cb.range).mpr ⟨⟨cb, hcb, hty, rfl⟩, List.not_mem_nil _⟩
      refine Or.inr ⟨_, List.mem_map_of_mem _ hr, _,
        (ranged_scratch_spec H hH fn (.EXPR_ASSIGNMENT op left right) right var_name sym
          call_backs hk cb.range).2, ?_⟩
      rw [he.range]
      exact ⟨_, List.mem_singleton.mpr rfl, hv⟩
  refine ⟨st, ?_, hunion, ?_⟩
  · rw [assign_ranged_funcs_resolved H fn op left right call_backs ctx var_name sym hleft hsym]
    show get_state (set_each_sm _ ctx.cur_slist) SMATCH_EXTRA var_name sym = some st
    rw [get_state_set_each_sm _ hwf, hst]
  · intro hall h0 h1 v
    rw [hunion v]
    constructor
    · rintro ⟨cb, hcb, hty, hv⟩
      rcases hall cb hcb hty with h | h
      · rw [h] at hv
        exact Or.inl (by have := hv.1; have := hv.2; simp only at *; omega)
      · rw [h] at hv
        exact Or.inr hv
    · rintro (h | h)
      · obtain ⟨cb, hcb, hty, hr⟩ := h0
        refine ⟨cb, hcb, hty, ?_⟩
        rw [hr, h]
        exact ⟨le_refl _, le_refl _⟩
      · obtain ⟨cb, hcb, hty, hr⟩ := h1
        refine ⟨cb, hcb, hty, ?_⟩
        rw [hr]
        exact h

theorem example_estate_alloc_ok : estate_alloc_ok example_helpers where
  range := fun _ _ => rfl
  range_list := fun _ => rfl

theorem example_ranged_hooks_keep_wf : call_backs_keep_wf example_ranged_hooks := by
  intro tmp htmp fn e1 e2 info slist hwf
  rcases List.mem_cons.mp htmp with h | h
  · rw [h]
    exact wf_slist_set_sm _ _ _ _ hwf
  · rw [List.mem_singleton.mp h]
    exact wf_slist_set_sm _ _ _ _ hwf

theorem example_ranged_hooks_ranges (cb : fcall_back) (h : cb ∈ example_ranged_hooks) :
    cb.type = RANGED_CALL → (cb.range = ⟨0, 0⟩ ∨ cb.range = ⟨1, 10⟩) := by
  intro _
  rcases List.mem_cons.mp h with h1 | h1
  · rw [h1]; exact Or.inl rfl
  · rw [List.mem_singleton.mp h1]; exact Or.inr rfl

/-- Counterexample to C7 as stated: on `PTR_ERR` only a call-with-assignment hook is
registered; `assign_ranged_funcs` then leaves `b` bound to `[1,5]`, which holds 3, while
no interval of a RANGED_CALL callback holds 3. -/
theorem C7_counterexample :
    ∃ st : smatch_state,
      get_state (assign_ranged_funcs example_helpers "PTR_ERR" example_assign_expr
        example_ptr_err_hooks example_context).cur_slist SMATCH_EXTRA "b" 7 = some st ∧
      in_range_list 3 (get_dinfo st).value_ranges ∧
      ¬ ∃ cb ∈ example_ptr_err_hooks, cb.type = RANGED_CALL ∧ cb.range.min ≤ 3 ∧
          3 ≤ cb.range.max := by
  refine ⟨example_estate 1 5, by decide, by decide, ?_⟩
  rintro ⟨cb, hcb, hty, _⟩
  rw [List.mem_singleton.mp hcb] at hty
  revert hty
  decide

/-- Witness of the amended C7: with the ranged hooks of intervals `[0,0]` and `[1,10]`,
after `b = f(p)` the range set of `b` is 0 together with 1 to 10. -/
theorem C7_ranged_assignment_range_witness :
    ∃ st : smatch_state,
      get_state (assign_ranged_funcs example_helpers "f" example_assign_expr
        example_ranged_hooks example_context).cur_slist SMATCH_EXTRA "b" 7 = some st ∧
      ∀ v : Int, in_range_list v (get_dinfo st).value_ranges ↔ (v = 0 ∨ (1 ≤ v ∧ v ≤ 10)) :=
  (C7_ranged_assignment_range example_helpers example_helpers_ok example_estate_alloc_ok
    example_merge_slist_ok "f" 61 example_expr_b (.EXPR_CALL (.EXPR_SYMBOL 50 "f"))
    example_ranged_hooks example_context "b" 7 rfl (by decide) example_ranged_hooks_keep_wf
    ⟨example_checked_hook, List.mem_cons_self _ _, rfl⟩).elim
    fun st h => ⟨st, h.1, h.2.2 example_ranged_hooks_ranges
      ⟨example_checked_hook, List.mem_cons_self _ _, rfl, rfl⟩
      ⟨example_err_hook, List.mem_cons_of_mem _ (List.mem_cons_self _ _), rfl, rfl⟩⟩

/-- Witness of C8: the group of the interval `[0,0]` holds the hook registered with it, and
the stack of suspended snapshots is as before the call. -/
theorem C8_ranged_assignment_isolation_witness :
    (example_checked_hook ∈ example_ranged_hooks ∧ example_checked_hook.type = RANGED_CALL ∧
      example_checked_hook.range = ⟨0, 0⟩) ∧
    (assign_ranged_funcs example_helpers "f" example_assign_expr example_ranged_hooks
      example_context).suspended = [] :=
  ⟨(C8_ranged_assignment_isolation example_helpers "f" example_ranged_hooks
      example_context).2.1 ⟨0, 0⟩ example_checked_hook (List.mem_cons_self _ _),
   (C8_ranged_assignment_isolation example_helpers "f" example_ranged_hooks
      example_context).2.2 example_assign_expr⟩

/-! ### The fact store on an assignment -/

theorem db_assign_callback_five (H : helpers) (db_implies_list : List return_implies_callback)
    (op : Int) (left right : expression) (a0 a1 a2 key value : String) (ctx : context)
    (slist : state_list) :
    db_assign_callback H db_implies_list (.EXPR_ASSIGNMENT op left right)
        [a0, a1, a2, key, value] ctx slist
      = (ctx, H.merge_slist slist
          (row_scratch H db_implies_list left right a0 a1 a2 key value)) := rfl

theorem db_assign_callback_other (H : helpers) (db_implies_list : List return_implies_callback)
    (expr : expression) (argv : List String) (ctx : context) (slist : state_list)
    (h : argv.length ≠ 5) :
    db_assign_callback H db_implies_list expr argv ctx slist = (ctx, slist) := by
  unfold db_assign_callback
  split
  · simp at h
  · rfl

theorem row_scratch_of_eq_none (H : helpers) (db_implies_list : List return_implies_callback)
    (left right : expression) (argv : List String) (h : argv.length ≠ 5) :
    row_scratch_of H db_implies_list left right argv = none := by
  unfold row_scratch_of
  split
  · simp at h
  · rfl

theorem length_five (argv : List String) (h : argv.length = 5) :
    ∃ a0 a1 a2 key value : String, argv = [a0, a1, a2, key, value] := by
  rcases argv with _ | ⟨a0, _ | ⟨a1, _ | ⟨a2, _ | ⟨key, _ | ⟨value, _ | ⟨x, xs⟩⟩⟩⟩⟩⟩ <;>
    simp at h
  exact ⟨a0, a1, a2, key, value, rfl⟩

theorem run_db_assign_callback_eq (H : helpers) (db_implies_list : List return_implies_callback)
    (op : Int) (left right : expression) (rows : List (List String)) :
    ∀ (ctx : context) (slist : state_list),
      run_db_assign_callback H db_implies_list (.EXPR_ASSIGNMENT op left right) rows ctx slist
        = (ctx, (rows.filterMap (row_scratch_of H db_implies_list left right)).foldl
                  H.merge_slist slist) := by
  induction rows with
  | nil => intro ctx slist; rfl
  | cons argv rows ih =>
    intro ctx slist
    unfold run_db_assign_callback
    by_cases hlen : argv.length = 5
    · obtain ⟨a0, a1, a2, key, value, hargv⟩ := length_five argv hlen
      subst hargv
      rw [db_assign_callback_five]
      simp only [ih]
      rfl
    · rw [db_assign_callback_other H db_implies_list _ argv ctx slist hlen]
      simp only [ih]
      rw [List.filterMap_cons, row_scratch_of_eq_none H db_implies_list left right argv hlen]

theorem filterMap_row_scratch_of_filter (H : helpers)
    (db_implies_list : List return_implies_callback) (left right : expression)
    (rows : List (List String)) :
    (rows.filter (fun row => decide (row.length = 5))).filterMap
        (row_scratch_of H db_implies_list left right)
      = rows.filterMap (row_scratch_of H db_implies_list left right) := by
  induction rows with
  | nil => rfl
  | cons argv rows ih =>
    by_cases hlen : argv.length = 5
    · rw [List.filter_cons, if_pos (decide_eq_true hlen), List.filterMap_cons,
        List.filterMap_cons, ih]
    · rw [List.filter_cons, if_neg (by simpa using hlen), List.filterMap_cons,
        row_scratch_of_eq_none H db_implies_list left right argv hlen, ih]

theorem wf_db_callbacks (db_implies_list : List return_implies_callback)
    (hk : db_callbacks_keep_wf db_implies_list) (right : expression) (type param : Int)
    (key value : String) :
    ∀ cur : state_list, wf_slist cur →
      wf_slist (db_implies_list.foldl
        (fun cur tmp => if tmp.type = type then tmp.callback right param key value cur else cur)
        cur) := by
  induction db_implies_list with
  | nil => intro cur h; exact h
  | cons tmp rest ih =>
    intro cur h
    simp only [List.foldl_cons]
    apply ih (fun t ht => hk t (List.mem_cons_of_mem _ ht))
    split
    · exact hk tmp (List.mem_cons_self _ _) right param key value cur h
    · exact h

theorem row_scratch_spec (H : helpers) (hH : allocators_ok H)
    (db_implies_list : List return_implies_callback)
    (hk : db_callbacks_keep_wf db_implies_list) (left right : expression) (var_name : String)
    (sym : Nat) (hleft : H.get_variable_from_expr left = (some var_name, sym)) (hsym : sym ≠ 0)
    (a0 a1 a2 key value : String) :
    wf_slist (row_scratch H db_implies_list left right a0 a1 a2 key value) ∧
    get_state (row_scratch H db_implies_list left right a0 a1 a2 key value)
      SMATCH_EXTRA var_name sym = some (H.alloc_estate_range_list (H.get_value_ranges a0)) := by
  have h := set_extra_mod_spec H hH var_name sym
    (H.alloc_estate_range_list (H.get_value_ranges a0)) _
    (wf_db_callbacks db_implies_list hk right (H.atoi a1) (H.atoi a2) key value [] wf_slist_nil)
  unfold row_scratch set_extra_expr_mod set_state_expr
  simp only [hleft, hsym, if_false]
  exact h

theorem mem_filterMap_row_scratch_of (H : helpers)
    (db_implies_list : List return_implies_callback) (left right : expression)
    (rows : List (List String)) (s : state_list) :
    s ∈ rows.filterMap (row_scratch_of H db_implies_list left right) ↔
      ∃ a0 a1 a2 key value : String, [a0, a1, a2, key, value] ∈ rows ∧
        s = row_scratch H db_implies_list left right a0 a1 a2 key value := by
  rw [List.mem_filterMap]
  constructor
  · rintro ⟨argv, hargv, hs⟩
    by_cases hlen : argv.length = 5
    · obtain ⟨a0, a1, a2, key, value, h⟩ := length_five argv hlen
      subst h
      have : row_scratch_of H db_implies_list left right [a0, a1, a2, key, value]
          = some (row_scratch H db_implies_list left right a0 a1 a2 key value) := rfl
      rw [this] at hs
      injection hs with hs
      exact ⟨a0, a1, a2, key, value, hargv, hs.symm⟩
    · rw [row_scratch_of_eq_none H db_implies_list left right argv hlen] at hs
      cases hs
  · rintro ⟨a0, a1, a2, key, value, hmem, hs⟩
    exact ⟨_, hmem, by rw [hs]; rfl⟩

theorem match_assign_call_fallback (H : helpers) (func_hash : String → call_back_list)
    (db_implies_list : List return_implies_callback) (op : Int) (left : expression)
    (symbol : Nat) (fn : String) (ctx : context)
    (hstrip : H.strip_expr (.EXPR_CALL (.EXPR_SYMBOL symbol fn))
      = .EXPR_CALL (.EXPR_SYMBOL symbol fn))
    (hsymbol : symbol ≠ 0) (hnone : func_hash fn = []) :
    match_assign_call H func_hash db_implies_list
        (.EXPR_ASSIGNMENT op left (.EXPR_CALL (.EXPR_SYMBOL symbol fn))) ctx
      = { cur_slist := set_each_sm
            (((H.run_sql (return_implies_query H symbol fn)).filterMap
                (row_scratch_of H db_implies_list left
                  (.EXPR_CALL (.EXPR_SYMBOL symbol fn)))).foldl H.merge_slist [])
            ctx.cur_slist,
          suspended := ctx.suspended } := by
  unfold match_assign_call
  simp only [expression.assign_right, hstrip, hsymbol, if_false, hnone, List.isEmpty_nil,
    if_true, db_return_implies_assign, run_db_assign_callback_eq]

/-- C9. Unresolved call fallback: when no callback list is registered on the callee,
`match_assign_call` is `db_return_implies_assign`, which runs the query of the fact store;
rows whose column count is not 5 contribute nothing; when there is a row of five columns,
the range set of the assigned variable is afterwards the union of the return ranges the
five-column rows declare; with a single such row declaring `[-4095,-1]` the range list of
the variable is exactly `[-4095,-1]`. -/
theorem C9_unresolved_call_fallback (H : helpers) (hH : allocators_ok H)
    (he : estate_alloc_ok H) (hm : merge_slist_ok H) (func_hash : String → call_back_list)
    (db_implies_list : List return_implies_callback)
    (hk : db_callbacks_keep_wf db_implies_list) (op : Int) (left : expression)
    (symbol : Nat) (fn : String) (ctx : context) (var_name : String) (sym : Nat)
    (hleft : H.get_variable_from_expr left = (some var_name, sym)) (hsym : sym ≠ 0)
    (hstrip : H.strip_expr (.EXPR_CALL (.EXPR_SYMBOL symbol fn))
      = .EXPR_CALL (.EXPR_SYMBOL symbol fn))
    (hsymbol : symbol ≠ 0) (hnone : func_hash fn = []) :
    match_assign_call H func_hash db_implies_list
        (.EXPR_ASSIGNMENT op left (.EXPR_CALL (.EXPR_SYMBOL symbol fn))) ctx
      = db_return_implies_assign H db_implies_list
        (.EXPR_ASSIGNMENT op left (.EXPR_CALL (.EXPR_SYMBOL symbol fn))) ctx ∧
    (∀ (rows : List (List String)) (slist : state_list),
      run_db_assign_callback H db_implies_list
          (.EXPR_ASSIGNMENT op left (.EXPR_CALL (.EXPR_SYMBOL symbol fn))) rows ctx slist
        = run_db_assign_callback H db_implies_list
          (.EXPR_ASSIGNMENT op left (.EXPR_CALL (.EXPR_SYMBOL symbol fn)))
          (rows.filter (fun row => decide (row.length = 5))) ctx slist) ∧
    ((∃ row ∈ H.run_sql (return_implies_query H symbol fn), row.length = 5) →
      ∃ st : smatch_state,
        get_state (match_assign_call H func_hash db_implies_list
          (.EXPR_ASSIGNMENT op left (.EXPR_CALL (.EXPR_SYMBOL symbol fn))) ctx).cur_slist
          SMATCH_EXTRA var_name sym = some st ∧
        ∀ v : Int, in_range_list v (get_dinfo st).value_ranges ↔
          ∃ row ∈ H.run_sql (return_implies_query H symbol fn), row.length = 5 ∧
            in_range_list v (H.get_value_ranges (row.headD ""))) ∧
    (∀ a0 a1 a2 key value : String,
      (H.run_sql (return_implies_query H symbol fn)).filter (fun row => decide (row.length = 5))
        = [[a0, a1, a2, key, value]] →
      H.get_value_ranges a0 = [⟨-4095, -1⟩] →
      ∃ st : smatch_state,
        get_state (match_assign_call H func_hash db_implies_list
          (.EXPR_ASSIGNMENT op left (.EXPR_CALL (.EXPR_SYMBOL symbol fn))) ctx).cur_slist
          SMATCH_EXTRA var_name sym = some st ∧
        (get_dinfo st).value_ranges = [⟨-4095, -1⟩]) := by
  have hspec := row_scratch_spec H hH db_implies_list hk left
    (.EXPR_CALL (.EXPR_SYMBOL symbol fn)) var_name sym hleft hsym
  have heq := match_assign_call_fallback H func_hash db_implies_list op left symbol fn ctx
    hstrip hsymbol hnone
  refine ⟨?_, ?_, ?_, ?_⟩
  · unfold match_assign_call
    simp only [expression.assign_right, hstrip, hsymbol, if_false, hnone, List.isEmpty_nil,
      if_true]
  · intro rows slist
    rw [run_db_assign_callback_eq, run_db_assign_callback_eq, filterMap_row_scratch_of_filter]
  · rintro ⟨row, hrow, hlen⟩
    obtain ⟨b0, b1, b2, bk, bv, hb⟩ := length_five row hlen
    subst hb
    have hscr : ∀ s ∈ (H.run_sql (return_implies_query H symbol fn)).filterMap
        (row_scratch_of H db_implies_list left (.EXPR_CALL (.EXPR_SYMBOL symbol fn))),
        wf_slist s ∧ ∃ st, get_state s SMATCH_EXTRA var_name sym = some st := by
      intro s hs
      obtain ⟨a0, a1, a2, key, value, _, hse⟩ :=
        (mem_filterMap_row_scratch_of H db_implies_list left _ _ s).mp hs
      rw [hse]
      exact ⟨(hspec a0 a1 a2 key value).1, _, (hspec a0 a1 a2 key value).2⟩
    have hne : (H.run_sql (return_implies_query H symbol fn)).filterMap
        (row_scratch_of H db_implies_list left (.EXPR_CALL (.EXPR_SYMBOL symbol fn))) ≠ [] := by
      intro h0
      have := (mem_filterMap_row_scratch_of H db_implies_list left
        (.EXPR_CALL (.EXPR_SYMBOL symbol fn)) _ _).mpr ⟨b0, b1, b2, bk, bv, hrow, rfl⟩
      rw [h0] at this
      cases this
    obtain ⟨hwf, st, hst, hrange⟩ := merge_fold_ranges H hm var_name sym _ [] hscr (Or.inl rfl)
      (fun _ => hne)
    refine ⟨st, ?_, ?_⟩
    · rw [heq]
      show get_state (set_each_sm _ ctx.cur_slist) SMATCH_EXTRA var_name sym = some st
      rw [get_state_set_each_sm _ hwf, hst]
    · intro v
      rw [hrange v]
      constructor
      · rintro (⟨sa, hsa, _⟩ | ⟨s, hs, ss, hss, hv⟩)
        · cases hsa
        · obtain ⟨a0, a1, a2, key, value, hmem, hse⟩ :=
            (mem_filterMap_row_scratch_of H db_implies_list left _ _ s).mp hs
          rw [hse, (hspec a0 a1 a2 key value).2] at hss
          injection hss with hss
          rw [← hss, he.range_list] at hv
          exact ⟨_, hmem, rfl, hv⟩
      · rintro ⟨r, hr, hrl, hv⟩
        obtain ⟨a0, a1, a2, key, value, ha⟩ := length_five r hrl
        subst ha
        refine Or.inr ⟨_, (mem_filterMap_row_scratch_of H db_implies_list left _ _ _).mpr
          ⟨a0, a1, a2, key, value, hr, rfl⟩, _, (hspec a0 a1 a2 key value).2, ?_⟩
        rw [he.range_list]
        exact hv
  · intro a0 a1 a2 key value hrows hdecl
    have hfm : (H.run_sql (return_implies_query H symbol fn)).filterMap
        (row_scratch_of H db_implies_list left (.EXPR_CALL (.EXPR_SYMBOL symbol fn)))
        = [row_scratch H db_implies_list left (.EXPR_CALL (.EXPR_SYMBOL symbol fn))
            a0 a1 a2 key value] := by
      rw [← filterMap_row_scratch_of_filter, hrows]
      rfl
    refine ⟨H.alloc_estate_range_list (H.get_value_ranges a0), ?_, ?_⟩
    · rw [heq, hfm]
      simp only [List.foldl_cons, List.foldl_nil, hm.nil_left]
      show get_state (set_each_sm _ ctx.cur_slist) SMATCH_EXTRA var_name sym = _
      rw [get_state_set_each_sm _ (hspec a0 a1 a2 key value).1, (hspec a0 a1 a2 key value).2]
    · rw [he.range_list, hdecl]

/-- Witness of C9: `g` has no hook; the fact store holds one five-column row declaring
`[-4095,-1]` and one malformed row; after `b = g(p)` the range list of `b` is
`[-4095,-1]`. -/
theorem C9_unresolved_call_fallback_witness :
    ∃ st : smatch_state,
      get_state (match_assign_call example_helpers example_empty_hash example_db_implies_list
        example_db_assign_expr example_context).cur_slist SMATCH_EXTRA "b" 7 = some st ∧
      (get_dinfo st).value_ranges = [⟨-4095, -1⟩] :=
  (C9_unresolved_call_fallback example_helpers example_helpers_ok example_estate_alloc_ok
    example_merge_slist_ok example_empty_hash example_db_implies_list
    (by
      intro tmp htmp e param key value slist hwf
      rw [List.mem_singleton.mp htmp]
      exact wf_slist_set_sm _ _ _ _ hwf)
    61 example_expr_b 51 "g" example_context "b" 7 rfl (by decide) rfl (by decide) rfl).2.2.2
    "-4095--1" "0" "0" "" "" (by decide) (by decide)

/-! ### Dispatch of a plain call -/

theorem register_apply (func_hash : String → call_back_list) (reg : registration)
    (name : String) :
    register func_hash reg name = func_hash name ++ (entry_on name reg).toList := by
  cases reg <;>
    simp only [register, add_function_hook, add_function_assign_hook, add_macro_assign_hook,
      return_implies_state, add_callback, entry_on, alloc_fcall_back, eq_comm] <;>
    split <;> simp

theorem foldl_register_apply (calls : List registration) :
    ∀ (func_hash : String → call_back_list) (name : String),
      calls.foldl register func_hash name = func_hash name ++ calls.filterMap (entry_on name) := by
  induction calls with
  | nil => intro func_hash name; simp
  | cons reg rest ih =>
    intro func_hash name
    rw [List.foldl_cons, ih, register_apply]
    cases h : entry_on name reg <;> simp [List.filterMap_cons, h]

theorem registry_of_apply (calls : List registration) (name : String) :
    registry_of calls name = calls.filterMap (entry_on name) := by
  unfold registry_of
  rw [foldl_register_apply]
  rfl

theorem call_call_backs_registered (name : String) (expr : expression) :
    ∀ (calls : List registration) (cur : state_list),
      call_call_backs (calls.filterMap (entry_on name)) REGULAR_CALL name expr cur =
        (plain_hooks_on name calls).foldl
          (fun cur hook => hook.1 name expr none hook.2 cur) cur := by
  intro calls
  induction calls with
  | nil => intro cur; rfl
  | cons reg rest ih =>
    intro cur
    have ih2 := ih
    simp only [REGULAR_CALL] at ih2
    cases reg with
    | function_hook look_for call_back info =>
      by_cases h : look_for = name
      · simp [List.filterMap_cons, entry_on, plain_hooks_on, h, call_call_backs,
          alloc_fcall_back, ih]
      · simp [List.filterMap_cons, entry_on, plain_hooks_on, h, ih]
    | function_assign_hook look_for call_back info =>
      by_cases h : look_for = name
      · simp [List.filterMap_cons, entry_on, plain_hooks_on, h, call_call_backs,
          alloc_fcall_back, ih2, ASSIGN_CALL, REGULAR_CALL]
      · simp [List.filterMap_cons, entry_on, plain_hooks_on, h, ih]
    | macro_assign_hook look_for call_back info =>
      by_cases h : look_for = name
      · simp [List.filterMap_cons, entry_on, plain_hooks_on, h, call_call_backs,
          alloc_fcall_back, ih2, MACRO_ASSIGN, REGULAR_CALL]
      · simp [List.filterMap_cons, entry_on, plain_hooks_on, h, ih]
    | return_implies look_for start finish call_back info =>
      by_cases h : look_for = name
      · simp [List.filterMap_cons, entry_on, plain_hooks_on, h, call_call_backs,
          ih2, RANGED_CALL, REGULAR_CALL]
      · simp [List.filterMap_cons, entry_on, plain_hooks_on, h, ih]

theorem call_call_backs_nil (type : Nat) (fn : String) (expr : expression) (cur : state_list) :
    call_call_backs [] type fn expr cur = cur := rfl

/-- C12. Plain-call dispatch: for a call of a symbol named `n`, `match_function_call`
invokes the callbacks registered on `n` with `add_function_hook`, each once and in the
order of registration, with the name, the call expression and their `info`, and no
callback registered with `add_function_assign_hook`, `add_macro_assign_hook` or
`return_implies_state`; when the callee is not a symbol, or nothing is registered on `n`, the
working snapshot is left as it was. -/
theorem C12_plain_call_dispatch (calls : List registration) (cur_slist : state_list) :
    (∀ (symbol : Nat) (n : String), symbol ≠ 0 →
      match_function_call (registry_of calls) (.EXPR_CALL (.EXPR_SYMBOL symbol n)) cur_slist =
        (plain_hooks_on n calls).foldl
          (fun cur hook => hook.1 n (.EXPR_CALL (.EXPR_SYMBOL symbol n)) none hook.2 cur)
          cur_slist) ∧
    (∀ fn : expression, (∀ (symbol : Nat) (n : String), fn = .EXPR_SYMBOL symbol n → symbol = 0) →
      match_function_call (registry_of calls) (.EXPR_CALL fn) cur_slist = cur_slist) ∧
    (∀ (symbol : Nat) (n : String), registry_of calls n = [] →
      match_function_call (registry_of calls) (.EXPR_CALL (.EXPR_SYMBOL symbol n)) cur_slist =
        cur_slist) := by
  refine ⟨?_, ?_, ?_⟩
  · intro symbol n hs
    unfold match_function_call
    simp only [hs, if_false]
    rw [registry_of_apply]
    by_cases hempty : (List.filterMap (entry_on n) calls).isEmpty = true
    · rw [if_pos hempty]
      rw [← call_call_backs_registered]
      rw [List.isEmpty_iff] at hempty
      rw [hempty]
      rfl
    · rw [if_neg hempty]
      exact call_call_backs_registered n _ calls cur_slist
  · intro fn hfn
    unfold match_function_call
    cases fn with
    | EXPR_SYMBOL symbol n => simp [hfn symbol n rfl]
    | _ => rfl
  · intro symbol n hreg
    unfold match_function_call
    simp [hreg]

/-- Witness of C12: of the six registrations, the two plain hooks on `f` run, in the order
of their registration. -/
theorem C12_plain_call_dispatch_witness :
    match_function_call (registry_of example_registrations) (.EXPR_CALL (.EXPR_SYMBOL 50 "f")) [] =
      [example_checker_sm "p" 1 "called", example_checker_sm "p" 5 "called"] ∧
    match_function_call (registry_of example_registrations) (.EXPR_CALL (.EXPR_VALUE 0)) [] = [] ∧
    match_function_call (registry_of example_registrations) (.EXPR_CALL (.EXPR_SYMBOL 52 "h")) [] =
      [] :=
  ⟨((C12_plain_call_dispatch example_registrations []).1 50 "f" (by decide)).trans (by decide),
   (C12_plain_call_dispatch example_registrations []).2.1 (.EXPR_VALUE 0)
     (by intro symbol n h; cases h),
   (C12_plain_call_dispatch example_registrations []).2.2 52 "h" rfl⟩

/-! ### Early returns -/

theorem remove_from_equiv_expr_unresolved (H : helpers) (expr : expression) (cur : state_list)
    (h : (H.get_variable_from_expr expr).1 = none ∨ (H.get_variable_from_expr expr).2 = 0) :
    remove_from_equiv_expr H expr cur = cur := by
  unfold remove_from_equiv_expr
  rcases hv : H.get_variable_from_expr expr with ⟨n, s⟩
  rw [hv] at h
  cases n with
  | none => rfl
  | some name =>
    rcases h with h | h
    · cases h
    · have hs : s = 0 := h
      simp [hs]

/-- C13. Unresolvable names are a no-op: when the left expression of `set_equiv`, or the
expression of `remove_from_equiv_expr`, does not resolve to a name and a symbol, the
working snapshot is left unchanged; and `remove_from_equiv(name, sym)` leaves it unchanged
when the variable has no SMATCH_EXTRA binding or its state has no relation set. -/
theorem C13_unresolved_is_noop (H : helpers) (cur_slist : state_list) :
    (∀ left right : expression,
      (H.get_variable_from_expr left).1 = none ∨ (H.get_variable_from_expr left).2 = 0 →
      set_equiv H left right cur_slist = cur_slist) ∧
    (∀ expr : expression,
      (H.get_variable_from_expr expr).1 = none ∨ (H.get_variable_from_expr expr).2 = 0 →
      remove_from_equiv_expr H expr cur_slist = cur_slist) ∧
    (∀ (name : String) (sym : Nat),
      (get_sm_state cur_slist SMATCH_EXTRA name sym = .NULL ∨
        ∃ state : smatch_state, get_state cur_slist SMATCH_EXTRA name sym = some state ∧
          (get_dinfo state).related = []) →
      remove_from_equiv H name sym cur_slist = cur_slist) := by
  refine ⟨?_, ?_, ?_⟩
  · intro left right h
    apply set_equiv_unresolved
    rcases h with h | h
    · exact Or.inl h
    · exact Or.inr (Or.inl h)
  · intro expr h
    exact remove_from_equiv_expr_unresolved H expr cur_slist h
  · intro name sym h
    apply remove_from_equiv_noop
    rcases h with h | ⟨state, hs, hrel⟩
    · exact related_of_unbound cur_slist name sym h
    · unfold related_of
      rw [hs]
      exact hrel

theorem get_sm_state_slist_null_of_no_key (slist : state_list) (owner : Nat) (name : String)
    (sym : Nat)
    (h : ∀ (d : sm_data) (l r : sm_state), .node d l r ∈ slist →
      ¬ (d.owner = owner ∧ d.name = name ∧ d.sym = sym)) :
    get_sm_state_slist slist owner name sym = .NULL := by
  induction slist with
  | nil => rfl
  | cons tmp rest ih =>
    cases tmp with
    | NULL =>
      unfold get_sm_state_slist
      exact ih (fun d l r hm => h d l r (List.mem_cons_of_mem _ hm))
    | node td tl tr =>
      unfold get_sm_state_slist
      rw [if_neg (h td tl tr (List.mem_cons_self _ _))]
      exact ih (fun d l r hm => h d l r (List.mem_cons_of_mem _ hm))

/-- C14. Borrowed implications are skipped: for a node that is marked implied, has a
non-null `my_pool`, and whose pool holds no binding of the (owner, name, symbol) of the
node, `do_compare` adds no pool to the true stack and none to the false stack. -/
theorem C14_borrowed_implications_skipped (H : helpers) (mem : pool_heap) (d : sm_data)
    (left right : sm_state) (comparison : Int) (vals : range_list) (lr : Int)
    (true_stack false_stack : state_list_stack)
    (himplied : d.implied = true) (hpool : d.my_pool ≠ 0)
    (hborrowed : ∀ (pd : sm_data) (pl pr : sm_state), .node pd pl pr ∈ mem d.my_pool →
      ¬ (pd.owner = d.owner ∧ pd.name = d.name ∧ pd.sym = d.sym)) :
    do_compare H mem (.node d left right) comparison vals lr true_stack false_stack =
      (true_stack, false_stack) := by
  unfold do_compare
  simp only [hpool, if_false, himplied, if_true]
  rw [get_sm_state_slist_null_of_no_key _ _ _ _ hborrowed]

theorem remove_my_pools_oversized (H : helpers) (d : sm_data) (l r : sm_state)
    (pools : state_list_stack) (modified : Bool) (hbig : d.nr_children > 4000) :
    remove_my_pools H (.node d l r) pools modified = (.NULL, modified) := by
  unfold remove_my_pools
  rw [if_pos hbig]

theorem filter_stack_loop_skip_oversized (H : helpers) (stack : state_list_stack) (d : sm_data)
    (l r : sm_state) (hbig : d.nr_children > 4000) (after : state_list) :
    ∀ (before ret : state_list) (counter : Nat),
      filter_stack_loop H stack (before ++ .node d l r :: after) ret counter =
        filter_stack_loop H stack (before ++ after) ret counter := by
  intro before
  induction before with
  | nil =>
    intro ret counter
    simp only [List.nil_append]
    rw [filter_stack_loop]
    simp [remove_my_pools_oversized H d l r stack false hbig, sm_state.isNull]
  | cons tmp rest ih =>
    intro ret counter
    simp only [List.cons_append]
    rw [filter_stack_loop, filter_stack_loop]
    simp only [ih]

theorem filter_stack_from_small (H : helpers) (pre_list : state_list) (stack : state_list_stack)
    (x : sm_state) (hx : x ∈ filter_stack H pre_list stack) :
    ∃ (td : sm_data) (tl tr : sm_state), .node td tl tr ∈ pre_list ∧ td.nr_children ≤ 4000 ∧
      x = copy_name_sym (.node td tl tr) (remove_my_pools H (.node td tl tr) stack false).1 := by
  unfold filter_stack at hx
  split at hx
  · cases hx
  · rcases filter_stack_loop_mem H stack pre_list [] 0 x hx with h | ⟨tmp, htmp, hnull, _, heq⟩
    · cases h
    · cases tmp with
      | NULL => simp [remove_my_pools, sm_state.isNull] at hnull
      | node td tl tr =>
        refine ⟨td, tl, tr, htmp, ?_, heq⟩
        by_contra hbig
        rw [remove_my_pools_oversized H td tl tr stack false (by omega)] at hnull
        simp [sm_state.isNull] at hnull

/-- C15. Oversized bindings receive no narrowed state: for a binding whose `nr_children` is
greater than 4000, `remove_my_pools` returns no binding and leaves the modified flag as it
was, and `filter_stack` of a snapshot that holds the binding is `filter_stack` of the
snapshot without it, so the other bindings are filtered as if it were not there; every
binding of a result of `filter_stack` is the filtered form of a binding of the snapshot
whose `nr_children` is at most 4000. -/
theorem C15_oversized_binding_gets_no_state (H : helpers) (stack : state_list_stack)
    (before after : state_list) (d : sm_data) (left right : sm_state)
    (hbig : d.nr_children > 4000) :
    (∀ modified : Bool,
      remove_my_pools H (.node d left right) stack modified = (.NULL, modified)) ∧
    filter_stack H (before ++ .node d left right :: after) stack =
      filter_stack H (before ++ after) stack ∧
    (∀ x ∈ filter_stack H (before ++ .node d left right :: after) stack,
      ∃ (td : sm_data) (tl tr : sm_state),
        .node td tl tr ∈ before ++ .node d left right :: after ∧ td.nr_children ≤ 4000 ∧
        x = copy_name_sym (.node td tl tr)
          (remove_my_pools H (.node td tl tr) stack false).1) := by
  refine ⟨fun modified => remove_my_pools_oversized H d left right stack modified hbig, ?_,
    fun x hx => filter_stack_from_small H _ stack x hx⟩
  unfold filter_stack
  split
  · rfl
  · exact filter_stack_loop_skip_oversized H stack d left right hbig after before [] 0

/-- Witness of C13 on the example store: a constant on the left of `set_equiv` and in
`remove_from_equiv_expr`, the unbound `a` and the unrelated `b` in `remove_from_equiv`. -/
theorem C13_unresolved_is_noop_witness :
    set_equiv example_helpers (.EXPR_VALUE 0) example_expr_b example_store = example_store ∧
    remove_from_equiv_expr example_helpers (.EXPR_VALUE 0) example_store = example_store ∧
    remove_from_equiv example_helpers "a" 3 example_store = example_store ∧
    remove_from_equiv example_helpers "b" 7 example_store = example_store :=
  ⟨(C13_unresolved_is_noop example_helpers example_store).1 (.EXPR_VALUE 0) example_expr_b
      (Or.inl rfl),
   (C13_unresolved_is_noop example_helpers example_store).2.1 (.EXPR_VALUE 0) (Or.inl rfl),
   (C13_unresolved_is_noop example_helpers example_store).2.2 "a" 3 (Or.inl (by decide)),
   (C13_unresolved_is_noop example_helpers example_store).2.2 "b" 7
      (Or.inr ⟨example_estate 1 5, by decide, rfl⟩)⟩

/-- Witness of C14: an implied binding of `foo` from pool 100, which is empty in the example
heap, is skipped although its state `[99,99]` is definitely true for `foo == 99`. -/
theorem C14_borrowed_implications_skipped_witness :
    do_compare example_helpers example_heap (.node example_implied_data .NULL .NULL)
      SPECIAL_EQUAL [⟨99, 99⟩] LEFT [] [] = ([], []) :=
  C14_borrowed_implications_skipped example_helpers example_heap example_implied_data .NULL .NULL
    SPECIAL_EQUAL [⟨99, 99⟩] LEFT [] [] rfl (by decide) (by intro pd pl pr h; cases h)

/-- Witness of C15: with the oversized `foo` in the snapshot the result is the one of the
snapshot without it, which is the narrowed `bar` alone. -/
theorem C15_oversized_binding_gets_no_state_witness :
    filter_stack example_helpers [example_foo 4001, example_bar] [200] =
      filter_stack example_helpers [example_bar] [200] ∧
    (filter_stack example_helpers [example_bar] [200]).length = 1 :=
  ⟨(C15_oversized_binding_gets_no_state example_helpers [200] [] [example_bar]
      { addr := 10, owner := SMATCH_EXTRA, name := "foo", sym := 1,
        state := { name := "merged", data := { related := [], value_ranges := [⟨1, 1⟩, ⟨99, 99⟩] } },
        my_pool := 0, merged := true, implied := false, nr_children := 4001, line := 0,
        possible := [] }
      (example_leaf 11 "foo" 1 99 99 100) (example_leaf 12 "foo" 1 1 1 200) (by decide)).2.1,
   by decide⟩

/-! ### Relation sets that name their own variable -/

theorem names_itself_of_related_eq (cur cur1 : state_list)
    (h : ∀ (x : String) (sx : Nat), related_of cur1 x sx = related_of cur x sx)
    (hcur : names_itself cur) : names_itself cur1 := by
  intro x sx
  rw [h x sx]
  exact hcur x sx

/-- The stores `remove_from_equiv` makes keep every relation set empty or naming its own
variable. -/
theorem names_itself_remove_from_equiv (H : helpers) (hH : allocators_ok H) (cur : state_list)
    (a : String) (sa : Nat) (h : names_itself cur) :
    names_itself (remove_from_equiv H a sa cur) := by
  intro x sx
  have hrel := related_of_remove_from_equiv H hH cur a sa x sx
  by_cases hx : names_variable (del_related_loop a sa (related_of cur a sa)) x sx
  · rw [hrel.1 hx]
    split
    · exact Or.inl rfl
    · exact Or.inr hx
  · rw [hrel.2 hx]
    exact h x sx

/-- The stores `set_equiv` makes keep every relation set empty or naming its own
variable. -/
theorem names_itself_set_equiv (H : helpers) (hH : allocators_ok H) (left right : expression)
    (cur : state_list) (h : names_itself cur) : names_itself (set_equiv H left right cur) := by
  by_cases hres : (H.get_variable_from_expr left).1 = none ∨
      (H.get_variable_from_expr left).2 = 0 ∨
      (H.get_variable_from_expr right).1 = none ∨ (H.get_variable_from_expr right).2 = 0
  · rw [set_equiv_unresolved H left right cur hres]
    exact h
  · simp only [not_or] at hres
    obtain ⟨h1, h2, h3, h4⟩ := hres
    rcases hl : H.get_variable_from_expr left with ⟨ln, sa⟩
    rcases hr : H.get_variable_from_expr right with ⟨rn, sb⟩
    rw [hl] at h1 h2
    rw [hr] at h3 h4
    cases ln with
    | none => exact absurd rfl h1
    | some a =>
      cases rn with
      | none => exact absurd rfl h3
      | some b =>
        obtain ⟨cur1, hcur1, hrel⟩ :=
          related_of_set_equiv H hH left right cur a sa b sb hl h2 hr h4
        intro x sx
        by_cases hx : names_variable (add_related_loop SPECIAL_EQUAL a sa
            (if related_of cur b sb = [] then add_related_loop SPECIAL_EQUAL b sb []
             else related_of cur b sb)) x sx
        · rw [(hrel x sx).1 hx]
          exact Or.inr hx
        · rw [(hrel x sx).2 hx]
          exact names_itself_remove_from_equiv H hH cur1 a sa
            (names_itself_of_related_eq cur cur1 hcur1 h) x sx

theorem names_itself_nil : names_itself [] := by
  intro x sx
  exact Or.inl rfl

/-! ### The implications of a condition -/

theorem separate_and_filter_not_merged (H : helpers) (mem : pool_heap) (sm : sm_state)
    (comparison : Int) (vals : range_list) (lr : Int) (pre_list t f : state_list)
    (h : is_merged sm = false) :
    separate_and_filter H mem sm comparison vals lr pre_list t f = (t, f) := by
  unfold separate_and_filter
  simp [h]

theorem mem_delete_state_slist (slist : state_list) (owner : Nat) (name : String) (sym : Nat)
    (x : sm_state) (h : x ∈ delete_state_slist slist owner name sym) : x ∈ slist := by
  unfold delete_state_slist at h
  exact (List.mem_filter.mp h).1

theorem delete_state_slist_absent (slist : state_list) (owner : Nat) (name : String) (sym : Nat)
    (d : sm_data) (l r : sm_state) (h : .node d l r ∈ delete_state_slist slist owner name sym) :
    ¬ (d.owner = owner ∧ d.name = name ∧ d.sym = sym) := by
  unfold delete_state_slist at h
  have := (List.mem_filter.mp h).2
  intro hk
  simp [hk.1, hk.2.1, hk.2.2] at this

theorem mem_foldl_delete (related : related_list) :
    ∀ (slist : state_list) (x : sm_state),
      x ∈ related.foldl
        (fun slist rel => delete_state_slist slist SMATCH_EXTRA rel.name rel.sym) slist →
      x ∈ slist := by
  induction related with
  | nil => intro slist x h; exact h
  | cons rel rest ih =>
    intro slist x h
    rw [List.foldl_cons] at h
    exact mem_delete_state_slist _ _ _ _ _ (ih _ _ h)

theorem foldl_delete_absent (related : related_list) :
    ∀ (slist : state_list) (rel : relation), rel ∈ related →
      no_extra_binding (related.foldl
        (fun slist rel => delete_state_slist slist SMATCH_EXTRA rel.name rel.sym) slist)
        rel.name rel.sym := by
  induction related with
  | nil => intro slist rel h; cases h
  | cons first rest ih =>
    intro slist rel h d l r hm
    rw [List.foldl_cons] at hm
    rcases List.mem_cons.mp h with h | h
    · subst h
      exact delete_state_slist_absent _ _ _ _ d l r (mem_foldl_delete rest _ _ hm)
    · exact ih _ rel h d l r hm

theorem delete_equiv_slist_spec (cur slist : state_list) (name : String) (sym : Nat)
    (state : smatch_state) (hstate : get_state cur SMATCH_EXTRA name sym = some state)
    (hself : estate_related state = [] ∨ names_variable (estate_related state) name sym) :
    ∃ res : state_list, delete_equiv_slist cur slist name sym = some res ∧
      (∀ x ∈ res, x ∈ slist) ∧
      ∀ (y : String) (sy : Nat),
        ((y = name ∧ sy = sym) ∨ names_variable (estate_related state) y sy) →
        no_extra_binding res y sy := by
  unfold delete_equiv_slist
  rw [hstate]
  dsimp only
  by_cases hrel : (get_dinfo state).related = []
  · rw [if_pos hrel]
    refine ⟨_, rfl, fun x hx => mem_delete_state_slist _ _ _ _ _ hx, ?_⟩
    intro y sy hy d l r hm
    rcases hy with ⟨hy, hsy⟩ | ⟨rel, hrelm, _⟩
    · subst hy hsy
      exact delete_state_slist_absent _ _ _ _ d l r hm
    · have : estate_related state = [] := hrel
      rw [this] at hrelm
      cases hrelm
  · rw [if_neg hrel]
    refine ⟨_, rfl, fun x hx => mem_foldl_delete _ _ _ hx, ?_⟩
    have hnames : ∀ (y : String) (sy : Nat), names_variable (estate_related state) y sy →
        no_extra_binding ((get_dinfo state).related.foldl
          (fun slist rel => delete_state_slist slist SMATCH_EXTRA rel.name rel.sym) slist) y sy := by
      intro y sy ⟨rel, hrelm, hn, hs⟩
      have := foldl_delete_absent (get_dinfo state).related slist rel hrelm
      rw [hn, hs] at this
      exact this
    intro y sy hy
    rcases hy with ⟨hy, hsy⟩ | hy
    · subst hy hsy
      rcases hself with hself | hself
      · exact absurd hself hrel
      · exact hnames _ _ hself
    · exact hnames _ _ hy

theorem delete_equiv_slist_nil (cur : state_list) (name : String) (sym : Nat)
    (state : smatch_state) (hstate : get_state cur SMATCH_EXTRA name sym = some state) :
    delete_equiv_slist cur [] name sym = some [] := by
  unfold delete_equiv_slist
  rw [hstate]
  dsimp only
  have hfold : ∀ related : related_list, related.foldl
      (fun slist rel => delete_state_slist slist SMATCH_EXTRA rel.name rel.sym) [] = [] := by
    intro related
    induction related with
    | nil => rfl
    | cons rel rest ih => rw [List.foldl_cons]; exact ih
  split
  · rfl
  · rw [hfold]

theorem filter_and_delete_spec (H : helpers) (mem : pool_heap) (cur : state_list) (sm : sm_state)
    (comparison : Int) (vals : range_list) (lr : Int) (name : String) (sym : Nat)
    (t f : state_list) (state : smatch_state)
    (hstate : get_state cur SMATCH_EXTRA name sym = some state)
    (hself : estate_related state = [] ∨ names_variable (estate_related state) name sym) :
    ∃ res : state_list × state_list,
      filter_and_delete H mem cur sm comparison vals lr name sym t f = some res ∧
      equiv_deleted (estate_related state) name sym res := by
  unfold filter_and_delete
  obtain ⟨t2, ht, _, habs_t⟩ := delete_equiv_slist_spec cur
    (separate_and_filter H mem sm comparison vals lr cur t f).1 name sym state hstate hself
  obtain ⟨f2, hf, _, habs_f⟩ := delete_equiv_slist_spec cur
    (separate_and_filter H mem sm comparison vals lr cur t f).2 name sym state hstate hself
  refine ⟨(t2, f2), ?_, ?_⟩
  · simp only [ht, hf]
  · intro y sy hy
    exact ⟨habs_t y sy hy, habs_f y sy hy⟩

theorem filter_and_delete_not_merged (H : helpers) (mem : pool_heap) (cur : state_list)
    (sm : sm_state) (comparison : Int) (vals : range_list) (lr : Int) (name : String) (sym : Nat)
    (state : smatch_state) (hstate : get_state cur SMATCH_EXTRA name sym = some state)
    (h : is_merged sm = false) :
    filter_and_delete H mem cur sm comparison vals lr name sym [] [] = some ([], []) := by
  unfold filter_and_delete
  rw [separate_and_filter_not_merged H mem sm comparison vals lr cur [] [] h]
  simp only [delete_equiv_slist_nil cur name sym state hstate]

theorem get_state_of_get_sm_state (cur : state_list) (owner : Nat) (name : String) (sym : Nat)
    (d : sm_data) (l r : sm_state) (h : get_sm_state cur owner name sym = .node d l r) :
    get_state cur owner name sym = some d.state := by
  unfold get_state
  rw [h]
  rfl

theorem get_sm_state_expr_key (H : helpers) (cur : state_list) (owner : Nat) (expr : expression)
    (d : sm_data) (l r : sm_state) (h : get_sm_state_expr H cur owner expr = .node d l r) :
    get_sm_state cur owner d.name d.sym = .node d l r := by
  unfold get_sm_state_expr at h
  rcases hv : H.get_variable_from_expr expr with ⟨n, s⟩
  rw [hv] at h
  cases n with
  | none => cases h
  | some name =>
    dsimp only at h
    split at h
    · cases h
    · have hk := get_sm_state_slist_key cur owner name s d l r h
      rw [hk.2.1, hk.2.2]
      exact h

theorem get_left_most_sm_fuel_key (H : helpers) (cur : state_list) :
    ∀ (fuel : Nat) (expr : expression) (d : sm_data) (l r : sm_state),
      get_left_most_sm_fuel H cur fuel expr = .node d l r →
      get_sm_state cur SMATCH_EXTRA d.name d.sym = .node d l r := by
  intro fuel
  induction fuel with
  | zero => intro expr d l r h; cases h
  | succ fuel ih =>
    intro expr d l r h
    unfold get_left_most_sm_fuel at h
    split at h
    · exact ih _ d l r h
    · exact get_sm_state_expr_key H cur SMATCH_EXTRA _ d l r h

theorem get_left_most_sm_key (H : helpers) (cur : state_list) (expr : expression) (d : sm_data)
    (l r : sm_state) (h : get_left_most_sm H cur expr = .node d l r) :
    get_sm_state cur SMATCH_EXTRA d.name d.sym = .node d l r :=
  get_left_most_sm_fuel_key H cur _ expr d l r h

theorem get_state_left_most (H : helpers) (cur : state_list) (expr : expression) (d : sm_data)
    (l r : sm_state) (h : get_left_most_sm H cur expr = .node d l r) :
    get_state cur SMATCH_EXTRA d.name d.sym = some d.state :=
  get_state_of_get_sm_state cur SMATCH_EXTRA d.name d.sym d l r
    (get_left_most_sm_key H cur expr d l r h)

theorem handle_comparison_left (H : helpers) (C : cond_helpers) (mem : pool_heap)
    (cur : state_list) (op : Int) (left right : expression) (t f : state_list)
    (h : is_merged_expr H C cur left = true) :
    handle_comparison H C mem cur (.EXPR_COMPARE op left right) t f =
      match get_left_most_sm H cur left with
      | .NULL => some (t, f)
      | .node d l r =>
        if C.get_range_list right = [] then some (t, f)
        else filter_and_delete H mem cur (.node d l r) op (C.get_range_list right) LEFT
          d.name d.sym t f := by
  unfold handle_comparison
  simp only [h, if_true]

theorem handle_comparison_right (H : helpers) (C : cond_helpers) (mem : pool_heap)
    (cur : state_list) (op : Int) (left right : expression) (t f : state_list)
    (hl : is_merged_expr H C cur left = false) (hr : is_merged_expr H C cur right = true) :
    handle_comparison H C mem cur (.EXPR_COMPARE op left right) t f =
      match get_left_most_sm H cur right with
      | .NULL => some (t, f)
      | .node d l r =>
        if C.get_range_list left = [] then some (t, f)
        else filter_and_delete H mem cur (.node d l r) op (C.get_range_list left) RIGHT
          d.name d.sym t f := by
  unfold handle_comparison
  simp only [hl, hr, if_true, Bool.false_eq_true, if_false]

theorem handle_comparison_neither (H : helpers) (C : cond_helpers) (mem : pool_heap)
    (cur : state_list) (op : Int) (left right : expression) (t f : state_list)
    (hl : is_merged_expr H C cur left = false) (hr : is_merged_expr H C cur right = false) :
    handle_comparison H C mem cur (.EXPR_COMPARE op left right) t f = some (t, f) := by
  unfold handle_comparison
  simp only [hl, hr, Bool.false_eq_true, if_false]

theorem filter_and_delete_some (H : helpers) (mem : pool_heap) (cur : state_list) (sm : sm_state)
    (comparison : Int) (vals : range_list) (lr : Int) (name : String) (sym : Nat)
    (t f : state_list) (state : smatch_state)
    (hstate : get_state cur SMATCH_EXTRA name sym = some state) :
    ∃ t2 f2 : state_list,
      filter_and_delete H mem cur sm comparison vals lr name sym t f = some (t2, f2) ∧
      delete_equiv_slist cur (separate_and_filter H mem sm comparison vals lr cur t f).1
        name sym = some t2 ∧
      delete_equiv_slist cur (separate_and_filter H mem sm comparison vals lr cur t f).2
        name sym = some f2 := by
  have hsome : ∀ slist : state_list, ∃ res, delete_equiv_slist cur slist name sym = some res := by
    intro slist
    unfold delete_equiv_slist
    rw [hstate]
    dsimp only
    split
    · exact ⟨_, rfl⟩
    · exact ⟨_, rfl⟩
  obtain ⟨t2, ht⟩ := hsome (separate_and_filter H mem sm comparison vals lr cur t f).1
  obtain ⟨f2, hf⟩ := hsome (separate_and_filter H mem sm comparison vals lr cur t f).2
  refine ⟨t2, f2, ?_, ht, hf⟩
  unfold filter_and_delete
  simp only [ht, hf]

theorem get_tf_states_zero (H : helpers) (C : cond_helpers) (mem : pool_heap) (cur : state_list)
    (expr : expression) (t f : state_list)
    (hkind : ∀ (op : Int) (a b : expression), expr ≠ .EXPR_COMPARE op a b) :
    get_tf_states H C mem cur expr t f = handle_zero_comparison H mem cur expr t f := by
  unfold get_tf_states
  cases expr with
  | EXPR_COMPARE op a b => exact absurd rfl (hkind op a b)
  | _ => rfl

theorem handle_zero_comparison_bound (H : helpers) (mem : pool_heap) (cur : state_list)
    (expr : expression) (t f : state_list) (x : String) (sx : Nat) (d : sm_data)
    (l r : sm_state)
    (hname : H.get_variable_from_expr (zero_comparison_operand H expr) = (some x, sx))
    (hsx : sx ≠ 0) (hbound : get_sm_state cur SMATCH_EXTRA x sx = .node d l r) :
    handle_zero_comparison H mem cur expr t f =
      filter_and_delete H mem cur (.node d l r) SPECIAL_NOTEQUAL [⟨0, 0⟩] LEFT x sx t f := by
  unfold handle_zero_comparison
  simp only [hname, hsx, if_false, hbound, tmp_range_list]

theorem get_left_most_sm_plain (H : helpers) (cur : state_list) (e : expression)
    (hstrip : H.strip_expr e = e)
    (hassign : ∀ (op : Int) (a b : expression), e ≠ .EXPR_ASSIGNMENT op a b) :
    get_left_most_sm H cur e = get_sm_state_expr H cur SMATCH_EXTRA e := by
  unfold get_left_most_sm
  have hsize : ∃ n, e.size = n + 1 := by
    cases e <;> simp [expression.size]
  obtain ⟨n, hn⟩ := hsize
  rw [hn]
  unfold get_left_most_sm_fuel
  rw [hstrip]
  cases e with
  | EXPR_ASSIGNMENT op a b => exact absurd rfl (hassign op a b)
  | _ => rfl

theorem is_merged_expr_true (H : helpers) (C : cond_helpers) (cur : state_list)
    (e : expression) (h : is_merged_expr H C cur e = true) :
    C.get_value e = none ∧ ∃ (d : sm_data) (l r : sm_state),
      get_sm_state_expr H cur SMATCH_EXTRA e = .node d l r ∧ d.merged = true := by
  unfold is_merged_expr at h
  cases hv : C.get_value e with
  | some v => simp [hv] at h
  | none =>
    refine ⟨rfl, ?_⟩
    simp only [hv, Option.isSome_none, Bool.false_eq_true, if_false] at h
    cases hs : get_sm_state_expr H cur SMATCH_EXTRA e with
    | NULL => rw [hs] at h; cases h
    | node d l r => rw [hs] at h; exact ⟨d, l, r, rfl, h⟩

theorem handle_zero_comparison_total (H : helpers) (mem : pool_heap) (cur : state_list)
    (expr : expression) (t f : state_list) :
    ∃ res : state_list × state_list, handle_zero_comparison H mem cur expr t f = some res := by
  unfold handle_zero_comparison
  dsimp only
  rcases hv : H.get_variable_from_expr (zero_comparison_operand H expr) with ⟨n, s⟩
  cases n with
  | none => exact ⟨_, rfl⟩
  | some name =>
    dsimp only
    by_cases hs : s = 0
    · rw [if_pos hs]; exact ⟨_, rfl⟩
    · rw [if_neg hs]
      cases hsm : get_sm_state cur SMATCH_EXTRA name s with
      | NULL => exact ⟨_, rfl⟩
      | node d l r =>
        dsimp only
        obtain ⟨t2, f2, h, _⟩ := filter_and_delete_some H mem cur (.node d l r) SPECIAL_NOTEQUAL
          (tmp_range_list 0) LEFT name s t f d.state
          (get_state_of_get_sm_state cur SMATCH_EXTRA name s d l r hsm)
        exact ⟨_, h⟩

theorem handle_comparison_total (H : helpers) (C : cond_helpers) (mem : pool_heap)
    (cur : state_list) (op : Int) (left right : expression) (t f : state_list) :
    ∃ res : state_list × state_list,
      handle_comparison H C mem cur (.EXPR_COMPARE op left right) t f = some res := by
  have key : ∀ (e : expression) (vals : range_list) (lr : Int),
      ∃ res : state_list × state_list,
        (match get_left_most_sm H cur e with
          | .NULL => some (t, f)
          | .node d l r =>
            if vals = [] then some (t, f)
            else filter_and_delete H mem cur (.node d l r) op vals lr d.name d.sym t f) =
          some res := by
    intro e vals lr
    cases hs : get_left_most_sm H cur e with
    | NULL => exact ⟨_, rfl⟩
    | node d l r =>
      dsimp only
      split
      · exact ⟨_, rfl⟩
      · obtain ⟨t2, f2, h, _⟩ := filter_and_delete_some H mem cur (.node d l r) op vals lr
          d.name d.sym t f d.state (get_state_left_most H cur e d l r hs)
        exact ⟨_, h⟩
  by_cases h1 : is_merged_expr H C cur left = true
  · rw [handle_comparison_left H C mem cur op left right t f h1]
    exact key left _ LEFT
  · have h1f : is_merged_expr H C cur left = false := by simpa using h1
    by_cases h2 : is_merged_expr H C cur right = true
    · rw [handle_comparison_right H C mem cur op left right t f h1f h2]
      exact key right _ RIGHT
    · have h2f : is_merged_expr H C cur right = false := by simpa using h2
      exact ⟨_, handle_comparison_neither H C mem cur op left right t f h1f h2f⟩

/-- The condition hook never dereferences a NULL pointer: `get_tf_states` gives its two
snapshots for every expression and every working snapshot. -/
theorem get_tf_states_total (H : helpers) (C : cond_helpers) (mem : pool_heap)
    (cur : state_list) (expr : expression) (t f : state_list) :
    ∃ res : state_list × state_list, get_tf_states H C mem cur expr t f = some res := by
  cases expr with
  | EXPR_COMPARE op left right => exact handle_comparison_total H C mem cur op left right t f
  | _ => exact handle_zero_comparison_total H mem cur _ t f

/-- C16. No implication from a non-merged binding: for a binding that is not merged,
`separate_and_filter` leaves both output snapshots as the caller passed them, for every
comparison and value list; so `get_implications` leaves them as they were when the variable
is not bound to a merged binding, and `handle_comparison` leaves them as they were when
`is_merged_expr` holds of neither operand, and gives two empty snapshots from two empty
ones when the binding it chose is not merged. -/
theorem C16_no_implication_without_merge (H : helpers) (C : cond_helpers) (mem : pool_heap)
    (cur_slist : state_list) (t f : state_list) :
    (∀ (sm : sm_state) (comparison : Int) (vals : range_list) (lr : Int) (pre_list : state_list),
      is_merged sm = false →
      separate_and_filter H mem sm comparison vals lr pre_list t f = (t, f)) ∧
    (∀ (name : String) (sym : Nat) (comparison : Int) (num : Int),
      is_merged (get_sm_state cur_slist SMATCH_EXTRA name sym) = false →
      get_implications H C mem cur_slist name sym comparison num t f = (t, f)) ∧
    (∀ (op : Int) (left right : expression),
      is_merged_expr H C cur_slist left = false → is_merged_expr H C cur_slist right = false →
      handle_comparison H C mem cur_slist (.EXPR_COMPARE op left right) t f = some (t, f)) ∧
    (∀ (op : Int) (left right : expression),
      is_merged (get_left_most_sm H cur_slist left) = false →
      is_merged (get_left_most_sm H cur_slist right) = false →
      handle_comparison H C mem cur_slist (.EXPR_COMPARE op left right) [] [] =
        some ([], [])) := by
  refine ⟨?_, ?_, ?_, ?_⟩
  · intro sm comparison vals lr pre_list h
    exact separate_and_filter_not_merged H mem sm comparison vals lr pre_list t f h
  · intro name sym comparison num h
    unfold get_implications
    cases hs : get_sm_state cur_slist SMATCH_EXTRA name sym with
    | NULL => rfl
    | node d l r =>
      rw [hs] at h
      dsimp only
      split
      · rfl
      · exact separate_and_filter_not_merged H mem _ comparison _ LEFT cur_slist t f h
  · intro op left right hl hr
    exact handle_comparison_neither H C mem cur_slist op left right t f hl hr
  · intro op left right hl hr
    have key : ∀ (e : expression) (vals : range_list) (lr : Int),
        is_merged (get_left_most_sm H cur_slist e) = false →
        (match get_left_most_sm H cur_slist e with
          | .NULL => some (([] : state_list), ([] : state_list))
          | .node d l r =>
            if vals = [] then some ([], [])
            else filter_and_delete H mem cur_slist (.node d l r) op vals lr d.name d.sym [] []) =
          some ([], []) := by
      intro e vals lr he
      cases hs : get_left_most_sm H cur_slist e with
      | NULL => rfl
      | node d l r =>
        rw [hs] at he
        dsimp only
        split
        · rfl
        · exact filter_and_delete_not_merged H mem cur_slist _ op vals lr d.name d.sym d.state
            (get_state_left_most H cur_slist e d l r hs) he
    by_cases h1 : is_merged_expr H C cur_slist left = true
    · rw [handle_comparison_left H C mem cur_slist op left right [] [] h1]
      exact key left _ LEFT hl
    · have h1f : is_merged_expr H C cur_slist left = false := by simpa using h1
      by_cases h2 : is_merged_expr H C cur_slist right = true
      · rw [handle_comparison_right H C mem cur_slist op left right [] [] h1f h2]
        exact key right _ RIGHT hr
      · have h2f : is_merged_expr H C cur_slist right = false := by simpa using h2
        exact handle_comparison_neither H C mem cur_slist op left right [] [] h1f h2f

/-- Witness of C16: `a` is bound and not merged, so neither `get_implications` for `a == 3`
nor the condition `a == 3` gives anything, while the merged `foo` does for `foo == 99`. -/
theorem C16_no_implication_without_merge_witness :
    get_implications example_helpers example_cond_helpers example_heap example_cond_store
      "a" 3 SPECIAL_EQUAL 3 [] [] = ([], []) ∧
    handle_comparison example_helpers example_cond_helpers example_heap example_cond_store
      (.EXPR_COMPARE SPECIAL_EQUAL example_expr_a (.EXPR_VALUE 3)) [] [] = some ([], []) ∧
    handle_comparison example_helpers example_cond_helpers example_heap example_cond_store
      (.EXPR_COMPARE SPECIAL_EQUAL example_expr_foo (.EXPR_VALUE 99)) [] [] ≠ some ([], []) :=
  ⟨(C16_no_implication_without_merge example_helpers example_cond_helpers example_heap
      example_cond_store [] []).2.1 "a" 3 SPECIAL_EQUAL 3 (by decide),
   (C16_no_implication_without_merge example_helpers example_cond_helpers example_heap
      example_cond_store [] []).2.2.1 SPECIAL_EQUAL example_expr_a (.EXPR_VALUE 3)
      (by decide) (by decide),
   by decide⟩

/-- C18. A condition that is not a comparison and names a variable `x` with a SMATCH_EXTRA
binding is handled as the comparison `x != 0`: the result is that of `separate_and_filter`
called with the binding of `x`, the operator SPECIAL_NOTEQUAL, the list of the one interval
`[0,0]`, the side LEFT and the working snapshot as pre-condition, followed by the deletion of
the equivalence class of `x`; and from empty snapshots it is the result for the comparison
expression `x != 0`, when `x` is a plain operand without constant value and the constant 0
has the value 0 and the range list `[0,0]`. -/
theorem C18_truthiness_is_not_equal_zero (H : helpers) (C : cond_helpers) (mem : pool_heap)
    (cur_slist : state_list) (expr : expression) (x : String) (sx : Nat) (d : sm_data)
    (l r : sm_state) (t f : state_list)
    (hkind : ∀ (op : Int) (a b : expression), expr ≠ .EXPR_COMPARE op a b)
    (hname : H.get_variable_from_expr (zero_comparison_operand H expr) = (some x, sx))
    (hsx : sx ≠ 0) (hbound : get_sm_state cur_slist SMATCH_EXTRA x sx = .node d l r) :
    (∃ t2 f2 : state_list,
      get_tf_states H C mem cur_slist expr t f = some (t2, f2) ∧
      delete_equiv_slist cur_slist
        (separate_and_filter H mem (.node d l r) SPECIAL_NOTEQUAL [⟨0, 0⟩] LEFT cur_slist t f).1
        x sx = some t2 ∧
      delete_equiv_slist cur_slist
        (separate_and_filter H mem (.node d l r) SPECIAL_NOTEQUAL [⟨0, 0⟩] LEFT cur_slist t f).2
        x sx = some f2) ∧
    (C.get_value (zero_comparison_operand H expr) = none → C.get_value (.EXPR_VALUE 0) = some 0 →
      C.get_range_list (.EXPR_VALUE 0) = [⟨0, 0⟩] →
      H.strip_expr (zero_comparison_operand H expr) = zero_comparison_operand H expr →
      (∀ (op : Int) (a b : expression),
        zero_comparison_operand H expr ≠ .EXPR_ASSIGNMENT op a b) →
      get_tf_states H C mem cur_slist expr [] [] =
        get_tf_states H C mem cur_slist (not_equal_zero (zero_comparison_operand H expr))
          [] []) := by
  have hstate := get_state_of_get_sm_state cur_slist SMATCH_EXTRA x sx d l r hbound
  have hzero : ∀ t f : state_list, get_tf_states H C mem cur_slist expr t f =
      filter_and_delete H mem cur_slist (.node d l r) SPECIAL_NOTEQUAL [⟨0, 0⟩] LEFT x sx t f := by
    intro t f
    rw [get_tf_states_zero H C mem cur_slist expr t f hkind]
    exact handle_zero_comparison_bound H mem cur_slist expr t f x sx d l r hname hsx hbound
  constructor
  · rw [hzero]
    exact filter_and_delete_some H mem cur_slist _ _ _ LEFT x sx t f d.state hstate
  · intro hval hval0 hrl hstrip hassign
    rw [hzero]
    have hexpr : get_sm_state_expr H cur_slist SMATCH_EXTRA (zero_comparison_operand H expr) =
        .node d l r := by
      unfold get_sm_state_expr
      simp only [hname, hsx, if_false, hbound]
    have hzero_merged : is_merged_expr H C cur_slist (.EXPR_VALUE 0) = false := by
      unfold is_merged_expr
      simp [hval0]
    have hop : is_merged_expr H C cur_slist (zero_comparison_operand H expr) = d.merged := by
      unfold is_merged_expr
      simp only [hval, Option.isSome_none, Bool.false_eq_true, if_false, hexpr]
    have hkey := get_sm_state_slist_key cur_slist SMATCH_EXTRA x sx d l r hbound
    unfold not_equal_zero get_tf_states
    dsimp only
    cases hm : d.merged with
    | true =>
      rw [hm] at hop
      rw [handle_comparison_left H C mem cur_slist _ _ _ [] [] hop,
        get_left_most_sm_plain H cur_slist _ hstrip hassign, hexpr]
      dsimp only
      rw [hrl, if_neg (by simp), hkey.2.1, hkey.2.2]
    | false =>
      rw [hm] at hop
      rw [handle_comparison_neither H C mem cur_slist _ _ _ [] [] hop hzero_merged]
      exact filter_and_delete_not_merged H mem cur_slist _ _ _ LEFT x sx d.state hstate hm

/-- Witness of C18: the condition `bar` in the example store is handled as `bar != 0`. -/
theorem C18_truthiness_is_not_equal_zero_witness :
    get_tf_states example_helpers example_cond_helpers example_heap example_cond_store
        example_expr_bar [] [] =
      get_tf_states example_helpers example_cond_helpers example_heap example_cond_store
        (not_equal_zero example_expr_bar) [] [] ∧
    get_tf_states example_helpers example_cond_helpers example_heap example_cond_store
        example_expr_bar [] [] ≠ some ([], []) :=
  ⟨(C18_truthiness_is_not_equal_zero example_helpers example_cond_helpers example_heap
      example_cond_store example_expr_bar "bar" 2 _ _ _ [] []
      (by intro op a b h; cases h) rfl (by decide) rfl).2 rfl rfl rfl rfl
      (by intro op a b h; cases h),
   by decide⟩

/-- C19, as the specification states it, fails: for the condition `a = bar` in the example
store, where the right side `bar` is merged and gives implications for `foo` and the left
side `a` is not merged, the engine derives nothing, while the recursion into the right and
then the left side derives the narrowed `foo` on both branches. -/
theorem C19_counterexample :
    get_tf_states example_helpers example_cond_helpers example_heap example_cond_store
        (.EXPR_ASSIGNMENT 61 example_expr_a example_expr_bar) [] [] = some ([], []) ∧
    get_tf_states example_helpers example_cond_helpers example_heap example_cond_store
        example_expr_bar [] [] ≠ some ([], []) ∧
    get_tf_states example_helpers example_cond_helpers example_heap example_cond_store
        (.EXPR_ASSIGNMENT 61 example_expr_a example_expr_bar) [] [] ≠
      spec_assignment_recursion example_helpers example_cond_helpers example_heap
        example_cond_store example_expr_a example_expr_bar [] [] := by
  decide

/-- C19, amended. For a condition that is an assignment expression the implication engine
takes the left side of the assignment and derives implications for the variable it names,
as for a truthiness test of the left side; the right side is not visited: the snapshots
`get_tf_states` gives, and the context `implied_states_hook` leaves, are the same for every
right side. -/
theorem C19_assignment_condition_left_only (H : helpers) (C : cond_helpers) (mem : pool_heap)
    (cur_slist : state_list) (op : Int) (left right : expression) (t f : state_list) :
    (∀ right2 : expression,
      get_tf_states H C mem cur_slist (.EXPR_ASSIGNMENT op left right) t f =
        get_tf_states H C mem cur_slist (.EXPR_ASSIGNMENT op left right2) t f) ∧
    (∀ (right2 : expression) (option_no_implied : Bool) (cc : cond_context),
      implied_states_hook H C mem option_no_implied (.EXPR_ASSIGNMENT op left right) cc =
        implied_states_hook H C mem option_no_implied (.EXPR_ASSIGNMENT op left right2) cc) ∧
    ((∀ (o : Int) (u : expression), left ≠ .EXPR_POSTOP o u) →
      (∀ (o : Int) (a b : expression), left ≠ .EXPR_ASSIGNMENT o a b) →
      (∀ (o : Int) (a b : expression), left ≠ .EXPR_COMPARE o a b) →
      get_tf_states H C mem cur_slist (.EXPR_ASSIGNMENT op left right) t f =
        get_tf_states H C mem cur_slist left t f) := by
  refine ⟨fun right2 => rfl, fun right2 option_no_implied cc => rfl, ?_⟩
  intro hpost hassign hcompare
  have hoperand : zero_comparison_operand H left = left := by
    unfold zero_comparison_operand
    cases left with
    | EXPR_POSTOP o u => exact absurd rfl (hpost o u)
    | EXPR_ASSIGNMENT o a b => exact absurd rfl (hassign o a b)
    | _ => rfl
  rw [get_tf_states_zero H C mem cur_slist left t f hcompare]
  unfold get_tf_states handle_zero_comparison
  dsimp only
  rw [hoperand]
  rfl

/-- Witness of C19: the condition `bar = a` gives what the condition `bar` gives. -/
theorem C19_assignment_condition_left_only_witness :
    get_tf_states example_helpers example_cond_helpers example_heap example_cond_store
        (.EXPR_ASSIGNMENT 61 example_expr_bar example_expr_a) [] [] =
      get_tf_states example_helpers example_cond_helpers example_heap example_cond_store
        example_expr_bar [] [] :=
  (C19_assignment_condition_left_only example_helpers example_cond_helpers example_heap
    example_cond_store 61 example_expr_bar example_expr_a [] []).2.2
    (by intro o u h; cases h) (by intro o a b h; cases h) (by intro o a b h; cases h)

theorem get_left_most_sm_fuel_enough (H : helpers) (hstrip : strip_expr_ok H)
    (cur : state_list) :
    ∀ (fuel : Nat) (expr : expression) (fuel2 : Nat), expr.size ≤ fuel → expr.size ≤ fuel2 →
      get_left_most_sm_fuel H cur fuel expr = get_left_most_sm_fuel H cur fuel2 expr := by
  intro fuel
  induction fuel with
  | zero =>
    intro expr fuel2 h
    cases expr <;> simp [expression.size] at h
  | succ fuel ih =>
    intro expr fuel2 h h2
    cases fuel2 with
    | zero => cases expr <;> simp [expression.size] at h2
    | succ fuel2 =>
      unfold get_left_most_sm_fuel
      have hs := hstrip expr
      cases hse : H.strip_expr expr with
      | EXPR_ASSIGNMENT op a b =>
        rw [hse] at hs
        simp only [expression.size] at hs
        dsimp only
        exact ih a fuel2 (by omega) (by omega)
      | _ => rfl

/-- The recursion of `get_left_most_sm` as the source has it. -/
theorem get_left_most_sm_unfold (H : helpers) (hstrip : strip_expr_ok H) (cur : state_list)
    (expr : expression) :
    get_left_most_sm H cur expr =
      match H.strip_expr expr with
      | .EXPR_ASSIGNMENT _ left _ => get_left_most_sm H cur left
      | stripped => get_sm_state_expr H cur SMATCH_EXTRA stripped := by
  unfold get_left_most_sm
  have hsize : ∃ n, expr.size = n + 1 := by
    cases expr <;> simp [expression.size]
  obtain ⟨n, hn⟩ := hsize
  rw [hn]
  rw [get_left_most_sm_fuel]
  have hs := hstrip expr
  cases hse : H.strip_expr expr with
  | EXPR_ASSIGNMENT op a b =>
    rw [hse] at hs
    simp only [expression.size] at hs
    dsimp only
    exact get_left_most_sm_fuel_enough H hstrip cur n a a.size (by omega) (le_refl _)
  | _ => rfl

/-- C20. Choice of the driving side in `handle_comparison`.  When `is_merged_expr` holds of
the left operand (it has no constant value and a merged SMATCH_EXTRA binding), whatever the
right operand is, the walk is driven by the left-most binding of the left operand, with the
range list of the right operand and the side LEFT; otherwise, when it holds of the right
operand, by the left-most binding of the right operand, with the range list of the left
operand and the side RIGHT.  When the range list is empty or no binding is found, or
`is_merged_expr` holds of neither operand, both snapshots are left as they were.  The
left-most binding of an operand that `strip_expr` leaves alone and that is not an
assignment is the binding of the operand. -/
theorem C20_driving_side (H : helpers) (C : cond_helpers) (mem : pool_heap)
    (cur_slist : state_list) (op : Int) (left right : expression) (t f : state_list) :
    (is_merged_expr H C cur_slist left = true →
      ∀ (d : sm_data) (l r : sm_state), get_left_most_sm H cur_slist left = .node d l r →
      C.get_range_list right ≠ [] →
      ∃ t2 f2 : state_list,
        handle_comparison H C mem cur_slist (.EXPR_COMPARE op left right) t f = some (t2, f2) ∧
        delete_equiv_slist cur_slist
          (separate_and_filter H mem (.node d l r) op (C.get_range_list right) LEFT
            cur_slist t f).1 d.name d.sym = some t2 ∧
        delete_equiv_slist cur_slist
          (separate_and_filter H mem (.node d l r) op (C.get_range_list right) LEFT
            cur_slist t f).2 d.name d.sym = some f2) ∧
    (is_merged_expr H C cur_slist left = false → is_merged_expr H C cur_slist right = true →
      ∀ (d : sm_data) (l r : sm_state), get_left_most_sm H cur_slist right = .node d l r →
      C.get_range_list left ≠ [] →
      ∃ t2 f2 : state_list,
        handle_comparison H C mem cur_slist (.EXPR_COMPARE op left right) t f = some (t2, f2) ∧
        delete_equiv_slist cur_slist
          (separate_and_filter H mem (.node d l r) op (C.get_range_list left) RIGHT
            cur_slist t f).1 d.name d.sym = some t2 ∧
        delete_equiv_slist cur_slist
          (separate_and_filter H mem (.node d l r) op (C.get_range_list left) RIGHT
            cur_slist t f).2 d.name d.sym = some f2) ∧
    (((is_merged_expr H C cur_slist left = true ∧
          (C.get_range_list right = [] ∨ get_left_most_sm H cur_slist left = .NULL)) ∨
        (is_merged_expr H C cur_slist left = false ∧ is_merged_expr H C cur_slist right = true ∧
          (C.get_range_list left = [] ∨ get_left_most_sm H cur_slist right = .NULL)) ∨
        (is_merged_expr H C cur_slist left = false ∧
          is_merged_expr H C cur_slist right = false)) →
      handle_comparison H C mem cur_slist (.EXPR_COMPARE op left right) t f = some (t, f)) ∧
    (∀ e : expression, H.strip_expr e = e →
      (∀ (o : Int) (a b : expression), e ≠ .EXPR_ASSIGNMENT o a b) →
      is_merged_expr H C cur_slist e = true →
      C.get_value e = none ∧ ∃ (d : sm_data) (l r : sm_state),
        get_sm_state_expr H cur_slist SMATCH_EXTRA e = .node d l r ∧ d.merged = true ∧
        get_left_most_sm H cur_slist e = .node d l r) := by
  refine ⟨?_, ?_, ?_, ?_⟩
  · intro hm d l r hsm hranges
    rw [handle_comparison_left H C mem cur_slist op left right t f hm, hsm]
    dsimp only
    rw [if_neg hranges]
    exact filter_and_delete_some H mem cur_slist _ op _ LEFT d.name d.sym t f d.state
      (get_state_left_most H cur_slist left d l r hsm)
  · intro hl hm d l r hsm hranges
    rw [handle_comparison_right H C mem cur_slist op left right t f hl hm, hsm]
    dsimp only
    rw [if_neg hranges]
    exact filter_and_delete_some H mem cur_slist _ op _ RIGHT d.name d.sym t f d.state
      (get_state_left_most H cur_slist right d l r hsm)
  · intro h
    rcases h with ⟨hm, h⟩ | ⟨hl, hm, h⟩ | ⟨hl, hr⟩
    · rw [handle_comparison_left H C mem cur_slist op left right t f hm]
      rcases h with h | h
      · cases get_left_most_sm H cur_slist left with
        | NULL => rfl
        | node d l r => dsimp only; rw [if_pos h]
      · rw [h]
    · rw [handle_comparison_right H C mem cur_slist op left right t f hl hm]
      rcases h with h | h
      · cases get_left_most_sm H cur_slist right with
        | NULL => rfl
        | node d l r => dsimp only; rw [if_pos h]
      · rw [h]
    · exact handle_comparison_neither H C mem cur_slist op left right t f hl hr
  · intro e hstrip hassign hm
    obtain ⟨hval, d, l, r, hsm, hmerged⟩ := is_merged_expr_true H C cur_slist e hm
    refine ⟨hval, d, l, r, hsm, hmerged, ?_⟩
    rw [get_left_most_sm_plain H cur_slist e hstrip hassign, hsm]

/-- Witness of C20: `foo == bar` with both operands merged is driven by `foo`, and there is
nothing to derive since `bar` has no range list as an expression here; `99 == foo` is
driven by `foo` from the right. -/
theorem C20_driving_side_witness :
    handle_comparison example_helpers example_cond_helpers example_heap example_cond_store
      (.EXPR_COMPARE SPECIAL_EQUAL example_expr_foo example_expr_bar) [] [] = some ([], []) ∧
    ∃ t2 f2 : state_list,
      handle_comparison example_helpers example_cond_helpers example_heap example_cond_store
        (.EXPR_COMPARE SPECIAL_EQUAL (.EXPR_VALUE 99) example_expr_foo) [] [] = some (t2, f2) ∧
      delete_equiv_slist example_cond_store
        (separate_and_filter example_helpers example_heap (example_foo 2) SPECIAL_EQUAL
          [⟨99, 99⟩] RIGHT example_cond_store [] []).1 "foo" 1 = some t2 ∧
      delete_equiv_slist example_cond_store
        (separate_and_filter example_helpers example_heap (example_foo 2) SPECIAL_EQUAL
          [⟨99, 99⟩] RIGHT example_cond_store [] []).2 "foo" 1 = some f2 :=
  ⟨(C20_driving_side example_helpers example_cond_helpers example_heap example_cond_store
      SPECIAL_EQUAL example_expr_foo example_expr_bar [] []).2.2.1
      (Or.inl ⟨by decide, Or.inl rfl⟩),
   (C20_driving_side example_helpers example_cond_helpers example_heap example_cond_store
      SPECIAL_EQUAL (.EXPR_VALUE 99) example_expr_foo [] []).2.1 (by decide) (by decide)
      _ _ _ rfl (by decide)⟩

/-! ### A condition over a call -/

theorem call_implies_loop_no_ranged (test : data_range → Bool) (fn : String)
    (expr : expression) (call_backs : call_back_list)
    (h : ∀ tmp ∈ call_backs, tmp.type ≠ RANGED_CALL) :
    ∀ cur : state_list, call_implies_loop test fn expr call_backs cur = cur := by
  induction call_backs with
  | nil => intro cur; rfl
  | cons tmp rest ih =>
    intro cur
    unfold call_implies_loop
    rw [if_pos (h tmp (List.mem_cons_self _ _))]
    exact ih (fun t ht => h t (List.mem_cons_of_mem _ ht)) cur

theorem call_implies_callbacks_result (H : helpers) (C : cond_helpers)
    (func_hash : String → call_back_list) (comparison : Int) (symbol : Nat) (fn : String)
    (value : Int) (left : Int) (cc : cond_context) (hs : symbol ≠ 0) :
    (call_implies_callbacks H C func_hash comparison (.EXPR_CALL (.EXPR_SYMBOL symbol fn))
      value left cc).1 = !(func_hash fn).isEmpty := by
  unfold call_implies_callbacks
  simp only [hs, if_false]
  cases h : (func_hash fn).isEmpty <;> simp

theorem call_implies_callbacks_not_symbol (H : helpers) (C : cond_helpers)
    (func_hash : String → call_back_list) (comparison : Int) (expr : expression)
    (value : Int) (left : Int) (cc : cond_context)
    (h : ∀ (symbol : Nat) (fn : String), expr = .EXPR_CALL (.EXPR_SYMBOL symbol fn) →
      symbol = 0) :
    call_implies_callbacks H C func_hash comparison expr value left cc = (false, cc) := by
  unfold call_implies_callbacks
  split
  · rename_i symbol fn
    simp [h symbol fn rfl]
  · rfl

theorem compare_db_implies_callbacks_not_symbol (H : helpers) (C : cond_helpers)
    (db_implies_list : List return_implies_callback) (comparison : Int) (expr : expression)
    (value : Int) (left : Int) (cc : cond_context)
    (h : ∀ (symbol : Nat) (fn : String), expr = .EXPR_CALL (.EXPR_SYMBOL symbol fn) →
      symbol = 0) :
    compare_db_implies_callbacks H C db_implies_list comparison expr value left cc = cc := by
  unfold compare_db_implies_callbacks
  split
  · rename_i symbol fn
    simp [h symbol fn rfl]
  · rfl

/-- C11, as the specification states it, fails: `PTR_ERR` has a call-with-assignment hook
and no ranged hook, so no RANGED_CALL callback is run for either side of `PTR_ERR(p) < 0`;
the fact store holds a fact for the true branch, which `compare_db_implies_callbacks`
records, and `function_comparison` records nothing. -/
theorem C11_counterexample :
    (∀ tmp ∈ example_ptr_err_hash "PTR_ERR", tmp.type ≠ RANGED_CALL) ∧
    (function_comparison example_helpers example_cond_helpers example_ptr_err_hash
      example_db_implies_list 60 example_call_ptr_err 0 LEFT example_cond_context).cond_true =
      [] ∧
    (compare_db_implies_callbacks example_helpers example_cond_helpers example_db_implies_list
      60 example_call_ptr_err 0 LEFT example_cond_context).cond_true =
      [example_checker_sm "p" 5 "err_ptr"] := by
  decide

/-- C11, amended. `function_comparison` runs the fact-store path exactly when
`call_implies_callbacks` returns 0: for a callee that is a symbol, when no callback of any
kind is registered on its name.  When some callback is registered on the name, of whatever
kind and whether or not a RANGED_CALL callback is run for either side, the result is that
of `call_implies_callbacks` alone and does not depend on the fact store; when none of the
registered callbacks is ranged the condition records no fact.  When the callee is not a
symbol nothing is done. -/
theorem C11_fact_store_fall_through (H : helpers) (C : cond_helpers)
    (func_hash : String → call_back_list) (db_implies_list : List return_implies_callback)
    (comparison : Int) (value : Int) (left : Int) (cc : cond_context) :
    (∀ (symbol : Nat) (fn : String), symbol ≠ 0 → func_hash fn = [] →
      function_comparison H C func_hash db_implies_list comparison
          (.EXPR_CALL (.EXPR_SYMBOL symbol fn)) value left cc =
        compare_db_implies_callbacks H C db_implies_list comparison
          (.EXPR_CALL (.EXPR_SYMBOL symbol fn)) value left cc) ∧
    (∀ (symbol : Nat) (fn : String), symbol ≠ 0 → func_hash fn ≠ [] →
      (call_implies_callbacks H C func_hash comparison (.EXPR_CALL (.EXPR_SYMBOL symbol fn))
        value left cc).1 = true ∧
      function_comparison H C func_hash db_implies_list comparison
          (.EXPR_CALL (.EXPR_SYMBOL symbol fn)) value left cc =
        (call_implies_callbacks H C func_hash comparison (.EXPR_CALL (.EXPR_SYMBOL symbol fn))
          value left cc).2 ∧
      ∀ (db2 : List return_implies_callback) (rows : String → List (List String)),
        function_comparison H C func_hash db_implies_list comparison
            (.EXPR_CALL (.EXPR_SYMBOL symbol fn)) value left cc =
          function_comparison { H with run_sql := rows } C func_hash db2 comparison
            (.EXPR_CALL (.EXPR_SYMBOL symbol fn)) value left cc) ∧
    (∀ (symbol : Nat) (fn : String), symbol ≠ 0 → func_hash fn ≠ [] →
      (∀ tmp ∈ func_hash fn, tmp.type ≠ RANGED_CALL) → H.merge_slist [] [] = [] →
      function_comparison H C func_hash db_implies_list comparison
          (.EXPR_CALL (.EXPR_SYMBOL symbol fn)) value left cc = cc) ∧
    (∀ expr : expression,
      (∀ (symbol : Nat) (fn : String), expr = .EXPR_CALL (.EXPR_SYMBOL symbol fn) →
        symbol = 0) →
      function_comparison H C func_hash db_implies_list comparison expr value left cc = cc) := by
  refine ⟨?_, ?_, ?_, ?_⟩
  · intro symbol fn hs hreg
    unfold function_comparison
    have h1 := call_implies_callbacks_result H C func_hash comparison symbol fn value left cc hs
    rw [hreg] at h1
    simp only [h1]
    simp
  · intro symbol fn hs hreg
    have hne : (func_hash fn).isEmpty = false := by
      cases hl : func_hash fn with
      | nil => exact absurd hl hreg
      | cons a b => rfl
    have h1 := call_implies_callbacks_result H C func_hash comparison symbol fn value left cc hs
    rw [hne] at h1
    have h2 : ∀ (H2 : helpers) (db : List return_implies_callback),
        H2.merge_slist = H.merge_slist →
        function_comparison H2 C func_hash db comparison
            (.EXPR_CALL (.EXPR_SYMBOL symbol fn)) value left cc =
          (call_implies_callbacks H C func_hash comparison (.EXPR_CALL (.EXPR_SYMBOL symbol fn))
            value left cc).2 := by
      intro H2 db hmerge
      have h3 : call_implies_callbacks H2 C func_hash comparison
          (.EXPR_CALL (.EXPR_SYMBOL symbol fn)) value left cc =
          call_implies_callbacks H C func_hash comparison
          (.EXPR_CALL (.EXPR_SYMBOL symbol fn)) value left cc := by
        unfold call_implies_callbacks
        simp only [hmerge]
      unfold function_comparison
      simp only [h3, h1]
      simp
    refine ⟨by simpa using h1, h2 H db_implies_list rfl, ?_⟩
    intro db2 rows
    rw [h2 H db_implies_list rfl, h2 { H with run_sql := rows } db2 rfl]
  · intro symbol fn hs hreg hplain hmerge
    have hne : (func_hash fn).isEmpty = false := by
      cases hl : func_hash fn with
      | nil => exact absurd hl hreg
      | cons a b => rfl
    unfold function_comparison call_implies_callbacks
    simp only [hs, if_false, hne, Bool.false_eq_true, if_true,
      call_implies_loop_no_ranged _ fn _ (func_hash fn) hplain, __push_fake_cur_slist,
      __pop_fake_cur_slist, hmerge, set_true_each, set_false_each, List.headD_cons,
      List.tail_cons]
  · intro expr hexpr
    unfold function_comparison
    rw [call_implies_callbacks_not_symbol H C func_hash comparison expr value left cc hexpr]
    simp only [Bool.false_eq_true, if_false]
    exact compare_db_implies_callbacks_not_symbol H C db_implies_list comparison expr value
      left cc hexpr

/-- Witness of C11: `g` has no registered callback, so the condition `g(p) < 0` is settled
by the fact store, which records one fact for the true branch. -/
theorem C11_fact_store_fall_through_witness :
    function_comparison example_helpers example_cond_helpers example_ptr_err_hash
        example_db_implies_list 60 example_call_g 0 LEFT example_cond_context =
      compare_db_implies_callbacks example_helpers example_cond_helpers example_db_implies_list
        60 example_call_g 0 LEFT example_cond_context ∧
    (function_comparison example_helpers example_cond_helpers example_ptr_err_hash
        example_db_implies_list 60 example_call_g 0 LEFT example_cond_context).cond_true =
      [example_checker_sm "p" 5 "err_ptr"] ∧
    function_comparison example_helpers example_cond_helpers example_ptr_err_hash
        example_db_implies_list 60 example_call_ptr_err 0 LEFT example_cond_context =
      example_cond_context :=
  ⟨(C11_fact_store_fall_through example_helpers example_cond_helpers example_ptr_err_hash
      example_db_implies_list 60 0 LEFT example_cond_context).1 51 "g" (by decide) rfl,
   by decide,
   (C11_fact_store_fall_through example_helpers example_cond_helpers example_ptr_err_hash
      example_db_implies_list 60 0 LEFT example_cond_context).2.2.1 60 "PTR_ERR" (by decide)
      (by intro h; cases h) (by decide) rfl⟩

/-! ### Classification of pools -/

theorem do_compare_not_implied (H : helpers) (mem : pool_heap) (d : sm_data) (l r : sm_state)
    (comparison : Int) (vals : range_list) (lr : Int) (ts fs : state_list_stack)
    (hpool : d.my_pool ≠ 0) (himplied : d.implied = false) :
    do_compare H mem (.node d l r) comparison vals lr ts fs =
      (if H.possibly_false_range_list_lr comparison (get_dinfo d.state) vals lr = false then
         add_pool ts d.my_pool else ts,
       if H.possibly_true_range_list_lr comparison (get_dinfo d.state) vals lr = false then
         add_pool fs d.my_pool else fs) := by
  unfold do_compare
  simp only [hpool, if_false, himplied, Bool.false_eq_true]
  cases H.possibly_false_range_list_lr comparison (get_dinfo d.state) vals lr <;>
    cases H.possibly_true_range_list_lr comparison (get_dinfo d.state) vals lr <;> simp

theorem do_compare_implied (H : helpers) (mem : pool_heap) (d : sm_data) (l r : sm_state)
    (comparison : Int) (vals : range_list) (lr : Int) (ts fs : state_list_stack)
    (hpool : d.my_pool ≠ 0) (himplied : d.implied = true) (sd : sm_data) (sl sr : sm_state)
    (hfound : get_sm_state_slist (mem d.my_pool) d.owner d.name d.sym = .node sd sl sr) :
    do_compare H mem (.node d l r) comparison vals lr ts fs =
      (if H.possibly_false_range_list_lr comparison (get_dinfo sd.state) vals lr = false then
         add_pool ts sd.my_pool else ts,
       if H.possibly_true_range_list_lr comparison (get_dinfo sd.state) vals lr = false then
         add_pool fs sd.my_pool else fs) := by
  unfold do_compare
  simp only [hpool, if_false, himplied, if_true, hfound]
  cases H.possibly_false_range_list_lr comparison (get_dinfo sd.state) vals lr <;>
    cases H.possibly_true_range_list_lr comparison (get_dinfo sd.state) vals lr <;> simp

theorem do_compare_null_pool (H : helpers) (mem : pool_heap) (d : sm_data) (l r : sm_state)
    (comparison : Int) (vals : range_list) (lr : Int) (ts fs : state_list_stack)
    (hpool : d.my_pool = 0) :
    do_compare H mem (.node d l r) comparison vals lr ts fs = (ts, fs) := by
  unfold do_compare
  simp only [hpool, if_true]

/-- C21. Pool classification in `do_compare`: for a node that is not implied and has a
non-null `my_pool`, the pool is added to the true stack exactly when
`possibly_false_range_list_lr` is false of the state of the node, and to the false stack
exactly when `possibly_true_range_list_lr` is false of it; when the state is both possibly
true and possibly false neither stack changes; a node with a null `my_pool` changes neither
stack. -/
theorem C21_pool_classification (H : helpers) (mem : pool_heap) (d : sm_data)
    (left right : sm_state) (comparison : Int) (vals : range_list) (lr : Int)
    (true_stack false_stack : state_list_stack) :
    (d.my_pool ≠ 0 → d.implied = false →
      do_compare H mem (.node d left right) comparison vals lr true_stack false_stack =
        (if H.possibly_false_range_list_lr comparison (get_dinfo d.state) vals lr = false then
           add_pool true_stack d.my_pool else true_stack,
         if H.possibly_true_range_list_lr comparison (get_dinfo d.state) vals lr = false then
           add_pool false_stack d.my_pool else false_stack) ∧
      (d.my_pool ∈ (do_compare H mem (.node d left right) comparison vals lr
          true_stack false_stack).1 ↔
        (H.possibly_false_range_list_lr comparison (get_dinfo d.state) vals lr = false ∨
          d.my_pool ∈ true_stack)) ∧
      (d.my_pool ∈ (do_compare H mem (.node d left right) comparison vals lr
          true_stack false_stack).2 ↔
        (H.possibly_true_range_list_lr comparison (get_dinfo d.state) vals lr = false ∨
          d.my_pool ∈ false_stack)) ∧
      (H.possibly_false_range_list_lr comparison (get_dinfo d.state) vals lr = true →
        H.possibly_true_range_list_lr comparison (get_dinfo d.state) vals lr = true →
        do_compare H mem (.node d left right) comparison vals lr true_stack false_stack =
          (true_stack, false_stack))) ∧
    (d.my_pool = 0 →
      do_compare H mem (.node d left right) comparison vals lr true_stack false_stack =
        (true_stack, false_stack)) := by
  refine ⟨?_, do_compare_null_pool H mem d left right comparison vals lr true_stack false_stack⟩
  intro hpool himplied
  have heq := do_compare_not_implied H mem d left right comparison vals lr true_stack
    false_stack hpool himplied
  refine ⟨heq, ?_, ?_, ?_⟩
  · rw [heq]
    dsimp only
    cases H.possibly_false_range_list_lr comparison (get_dinfo d.state) vals lr
    · simp [mem_add_pool_self]
    · simp
  · rw [heq]
    dsimp only
    cases H.possibly_true_range_list_lr comparison (get_dinfo d.state) vals lr
    · simp [mem_add_pool_self]
    · simp
  · intro hf ht
    rw [heq, hf, ht]
    simp

/-- Witness of C21: the leaf of `foo` with the state `[99,99]` from pool 100 is recorded as
true for `foo == 99`, as false for `foo == 1`, and on neither side for `foo >= 99` against
the values `[98,100]`. -/
theorem C21_pool_classification_witness :
    do_compare example_helpers example_heap (example_leaf 11 "foo" 1 99 99 100) SPECIAL_EQUAL
      [⟨99, 99⟩] LEFT [] [] = ([100], []) ∧
    do_compare example_helpers example_heap (example_leaf 11 "foo" 1 99 99 100) SPECIAL_EQUAL
      [⟨1, 1⟩] LEFT [] [] = ([], [100]) ∧
    do_compare example_helpers example_heap (example_leaf 11 "foo" 1 99 99 100) SPECIAL_GTE
      [⟨98, 100⟩] LEFT [] [] = ([], []) :=
  ⟨((C21_pool_classification example_helpers example_heap _ .NULL .NULL SPECIAL_EQUAL
      [⟨99, 99⟩] LEFT [] []).1 (by decide) rfl).1.trans (by decide),
   ((C21_pool_classification example_helpers example_heap _ .NULL .NULL SPECIAL_EQUAL
      [⟨1, 1⟩] LEFT [] []).1 (by decide) rfl).1.trans (by decide),
   ((C21_pool_classification example_helpers example_heap _ .NULL .NULL SPECIAL_GTE
      [⟨98, 100⟩] LEFT [] []).1 (by decide) rfl).2.2.2 (by decide) (by decide)⟩

/-- C23, as the specification states it, fails: the implied binding of `foo` has the pool
100, in which `foo` is bound to `[99,99]` by a binding that was set in pool 50.  For
`foo == 99` the state that is classified is the one found in pool 100 (the own state `[1,1]`
of the node would be false), and the pool that is recorded is pool 50, the pool of the
binding that was found, not pool 100, the pool of the node. -/
theorem C23_counterexample :
    do_compare example_helpers example_borrowing_heap (.node example_implied_one .NULL .NULL)
      SPECIAL_EQUAL [⟨99, 99⟩] LEFT [] [] = ([50], []) ∧
    example_implied_one.my_pool = 100 ∧
    100 ∉ (do_compare example_helpers example_borrowing_heap
      (.node example_implied_one .NULL .NULL) SPECIAL_EQUAL [⟨99, 99⟩] LEFT [] []).1 := by
  decide

/-- C23, amended. Resolution of implied nodes in `do_compare`: for a node marked implied with
a non-null `my_pool`, the state that is classified is the state of the binding with the same
(owner, name, symbol) found in the pool of the node, not the own state of the node, and the
pool that is recorded in the true or the false stack is the `my_pool` of the binding that
was found; it is the pool of the node when the binding found there was set in that pool. -/
theorem C23_implied_node_resolution (H : helpers) (mem : pool_heap) (d : sm_data)
    (left right : sm_state) (comparison : Int) (vals : range_list) (lr : Int)
    (true_stack false_stack : state_list_stack) (sd : sm_data) (sl sr : sm_state)
    (hpool : d.my_pool ≠ 0) (himplied : d.implied = true)
    (hfound : get_sm_state_slist (mem d.my_pool) d.owner d.name d.sym = .node sd sl sr) :
    do_compare H mem (.node d left right) comparison vals lr true_stack false_stack =
      (if H.possibly_false_range_list_lr comparison (get_dinfo sd.state) vals lr = false then
         add_pool true_stack sd.my_pool else true_stack,
       if H.possibly_true_range_list_lr comparison (get_dinfo sd.state) vals lr = false then
         add_pool false_stack sd.my_pool else false_stack) ∧
    (sd.my_pool = d.my_pool →
      do_compare H mem (.node d left right) comparison vals lr true_stack false_stack =
        (if H.possibly_false_range_list_lr comparison (get_dinfo sd.state) vals lr = false then
           add_pool true_stack d.my_pool else true_stack,
         if H.possibly_true_range_list_lr comparison (get_dinfo sd.state) vals lr = false then
           add_pool false_stack d.my_pool else false_stack)) := by
  have heq := do_compare_implied H mem d left right comparison vals lr true_stack false_stack
    hpool himplied sd sl sr hfound
  refine ⟨heq, ?_⟩
  intro hsame
  rw [heq, hsame]

/-- Witness of C23: when the binding of `foo` in pool 100 was set in pool 100, pool 100 is
recorded as true for `foo == 99`, from the state `[99,99]` found in the pool. -/
theorem C23_implied_node_resolution_witness :
    do_compare example_helpers example_own_pool_heap (.node example_implied_one .NULL .NULL)
      SPECIAL_EQUAL [⟨99, 99⟩] LEFT [] [] = ([100], []) :=
  ((C23_implied_node_resolution example_helpers example_own_pool_heap example_implied_one
    .NULL .NULL SPECIAL_EQUAL [⟨99, 99⟩] LEFT [] [] _ _ _ (by decide) rfl rfl).2 rfl).trans
    (by decide)

/-! ### Filtering a merge tree -/

theorem pool_in_pools_mem (p : Nat) (stack : state_list_stack)
    (h : pool_in_pools p stack = true) : p ∈ stack := by
  induction stack with
  | nil => simp [pool_in_pools] at h
  | cons tmp rest ih =>
    unfold pool_in_pools at h
    by_cases h1 : tmp = p
    · rw [h1]; exact List.mem_cons_self _ _
    · rw [if_neg h1] at h
      by_cases h2 : tmp > p
      · rw [if_pos h2] at h; cases h
      · rw [if_neg h2] at h
        exact List.mem_cons_of_mem _ (ih h)

theorem pool_in_pools_false_of_not_mem (p : Nat) (stack : state_list_stack) (h : p ∉ stack) :
    pool_in_pools p stack = false := by
  cases hp : pool_in_pools p stack
  · rfl
  · exact absurd (pool_in_pools_mem p stack hp) h

/-- The flag `*modified` is only ever set: the binding `remove_my_pools` returns does not
depend on the value of the flag before the call, and the flag after the call is the flag
before or the flag a call from 0 gives. -/
theorem remove_my_pools_flag (H : helpers) (sm : sm_state) (pools : state_list_stack)
    (modified : Bool) :
    (remove_my_pools H sm pools modified).1 = (remove_my_pools H sm pools false).1 ∧
    (remove_my_pools H sm pools modified).2 =
      (modified || (remove_my_pools H sm pools false).2) := by
  cases sm with
  | NULL => simp [remove_my_pools]
  | node d l r =>
    unfold remove_my_pools
    by_cases h1 : d.nr_children > 4000
    · simp [h1]
    · simp only [h1, if_false]
      by_cases h2 : pool_in_pools d.my_pool pools = true
      · simp [h2]
      · simp only [h2, if_false, Bool.false_eq_true]
        by_cases h3 : (!d.merged) = true
        · simp [h3]
        · simp only [h3, if_false, Bool.false_eq_true]
          by_cases h4 : (!(remove_my_pools H r pools (remove_my_pools H l pools false).2).2) = true
          · simp [h4]
          · simp only [h4, if_false, Bool.false_eq_true]
            by_cases h5 : ((remove_my_pools H l pools false).1.isNull &&
                (remove_my_pools H r pools (remove_my_pools H l pools false).2).1.isNull) = true
            · simp [h5]
            · simp [h5]

/-- The code of `remove_my_pools` after its early returns, for a merged binding of at most
4000 children whose pool is not in the stack, in terms of the two calls on the children
from a cleared flag. -/
theorem remove_my_pools_merged (H : helpers) (d : sm_data) (l r : sm_state)
    (pools : state_list_stack) (modified : Bool) (hmerged : d.merged = true)
    (hsmall : d.nr_children ≤ 4000) (hpool : pool_in_pools d.my_pool pools = false) :
    remove_my_pools H (.node d l r) pools modified =
      if (remove_my_pools H l pools false).2 = false ∧ (remove_my_pools H r pools false).2 = false
      then (.node d l r, modified)
      else if (remove_my_pools H l pools false).1.isNull = true ∧
          (remove_my_pools H r pools false).1.isNull = true then (.NULL, true)
      else if (remove_my_pools H l pools false).1.isNull = true then
        ((((H.clone_sm (remove_my_pools H r pools false).1).set_merged_children .NULL
          (remove_my_pools H r pools false).1).set_my_pool d.my_pool).set_implied, true)
      else if (remove_my_pools H r pools false).1.isNull = true then
        ((((H.clone_sm (remove_my_pools H l pools false).1).set_merged_children
          (remove_my_pools H l pools false).1 .NULL).set_my_pool d.my_pool).set_implied, true)
      else
        (((H.merge_sm_states (remove_my_pools H l pools false).1
          (remove_my_pools H r pools false).1).set_my_pool d.my_pool).set_implied, true) := by
  have hr := remove_my_pools_flag H r pools (remove_my_pools H l pools false).2
  rw [remove_my_pools]
  have h1 : ¬ d.nr_children > 4000 := by omega
  simp only [h1, if_false, hpool, Bool.false_eq_true, hmerged, Bool.not_true, hr.1, hr.2]
  cases hl2 : (remove_my_pools H l pools false).2 <;>
    cases hr2 : (remove_my_pools H r pools false).2 <;>
    cases hl1 : (remove_my_pools H l pools false).1.isNull <;>
    cases hr1 : (remove_my_pools H r pools false).1.isNull <;> simp

theorem add_pool_sorted (stack : state_list_stack) (p : Nat)
    (h : stack.Pairwise (· < ·)) : (add_pool stack p).Pairwise (· < ·) := by
  induction stack with
  | nil => simp [add_pool]
  | cons tmp rest ih =>
    unfold add_pool
    rw [List.pairwise_cons] at h
    by_cases h1 : tmp < p
    · rw [if_pos h1, List.pairwise_cons]
      refine ⟨?_, ih h.2⟩
      intro q hq
      rcases (mem_add_pool_iff rest p q).mp hq with hq | hq
      · rw [hq]; exact h1
      · exact h.1 q hq
    · rw [if_neg h1]
      by_cases h2 : tmp = p
      · rw [if_pos h2]; exact List.pairwise_cons.mpr h
      · rw [if_neg h2, List.pairwise_cons]
        refine ⟨?_, List.pairwise_cons.mpr h⟩
        intro q hq
        rcases List.mem_cons.mp hq with hq | hq
        · rw [hq]; omega
        · have := h.1 q hq; omega

theorem do_compare_sorted (H : helpers) (mem : pool_heap) (sm : sm_state) (comparison : Int)
    (vals : range_list) (lr : Int) (ts fs : state_list_stack)
    (hts : ts.Pairwise (· < ·)) (hfs : fs.Pairwise (· < ·)) :
    (do_compare H mem sm comparison vals lr ts fs).1.Pairwise (· < ·) ∧
    (do_compare H mem sm comparison vals lr ts fs).2.Pairwise (· < ·) := by
  unfold do_compare
  cases sm with
  | NULL => exact ⟨hts, hfs⟩
  | node d l r =>
    dsimp only
    split
    · exact ⟨hts, hfs⟩
    · split
      · exact ⟨hts, hfs⟩
      · dsimp only
        constructor
        · split
          · exact add_pool_sorted _ _ hts
          · exact hts
        · split
          · exact add_pool_sorted _ _ hfs
          · exact hfs

/-- The pool stacks `separate_pools` builds are ascending by pool address. -/
theorem separate_pools_sorted (H : helpers) (mem : pool_heap) (comparison : Int)
    (vals : range_list) (lr : Int) (sm : sm_state) :
    ∀ (ts fs : state_list_stack) (checked : Option state_list),
      ts.Pairwise (· < ·) → fs.Pairwise (· < ·) →
      (separate_pools H mem comparison vals lr sm ts fs checked).1.Pairwise (· < ·) ∧
      (separate_pools H mem comparison vals lr sm ts fs checked).2.1.Pairwise (· < ·) := by
  induction sm with
  | NULL => intro ts fs checked hts hfs; exact ⟨hts, hfs⟩
  | node d l r ihl ihr =>
    intro ts fs checked hts hfs
    unfold separate_pools
    split
    · exact ⟨hts, hfs⟩
    · dsimp only
      split
      · exact ⟨hts, hfs⟩
      · have h1 := do_compare_sorted H mem (.node d l r) comparison vals lr ts fs hts hfs
        have h2 := ihl _ _ (some (checked.getD [] ++ [.node d l r])) h1.1 h1.2
        have h3 := ihr _ _ (separate_pools H mem comparison vals lr l
          (do_compare H mem (.node d l r) comparison vals lr ts fs).1
          (do_compare H mem (.node d l r) comparison vals lr ts fs).2
          (some (checked.getD [] ++ [.node d l r]))).2.2 h2.1 h2.2
        split
        · exact h3
        · exact h3

/-- C24. Excision in `remove_my_pools`: for a binding of at most 4000 children whose
`my_pool` is a member of the pool stack, the stack being ascending by pool address as the
stacks of `separate_pools` are, `remove_my_pools` returns no binding and sets the modified
flag, whether or not the binding is merged; a binding of at most 4000 children that is not
merged and whose `my_pool` is not in the stack is returned itself, the modified flag being
left as it was. -/
theorem C24_excision (H : helpers) (d : sm_data) (left right : sm_state)
    (pools : state_list_stack) (modified : Bool) (hsmall : d.nr_children ≤ 4000) :
    (pools.Pairwise (· ≤ ·) → d.my_pool ∈ pools →
      remove_my_pools H (.node d left right) pools modified = (.NULL, true)) ∧
    (d.merged = false → d.my_pool ∉ pools →
      remove_my_pools H (.node d left right) pools modified =
        (.node d left right, modified)) := by
  have h1 : ¬ d.nr_children > 4000 := by omega
  constructor
  · intro hsorted hmem
    have hp := (pool_in_pools_of_sorted d.my_pool pools hsorted).mpr hmem
    unfold remove_my_pools
    simp only [h1, if_false, hp, if_true]
  · intro hmerged hmem
    have hp := pool_in_pools_false_of_not_mem d.my_pool pools hmem
    unfold remove_my_pools
    simp only [h1, if_false, hp, Bool.false_eq_true, hmerged, Bool.not_false, if_true]

/-- Witness of C24: against the stack of the pools 100 and 200, the leaf of pool 200 and the
merged binding whose own pool is 200 are excised, the leaf of pool 150 is returned itself. -/
theorem C24_excision_witness :
    remove_my_pools example_helpers (example_leaf 12 "foo" 1 1 1 200) [100, 200] false =
      (.NULL, true) ∧
    remove_my_pools example_helpers
      (example_merged 40 "foo" 1 [⟨1, 1⟩, ⟨99, 99⟩] 200 2 (example_leaf 41 "foo" 1 99 99 150)
        (example_leaf 42 "foo" 1 1 1 150)) [100, 200] false = (.NULL, true) ∧
    remove_my_pools example_helpers (example_leaf 41 "foo" 1 99 99 150) [100, 200] false =
      (example_leaf 41 "foo" 1 99 99 150, false) :=
  ⟨(C24_excision example_helpers _ .NULL .NULL [100, 200] false (by decide)).1
      (by decide) (by decide),
   (C24_excision example_helpers _ _ _ [100, 200] false (by decide)).1 (by decide) (by decide),
   (C24_excision example_helpers _ .NULL .NULL [100, 200] false (by decide)).2 rfl (by decide)⟩

/-- C25, as the specification states it, fails: the merged `foo` with 4001 children is not
itself excised by the stack of pool 200, its left child survives `remove_my_pools` and its
right child is excised, and the result is no binding, with the modified flag left
clear. -/
theorem C25_counterexample :
    is_merged (example_foo 4001) = true ∧
    remove_my_pools example_helpers (example_leaf 11 "foo" 1 99 99 100) [200] false =
      (example_leaf 11 "foo" 1 99 99 100, false) ∧
    remove_my_pools example_helpers (example_leaf 12 "foo" 1 1 1 200) [200] false =
      (.NULL, true) ∧
    remove_my_pools example_helpers (example_foo 4001) [200] false = (.NULL, false) := by
  decide

/-- C25, amended. Degradation to the surviving child: for a merged binding of at most 4000
children that is not itself excised, of which exactly one child survives `remove_my_pools`
and the other is excised, the result is the clone `clone_sm` makes of the surviving filtered
child, with `merged` and `implied` set, `my_pool` that of the binding, the surviving child
linked on its own side and the other side null, and the modified flag is set; with
`clone_sm` copying the state, the state of the result is the state of the surviving
child. -/
theorem C25_degrade_to_surviving_child (H : helpers) (d : sm_data) (left right : sm_state)
    (pools : state_list_stack) (modified : Bool) (hmerged : d.merged = true)
    (hsmall : d.nr_children ≤ 4000) (hpool : pool_in_pools d.my_pool pools = false) :
    (∀ (sd : sm_data) (sl sr : sm_state),
      remove_my_pools H left pools false = (.NULL, true) →
      (remove_my_pools H right pools false).1 = .node sd sl sr →
      remove_my_pools H (.node d left right) pools modified =
        ((((H.clone_sm (.node sd sl sr)).set_merged_children .NULL (.node sd sl sr)).set_my_pool
          d.my_pool).set_implied, true) ∧
      (clone_keeps_state H → ∃ cd : sm_data,
        (remove_my_pools H (.node d left right) pools modified).1 =
          .node cd .NULL (.node sd sl sr) ∧
        cd.state = sd.state ∧ cd.implied = true ∧ cd.merged = true ∧
        cd.my_pool = d.my_pool)) ∧
    (∀ (sd : sm_data) (sl sr : sm_state),
      (remove_my_pools H left pools false).1 = .node sd sl sr →
      remove_my_pools H right pools false = (.NULL, true) →
      remove_my_pools H (.node d left right) pools modified =
        ((((H.clone_sm (.node sd sl sr)).set_merged_children (.node sd sl sr) .NULL).set_my_pool
          d.my_pool).set_implied, true) ∧
      (clone_keeps_state H → ∃ cd : sm_data,
        (remove_my_pools H (.node d left right) pools modified).1 =
          .node cd (.node sd sl sr) .NULL ∧
        cd.state = sd.state ∧ cd.implied = true ∧ cd.merged = true ∧
        cd.my_pool = d.my_pool)) := by
  have hcode := remove_my_pools_merged H d left right pools modified hmerged hsmall hpool
  constructor
  · intro sd sl sr hl hr
    have heq : remove_my_pools H (.node d left right) pools modified =
        ((((H.clone_sm (.node sd sl sr)).set_merged_children .NULL (.node sd sl sr)).set_my_pool
          d.my_pool).set_implied, true) := by
      rw [hcode, hl, hr]
      simp [sm_state.isNull]
    refine ⟨heq, ?_⟩
    intro hclone
    obtain ⟨d2, l2, r2, hc, hstate⟩ := hclone sd sl sr
    rw [heq, hc]
    exact ⟨_, rfl, hstate, rfl, rfl, rfl⟩
  · intro sd sl sr hl hr
    have heq : remove_my_pools H (.node d left right) pools modified =
        ((((H.clone_sm (.node sd sl sr)).set_merged_children (.node sd sl sr) .NULL).set_my_pool
          d.my_pool).set_implied, true) := by
      rw [hcode, hl, hr]
      simp [sm_state.isNull]
    refine ⟨heq, ?_⟩
    intro hclone
    obtain ⟨d2, l2, r2, hc, hstate⟩ := hclone sd sl sr
    rw [heq, hc]
    exact ⟨_, rfl, hstate, rfl, rfl, rfl⟩

/-- Witness of C25: against the stack of pool 200 the merged `foo` degrades to the clone of
its left child, the leaf `[99,99]` of pool 100. -/
theorem C25_degrade_to_surviving_child_witness :
    remove_my_pools example_helpers (example_foo 2) [200] false =
      ((((example_clone_sm (example_leaf 11 "foo" 1 99 99 100)).set_merged_children
        (example_leaf 11 "foo" 1 99 99 100) .NULL).set_my_pool 0).set_implied, true) :=
  ((C25_degrade_to_surviving_child example_helpers
    { addr := 10, owner := SMATCH_EXTRA, name := "foo", sym := 1,
      state := { name := "merged", data := { related := [], value_ranges := [⟨1, 1⟩, ⟨99, 99⟩] } },
      my_pool := 0, merged := true, implied := false, nr_children := 2, line := 0,
      possible := [] }
    (example_leaf 11 "foo" 1 99 99 100) (example_leaf 12 "foo" 1 1 1 200) [200] false rfl
    (by decide) (by decide)).2
    { addr := 11, owner := SMATCH_EXTRA, name := "foo", sym := 1, state := example_estate 99 99,
      my_pool := 100, merged := false, implied := false, nr_children := 1, line := 0,
      possible := [] } .NULL .NULL rfl (by decide)).1

/-- C26, as the specification states it, fails: both children of the merged `foo` whose own
pool is pool 300 survive `remove_my_pools` against the stack of the pools 200 and 300, the
right one changed by the filtering, and the result is no binding, since the binding is
itself excised. -/
theorem C26_counterexample :
    is_merged example_pooled_foo = true ∧
    (remove_my_pools example_helpers (example_leaf 41 "foo" 1 99 99 100) [200, 300] false).1.isNull
      = false ∧
    (remove_my_pools example_helpers (example_foo 2) [200, 300] false).1.isNull = false ∧
    (remove_my_pools example_helpers (example_foo 2) [200, 300] false).2 = true ∧
    remove_my_pools example_helpers example_pooled_foo [200, 300] false = (.NULL, true) := by
  decide

/-- C26, amended. Rejoin when both children survive: for a merged binding of at most 4000
children that is not itself excised, whose two children both survive `remove_my_pools` and
of which at least one was changed by the filtering, the result is `merge_sm_states` of the
filtered left and the filtered right child, with `my_pool` set to that of the binding and
`implied` set, and the modified flag is set. -/
theorem C26_rejoin_surviving_children (H : helpers) (d : sm_data) (left right : sm_state)
    (pools : state_list_stack) (modified : Bool) (hmerged : d.merged = true)
    (hsmall : d.nr_children ≤ 4000) (hpool : pool_in_pools d.my_pool pools = false)
    (hleft : (remove_my_pools H left pools false).1.isNull = false)
    (hright : (remove_my_pools H right pools false).1.isNull = false)
    (hchanged : (remove_my_pools H left pools false).2 = true ∨
      (remove_my_pools H right pools false).2 = true) :
    remove_my_pools H (.node d left right) pools modified =
      (((H.merge_sm_states (remove_my_pools H left pools false).1
        (remove_my_pools H right pools false).1).set_my_pool d.my_pool).set_implied, true) := by
  rw [remove_my_pools_merged H d left right pools modified hmerged hsmall hpool, hleft, hright]
  rcases hchanged with h | h <;> simp [h]

/-- Witness of C26: against the stack of pool 200 the merged binding over the leaf of pool
100 and the merged `foo` is rejoined from the leaf and the filtered `foo`. -/
theorem C26_rejoin_surviving_children_witness :
    remove_my_pools example_helpers example_pooled_foo [200] false =
      (((example_merge_sm_states (example_leaf 41 "foo" 1 99 99 100)
        (remove_my_pools example_helpers (example_foo 2) [200] false).1).set_my_pool
          300).set_implied, true) :=
  C26_rejoin_surviving_children example_helpers _ _ _ [200] false rfl (by decide) (by decide)
    (by decide) (by decide) (Or.inr (by decide))

theorem remove_my_pools_no_pool (H : helpers) (pools : state_list_stack) (sm : sm_state) :
    no_pool_in sm pools →
      (remove_my_pools H sm pools false).2 = false ∧
      ((∀ (d : sm_data) (l r : sm_state), sm = .node d l r → d.nr_children ≤ 4000) →
        (remove_my_pools H sm pools false).1 = sm) := by
  induction sm with
  | NULL => intro _; simp [remove_my_pools]
  | node d l r ihl ihr =>
    intro h
    obtain ⟨hd, hl, hr⟩ := h
    have hp := pool_in_pools_false_of_not_mem d.my_pool pools hd
    by_cases hbig : d.nr_children > 4000
    · constructor
      · unfold remove_my_pools; simp [hbig]
      · intro hsmall
        have := hsmall d l r rfl
        omega
    · have hsmall : d.nr_children ≤ 4000 := by omega
      cases hm : d.merged with
      | false =>
        unfold remove_my_pools
        simp [hbig, hp, hm]
      | true =>
        rw [remove_my_pools_merged H d l r pools false hm hsmall hp]
        simp [(ihl hl).1, (ihr hr).1]

theorem filter_stack_loop_eq (H : helpers) (stack : state_list_stack) (rest : state_list) :
    ∀ (ret : state_list) (counter : Nat),
      filter_stack_loop H stack rest ret counter =
        if runs_out H counter (filtered_bindings H rest stack).length = true then []
        else ret ++ filtered_bindings H rest stack := by
  induction rest with
  | nil => intro ret counter; simp [filter_stack_loop, filtered_bindings, runs_out]
  | cons tmp rest ih =>
    intro ret counter
    unfold filter_stack_loop
    dsimp only
    by_cases hq : (!(remove_my_pools H tmp stack false).1.isNull &&
        (remove_my_pools H tmp stack false).2) = true
    · have hf : filtered_bindings H (tmp :: rest) stack =
          copy_name_sym tmp (remove_my_pools H tmp stack false).1 ::
            filtered_bindings H rest stack := by
        unfold filtered_bindings
        rw [List.filterMap_cons]
        simp only [hq, if_true]
      rw [if_pos hq, hf, List.length_cons, runs_out, ih]
      cases ho : (decide (counter % 10 ≠ 0) && H.out_of_memory counter) <;> simp
    · have hf : filtered_bindings H (tmp :: rest) stack = filtered_bindings H rest stack := by
        unfold filtered_bindings
        rw [List.filterMap_cons]
        simp only [hq, if_false, Bool.false_eq_true]
      rw [if_neg hq, hf, ih]

theorem runs_out_never (H : helpers) (h : ∀ n : Nat, H.out_of_memory n = false) (n : Nat) :
    ∀ counter : Nat, runs_out H counter n = false := by
  induction n with
  | zero => intro counter; rfl
  | succ n ih => intro counter; simp [runs_out, h, ih]

/-- C27, as the specification states it, fails: no binding of the merged `foo` with 4001
children has its pool in the stack of pool 300, and `remove_my_pools` returns no binding
instead of `foo` itself. -/
theorem C27_counterexample :
    no_pool_in (example_foo 4001) [300] ∧
    remove_my_pools example_helpers (example_foo 4001) [300] false = (.NULL, false) ∧
    (remove_my_pools example_helpers (example_foo 4001) [300] false).1 ≠ example_foo 4001 := by
  refine ⟨?_, by decide, by decide⟩
  simp [no_pool_in, example_foo, example_merged, example_leaf]

/-- C27, amended. Unchanged bindings are kept verbatim: for a binding and a pool stack such
that no binding reachable from it through `left` and `right`, itself included, has its
`my_pool` in the stack, `remove_my_pools` does not set the modified flag, and returns the
binding itself when it has at most 4000 children (no binding when it has more);
consequently `filter_stack` omits such a binding from the derived snapshot. -/
theorem C27_unchanged_kept_verbatim (H : helpers) (pools : state_list_stack) :
    (∀ (sm : sm_state) (modified : Bool), no_pool_in sm pools →
      (remove_my_pools H sm pools modified).2 = modified) ∧
    (∀ (d : sm_data) (left right : sm_state) (modified : Bool),
      no_pool_in (.node d left right) pools → d.nr_children ≤ 4000 →
      remove_my_pools H (.node d left right) pools modified =
        (.node d left right, modified)) ∧
    (∀ (d : sm_data) (left right : sm_state) (modified : Bool), d.nr_children > 4000 →
      remove_my_pools H (.node d left right) pools modified = (.NULL, modified)) ∧
    (∀ pre_list : state_list, (∀ tmp ∈ pre_list, no_pool_in tmp pools) →
      filter_stack H pre_list pools = []) ∧
    (∀ (before after : state_list) (sm : sm_state), no_pool_in sm pools →
      filter_stack H (before ++ sm :: after) pools = filter_stack H (before ++ after) pools) := by
  have hflag : ∀ (sm : sm_state) (modified : Bool), no_pool_in sm pools →
      (remove_my_pools H sm pools modified).2 = modified := by
    intro sm modified h
    rw [(remove_my_pools_flag H sm pools modified).2, (remove_my_pools_no_pool H pools sm h).1]
    simp
  have hfilt : ∀ pre_list : state_list, (∀ tmp ∈ pre_list, no_pool_in tmp pools) →
      filtered_bindings H pre_list pools = [] := by
    intro pre_list hall
    unfold filtered_bindings
    rw [List.filterMap_eq_nil_iff]
    intro tmp htmp
    simp [(remove_my_pools_no_pool H pools tmp (hall tmp htmp)).1]
  refine ⟨hflag, ?_, ?_, ?_, ?_⟩
  · intro d left right modified h hsmall
    have h1 := (remove_my_pools_no_pool H pools (.node d left right) h).2
      (fun d2 l2 r2 heq => by cases heq; exact hsmall)
    have h2 := remove_my_pools_flag H (.node d left right) pools modified
    have h3 := hflag (.node d left right) modified h
    exact Prod.ext (h2.1.trans h1) h3
  · intro d left right modified hbig
    unfold remove_my_pools
    rw [if_pos hbig]
  · intro pre_list hall
    unfold filter_stack
    split
    · rfl
    · rw [filter_stack_loop_eq, hfilt pre_list hall]
      simp [runs_out]
  · intro before after sm h
    have hf : filtered_bindings H (before ++ sm :: after) pools =
        filtered_bindings H (before ++ after) pools := by
      unfold filtered_bindings
      rw [List.filterMap_append, List.filterMap_append, List.filterMap_cons]
      simp [(remove_my_pools_no_pool H pools sm h).1]
    unfold filter_stack
    split
    · rfl
    · rw [filter_stack_loop_eq, filter_stack_loop_eq, hf]

/-- Witness of C27: against the stack of pool 300 the merged `foo` is returned itself, and
a snapshot of `foo` and `bar` gives an empty derived snapshot. -/
theorem C27_unchanged_kept_verbatim_witness :
    remove_my_pools example_helpers (example_foo 2) [300] false = (example_foo 2, false) ∧
    filter_stack example_helpers [example_foo 2, example_bar] [300] = [] :=
  ⟨(C27_unchanged_kept_verbatim example_helpers [300]).2.1 _ _ _ false
      (by simp [no_pool_in, example_leaf]) (by decide),
   (C27_unchanged_kept_verbatim example_helpers [300]).2.2.2.1 [example_foo 2, example_bar]
      (by
        intro tmp htmp
        rcases List.mem_cons.mp htmp with h | h
        · subst h; simp [no_pool_in, example_foo, example_merged, example_leaf]
        · rcases List.mem_cons.mp h with h1 | h1
          · subst h1; simp [no_pool_in, example_bar, example_merged, example_leaf]
          · cases h1)⟩

/-- C28, as the specification states it, fails: against the stack of pool 200
`remove_my_pools` returns a binding and sets the flag for `foo` and for `bar`, and
`filter_stack` returns the empty snapshot, because `out_of_memory()` reports exhaustion
after the second addition. -/
theorem C28_counterexample :
    (filtered_bindings example_exhausted_helpers [example_foo 2, example_bar] [200]).length = 2 ∧
    filter_stack example_exhausted_helpers [example_foo 2, example_bar] [200] = [] := by
  decide

/-- C28, amended. Filtering is against the opposite stack: for a merged binding
`separate_and_filter` computes the true snapshot as `filter_stack(pre_list, false_stack)` and
the false snapshot as `filter_stack(pre_list, true_stack)`, the stacks being those
`separate_pools` builds from empty stacks (for a binding that is not merged it leaves both
snapshots alone).  `filter_stack` with an empty stack returns the empty snapshot; otherwise
it returns, in the order of `pre_list`, exactly the bindings for which `remove_my_pools`
returned a binding and set the flag, each with the name and symbol of the binding of
`pre_list` it comes from, unless `out_of_memory()` reports exhaustion at one of the tests
after an addition, in which case it returns the empty snapshot. -/
theorem C28_filter_against_opposite_stack (H : helpers) (mem : pool_heap)
    (pre_list : state_list) :
    (∀ (sm : sm_state) (comparison : Int) (vals : range_list) (lr : Int) (t f : state_list),
      is_merged sm = true →
      separate_and_filter H mem sm comparison vals lr pre_list t f =
        (filter_stack H pre_list (separate_pools H mem comparison vals lr sm [] [] none).2.1,
         filter_stack H pre_list (separate_pools H mem comparison vals lr sm [] [] none).1)) ∧
    filter_stack H pre_list [] = [] ∧
    (∀ stack : state_list_stack, stack ≠ [] →
      filter_stack H pre_list stack =
        if runs_out H 0 (filtered_bindings H pre_list stack).length = true then []
        else filtered_bindings H pre_list stack) ∧
    (∀ stack : state_list_stack, stack ≠ [] → (∀ n : Nat, H.out_of_memory n = false) →
      filter_stack H pre_list stack = filtered_bindings H pre_list stack) := by
  have h3 : ∀ stack : state_list_stack, stack ≠ [] →
      filter_stack H pre_list stack =
        if runs_out H 0 (filtered_bindings H pre_list stack).length = true then []
        else filtered_bindings H pre_list stack := by
    intro stack hstack
    unfold filter_stack
    rw [if_neg hstack, filter_stack_loop_eq]
    simp
  refine ⟨?_, ?_, h3, ?_⟩
  · intro sm comparison vals lr t f hm
    unfold separate_and_filter
    simp [hm]
  · unfold filter_stack
    simp
  · intro stack hstack hmem
    rw [h3 stack hstack, runs_out_never H hmem]
    simp

/-- Witness of C28: with memory left, the snapshot of `foo` and `bar` filtered against the
stack of pool 200 holds the two narrowed bindings, in the order of the snapshot. -/
theorem C28_filter_against_opposite_stack_witness :
    filter_stack example_helpers [example_foo 2, example_bar] [200] =
      filtered_bindings example_helpers [example_foo 2, example_bar] [200] ∧
    (filtered_bindings example_helpers [example_foo 2, example_bar] [200]).map sm_state.ranges =
      [[⟨99, 99⟩], [⟨1, 5⟩]] :=
  ⟨(C28_filter_against_opposite_stack example_helpers example_heap
      [example_foo 2, example_bar]).2.2.2 [200] (by decide) (fun _ => rfl),
   by decide⟩

/-! ### An equivalence class of size one -/

theorem stepped_over_irrefl (x : relation) : ¬ stepped_over x x := by
  intro h
  rcases h with h | h | h
  · exact lt_irrefl _ h
  · exact lt_irrefl _ h
  · rw [(strcmp_eq_zero x.name x.name).mpr rfl] at h
    exact lt_irrefl _ h

theorem add_related_loop_stepped_over (op : Int) (name : String) (sym : Nat)
    (related : related_list) (h : related.Pairwise stepped_over) :
    (add_related_loop op name sym related).Pairwise stepped_over := by
  induction related with
  | nil => simp [add_related_loop]
  | cons tmp rest ih =>
    have htmp := (List.pairwise_cons.mp h).1
    have hrest := (List.pairwise_cons.mp h).2
    unfold add_related_loop
    split
    · rename_i hskip
      refine List.pairwise_cons.mpr ⟨?_, ih hrest⟩
      intro y hy
      rcases (mem_add_related_loop _ _ _ _ _).mp hy with h1 | h1
      · rw [h1]; exact hskip
      · exact htmp y h1
    · rename_i hskip
      split
      · exact h
      · rename_i hneq
        have h1 : ¬ tmp.op < op := fun h => hskip (Or.inl h)
        have h2 : ¬ tmp.sym < sym := fun h => hskip (Or.inr (Or.inl h))
        have h3 : ¬ strcmp tmp.name name < 0 := fun h => hskip (Or.inr (Or.inr h))
        have hnew : stepped_over (alloc_relation op name sym) tmp := by
          unfold stepped_over alloc_relation
          by_cases ho : op < tmp.op
          · exact Or.inl ho
          · by_cases hs : sym < tmp.sym
            · exact Or.inr (Or.inl hs)
            · refine Or.inr (Or.inr ?_)
              have hoe : tmp.op = op := by omega
              have hse : tmp.sym = sym := by omega
              have hne : strcmp tmp.name name ≠ 0 := fun h0 => hneq ⟨hoe, hse, h0⟩
              show strcmp name tmp.name < 0
              rw [strcmp_swap]
              omega
        refine List.pairwise_cons.mpr ⟨?_, h⟩
        intro y hy
        rcases List.mem_cons.mp hy with h4 | h4
        · rw [h4]; exact hnew
        · rcases htmp y h4 with h5 | h5 | h5
          · exact Or.inl (by show op < y.op; omega)
          · exact Or.inr (Or.inl (by show sym < y.sym; omega))
          · exact Or.inr (Or.inr (strcmp_trans name tmp.name y.name h3 h5))

theorem add_related_loop_present (op : Int) (name : String) (sym : Nat)
    (related : related_list) (h : related.Pairwise stepped_over)
    (hmem : (⟨op, name, sym⟩ : relation) ∈ related) :
    add_related_loop op name sym related = related := by
  induction related with
  | nil => cases hmem
  | cons tmp rest ih =>
    have htmp := (List.pairwise_cons.mp h).1
    have hrest := (List.pairwise_cons.mp h).2
    unfold add_related_loop
    rcases List.mem_cons.mp hmem with h1 | h1
    · have hirr := stepped_over_irrefl tmp
      rw [← h1] at hirr ⊢
      have hskip : ¬ (op < op ∨ sym < sym ∨ strcmp name name < 0) := hirr
      rw [if_neg hskip, if_pos ⟨rfl, rfl, (strcmp_eq_zero name name).mpr rfl⟩]
    · have hskip : tmp.op < op ∨ tmp.sym < sym ∨ strcmp tmp.name name < 0 := htmp _ h1
      rw [if_pos hskip, ih hrest h1]

theorem related_add_related_calls (calls : List relation) :
    ∀ state : smatch_state, (get_dinfo state).related.Pairwise stepped_over →
      (get_dinfo (add_related_calls state calls)).related.Pairwise stepped_over := by
  induction calls with
  | nil => intro state h; exact h
  | cons c rest ih =>
    intro state h
    unfold add_related_calls
    rw [List.foldl_cons]
    exact ih _ (add_related_loop_stepped_over c.op c.name c.sym _ h)

/-- C30. No duplicate relations: after every sequence of `add_related` calls on a state
whose relation set is empty, with any operators, symbols and names, the relation list has
no two entries with the same operator, symbol and name, and `add_related` of a triple that
is in the list leaves the state, and so the list, unchanged. -/
theorem C30_no_duplicate_relations (state : smatch_state) (calls : List relation)
    (hempty : (get_dinfo state).related = []) :
    (get_dinfo (add_related_calls state calls)).related.Pairwise
      (fun x y => ¬ (x.op = y.op ∧ x.sym = y.sym ∧ x.name = y.name)) ∧
    (get_dinfo (add_related_calls state calls)).related.Nodup ∧
    (∀ (op : Int) (name : String) (sym : Nat),
      (⟨op, name, sym⟩ : relation) ∈ (get_dinfo (add_related_calls state calls)).related →
      add_related (add_related_calls state calls) op name sym =
        add_related_calls state calls) := by
  have hpw : (get_dinfo (add_related_calls state calls)).related.Pairwise stepped_over :=
    related_add_related_calls calls state (by rw [hempty]; exact List.Pairwise.nil)
  have hne : (get_dinfo (add_related_calls state calls)).related.Pairwise
      (fun x y => ¬ (x.op = y.op ∧ x.sym = y.sym ∧ x.name = y.name)) := by
    refine hpw.imp ?_
    intro x y hxy heq
    have : x = y := by
      cases x; cases y
      simp only at heq
      simp [heq.1, heq.2.1, heq.2.2]
    rw [this] at hxy
    exact stepped_over_irrefl y hxy
  refine ⟨hne, ?_, ?_⟩
  · refine hne.imp ?_
    intro x y hxy heq
    exact hxy (by rw [heq]; exact ⟨rfl, rfl, rfl⟩)
  · intro op name sym hmem
    unfold add_related
    rw [add_related_loop_present op name sym _ hpw hmem]
    rfl

/-- Witness of C30: four calls with two operators, the last repeating the first, leave
three relations, and a fifth call with a triple already present changes nothing. -/
theorem C30_no_duplicate_relations_witness :
    (get_dinfo (add_related_calls example_unrelated_state example_related_calls)).related =
      [⟨60, "a", 5⟩, ⟨SPECIAL_EQUAL, "a", 5⟩, ⟨SPECIAL_EQUAL, "b", 3⟩] ∧
    (get_dinfo (add_related_calls example_unrelated_state example_related_calls)).related.Nodup ∧
    add_related (add_related_calls example_unrelated_state example_related_calls)
        SPECIAL_EQUAL "b" 3 =
      add_related_calls example_unrelated_state example_related_calls :=
  ⟨by decide,
   (C30_no_duplicate_relations example_unrelated_state example_related_calls rfl).2.1,
   (C30_no_duplicate_relations example_unrelated_state example_related_calls rfl).2.2
      SPECIAL_EQUAL "b" 3 (by decide)⟩

/-! ### The walk of the merge tree visits each binding once -/

theorem is_checked_iff (checked : state_list) (sm : sm_state) :
    is_checked checked sm = true ↔ sm.ident ∈ checked.map sm_state.ident := by
  induction checked with
  | nil => simp [is_checked]
  | cons tmp rest ih =>
    unfold is_checked
    by_cases h : tmp.data.map sm_data.addr = sm.data.map sm_data.addr
    · rw [if_pos h]
      simp [sm_state.ident, h]
    · rw [if_neg h, ih]
      simp only [List.map_cons, List.mem_cons]
      constructor
      · intro h1; exact Or.inr h1
      · rintro (h1 | h1)
        · exact absurd h1.symm h
        · exact h1

theorem separate_pools_eq_visits (H : helpers) (mem : pool_heap) (comparison : Int)
    (vals : range_list) (lr : Int) (sm : sm_state) :
    ∀ (ts fs : state_list_stack) (checked : state_list),
      separate_pools H mem comparison vals lr sm ts fs (some checked) =
        (((visits sm checked).foldl
            (fun st n => do_compare H mem n comparison vals lr st.1 st.2) (ts, fs)).1,
         ((visits sm checked).foldl
            (fun st n => do_compare H mem n comparison vals lr st.1 st.2) (ts, fs)).2,
         some (checked ++ visits sm checked)) := by
  induction sm with
  | NULL => intro ts fs checked; simp [separate_pools, visits]
  | node d l r ihl ihr =>
    intro ts fs checked
    unfold separate_pools visits
    by_cases hbig : d.nr_children > 4000
    · simp [hbig]
    · by_cases hc : is_checked checked (.node d l r) = true
      · simp [hbig, hc]
      · simp only [hbig, if_false, Option.getD_some, hc, Option.isNone_some,
          Bool.false_eq_true]
        rw [ihl, ihr]
        simp only [List.foldl_cons, List.foldl_append, List.append_assoc, List.singleton_append,
          Prod.mk.eta, List.cons_append, List.nil_append]

theorem separate_pools_top (H : helpers) (mem : pool_heap) (comparison : Int)
    (vals : range_list) (lr : Int) (sm : sm_state) (ts fs : state_list_stack) :
    separate_pools H mem comparison vals lr sm ts fs none =
      ((separate_pools H mem comparison vals lr sm ts fs (some [])).1,
       (separate_pools H mem comparison vals lr sm ts fs (some [])).2.1, none) := by
  cases sm with
  | NULL => simp [separate_pools]
  | node d l r =>
    unfold separate_pools
    by_cases hbig : d.nr_children > 4000
    · simp [hbig]
    · simp [hbig, is_checked]

theorem do_compare_calls_eq (H : helpers) (mem : pool_heap) (comparison : Int)
    (vals : range_list) (lr : Int) (sm : sm_state) :
    do_compare_calls H mem comparison vals lr sm = visits sm [] := by
  unfold do_compare_calls
  rw [separate_pools_eq_visits]
  simp

theorem visits_subnodes (sm : sm_state) :
    ∀ (checked : state_list), ∀ x ∈ visits sm checked, x ∈ sm.subnodes := by
  induction sm with
  | NULL => intro checked x hx; simp [visits] at hx
  | node d l r ihl ihr =>
    intro checked x hx
    unfold visits at hx
    by_cases hbig : d.nr_children > 4000
    · simp [hbig] at hx
    · by_cases hc : is_checked checked (.node d l r) = true
      · simp [hbig, hc] at hx
      · simp only [hbig, if_false, hc, Bool.false_eq_true, List.mem_cons, List.mem_append] at hx
        unfold sm_state.subnodes
        rcases hx with h | h | h
        · rw [h]; exact List.mem_cons_self _ _
        · exact List.mem_cons_of_mem _ (List.mem_append_left _ (ihl _ x h))
        · exact List.mem_cons_of_mem _ (List.mem_append_right _ (ihr _ x h))

theorem visits_small (sm : sm_state) :
    ∀ (checked : state_list), ∀ x ∈ visits sm checked,
      ∃ (d : sm_data) (l r : sm_state), x = .node d l r ∧ d.nr_children ≤ 4000 := by
  induction sm with
  | NULL => intro checked x hx; simp [visits] at hx
  | node d l r ihl ihr =>
    intro checked x hx
    unfold visits at hx
    by_cases hbig : d.nr_children > 4000
    · simp [hbig] at hx
    · by_cases hc : is_checked checked (.node d l r) = true
      · simp [hbig, hc] at hx
      · simp only [hbig, if_false, hc, Bool.false_eq_true, List.mem_cons, List.mem_append] at hx
        rcases hx with h | h | h
        · exact ⟨d, l, r, h, by omega⟩
        · exact ihl _ x h
        · exact ihr _ x h

theorem visits_nodup (sm : sm_state) :
    ∀ (checked : state_list), (checked.map sm_state.ident).Nodup →
      ((checked ++ visits sm checked).map sm_state.ident).Nodup := by
  induction sm with
  | NULL => intro checked h; simpa [visits] using h
  | node d l r ihl ihr =>
    intro checked h
    unfold visits
    by_cases hbig : d.nr_children > 4000
    · simpa [hbig] using h
    · by_cases hc : is_checked checked (.node d l r) = true
      · simpa [hbig, hc] using h
      · simp only [hbig, if_false, hc, Bool.false_eq_true]
        have hnot : (sm_state.node d l r).ident ∉ checked.map sm_state.ident :=
          fun hm => hc ((is_checked_iff checked _).mpr hm)
        have h1 : ((checked ++ [sm_state.node d l r]).map sm_state.ident).Nodup := by
          rw [List.map_append, List.nodup_append]
          refine ⟨h, by simp, ?_⟩
          intro a ha hb
          simp only [List.map_cons, List.map_nil, List.mem_singleton] at hb
          rw [hb] at ha
          exact hnot ha
        have h2 := ihl _ h1
        have h3 := ihr _ h2
        have heq : checked ++ sm_state.node d l r ::
            (visits l (checked ++ [sm_state.node d l r]) ++
              visits r (checked ++ [sm_state.node d l r] ++ visits l (checked ++ [sm_state.node d l r]))) =
            checked ++ [sm_state.node d l r] ++ visits l (checked ++ [sm_state.node d l r]) ++
              visits r (checked ++ [sm_state.node d l r] ++ visits l (checked ++ [sm_state.node d l r])) := by
          simp
        rw [heq]
        exact h3

theorem visits_self (d : sm_data) (l r : sm_state) (checked : state_list)
    (hsmall : d.nr_children ≤ 4000) :
    (sm_state.node d l r).ident ∈
      (checked ++ visits (.node d l r) checked).map sm_state.ident := by
  unfold visits
  have hbig : ¬ d.nr_children > 4000 := by omega
  by_cases hc : is_checked checked (.node d l r) = true
  · simp only [hbig, if_false, hc, if_true, List.append_nil]
    exact (is_checked_iff checked _).mp hc
  · simp only [hbig, if_false, hc, Bool.false_eq_true]
    rw [List.map_append, List.mem_append]
    exact Or.inr (List.mem_map_of_mem _ (List.mem_cons_self _ _))

theorem visits_closed (sm : sm_state) :
    ∀ (checked : state_list), ∀ x ∈ visits sm checked,
      ∀ (d : sm_data) (l r : sm_state), x = .node d l r →
        (∀ (cd : sm_data) (cl cr : sm_state), l = .node cd cl cr → cd.nr_children ≤ 4000 →
          l.ident ∈ (checked ++ visits sm checked).map sm_state.ident) ∧
        (∀ (cd : sm_data) (cl cr : sm_state), r = .node cd cl cr → cd.nr_children ≤ 4000 →
          r.ident ∈ (checked ++ visits sm checked).map sm_state.ident) := by
  induction sm with
  | NULL => intro checked x hx; simp [visits] at hx
  | node sd sl sr ihl ihr =>
    intro checked x hx d l r hxe
    have hx0 := hx
    unfold visits at hx ⊢
    by_cases hbig : sd.nr_children > 4000
    · simp [hbig] at hx
    · by_cases hc : is_checked checked (.node sd sl sr) = true
      · simp [hbig, hc] at hx
      · simp only [hbig, if_false, hc, Bool.false_eq_true, List.mem_cons, List.mem_append] at hx
        simp only [hbig, if_false, hc, Bool.false_eq_true]
        have heq : checked ++ sm_state.node sd sl sr ::
            (visits sl (checked ++ [sm_state.node sd sl sr]) ++
              visits sr (checked ++ [sm_state.node sd sl sr] ++ visits sl (checked ++ [sm_state.node sd sl sr]))) =
            checked ++ [sm_state.node sd sl sr] ++ visits sl (checked ++ [sm_state.node sd sl sr]) ++
              visits sr (checked ++ [sm_state.node sd sl sr] ++ visits sl (checked ++ [sm_state.node sd sl sr])) := by
          simp
        rw [heq]
        have hmono : ∀ i : Option Nat,
            i ∈ (checked ++ [sm_state.node sd sl sr] ++ visits sl (checked ++ [sm_state.node sd sl sr])).map
              sm_state.ident →
            i ∈ (checked ++ [sm_state.node sd sl sr] ++ visits sl (checked ++ [sm_state.node sd sl sr]) ++
              visits sr (checked ++ [sm_state.node sd sl sr] ++
                visits sl (checked ++ [sm_state.node sd sl sr]))).map sm_state.ident := by
          intro i hi
          rw [List.map_append, List.mem_append]
          exact Or.inl hi
        rcases hx with h | h | h
        · rw [hxe] at h
          cases h
          constructor
          · intro cd cl cr hl hsmall
            subst hl
            exact hmono _ (visits_self cd cl cr _ hsmall)
          · intro cd cl cr hr hsmall
            subst hr
            exact visits_self cd cl cr _ hsmall
        · have := ihl _ x h d l r hxe
          exact ⟨fun cd cl cr hl hs => hmono _ (this.1 cd cl cr hl hs),
                 fun cd cl cr hr hs => hmono _ (this.2 cd cl cr hr hs)⟩
        · exact ihr _ x h d l r hxe

theorem subnodes_self (d : sm_data) (l r : sm_state) :
    sm_state.node d l r ∈ (sm_state.node d l r).subnodes := by
  unfold sm_state.subnodes
  exact List.mem_cons_self _ _

theorem subnodes_trans (root : sm_state) :
    ∀ (p x : sm_state), p ∈ root.subnodes → x ∈ p.subnodes → x ∈ root.subnodes := by
  induction root with
  | NULL => intro p x hp; simp [sm_state.subnodes] at hp
  | node d l r ihl ihr =>
    intro p x hp hx
    unfold sm_state.subnodes at hp
    rcases List.mem_cons.mp hp with h | h
    · rw [h] at hx; exact hx
    · unfold sm_state.subnodes
      rcases List.mem_append.mp h with h1 | h1
      · exact List.mem_cons_of_mem _ (List.mem_append_left _ (ihl p x h1 hx))
      · exact List.mem_cons_of_mem _ (List.mem_append_right _ (ihr p x h1 hx))

theorem guarded_path_subnodes (root n : sm_state) (h : guarded_path root n) :
    n ∈ root.subnodes := by
  induction h with
  | root d l r hroot => rw [hroot]; exact subnodes_self d l r
  | left d r cd cl cr _ _ ih =>
    refine subnodes_trans root _ _ ih ?_
    unfold sm_state.subnodes
    exact List.mem_cons_of_mem _ (List.mem_append_left _ (subnodes_self cd cl cr))
  | right d l cd cl cr _ _ ih =>
    refine subnodes_trans root _ _ ih ?_
    unfold sm_state.subnodes
    exact List.mem_cons_of_mem _ (List.mem_append_right _ (subnodes_self cd cl cr))

theorem visits_complete (root : sm_state) (hcons : addr_consistent root) (n : sm_state)
    (h : guarded_path root n) :
    ∀ (d : sm_data) (l r : sm_state), n = .node d l r → d.nr_children ≤ 4000 →
      n ∈ visits root [] := by
  have hback : ∀ x : sm_state, x ∈ root.subnodes →
      x.ident ∈ ([] ++ visits root []).map sm_state.ident → x ∈ visits root [] := by
    intro x hx hid
    rw [List.nil_append] at hid
    obtain ⟨y, hy, hyi⟩ := List.mem_map.mp hid
    have := hcons y (visits_subnodes root [] y hy) x hx hyi
    rw [← this]; exact hy
  induction h with
  | root d0 l0 r0 hroot =>
    intro d l r hn hsmall
    refine hback _ (by rw [hn]; exact subnodes_self d l r) ?_
    rw [hn]
    exact visits_self d l r [] hsmall
  | left pd pr cd cl cr hp hpsmall ih =>
    intro d l r hn hsmall
    have hpin := ih pd _ pr rfl hpsmall
    have hcl := (visits_closed root [] _ hpin pd _ pr rfl).1 cd cl cr rfl
      (by cases hn; exact hsmall)
    exact hback _ (guarded_path_subnodes root _ (.left pd pr cd cl cr hp hpsmall)) hcl
  | right pd pl cd cl cr hp hpsmall ih =>
    intro d l r hn hsmall
    have hpin := ih pd pl _ rfl hpsmall
    have hcr := (visits_closed root [] _ hpin pd pl _ rfl).2 cd cl cr rfl
      (by cases hn; exact hsmall)
    exact hback _ (guarded_path_subnodes root _ (.right pd pl cd cl cr hp hpsmall)) hcr

/-- C22, as the specification states it, fails: the merged `foo` with 4001 children is the
root of its merge graph, so it is reachable and has no ancestor, and a top-level call of
`separate_pools` on it does not invoke `do_compare` on any binding. -/
theorem C22_counterexample :
    guarded_path (example_foo 4001) (example_foo 4001) ∧
    do_compare_calls example_helpers example_heap SPECIAL_EQUAL [⟨99, 99⟩] LEFT
      (example_foo 4001) = [] ∧
    example_foo 4001 ∉ do_compare_calls example_helpers example_heap SPECIAL_EQUAL [⟨99, 99⟩]
      LEFT (example_foo 4001) :=
  ⟨guarded_path.root _ _ _ rfl, by decide, by decide⟩

/-- C22, amended. `separate_pools` visits each distinct binding at most once: for every merge
graph reachable from the root through `left` and `right`, graphs in which a binding is
shared by several parents included, a top-level call of `separate_pools` returns the
stacks that result from invoking `do_compare` once on each binding of a list in which no
address occurs twice and that holds bindings of the graph only, at most as many as the
graph has distinct addresses; the list holds every reachable binding that has at most 4000
children and whose ancestors on some path all have at most 4000 children; the call
terminates, `separate_pools` being a total function of the finite graph. -/
theorem C22_each_binding_visited_once (H : helpers) (mem : pool_heap) (comparison : Int)
    (vals : range_list) (lr : Int) (sm : sm_state) (true_stack false_stack : state_list_stack) :
    separate_pools H mem comparison vals lr sm true_stack false_stack none =
      (((do_compare_calls H mem comparison vals lr sm).foldl
          (fun st n => do_compare H mem n comparison vals lr st.1 st.2)
          (true_stack, false_stack)).1,
       ((do_compare_calls H mem comparison vals lr sm).foldl
          (fun st n => do_compare H mem n comparison vals lr st.1 st.2)
          (true_stack, false_stack)).2, none) ∧
    ((do_compare_calls H mem comparison vals lr sm).map sm_state.ident).Nodup ∧
    (∀ x ∈ do_compare_calls H mem comparison vals lr sm, x ∈ sm.subnodes) ∧
    (do_compare_calls H mem comparison vals lr sm).length ≤
      ((sm.subnodes.map sm_state.ident).dedup).length ∧
    (addr_consistent sm → ∀ (d : sm_data) (l r : sm_state),
      guarded_path sm (.node d l r) → d.nr_children ≤ 4000 →
      sm_state.node d l r ∈ do_compare_calls H mem comparison vals lr sm) := by
  rw [do_compare_calls_eq]
  have hnodup : ((visits sm []).map sm_state.ident).Nodup := by
    have := visits_nodup sm [] (by simp)
    rwa [List.nil_append] at this
  refine ⟨?_, hnodup, visits_subnodes sm [], ?_, ?_⟩
  · rw [separate_pools_top, separate_pools_eq_visits]
  · have hsub : (visits sm []).map sm_state.ident ⊆ (sm.subnodes.map sm_state.ident).dedup := by
      intro i hi
      obtain ⟨x, hx, hxi⟩ := List.mem_map.mp hi
      rw [List.mem_dedup, ← hxi]
      exact List.mem_map_of_mem _ (visits_subnodes sm [] x hx)
    have := (hnodup.subperm hsub).length_le
    rwa [List.length_map] at this
  · intro hcons d l r hpath hsmall
    exact visits_complete sm hcons _ hpath d l r rfl hsmall

/-- Witness of C22: in the example graph the leaf of address 11 has two parents; the
top-level call invokes `do_compare` on the six bindings of the graph, once each, the leaf
of address 13, reached through the bindings 50 and 51, among them. -/
theorem C22_each_binding_visited_once_witness :
    (do_compare_calls example_helpers example_heap SPECIAL_EQUAL [⟨99, 99⟩] LEFT
      example_shared_foo).map sm_state.ident =
      [some 50, some 10, some 11, some 12, some 51, some 13] ∧
    example_leaf 13 "foo" 1 7 7 300 ∈
      do_compare_calls example_helpers example_heap SPECIAL_EQUAL [⟨99, 99⟩] LEFT
        example_shared_foo :=
  ⟨by decide,
   (C22_each_binding_visited_once example_helpers example_heap SPECIAL_EQUAL [⟨99, 99⟩] LEFT
      example_shared_foo [] []).2.2.2.2 (by unfold addr_consistent; decide) _ .NULL .NULL
      (guarded_path.right _ _ _ _ _
        (guarded_path.right _ _ _ _ _ (guarded_path.root _ _ _ rfl) (by decide))
        (by decide))
      (by decide)⟩

/-! ### The order of a relation list and the lookup in it -/

theorem get_common_relationship_loop_sound (op : Int) (name : String) (sym : Nat)
    (related : related_list) (e : relation)
    (h : get_common_relationship_loop op name sym related = some e) :
    e ∈ related ∧ e = ⟨op, name, sym⟩ := by
  induction related with
  | nil => simp [get_common_relationship_loop] at h
  | cons tmp rest ih =>
    unfold get_common_relationship_loop at h
    split at h
    · have := ih h
      exact ⟨List.mem_cons_of_mem _ this.1, this.2⟩
    · split at h
      · rename_i heq
        cases h
        refine ⟨List.mem_cons_self _ _, ?_⟩
        cases e
        simp only [relation.mk.injEq]
        exact ⟨heq.1, (strcmp_eq_zero _ _).mp heq.2.2, heq.2.1⟩
      · cases h

theorem get_common_relationship_loop_complete (op : Int) (name : String) (sym : Nat)
    (related : related_list) (h : related.Pairwise stepped_over)
    (hmem : (⟨op, name, sym⟩ : relation) ∈ related) :
    get_common_relationship_loop op name sym related = some ⟨op, name, sym⟩ := by
  induction related with
  | nil => cases hmem
  | cons tmp rest ih =>
    have htmp := (List.pairwise_cons.mp h).1
    have hrest := (List.pairwise_cons.mp h).2
    unfold get_common_relationship_loop
    rcases List.mem_cons.mp hmem with h1 | h1
    · have hirr := stepped_over_irrefl tmp
      rw [← h1] at hirr ⊢
      have hskip : ¬ (op < op ∨ sym < sym ∨ strcmp name name < 0) := hirr
      rw [if_neg hskip, if_pos ⟨rfl, rfl, (strcmp_eq_zero name name).mpr rfl⟩]
    · have hskip : tmp.op < op ∨ tmp.sym < sym ∨ strcmp tmp.name name < 0 := htmp _ h1
      rw [if_pos hskip, ih hrest h1]

/-- C31, as the specification states it, fails: after `add_equiv` of `a` with the symbol at
address 5 and of `b` with the symbol at address 3 the relation list holds `a` before `b`,
and the key of `a` is not before the key of `b`: the operators are the same and 5 is not
below 3. -/
theorem C31_counterexample :
    (get_dinfo (add_related_calls example_unrelated_state example_unsorted_calls)).related =
      [⟨SPECIAL_EQUAL, "a", 5⟩, ⟨SPECIAL_EQUAL, "b", 3⟩] ∧
    ¬ key_le ⟨SPECIAL_EQUAL, "a", 5⟩ ⟨SPECIAL_EQUAL, "b", 3⟩ ∧
    ¬ sorted_by_key
      (get_dinfo (add_related_calls example_unrelated_state example_unsorted_calls)).related := by
  have h1 : (get_dinfo (add_related_calls example_unrelated_state example_unsorted_calls)).related =
      [⟨SPECIAL_EQUAL, "a", 5⟩, ⟨SPECIAL_EQUAL, "b", 3⟩] := by decide
  have h2 : ¬ key_le ⟨SPECIAL_EQUAL, "a", 5⟩ ⟨SPECIAL_EQUAL, "b", 3⟩ := by
    unfold key_le
    simp
  refine ⟨h1, h2, ?_⟩
  rw [h1]
  intro hs
  exact h2 ((List.pairwise_cons.mp hs).1 _ (List.mem_cons_self _ _))

/-- C31, amended. Relation list order: after every sequence of `add_related` calls on a
state whose relation set is empty, every entry of the relation list is before every later
entry in at least one component of the key: its operator is smaller, or its symbol address
is smaller, or its name is smaller; the list is sorted by the key among entries that differ
in one component only, and in particular entries with the same operator and the same
symbol address are in the order of their names. -/
theorem C31_relation_list_order (state : smatch_state) (calls : List relation)
    (hempty : (get_dinfo state).related = []) :
    (get_dinfo (add_related_calls state calls)).related.Pairwise
      (fun x y => x.op < y.op ∨ x.sym < y.sym ∨ strcmp x.name y.name < 0) ∧
    (get_dinfo (add_related_calls state calls)).related.Pairwise
      (fun x y => x.op = y.op → x.sym = y.sym → strcmp x.name y.name < 0) ∧
    (get_dinfo (add_related_calls state calls)).related.Pairwise
      (fun x y => x.op = y.op → x.name = y.name → x.sym < y.sym) ∧
    (get_dinfo (add_related_calls state calls)).related.Pairwise
      (fun x y => x.sym = y.sym → x.name = y.name → x.op < y.op) := by
  have hpw : (get_dinfo (add_related_calls state calls)).related.Pairwise stepped_over :=
    related_add_related_calls calls state (by rw [hempty]; exact List.Pairwise.nil)
  refine ⟨hpw, hpw.imp ?_, hpw.imp ?_, hpw.imp ?_⟩
  · intro x y hxy ho hs
    rcases hxy with h | h | h
    · omega
    · omega
    · exact h
  · intro x y hxy ho hn
    rcases hxy with h | h | h
    · omega
    · exact h
    · rw [(strcmp_eq_zero _ _).mpr hn] at h
      exact absurd h (lt_irrefl _)
  · intro x y hxy hs hn
    rcases hxy with h | h | h
    · exact h
    · omega
    · rw [(strcmp_eq_zero _ _).mpr hn] at h
      exact absurd h (lt_irrefl _)

/-- Witness of C31: the list of three relations that four calls with two operators leave
has every entry before the later ones in one component of the key. -/
theorem C31_relation_list_order_witness :
    (get_dinfo (add_related_calls example_unrelated_state example_related_calls)).related.Pairwise
      (fun x y => x.op < y.op ∨ x.sym < y.sym ∨ strcmp x.name y.name < 0) :=
  (C31_relation_list_order example_unrelated_state example_related_calls rfl).1

/-- C35. Relation lookup is complete and sound: on the relation list that a sequence of
`add_related` calls leaves on a state whose relation set was empty, `get_common_relationship`
returns the entry equal to the triple when the list holds one, and NULL when it holds
none; whatever the list, an entry it returns is an entry of the list that is equal to the
triple. -/
theorem C35_relation_lookup (state : smatch_state) (calls : List relation)
    (hempty : (get_dinfo state).related = []) (op : Int) (name : String) (sym : Nat) :
    ((∃ e : relation, get_common_relationship (add_related_calls state calls) op name sym =
        some e ∧ e = ⟨op, name, sym⟩) ↔
      (⟨op, name, sym⟩ : relation) ∈ estate_related (add_related_calls state calls)) ∧
    ((⟨op, name, sym⟩ : relation) ∉ estate_related (add_related_calls state calls) →
      get_common_relationship (add_related_calls state calls) op name sym = none) ∧
    (∀ (any : smatch_state) (e : relation), get_common_relationship any op name sym = some e →
      e ∈ estate_related any ∧ e = ⟨op, name, sym⟩) := by
  have hpw : (estate_related (add_related_calls state calls)).Pairwise stepped_over :=
    related_add_related_calls calls state (by rw [hempty]; exact List.Pairwise.nil)
  have hsound : ∀ (any : smatch_state) (e : relation),
      get_common_relationship any op name sym = some e →
      e ∈ estate_related any ∧ e = ⟨op, name, sym⟩ :=
    fun any e h => get_common_relationship_loop_sound op name sym _ e h
  refine ⟨⟨?_, ?_⟩, ?_, hsound⟩
  · rintro ⟨e, he, heq⟩
    have := (hsound _ e he).1
    rwa [heq] at this
  · intro hmem
    exact ⟨_, get_common_relationship_loop_complete op name sym _ hpw hmem, rfl⟩
  · intro hnot
    cases hres : get_common_relationship (add_related_calls state calls) op name sym with
    | none => rfl
    | some e =>
      have := hsound _ e hres
      rw [this.2] at this
      exact absurd this.1 hnot

/-- Witness of C35: in the list of three relations, the relation `b` under `==` is found
and the relation `b` under `<` is not. -/
theorem C35_relation_lookup_witness :
    get_common_relationship (add_related_calls example_unrelated_state example_related_calls)
      SPECIAL_EQUAL "b" 3 = some ⟨SPECIAL_EQUAL, "b", 3⟩ ∧
    get_common_relationship (add_related_calls example_unrelated_state example_related_calls)
      60 "b" 3 = none :=
  ⟨by
    obtain ⟨e, he, heq⟩ := (C35_relation_lookup example_unrelated_state example_related_calls
      rfl SPECIAL_EQUAL "b" 3).1.mpr (by decide)
    rw [he, heq],
   (C35_relation_lookup example_unrelated_state example_related_calls rfl 60 "b" 3).2.1
      (by decide)⟩

/-! ### Groups of ranged callbacks -/

theorem get_same_ranged_call_backs_eq_filter (call_backs : call_back_list) (r : data_range) :
    get_same_ranged_call_backs call_backs r =
      call_backs.filter (fun cb => decide (cb.type = RANGED_CALL ∧ cb.range = r)) := by
  induction call_backs with
  | nil => rfl
  | cons tmp rest ih =>
    unfold get_same_ranged_call_backs
    by_cases hty : tmp.type = RANGED_CALL
    · by_cases hr : tmp.range.min = r.min ∧ tmp.range.max = r.max
      · have hre : tmp.range = r := by
          cases htr : tmp.range; cases r
          rw [htr] at hr
          simp only [data_range.mk.injEq]
          exact hr
        rw [if_neg (not_not.mpr hty), if_pos hr, ih, List.filter_cons,
          if_pos (decide_eq_true ⟨hty, hre⟩)]
      · have hre : ¬ tmp.range = r := by
          intro h; rw [h] at hr; exact hr ⟨rfl, rfl⟩
        have hd : ¬ decide (tmp.type = RANGED_CALL ∧ tmp.range = r) = true := by
          rw [decide_eq_true_eq]; exact fun h => hre h.2
        rw [if_neg (not_not.mpr hty), if_neg hr, ih, List.filter_cons, if_neg hd]
    · have hd : ¬ decide (tmp.type = RANGED_CALL ∧ tmp.range = r) = true := by
        rw [decide_eq_true_eq]; exact fun h => hty h.1
      rw [if_pos hty, ih, List.filter_cons, if_neg hd]

theorem call_ranged_call_backs_eq_foldl (list : call_back_list) (fn : String)
    (call_expr assign_expr : expression) :
    ∀ cur : state_list,
      call_ranged_call_backs list fn call_expr assign_expr cur =
        list.foldl (fun cur tmp => tmp.call_back fn call_expr (some assign_expr) tmp.info cur)
          cur := by
  induction list with
  | nil => intro cur; rfl
  | cons tmp rest ih =>
    intro cur
    unfold call_ranged_call_backs
    rw [ih, List.foldl_cons]

theorem new_ranges_nodup (call_backs : call_back_list) :
    ∀ handled : range_list, (new_ranges call_backs handled).Nodup := by
  induction call_backs with
  | nil => intro handled; simp [new_ranges]
  | cons tmp rest ih =>
    intro handled
    unfold new_ranges
    split
    · exact ih handled
    · split
      · exact ih handled
      · refine List.nodup_cons.mpr ⟨?_, ih _⟩
        intro hmem
        have := ((mem_new_ranges rest _ _).mp hmem).2
        exact this (List.mem_append_right _ (List.mem_singleton_self _))

theorem flatMap_filter_cons (keys : range_list) (hk : keys.Nodup) (x : fcall_back)
    (rest : call_back_list) (hx : x.range ∈ keys) :
    (keys.flatMap fun r => (x :: rest).filter fun cb => decide (cb.range = r)).Perm
      (x :: keys.flatMap fun r => rest.filter fun cb => decide (cb.range = r)) := by
  induction keys with
  | nil => cases hx
  | cons r0 ks ih =>
    have hr0 := (List.nodup_cons.mp hk).1
    have hks := (List.nodup_cons.mp hk).2
    rw [List.flatMap_cons, List.flatMap_cons]
    by_cases h0 : x.range = r0
    · have hsame : (ks.flatMap fun r => (x :: rest).filter fun cb => decide (cb.range = r)) =
          ks.flatMap fun r => rest.filter fun cb => decide (cb.range = r) := by
        have hall : ∀ r ∈ ks, ((x :: rest).filter fun cb => decide (cb.range = r)) =
            rest.filter fun cb => decide (cb.range = r) := by
          intro r hr
          have hne : ¬ x.range = r := by
            intro h; rw [← h, h0] at hr; exact hr0 hr
          rw [List.filter_cons, if_neg (by rw [decide_eq_true_eq]; exact hne)]
        clear ih hx hk hks hr0
        induction ks with
        | nil => rfl
        | cons k ks2 ih2 =>
          rw [List.flatMap_cons, List.flatMap_cons, hall k (List.mem_cons_self _ _),
            ih2 (fun r hr => hall r (List.mem_cons_of_mem _ hr))]
      rw [hsame, List.filter_cons, if_pos (decide_eq_true h0)]
      exact List.Perm.refl _
    · have hxk : x.range ∈ ks := by
        rcases List.mem_cons.mp hx with h | h
        · exact absurd h h0
        · exact h
      rw [List.filter_cons, if_neg (by rw [decide_eq_true_eq]; exact h0)]
      exact ((ih hks hxk).append_left _).trans List.perm_middle

theorem flatMap_filter_perm (keys : range_list) (hk : keys.Nodup) (list : call_back_list)
    (hall : ∀ cb ∈ list, cb.range ∈ keys) :
    (keys.flatMap fun r => list.filter fun cb => decide (cb.range = r)).Perm list := by
  induction list with
  | nil =>
    have : (keys.flatMap fun r => ([] : call_back_list).filter fun cb => decide (cb.range = r))
        = [] := by
      clear hk hall
      induction keys with
      | nil => rfl
      | cons k ks ih => rw [List.flatMap_cons, ih]; rfl
    rw [this]
  | cons x rest ih =>
    exact (flatMap_filter_cons keys hk x rest (hall x (List.mem_cons_self _ _))).trans
      ((ih (fun cb hcb => hall cb (List.mem_cons_of_mem _ hcb))).cons x)

theorem call_implies_loop_eq_foldl (test : data_range → Bool) (fn : String) (expr : expression)
    (call_backs : call_back_list) :
    ∀ cur : state_list,
      call_implies_loop test fn expr call_backs cur =
        (call_backs.filter fun cb => decide (cb.type = RANGED_CALL) && test cb.range).foldl
          (fun cur cb => cb.call_back fn expr none cb.info cur) cur := by
  induction call_backs with
  | nil => intro cur; rfl
  | cons tmp rest ih =>
    intro cur
    unfold call_implies_loop
    by_cases hty : tmp.type = RANGED_CALL
    · rw [if_neg (not_not.mpr hty)]
      cases ht : test tmp.range
      · simp only [Bool.not_false, if_true]
        rw [ih, List.filter_cons]
        simp [ht]
      · simp only [Bool.not_true, Bool.false_eq_true, if_false]
        rw [ih, List.filter_cons]
        simp [ht, hty]
    · rw [if_pos hty, ih, List.filter_cons]
      simp [hty]

theorem set_sm_null (slist : state_list) : __set_sm .NULL slist = slist := by
  cases slist with
  | nil => rfl
  | cons tmp rest => cases tmp <;> rfl

theorem set_true_each_eq (true_states : state_list) :
    ∀ cc : cond_context, set_true_each true_states cc =
      { ctx := cc.ctx, cond_true := set_each_sm true_states cc.cond_true,
        cond_false := cc.cond_false } := by
  induction true_states with
  | nil => intro cc; rfl
  | cons sm rest ih =>
    intro cc
    unfold set_true_each set_each_sm
    rw [ih]
    simp [__set_true_false_sm, set_sm_null]

theorem set_false_each_eq (false_states : state_list) :
    ∀ cc : cond_context, set_false_each false_states cc =
      { ctx := cc.ctx, cond_true := cc.cond_true,
        cond_false := set_each_sm false_states cc.cond_false } := by
  induction false_states with
  | nil => intro cc; rfl
  | cons sm rest ih =>
    intro cc
    unfold set_false_each set_each_sm
    rw [ih]
    simp [__set_true_false_sm, set_sm_null]

/-- C32. Grouping of ranged callbacks: for a callback list and an assignment whose left side
resolves to a variable, `assign_ranged_funcs` opens one scratch snapshot for each distinct
interval of a RANGED_CALL callback; in the scratch snapshot of an interval it invokes, from
the empty snapshot and in the order of registration, the callbacks `get_same_ranged_call_backs`
selects, which are the RANGED_CALL callbacks with the same minimum and the same maximum;
the intervals of the scratch snapshots are pairwise different and every RANGED_CALL callback
has its interval among them, so the groups taken together hold every RANGED_CALL callback
exactly once and no callback of another kind. -/
theorem C32_ranged_callback_grouping (H : helpers) (fn : String) (op : Int)
    (left right : expression) (call_backs : call_back_list) (ctx : context) (var_name : String)
    (sym : Nat) (hleft : H.get_variable_from_expr left = (some var_name, sym)) (hsym : sym ≠ 0) :
    assign_ranged_funcs H fn (.EXPR_ASSIGNMENT op left right) call_backs ctx =
      { cur_slist := set_each_sm
          (((new_ranges call_backs []).map fun r =>
              set_extra_mod H var_name sym (H.alloc_estate_range r.min r.max)
                ((get_same_ranged_call_backs call_backs r).foldl
                  (fun cur tmp =>
                    tmp.call_back fn right (some (.EXPR_ASSIGNMENT op left right)) tmp.info cur)
                  [])).foldl
            H.merge_slist [])
          ctx.cur_slist,
        suspended := ctx.suspended } ∧
    (∀ r : data_range, get_same_ranged_call_backs call_backs r =
      call_backs.filter fun cb =>
        decide (cb.type = RANGED_CALL ∧ cb.range.min = r.min ∧ cb.range.max = r.max)) ∧
    (new_ranges call_backs []).Nodup ∧
    (∀ cb ∈ call_backs, cb.type = RANGED_CALL → cb.range ∈ new_ranges call_backs []) ∧
    ((new_ranges call_backs []).flatMap (get_same_ranged_call_backs call_backs)).Perm
      (call_backs.filter fun cb => decide (cb.type = RANGED_CALL)) := by
  have hmem : ∀ cb ∈ call_backs, cb.type = RANGED_CALL → cb.range ∈ new_ranges call_backs [] :=
    fun cb hcb hty => (mem_new_ranges call_backs [] cb.range).mpr
      ⟨⟨cb, hcb, hty, rfl⟩, List.not_mem_nil _⟩
  refine ⟨?_, ?_, new_ranges_nodup call_backs [], hmem, ?_⟩
  · rw [assign_ranged_funcs_resolved H fn op left right call_backs ctx var_name sym hleft hsym]
    have : ranged_scratch H fn (.EXPR_ASSIGNMENT op left right) right var_name sym call_backs =
        fun r => set_extra_mod H var_name sym (H.alloc_estate_range r.min r.max)
          ((get_same_ranged_call_backs call_backs r).foldl
            (fun cur tmp =>
              tmp.call_back fn right (some (.EXPR_ASSIGNMENT op left right)) tmp.info cur)
            []) := by
      funext r
      unfold ranged_scratch
      rw [call_ranged_call_backs_eq_foldl]
    rw [this]
  · intro r
    rw [get_same_ranged_call_backs_eq_filter]
    apply List.filter_congr
    intro cb _
    have : cb.range = r ↔ (cb.range.min = r.min ∧ cb.range.max = r.max) := by
      constructor
      · intro h; rw [h]; exact ⟨rfl, rfl⟩
      · intro h
        cases hc : cb.range; cases r
        rw [hc] at h
        simp only [data_range.mk.injEq]
        exact h
    simp only [this]
  · have hfun : get_same_ranged_call_backs call_backs =
        fun r => (call_backs.filter fun cb => decide (cb.type = RANGED_CALL)).filter
          fun cb => decide (cb.range = r) := by
      funext r
      rw [get_same_ranged_call_backs_eq_filter, List.filter_filter]
      apply List.filter_congr
      intro cb _
      by_cases h1 : cb.range = r <;> by_cases h2 : cb.type = RANGED_CALL <;> simp [h1, h2]
    rw [hfun]
    apply flatMap_filter_perm _ (new_ranges_nodup call_backs [])
    intro cb hcb
    have h := List.mem_filter.mp hcb
    exact hmem cb h.1 (of_decide_eq_true h.2)

/-- Witness of C32: on `b = f(p)` with the hooks of `f`, two ranged hooks with different
intervals around a hook of another kind, two scratch snapshots are opened, for `[0,0]` and
for `[1,10]`, and the two groups together are the two ranged hooks. -/
theorem C32_ranged_callback_grouping_witness :
    new_ranges (example_ranged_hash "f") [] = [⟨0, 0⟩, ⟨1, 10⟩] ∧
    (get_same_ranged_call_backs (example_ranged_hash "f") ⟨0, 0⟩).length = 1 ∧
    ((new_ranges (example_ranged_hash "f") []).flatMap
      (get_same_ranged_call_backs (example_ranged_hash "f"))).Perm
      ((example_ranged_hash "f").filter fun cb => decide (cb.type = RANGED_CALL)) :=
  ⟨by decide, by decide,
   (C32_ranged_callback_grouping example_helpers "f" 61 example_expr_b
      (.EXPR_CALL (.EXPR_SYMBOL 50 "f")) (example_ranged_hash "f") example_context "b" 7
      rfl (by decide)).2.2.2.2⟩

/-- C33. Ranged condition dispatch: for a call of a function that is a symbol with a
callback list, `call_implies_callbacks` returns 1; the true-side scratch snapshot is the
run, from the empty snapshot and in the order of registration, of the RANGED_CALL callbacks
whose interval passes `true_comparison_range_lr` against the interval from the value to the
value, the false-side scratch snapshot the run of those whose interval passes
`false_comparison_range_lr`; the bindings of the true-side scratch are applied to the facts
of the true branch only and those of the false-side scratch to the facts of the false
branch only, the working snapshot and the suspended snapshots being as before the call. -/
theorem C33_ranged_condition_dispatch (H : helpers) (C : cond_helpers)
    (func_hash : String → call_back_list) (comparison : Int) (symbol : Nat) (fn : String)
    (value : Int) (left : Int) (cc : cond_context) (hs : symbol ≠ 0)
    (hreg : (func_hash fn).isEmpty = false) :
    call_implies_callbacks H C func_hash comparison (.EXPR_CALL (.EXPR_SYMBOL symbol fn))
      value left cc =
      (true,
       { ctx := cc.ctx,
         cond_true := set_each_sm
           (H.merge_slist []
             (((func_hash fn).filter fun cb =>
                 decide (cb.type = RANGED_CALL) &&
                   C.true_comparison_range_lr comparison cb.range ⟨value, value⟩ left).foldl
               (fun cur cb =>
                 cb.call_back fn (.EXPR_CALL (.EXPR_SYMBOL symbol fn)) none cb.info cur) []))
           cc.cond_true,
         cond_false := set_each_sm
           (H.merge_slist []
             (((func_hash fn).filter fun cb =>
                 decide (cb.type = RANGED_CALL) &&
                   C.false_comparison_range_lr comparison cb.range ⟨value, value⟩ left).foldl
               (fun cur cb =>
                 cb.call_back fn (.EXPR_CALL (.EXPR_SYMBOL symbol fn)) none cb.info cur) []))
           cc.cond_false }) := by
  unfold call_implies_callbacks
  simp only [hs, if_false, hreg, Bool.false_eq_true, call_implies_loop_eq_foldl,
    set_true_each_eq, set_false_each_eq, __push_fake_cur_slist, __pop_fake_cur_slist,
    List.headD_cons, List.tail_cons]

/-- Witness of C33: for `f(p) == 0` the hook of the interval `[0,0]` runs on the true side
and the hook of `[1,10]` on the false side; `p` is checked as a fact of the true branch and
an error pointer as a fact of the false branch, and the hook of another kind leaves no
trace. -/
theorem C33_ranged_condition_dispatch_witness :
    (call_implies_callbacks example_helpers example_cond_helpers example_ranged_hash
      SPECIAL_EQUAL (.EXPR_CALL (.EXPR_SYMBOL 50 "f")) 0 LEFT example_cond_context).2.cond_true =
      [example_checker_sm "p" 5 "checked"] ∧
    (call_implies_callbacks example_helpers example_cond_helpers example_ranged_hash
      SPECIAL_EQUAL (.EXPR_CALL (.EXPR_SYMBOL 50 "f")) 0 LEFT example_cond_context).2.cond_false =
      [example_checker_sm "p" 5 "err_ptr"] :=
  ⟨(congrArg (fun x => x.2.cond_true)
      (C33_ranged_condition_dispatch example_helpers example_cond_helpers example_ranged_hash
        SPECIAL_EQUAL 50 "f" 0 LEFT example_cond_context (by decide) rfl)).trans (by decide),
   (congrArg (fun x => x.2.cond_false)
      (C33_ranged_condition_dispatch example_helpers example_cond_helpers example_ranged_hash
        SPECIAL_EQUAL 50 "f" 0 LEFT example_cond_context (by decide) rfl)).trans (by decide)⟩

/-! ### A pool recorded on both sides -/

theorem do_compare_resolved (H : helpers) (mem : pool_heap) (d : sm_data) (l r : sm_state)
    (comparison : Int) (vals : range_list) (lr : Int) (ts fs : state_list_stack)
    (sd : sm_data) (sl sr : sm_state) (hpool : d.my_pool ≠ 0)
    (hres : (if d.implied = true then get_sm_state_slist (mem d.my_pool) d.owner d.name d.sym
      else .node d l r) = .node sd sl sr) :
    do_compare H mem (.node d l r) comparison vals lr ts fs =
      (if H.possibly_false_range_list_lr comparison (get_dinfo sd.state) vals lr = false then
         add_pool ts sd.my_pool else ts,
       if H.possibly_true_range_list_lr comparison (get_dinfo sd.state) vals lr = false then
         add_pool fs sd.my_pool else fs) := by
  unfold do_compare
  simp only [hpool, if_false, hres]
  cases H.possibly_false_range_list_lr comparison (get_dinfo sd.state) vals lr <;>
    cases H.possibly_true_range_list_lr comparison (get_dinfo sd.state) vals lr <;> simp

theorem foldl_do_compare_mono (H : helpers) (mem : pool_heap) (comparison : Int)
    (vals : range_list) (lr : Int) (calls : state_list) (q : Nat) :
    ∀ st : state_list_stack × state_list_stack,
      (q ∈ st.1 → q ∈ (calls.foldl
        (fun st n => do_compare H mem n comparison vals lr st.1 st.2) st).1) ∧
      (q ∈ st.2 → q ∈ (calls.foldl
        (fun st n => do_compare H mem n comparison vals lr st.1 st.2) st).2) := by
  induction calls with
  | nil => intro st; exact ⟨id, id⟩
  | cons n rest ih =>
    intro st
    rw [List.foldl_cons]
    exact ⟨fun h => (ih _).1 (do_compare_true_mono H mem n comparison vals lr st.1 st.2 q h),
           fun h => (ih _).2 (do_compare_false_mono H mem n comparison vals lr st.1 st.2 q h)⟩

theorem foldl_do_compare_mem (H : helpers) (mem : pool_heap) (comparison : Int)
    (vals : range_list) (lr : Int) (n : sm_state) (q : Nat)
    (hn : ∀ ts fs : state_list_stack,
      q ∈ (do_compare H mem n comparison vals lr ts fs).1 ∧
      q ∈ (do_compare H mem n comparison vals lr ts fs).2)
    (calls : state_list) (hmem : n ∈ calls) :
    ∀ st : state_list_stack × state_list_stack,
      q ∈ (calls.foldl (fun st n => do_compare H mem n comparison vals lr st.1 st.2) st).1 ∧
      q ∈ (calls.foldl (fun st n => do_compare H mem n comparison vals lr st.1 st.2) st).2 := by
  induction calls with
  | nil => cases hmem
  | cons x rest ih =>
    intro st
    rw [List.foldl_cons]
    rcases List.mem_cons.mp hmem with h | h
    · subst h
      have := foldl_do_compare_mono H mem comparison vals lr rest q
        (do_compare H mem n comparison vals lr st.1 st.2)
      exact ⟨this.1 (hn st.1 st.2).1, this.2 (hn st.1 st.2).2⟩
    · exact ih h _

theorem remove_my_pools_of_mem (H : helpers) (b : sm_data) (bl br : sm_state)
    (stack : state_list_stack) (hsorted : stack.Pairwise (· ≤ ·)) (hmem : b.my_pool ∈ stack)
    (modified : Bool) :
    (remove_my_pools H (.node b bl br) stack modified).1 = .NULL := by
  unfold remove_my_pools
  by_cases hbig : b.nr_children > 4000
  · rw [if_pos hbig]
  · rw [if_neg hbig, if_pos ((pool_in_pools_of_sorted b.my_pool stack hsorted).mpr hmem)]

theorem filter_stack_omit (H : helpers) (stack : state_list_stack) (sm : sm_state)
    (h : (remove_my_pools H sm stack false).1 = .NULL) (before after : state_list) :
    filter_stack H (before ++ sm :: after) stack = filter_stack H (before ++ after) stack := by
  have hf : filtered_bindings H (before ++ sm :: after) stack =
      filtered_bindings H (before ++ after) stack := by
    unfold filtered_bindings
    rw [List.filterMap_append, List.filterMap_append, List.filterMap_cons]
    simp [h, sm_state.isNull]
  unfold filter_stack
  split
  · rfl
  · rw [filter_stack_loop_eq, filter_stack_loop_eq, hf]

/-- C34, as the specification states it, fails: the implied binding of `foo` has the pool
100, in which `foo` is bound, by a binding that was set in pool 50, to a state with an
empty range set, which is neither possibly true nor possibly false for `foo == 99`; the
pool added to both stacks is pool 50, and pool 100, the pool of the node, is in neither. -/
theorem C34_counterexample :
    do_compare example_helpers example_void_heap (.node example_implied_one .NULL .NULL)
      SPECIAL_EQUAL [⟨99, 99⟩] LEFT [] [] = ([50], [50]) ∧
    example_implied_one.my_pool = 100 ∧
    100 ∉ (do_compare example_helpers example_void_heap
      (.node example_implied_one .NULL .NULL) SPECIAL_EQUAL [⟨99, 99⟩] LEFT [] []).1 ∧
    100 ∉ (do_compare example_helpers example_void_heap
      (.node example_implied_one .NULL .NULL) SPECIAL_EQUAL [⟨99, 99⟩] LEFT [] []).2 := by
  decide

/-- C34, amended. A pool can be recorded on both sides: for a node with a non-null `my_pool`
whose resolved binding, the node itself when it is not implied and the binding found in
its pool when it is, has a state that is neither possibly true nor possibly false under the
comparison, `do_compare` adds the `my_pool` of the resolved binding, which is the pool of
the node when the node is not implied, to both the true stack and the false stack; when
`separate_pools` invokes `do_compare` on the node in the walk of a merged binding, bindings
from that pool are excised from both derived snapshots: `remove_my_pools` returns no
binding for them against either stack, and the derived snapshots are those of the
pre-condition snapshot without them. -/
theorem C34_pool_on_both_sides (H : helpers) (mem : pool_heap) (d : sm_data)
    (left right : sm_state) (comparison : Int) (vals : range_list) (lr : Int)
    (sd : sm_data) (sl sr : sm_state) (hpool : d.my_pool ≠ 0)
    (hres : (if d.implied = true then get_sm_state_slist (mem d.my_pool) d.owner d.name d.sym
      else .node d left right) = .node sd sl sr)
    (hpf : H.possibly_false_range_list_lr comparison (get_dinfo sd.state) vals lr = false)
    (hpt : H.possibly_true_range_list_lr comparison (get_dinfo sd.state) vals lr = false) :
    (∀ true_stack false_stack : state_list_stack,
      do_compare H mem (.node d left right) comparison vals lr true_stack false_stack =
        (add_pool true_stack sd.my_pool, add_pool false_stack sd.my_pool)) ∧
    (d.implied = false → sd.my_pool = d.my_pool) ∧
    (∀ sm : sm_state, sm_state.node d left right ∈ do_compare_calls H mem comparison vals lr sm →
      ∀ (b : sm_data) (bl br : sm_state), b.my_pool = sd.my_pool →
        (∀ modified : Bool,
          (remove_my_pools H (.node b bl br)
            (separate_pools H mem comparison vals lr sm [] [] none).1 modified).1 = .NULL ∧
          (remove_my_pools H (.node b bl br)
            (separate_pools H mem comparison vals lr sm [] [] none).2.1 modified).1 = .NULL) ∧
        (∀ (before after t f : state_list),
          separate_and_filter H mem sm comparison vals lr (before ++ .node b bl br :: after) t f =
            separate_and_filter H mem sm comparison vals lr (before ++ after) t f)) := by
  have hcmp : ∀ true_stack false_stack : state_list_stack,
      do_compare H mem (.node d left right) comparison vals lr true_stack false_stack =
        (add_pool true_stack sd.my_pool, add_pool false_stack sd.my_pool) := by
    intro ts fs
    rw [do_compare_resolved H mem d left right comparison vals lr ts fs sd sl sr hpool hres,
      if_pos hpf, if_pos hpt]
  refine ⟨hcmp, ?_, ?_⟩
  · intro hi
    rw [hi] at hres
    simp only [Bool.false_eq_true, if_false] at hres
    cases hres
    rfl
  · intro sm hcall b bl br hb
    have hstacks := separate_pools_top H mem comparison vals lr sm [] []
    rw [separate_pools_eq_visits] at hstacks
    rw [do_compare_calls_eq] at hcall
    have hin := foldl_do_compare_mem H mem comparison vals lr (.node d left right) sd.my_pool
      (fun ts fs => by
        rw [hcmp]
        exact ⟨mem_add_pool_self ts _, mem_add_pool_self fs _⟩)
      (visits sm []) hcall ([], [])
    have hsorted := separate_pools_sorted H mem comparison vals lr sm [] [] none
      List.Pairwise.nil List.Pairwise.nil
    have h1 : b.my_pool ∈ (separate_pools H mem comparison vals lr sm [] [] none).1 := by
      rw [hstacks, hb]; exact hin.1
    have h2 : b.my_pool ∈ (separate_pools H mem comparison vals lr sm [] [] none).2.1 := by
      rw [hstacks, hb]; exact hin.2
    have hs1 := hsorted.1.imp (fun h => Nat.le_of_lt h)
    have hs2 := hsorted.2.imp (fun h => Nat.le_of_lt h)
    refine ⟨fun modified => ⟨remove_my_pools_of_mem H b bl br _ hs1 h1 modified,
      remove_my_pools_of_mem H b bl br _ hs2 h2 modified⟩, ?_⟩
    intro before after t f
    unfold separate_and_filter
    split
    · rfl
    · dsimp only
      rw [filter_stack_omit H _ _ (remove_my_pools_of_mem H b bl br _ hs2 h2 false),
        filter_stack_omit H _ _ (remove_my_pools_of_mem H b bl br _ hs1 h1 false)]

/-- Witness of C34: the binding of `foo` of pool 100 with an empty range set puts pool 100
on both stacks for `foo == 99`, and in the walk of the merged `foo` above it a binding of
`bar` from pool 100 adds nothing to either derived snapshot. -/
theorem C34_pool_on_both_sides_witness :
    do_compare example_helpers example_heap example_void_leaf SPECIAL_EQUAL [⟨99, 99⟩] LEFT
      [] [] = ([100], [100]) ∧
    separate_and_filter example_helpers example_heap example_void_foo SPECIAL_EQUAL [⟨99, 99⟩]
        LEFT ([] ++ example_leaf 21 "bar" 2 1 5 100 :: []) [] [] =
      separate_and_filter example_helpers example_heap example_void_foo SPECIAL_EQUAL [⟨99, 99⟩]
        LEFT ([] ++ []) [] [] :=
  ⟨((C34_pool_on_both_sides example_helpers example_heap example_void_data .NULL .NULL
      SPECIAL_EQUAL [⟨99, 99⟩] LEFT example_void_data .NULL .NULL (by decide) rfl
      (by decide) (by decide)).1 [] []).trans (by decide),
   ((C34_pool_on_both_sides example_helpers example_heap example_void_data .NULL .NULL
      SPECIAL_EQUAL [⟨99, 99⟩] LEFT example_void_data .NULL .NULL (by decide) rfl
      (by decide) (by decide)).2.2 example_void_foo (by decide)
      { addr := 21, owner := SMATCH_EXTRA, name := "bar", sym := 2, state := example_estate 1 5,
        my_pool := 100, merged := false, implied := false, nr_children := 1, line := 0,
        possible := [] } .NULL .NULL rfl).2 [] [] [] []⟩

/-! ### The cases of a switch -/

theorem example_range_helpers_ok : range_helpers_ok example_switch_helpers where
  clone_range_list_eq := fun _ => rfl
  add_range_null := fun _ _ => rfl

theorem example_slist_helpers_ok : slist_helpers_ok example_switch_helpers where
  clone_slist_get := fun _ _ _ _ => rfl
  set_state_slist_wf := fun slist _ _ _ _ h => wf_slist_set_sm _ _ _ slist h
  set_state_slist_get := fun slist _ _ _ _ o n s => get_state_set_sm _ _ _ slist o n s
  overwrite_slist_get := fun src dst h o n s => get_state_set_each_sm src h dst o n s
  alloc_ranges := fun _ => rfl

theorem implied_case_slist_resolved (H : helpers) (C : cond_helpers) (S : switch_helpers)
    (mem : pool_heap) (switch_expr : expression) (case_expr : Option expression)
    (remaining_cases : range_list_stack) (raw_slist : state_list) (name : String) (sym : Nat)
    (hvar : H.get_variable_from_expr switch_expr = (some name, sym)) (hsym : sym ≠ 0)
    (vals : range_list) (rest : range_list_stack)
    (hvals : case_vals C S case_expr remaining_cases = some (vals, rest)) :
    __implied_case_slist H C S mem switch_expr case_expr remaining_cases raw_slist =
      (S.overwrite_slist
        (if (get_sm_state_slist (derived_true H mem raw_slist name sym vals)
            SMATCH_EXTRA name sym).isNull then
           S.set_state_slist (derived_true H mem raw_slist name sym vals) SMATCH_EXTRA name sym
             (S.alloc_extra_state_range_list vals)
         else derived_true H mem raw_slist name sym vals)
        (S.clone_slist raw_slist), rest) := by
  unfold __implied_case_slist derived_true
  simp only [hvar, hsym, if_false, hvals]

/-- C36. `__get_implied_values` never returns an empty range list, for range list helpers
that clone a list into an equal list and add an interval to the NULL list as its only
interval: if the switch expression does not resolve to a name and a symbol, or the variable
has no SMATCH_EXTRA state, or the value ranges of the state are empty, the result is the
single range from `whole_range.min` to `whole_range.max`; otherwise the result is equal to
the value ranges of the state. -/
theorem C36_implied_values_never_empty (H : helpers) (S : switch_helpers)
    (cur_slist : state_list) (switch_expr : expression) (hS : range_helpers_ok S) :
    __get_implied_values H S cur_slist switch_expr ≠ [] ∧
    (((H.get_variable_from_expr switch_expr).1 = none ∨
        (H.get_variable_from_expr switch_expr).2 = 0) →
      __get_implied_values H S cur_slist switch_expr =
        [⟨S.whole_range.min, S.whole_range.max⟩]) ∧
    (∀ (name : String) (sym : Nat),
      H.get_variable_from_expr switch_expr = (some name, sym) → sym ≠ 0 →
      (get_state cur_slist SMATCH_EXTRA name sym = none →
        __get_implied_values H S cur_slist switch_expr =
          [⟨S.whole_range.min, S.whole_range.max⟩]) ∧
      (∀ state : smatch_state, get_state cur_slist SMATCH_EXTRA name sym = some state →
        ((get_dinfo state).value_ranges = [] →
          __get_implied_values H S cur_slist switch_expr =
            [⟨S.whole_range.min, S.whole_range.max⟩]) ∧
        ((get_dinfo state).value_ranges ≠ [] →
          __get_implied_values H S cur_slist switch_expr = (get_dinfo state).value_ranges))) := by
  have hunres : ((H.get_variable_from_expr switch_expr).1 = none ∨
      (H.get_variable_from_expr switch_expr).2 = 0) →
      __get_implied_values H S cur_slist switch_expr =
        [⟨S.whole_range.min, S.whole_range.max⟩] := by
    intro h
    unfold __get_implied_values
    rcases hv : H.get_variable_from_expr switch_expr with ⟨n, s⟩
    rw [hv] at h
    cases n with
    | none => simp [hS.add_range_null]
    | some name =>
      rcases h with h | h
      · cases h
      · have hs : s = 0 := h
        simp [hs, hS.add_range_null]
  have hres : ∀ (name : String) (sym : Nat),
      H.get_variable_from_expr switch_expr = (some name, sym) → sym ≠ 0 →
      (get_state cur_slist SMATCH_EXTRA name sym = none →
        __get_implied_values H S cur_slist switch_expr =
          [⟨S.whole_range.min, S.whole_range.max⟩]) ∧
      (∀ state : smatch_state, get_state cur_slist SMATCH_EXTRA name sym = some state →
        ((get_dinfo state).value_ranges = [] →
          __get_implied_values H S cur_slist switch_expr =
            [⟨S.whole_range.min, S.whole_range.max⟩]) ∧
        ((get_dinfo state).value_ranges ≠ [] →
          __get_implied_values H S cur_slist switch_expr = (get_dinfo state).value_ranges)) := by
    intro name sym hvar hsym
    refine ⟨?_, ?_⟩
    · intro hnone
      unfold __get_implied_values
      simp [hvar, hsym, hnone, hS.add_range_null]
    · intro state hstate
      refine ⟨?_, ?_⟩
      · intro hempty
        unfold __get_implied_values
        simp [hvar, hsym, hstate, hS.clone_range_list_eq, hempty, hS.add_range_null]
      · intro hne
        unfold __get_implied_values
        simp [hvar, hsym, hstate, hS.clone_range_list_eq, hne]
  refine ⟨?_, hunres, hres⟩
  rcases hv : H.get_variable_from_expr switch_expr with ⟨n, s⟩
  cases n with
  | none =>
    rw [hunres (Or.inl (by rw [hv]))]
    simp
  | some name =>
    by_cases hs : s = 0
    · rw [hunres (Or.inr (by rw [hv]; exact hs))]
      simp
    · cases hst : get_state cur_slist SMATCH_EXTRA name s with
      | none =>
        rw [(hres name s hv hs).1 hst]
        simp
      | some state =>
        by_cases hr : (get_dinfo state).value_ranges = []
        · rw [((hres name s hv hs).2 state hst).1 hr]
          simp
        · rw [((hres name s hv hs).2 state hst).2 hr]
          exact hr

/-- Witness of C36: on the example store the values of `b` are its range `[1,5]`, and the
values of a call, which names no variable, are the whole range. -/
theorem C36_implied_values_never_empty_witness :
    __get_implied_values example_helpers example_switch_helpers example_store example_expr_b =
      [⟨1, 5⟩] ∧
    __get_implied_values example_helpers example_switch_helpers example_store
      example_call_g = [⟨-9223372036854775808, 9223372036854775807⟩] :=
  ⟨(((C36_implied_values_never_empty example_helpers example_switch_helpers example_store
      example_expr_b example_range_helpers_ok).2.2 "b" 7 rfl (by decide)).2
      (example_estate 1 5) (by decide)).2 (by decide),
   (C36_implied_values_never_empty example_helpers example_switch_helpers example_store
      example_call_g example_range_helpers_ok).2.1 (Or.inl rfl)⟩

/-- C37. `__implied_case_slist`: if the switch expression is unresolvable, or the case
expression is present but has no constant value, the result is the clone of the raw
snapshot and the stack of remaining cases is unchanged.  For a case with the constant value
`v` the stack of remaining cases is what `filter_top_range_list` makes of it for `v`, the
value list is the interval from `v` to `v`, and the result is the clone of the raw snapshot
overwritten by the derived true snapshot, to which the binding of the switch variable to
the state of the value list is added first when it has no binding of the variable; for
the default case the value list is the top of the stack of remaining cases, which is
unchanged.  With snapshot helpers that set and overwrite as their names say, a result to
which the binding was added binds the switch variable to a state whose range list is the
value list, and every other variable as the derived true snapshot does, or as the raw
snapshot does when the derived true snapshot has no binding of it. -/
theorem C37_implied_case_slist (H : helpers) (C : cond_helpers) (S : switch_helpers)
    (mem : pool_heap) (switch_expr : expression) (remaining_cases : range_list_stack)
    (raw_slist : state_list) :
    (((H.get_variable_from_expr switch_expr).1 = none ∨
        (H.get_variable_from_expr switch_expr).2 = 0) →
      ∀ case_expr : Option expression,
        __implied_case_slist H C S mem switch_expr case_expr remaining_cases raw_slist =
          (S.clone_slist raw_slist, remaining_cases)) ∧
    (∀ ce : expression, C.get_value ce = none →
      __implied_case_slist H C S mem switch_expr (some ce) remaining_cases raw_slist =
        (S.clone_slist raw_slist, remaining_cases)) ∧
    (∀ (name : String) (sym : Nat),
      H.get_variable_from_expr switch_expr = (some name, sym) → sym ≠ 0 →
      (∀ (ce : expression) (v : Int), C.get_value ce = some v →
        __implied_case_slist H C S mem switch_expr (some ce) remaining_cases raw_slist =
          (S.overwrite_slist
            (if (get_sm_state_slist (derived_true H mem raw_slist name sym [⟨v, v⟩])
                SMATCH_EXTRA name sym).isNull then
               S.set_state_slist (derived_true H mem raw_slist name sym [⟨v, v⟩])
                 SMATCH_EXTRA name sym (S.alloc_extra_state_range_list [⟨v, v⟩])
             else derived_true H mem raw_slist name sym [⟨v, v⟩])
            (S.clone_slist raw_slist),
           S.filter_top_range_list remaining_cases v)) ∧
      (__implied_case_slist H C S mem switch_expr none remaining_cases raw_slist =
          (S.overwrite_slist
            (if (get_sm_state_slist
                (derived_true H mem raw_slist name sym (S.top_range_list remaining_cases))
                SMATCH_EXTRA name sym).isNull then
               S.set_state_slist
                 (derived_true H mem raw_slist name sym (S.top_range_list remaining_cases))
                 SMATCH_EXTRA name sym
                 (S.alloc_extra_state_range_list (S.top_range_list remaining_cases))
             else derived_true H mem raw_slist name sym (S.top_range_list remaining_cases))
            (S.clone_slist raw_slist),
           remaining_cases)) ∧
      (slist_helpers_ok S → ∀ (ce : expression) (v : Int), C.get_value ce = some v →
        wf_slist (derived_true H mem raw_slist name sym [⟨v, v⟩]) →
        get_sm_state_slist (derived_true H mem raw_slist name sym [⟨v, v⟩])
          SMATCH_EXTRA name sym = .NULL →
        (∃ state : smatch_state,
          get_state (__implied_case_slist H C S mem switch_expr (some ce) remaining_cases
            raw_slist).1 SMATCH_EXTRA name sym = some state ∧
          (get_dinfo state).value_ranges = [⟨v, v⟩]) ∧
        (∀ (o : Nat) (n : String) (s : Nat), ¬ (SMATCH_EXTRA = o ∧ name = n ∧ sym = s) →
          get_state (__implied_case_slist H C S mem switch_expr (some ce) remaining_cases
            raw_slist).1 o n s =
            match get_state (derived_true H mem raw_slist name sym [⟨v, v⟩]) o n s with
            | some st => some st
            | none => get_state raw_slist o n s))) := by
  refine ⟨?_, ?_, ?_⟩
  · intro h case_expr
    unfold __implied_case_slist
    rcases hv : H.get_variable_from_expr switch_expr with ⟨n, s⟩
    rw [hv] at h
    cases n with
    | none => rfl
    | some name =>
      rcases h with h | h
      · cases h
      · have hs : s = 0 := h
        simp [hs]
  · intro ce hce
    unfold __implied_case_slist
    rcases H.get_variable_from_expr switch_expr with ⟨n, s⟩
    cases n with
    | none => rfl
    | some name =>
      by_cases hs : s = 0
      · simp [hs]
      · simp [hs, case_vals, hce]
  · intro name sym hvar hsym
    have hcase : ∀ (ce : expression) (v : Int), C.get_value ce = some v →
        __implied_case_slist H C S mem switch_expr (some ce) remaining_cases raw_slist =
          (S.overwrite_slist
            (if (get_sm_state_slist (derived_true H mem raw_slist name sym [⟨v, v⟩])
                SMATCH_EXTRA name sym).isNull then
               S.set_state_slist (derived_true H mem raw_slist name sym [⟨v, v⟩])
                 SMATCH_EXTRA name sym (S.alloc_extra_state_range_list [⟨v, v⟩])
             else derived_true H mem raw_slist name sym [⟨v, v⟩])
            (S.clone_slist raw_slist),
           S.filter_top_range_list remaining_cases v) := by
      intro ce v hce
      exact implied_case_slist_resolved H C S mem switch_expr (some ce) remaining_cases raw_slist
        name sym hvar hsym _ _ (by simp [case_vals, hce])
    refine ⟨hcase, ?_, ?_⟩
    · exact implied_case_slist_resolved H C S mem switch_expr none remaining_cases raw_slist
        name sym hvar hsym _ _ rfl
    · intro hS ce v hce hwf hnull
      rw [hcase ce v hce]
      simp only [hnull, sm_state.isNull, if_true]
      have hwf2 := hS.set_state_slist_wf (derived_true H mem raw_slist name sym [⟨v, v⟩])
        SMATCH_EXTRA name sym (S.alloc_extra_state_range_list [⟨v, v⟩]) hwf
      refine ⟨⟨S.alloc_extra_state_range_list [⟨v, v⟩], ?_, hS.alloc_ranges _⟩, ?_⟩
      · rw [hS.overwrite_slist_get _ _ hwf2, hS.set_state_slist_get,
          if_pos ⟨rfl, rfl, rfl⟩]
      · intro o n s hne
        rw [hS.overwrite_slist_get _ _ hwf2, hS.set_state_slist_get, if_neg hne,
          hS.clone_slist_get]

/-- Witness of C37: on the example store, the case 3 of a switch on `a`, whose binding is
not merged, leaves `a` bound to `[3,3]` and takes 3 out of the remaining cases; a switch on
a call, which names no variable, returns the raw snapshot. -/
theorem C37_implied_case_slist_witness :
    (∃ state : smatch_state,
      get_state (__implied_case_slist example_helpers example_cond_helpers
        example_switch_helpers example_heap example_expr_a (some (.EXPR_VALUE 3))
        [[⟨3, 3⟩, ⟨4, 4⟩]] example_cond_store).1 SMATCH_EXTRA "a" 3 = some state ∧
      (get_dinfo state).value_ranges = [⟨3, 3⟩]) ∧
    (__implied_case_slist example_helpers example_cond_helpers example_switch_helpers
      example_heap example_expr_a (some (.EXPR_VALUE 3)) [[⟨3, 3⟩, ⟨4, 4⟩]]
      example_cond_store).2 = [[⟨4, 4⟩]] ∧
    __implied_case_slist example_helpers example_cond_helpers example_switch_helpers
      example_heap example_call_g (some (.EXPR_VALUE 3)) [[⟨3, 3⟩, ⟨4, 4⟩]] example_cond_store =
      (example_cond_store, [[⟨3, 3⟩, ⟨4, 4⟩]]) :=
  ⟨(((C37_implied_case_slist example_helpers example_cond_helpers example_switch_helpers
      example_heap example_expr_a [[⟨3, 3⟩, ⟨4, 4⟩]] example_cond_store).2.2 "a" 3 rfl
      (by decide)).2.2 example_slist_helpers_ok (.EXPR_VALUE 3) 3 rfl
      (by
        have h : derived_true example_helpers example_heap example_cond_store "a" 3 [⟨3, 3⟩] =
            [] := by decide
        rw [h]
        exact wf_slist_nil)
      (by decide)).1,
   (congrArg Prod.snd
      (((C37_implied_case_slist example_helpers example_cond_helpers example_switch_helpers
        example_heap example_expr_a [[⟨3, 3⟩, ⟨4, 4⟩]] example_cond_store).2.2 "a" 3 rfl
        (by decide)).1 (.EXPR_VALUE 3) 3 rfl)).trans (by decide),
   (C37_implied_case_slist example_helpers example_cond_helpers example_switch_helpers
      example_heap example_call_g [[⟨3, 3⟩, ⟨4, 4⟩]] example_cond_store).1 (Or.inl rfl)
      (some (.EXPR_VALUE 3))⟩

/-! ### Stores in which a relation set does not name its variable -/

end Smatch
